import Mathlib

/-!
# BEMRosetta hydrodynamic coefficient store: a verification development

Shallow embedding of the coefficient post-processing layer of
`BEMRosetta_cl/Hydro.cpp`.

Conventions of the embedding.

* A `double` of the store is `Option K` for an exact number type `K`: `none`
  is the NaN/Null "missing" sentinel, `some x` a number.  `IsNum` is `isSome`.
* A `std::complex<double>` is a pair of such values (`CVal`).
* `UArray<T>`, `UVector<T>`, `VectorXd` are `List`s; `MatrixXd`/`MatrixXcd`
  are lists of rows.  Reading out of range yields `none`; writing out of range
  leaves the container unchanged (in the source both are contract violations).
* A `for` loop is a `List.foldl` over the list of its index values.
* An exception is the `Except String` monad.
-/

namespace BEMRosetta

/-! # Part I: the embedding (definitions) -/

/-! ## Containers -/

section

variable {α : Type}

/-- Read `a[i][j]` of a two-level array. -/
def get2 (a : List (List α)) (i j : Nat) : Option α :=
  (a[i]?).bind (fun r => r[j]?)

/-- Write `a[i][j] = v` of a two-level array. -/
def set2 (a : List (List α)) (i j : Nat) (v : α) : List (List α) :=
  a.modify (fun r => r.set j v) i

/-- Read `a[i][j][k]` of a three-level array. -/
def get3 (a : List (List (List α))) (i j k : Nat) : Option α :=
  (get2 a i j).bind (fun s => s[k]?)

/-- Write `a[i][j][k] = v` of a three-level array. -/
def set3 (a : List (List (List α))) (i j k : Nat) (v : α) : List (List (List α)) :=
  a.modify (fun r => r.modify (fun s => s.set k v) j) i

/-- Update in place the entry `a[i][j][k]` of a three-level array by `f`. -/
def modify3 (a : List (List (List α))) (i j k : Nat) (f : α → α) : List (List (List α)) :=
  a.modify (fun r => r.modify (fun s => s.modify f k) j) i

/-- The array has `n` rows of `m` entries each. -/
def Dims2 (a : List (List α)) (n m : Nat) : Prop :=
  a.length = n ∧ ∀ r ∈ a, r.length = m

instance (a : List (List α)) (n m : Nat) : Decidable (Dims2 a n m) := by
  unfold Dims2; infer_instance

end

/-! ## Values -/

section

variable {K : Type}

/-- `IsNum(x)` for a `double`: the value is not the missing sentinel. -/
def IsNum (x : Option K) : Bool := x.isSome

/-- `Nvl(x, d)`: `x` when it is a number, else `d`. -/
def Nvl (x : Option K) (d : K) : K := x.getD d

/-- A `std::complex<double>`. -/
structure CVal (K : Type) where
  re : Option K
  im : Option K
deriving DecidableEq

/-- `IsNum(x)` for a complex value: both parts are numbers. -/
def CVal.IsNum (x : CVal K) : Bool := x.re.isSome && x.im.isSome

/-- Modelled from the spec: the scalar `AvgSafe(a, b)` of the utility library,
which is not among the sources. The average of the two values with the
sentinel excluded from the average, not taken as zero: the mean when both are
numbers, the one that is a number when only one is, missing when neither is. -/
def AvgSafe [Add K] [Div K] [OfNat K 2] (a b : Option K) : Option K :=
  match a, b with
  | some x, some y => some ((x + y) / 2)
  | some x, none => some x
  | none, b => b

/-- `AvgSafe(const VectorXd &a, const VectorXd &b)`: a vector of the size of
`a`, entry by entry. The source asserts `a.size() == b.size()`. -/
def AvgSafeVec [Add K] [Div K] [OfNat K 2] (a b : List (Option K)) : List (Option K) :=
  (List.range a.length).map (fun i => AvgSafe ((a[i]?).getD none) ((b[i]?).getD none))

/-- Modelled from the spec: `AvgSafe(a, b)` of the utility library at
`std::complex<double>`, not among the sources. As for the scalar, with a
complex value counting as a number when both of its parts are. -/
def AvgSafeC [Add K] [Div K] [OfNat K 2] (a b : CVal K) : CVal K :=
  match a, b with
  | ⟨some x, some y⟩, ⟨some u, some v⟩ => ⟨some ((x + u) / 2), some ((y + v) / 2)⟩
  | ⟨some x, some y⟩, _ => ⟨some x, some y⟩
  | _, b => b

/-- `std::complex<double>(c.real(), -c.imag())`. -/
def CVal.conj [Neg K] (c : CVal K) : CVal K := ⟨c.re, c.im.map (fun y => -y)⟩

end

/-! ## The coefficient store -/

/-- `UArray<UArray<VectorXd>>`: one frequency (or time) series per DOF pair. -/
abbrev SeriesTable (K : Type) := List (List (List (Option K)))

/-- `MatrixXd`, as its list of rows. -/
abbrev RMatrix (K : Type) := List (List (Option K))

/-- `MatrixXcd`, as its list of rows. -/
abbrev CMatrix (K : Type) := List (List (CVal K))

/-- `Hydro::Forces`: `[body][heading]`, each a complex matrix of shape `(Nf, 6)`. -/
abbrev Forces (K : Type) := List (List (CMatrix K))

/-- `UArray<UArray<UArray<VectorXd>>>`: mean drift `[body][heading][dof]`. -/
abbrev MDTable (K : Type) := List (List (List (List (Option K))))

/-- `UArray<UArray<UArray<MatrixXcd>>>`: QTF `[body][heading][dof]`. -/
abbrev QTFTable (K : Type) := List (List (List (CMatrix K)))

/-- A point or vector of three `double`s. -/
structure Point3D (K : Type) where
  x : Option K
  y : Option K
  z : Option K
deriving DecidableEq

/-- The per-body data `dt.msh[ib].dt` that the operations below read or write. -/
structure Body (K : Type) where
  c0 : Point3D K
  C : RMatrix K
  M : RMatrix K
  Aadd : RMatrix K
  Cmoor : RMatrix K
  Cadd : RMatrix K
  Dlin : RMatrix K
  Dquad : RMatrix K
deriving DecidableEq

/-- The store `Hydro::dt`, with the tensor families the operations below read
or write. The radiation/diffraction potentials, the meshes and the state-space
blocks are not part of this model. -/
structure Hydro (K : Type) where
  Nb : Nat
  Nf : Nat
  Nh : Nat
  w : List (Option K)
  head : List (Option K)
  A : SeriesTable K
  Ainf_w : SeriesTable K
  B : SeriesTable K
  A_P : SeriesTable K
  B_H : SeriesTable K
  B_P : SeriesTable K
  Kirf : SeriesTable K
  Ainf : RMatrix K
  A0 : RMatrix K
  ex : Forces K
  sc : Forces K
  fk : Forces K
  rao : Forces K
  sc_pot : Forces K
  fk_pot : Forces K
  fk_pot_bmr : Forces K
  md : MDTable K
  mdhead : List (CVal K)
  qtfsum : QTFTable K
  qtfdif : QTFTable K
  qw : List (Option K)
  qhead : List (CVal K)
  msh : List (Body K)
deriving DecidableEq

/-- The `IsLoadedX()` tests of the store. They are declared in a header that is
not among the sources, so the operations take them as a parameter: one test
per tensor family, answering from that family's container (for `C` and `M`, the
matrices `C` and `M` of the bodies). -/
structure LoadedTests (K : Type) where
  IsLoadedA : SeriesTable K → Bool
  IsLoadedAinf_w : SeriesTable K → Bool
  IsLoadedB : SeriesTable K → Bool
  IsLoadedA_P : SeriesTable K → Bool
  IsLoadedB_H : SeriesTable K → Bool
  IsLoadedB_P : SeriesTable K → Bool
  IsLoadedKirf : SeriesTable K → Bool
  IsLoadedAinf : RMatrix K → Bool
  IsLoadedA0 : RMatrix K → Bool
  IsLoadedFex : Forces K → Bool
  IsLoadedFsc : Forces K → Bool
  IsLoadedFfk : Forces K → Bool
  IsLoadedRAO : Forces K → Bool
  IsLoadedFsc_pot : Forces K → Bool
  IsLoadedFfk_pot : Forces K → Bool
  IsLoadedFfk_pot_bmr : Forces K → Bool
  IsLoadedMD : MDTable K → Nat → Bool
  IsLoadedQTF : Bool → QTFTable K → Nat → Bool
  IsLoadedC : List (RMatrix K) → Bool
  IsLoadedM : List (RMatrix K) → Bool
  IsLoadedMesh : List (Body K) → Nat → Bool

/-- Every QTF matrix of the family that the loops of `SymmetrizeSumDif` visit is square. -/
def SquareQTF {K : Type} (Nb nqh : Nat) (qtf : QTFTable K) : Prop :=
  ∀ ib ih idf, ib < Nb → ih < nqh → idf < 6 → ∀ c, get3 qtf ib ih idf = some c →
    Dims2 c c.length c.length


/-! ## Symmetrize -/

section

variable {K : Type} [Field K]

/-- The lambda `SymmetrizeAB` of `Hydro::Symmetrize`. -/
def SymmetrizeAB (Nb : Nat) (A : SeriesTable K) : SeriesTable K :=
  (List.range (6 * Nb)).foldl (fun A idf =>
    (List.range' (idf + 1) (6 * Nb - (idf + 1))).foldl (fun A jdf =>
      let v := AvgSafeVec ((get2 A idf jdf).getD []) ((get2 A jdf idf).getD [])
      set2 (set2 A jdf idf v) idf jdf v) A) A

/-- The lambda `SymmetrizeAinfA0` of `Hydro::Symmetrize`. -/
def SymmetrizeAinfA0 (Nb : Nat) (A : RMatrix K) : RMatrix K :=
  (List.range (6 * Nb)).foldl (fun A idf =>
    (List.range' (idf + 1) (6 * Nb - (idf + 1))).foldl (fun A jdf =>
      let v := AvgSafe ((get2 A idf jdf).getD none) ((get2 A jdf idf).getD none)
      set2 (set2 A jdf idf v) idf jdf v) A) A

/-- The body of the two inner loops of `SymmetrizeSumDif`, at the frequency pair
`(iw, jw)` of the matrix `c`. In the sum case `cij = cji = AvgSafe(cij, cji)`
assigns `cji` first; in the difference case `cij` is assigned first and `cji`
receives the conjugate. -/
def SymmetrizeCell (isSum : Bool) (c : CMatrix K) (iw jw : Nat) : CMatrix K :=
  let cij := (get2 c iw jw).getD ⟨none, none⟩
  let cji := (get2 c jw iw).getD ⟨none, none⟩
  if isSum then
    let v := AvgSafeC cij cji
    set2 (set2 c jw iw v) iw jw v
  else
    let cji_ := AvgSafeC cij cji.conj
    set2 (set2 c iw jw cji_) jw iw cji_.conj

/-- The body of the three outer loops of `SymmetrizeSumDif`: the symmetrization
of one QTF matrix `c = qtf[ib][ih][idf]` across its frequency-pair diagonal. -/
def SymmetrizeMat (isSum : Bool) (c : CMatrix K) : CMatrix K :=
  let rows := c.length
  (List.range rows).foldl (fun c iw =>
    (List.range' (iw + 1) (rows - (iw + 1))).foldl (fun c jw =>
      SymmetrizeCell isSum c iw jw) c) c

/-- The lambda `SymmetrizeSumDif` of `Hydro::Symmetrize`; `nqh` is `dt.qhead.size()`. -/
def SymmetrizeSumDif (Nb nqh : Nat) (qtf : QTFTable K) (isSum : Bool) : QTFTable K :=
  (List.range Nb).foldl (fun q ib =>
    (List.range nqh).foldl (fun q ih =>
      (List.range 6).foldl (fun q idf =>
        modify3 q ib ih idf (SymmetrizeMat isSum))
        q) q) qtf

/-- `Hydro::Symmetrize`, up to its closing call of `AfterLoad` (a consistency
pass that is not among the sources). Each `if (IsLoadedX()) f(dt.X)` is the
assignment `dt.X = IsLoadedX() ? f(dt.X) : dt.X`. -/
def Symmetrize (L : LoadedTests K) (h : Hydro K) : Hydro K :=
  let h := { h with A := if L.IsLoadedA h.A then SymmetrizeAB h.Nb h.A else h.A }
  let h := { h with
    Ainf_w := if L.IsLoadedAinf_w h.Ainf_w then SymmetrizeAB h.Nb h.Ainf_w else h.Ainf_w }
  let h := { h with B := if L.IsLoadedB h.B then SymmetrizeAB h.Nb h.B else h.B }
  let h := { h with A_P := if L.IsLoadedA_P h.A_P then SymmetrizeAB h.Nb h.A_P else h.A_P }
  let h := { h with B_H := if L.IsLoadedB_H h.B_H then SymmetrizeAB h.Nb h.B_H else h.B_H }
  let h := { h with B_P := if L.IsLoadedB_P h.B_P then SymmetrizeAB h.Nb h.B_P else h.B_P }
  let h := { h with
    Ainf := if L.IsLoadedAinf h.Ainf then SymmetrizeAinfA0 h.Nb h.Ainf else h.Ainf }
  let h := { h with A0 := if L.IsLoadedA0 h.A0 then SymmetrizeAinfA0 h.Nb h.A0 else h.A0 }
  let h := { h with
    qtfsum := if L.IsLoadedQTF true h.qtfsum 0 then
      SymmetrizeSumDif h.Nb h.qhead.length h.qtfsum true else h.qtfsum }
  let h := { h with
    qtfdif := if L.IsLoadedQTF false h.qtfdif 0 then
      SymmetrizeSumDif h.Nb h.qhead.length h.qtfdif false else h.qtfdif }
  h

end

/-! ## GetTranslationTo -/

section

variable {K : Type} [Field K] [DecidableEq K]

/-- Sum of two `double`s; a missing operand gives a missing result. -/
def Val.add (a b : Option K) : Option K :=
  match a, b with
  | some x, some y => some (x + y)
  | _, _ => none

/-- Product of a number with a `double`. -/
def Val.smul (k : K) (a : Option K) : Option K := a.map (fun x => k * x)

/-- Sum of two complex values, part by part. -/
def CVal.add (a b : CVal K) : CVal K := ⟨Val.add a.re b.re, Val.add a.im b.im⟩

/-- Product of a real number with a complex value. -/
def CVal.smul (k : K) (a : CVal K) : CVal K := ⟨Val.smul k a.re, Val.smul k a.im⟩

/-- The comparison `a != b` of two `double`s: true as soon as one is missing. -/
def Val.ne (a b : Option K) : Bool :=
  match a, b with
  | some x, some y => decide (x ≠ y)
  | _, _ => true

/-- `IsNum(to)` for a `MatrixXd`: every entry is a number. -/
def IsNumMat (m : RMatrix K) : Bool := m.all (fun r => r.all Option.isSome)

/-- The component `p[idf]` of a point. -/
def Point3D.get (p : Point3D K) (idf : Fin 3) : Option K := ![p.x, p.y, p.z] idf

/-- The column `to.col(ib)` of a `3 x Nb` matrix, as a point. -/
def colPoint (to' : RMatrix K) (ib : Nat) : Point3D K :=
  ⟨(get2 to' 0 ib).getD none, (get2 to' 1 ib).getD none, (get2 to' 2 ib).getD none⟩

/-- The reference point `dt.msh[ib].dt.c0`. -/
def c0Of (msh : List (Body K)) (ib : Nat) : Point3D K :=
  ((msh[ib]?).map Body.c0).getD ⟨none, none, none⟩

/-- The translation `delta(idf, ib) = to(idf, ib) - Nvl(dt.msh[ib].dt.c0[idf], 0.)`,
computed once `to` has passed `IsNum`. -/
def translationDelta (to' : RMatrix K) (msh : List (Body K)) (ib : Nat) (idf : Fin 3) : K :=
  Nvl ((get2 to' idf.val ib).getD none) 0 - Nvl ((c0Of msh ib).get idf) 0

/-- Modelled from the spec: `SkewSymmetricMatrix(r)` of the utility library, not
among the sources: the skew-symmetric cross-product matrix `R(r)`, with
`R(r) v = r x v`. -/
def SkewSymmetricMatrix (r : Fin 3 → K) : Matrix (Fin 3) (Fin 3) K :=
  !![0, -r 2, r 1; r 2, 0, -r 0; -r 1, r 0, 0]

/-- The lambda `Nvl0`: missing entries of a 3x3 matrix become zero. -/
def Nvl0 (mat : Matrix (Fin 3) (Fin 3) (Option K)) : Matrix (Fin 3) (Fin 3) K :=
  fun i j => Nvl (mat i j) 0

/-- The lambda `CopyFrom`: the 3x3 partition at `(i0, j0)` of the table at sample `iif`. -/
def CopyFrom (a : SeriesTable K) (i0 j0 iif : Nat) : Matrix (Fin 3) (Fin 3) (Option K) :=
  fun i j => (get3 a (i0 + i.val) (j0 + j.val) iif).getD none

/-- The lambda `CopyTo`: write a 3x3 matrix to the partition at `(i0, j0)`, sample `iif`. -/
def CopyTo (src : Matrix (Fin 3) (Fin 3) K) (a : SeriesTable K) (i0 j0 iif : Nat) :
    SeriesTable K :=
  (List.finRange 3).foldl (fun a (i : Fin 3) =>
    (List.finRange 3).foldl (fun a (j : Fin 3) =>
      set3 a (i0 + i.val) (j0 + j.val) iif (some (src i j))) a) a

/-- Modelled from the spec: `Initialize_AB(An)`, not among the sources: a table
of shape `6Nb x 6Nb x Nf` with the missing sentinel everywhere. -/
def Initialize_AB (Nb Nf : Nat) : SeriesTable K :=
  List.replicate (6 * Nb) (List.replicate (6 * Nb) (List.replicate Nf none))

/-- The test "All dof are available?" of `TransAB` on the block at `(ib6, jb6)`:
the first sample of each of the 36 series is a number. -/
def TransABcheck (A : SeriesTable K) (ib6 jb6 : Nat) : Bool :=
  (List.range 6).all (fun idof => (List.range 6).all (fun jdof =>
    IsNum ((get3 A (ib6 + idof) (jb6 + jdof) 0).getD none)))

/-- The body of the frequency loop of `TransAB` for the block `(ib6, jb6)`. -/
def TransABblock (A An : SeriesTable K) (Rg : Matrix (Fin 3) (Fin 3) K) (ib6 jb6 iif : Nat) :
    SeriesTable K :=
  let Q11 := Nvl0 (CopyFrom A (ib6 + 0) (jb6 + 0) iif)
  let Q12 := Nvl0 (CopyFrom A (ib6 + 0) (jb6 + 3) iif)
  let Q21 := Nvl0 (CopyFrom A (ib6 + 3) (jb6 + 0) iif)
  let Q22 := Nvl0 (CopyFrom A (ib6 + 3) (jb6 + 3) iif)
  let An := CopyTo Q11 An (ib6 + 0) (jb6 + 0) iif
  let An := CopyTo (Q12 + Q11 * Rg) An (ib6 + 0) (jb6 + 3) iif
  let An := CopyTo (Q21 - Rg * Q11) An (ib6 + 3) (jb6 + 0) iif
  CopyTo (Q22 - Rg * Q12 + Q21 * Rg - Rg * Q11 * Rg) An (ib6 + 3) (jb6 + 3) iif

/-- The entry `(a, b)` of the 6x6 block made of four 3x3 partitions. -/
def block6 (Q11 Q12 Q21 Q22 : Matrix (Fin 3) (Fin 3) K) (a b : Nat) : K :=
  if a < 3 then
    if b < 3 then Q11 (Fin.ofNat a) (Fin.ofNat b) else Q12 (Fin.ofNat a) (Fin.ofNat (b - 3))
  else
    if b < 3 then Q21 (Fin.ofNat (a - 3)) (Fin.ofNat b)
    else Q22 (Fin.ofNat (a - 3)) (Fin.ofNat (b - 3))

/-- The rigid-body transform of a 6x6 block given by its partitions, for the
cross-product matrix `Rg`: the four partitions that `TransAB` and `TransA` write. -/
def rigidBlock (Q11 Q12 Q21 Q22 Rg : Matrix (Fin 3) (Fin 3) K) (a b : Nat) : K :=
  block6 Q11 (Q12 + Q11 * Rg) (Q21 - Rg * Q11) (Q22 - Rg * Q12 + Q21 * Rg - Rg * Q11 * Rg) a b

/-- The block `(ib, jb)` of the table is fully populated at sample `iif`, its four
3x3 partitions being the numeric matrices `Q11`, `Q12`, `Q21`, `Q22`. -/
def PartitionsAB (A : SeriesTable K) (ib jb iif : Nat)
    (Q11 Q12 Q21 Q22 : Matrix (Fin 3) (Fin 3) K) : Prop :=
  CopyFrom A (ib * 6) (jb * 6) iif = (fun i j => some (Q11 i j)) ∧
  CopyFrom A (ib * 6) (jb * 6 + 3) iif = (fun i j => some (Q12 i j)) ∧
  CopyFrom A (ib * 6 + 3) (jb * 6) iif = (fun i j => some (Q21 i j)) ∧
  CopyFrom A (ib * 6 + 3) (jb * 6 + 3) iif = (fun i j => some (Q22 i j))

/-- The message thrown by `TransAB`. -/
def allDofMessage : String :=
  "Coefficient translations require all DOFs to be available.\nIf the missing ones are negligible, it can be indicated in Options/Zero if DOF is empty"

/-- The message thrown by `TransA`: the one of `TransAB`, with the name of the option
between single quotes. -/
def allDofMessageA : String :=
  "Coefficient translations require all DOFs to be available.\nIf the missing ones are negligible, it can be indicated in \x27Options/Zero if DOF is empty\x27"

/-- The lambda `TransAB`: the new table, or the exception thrown. -/
def TransAB (Nb Nf : Nat) (force : Bool) (delta : Nat → Fin 3 → K) (A : SeriesTable K) :
    Except String (SeriesTable K) :=
  (List.range Nb).foldlM (fun An ib =>
    (List.range Nb).foldlM (fun An jb =>
      if !force && !TransABcheck A (ib * 6) (jb * 6) then Except.error allDofMessage
      else Except.ok ((List.range Nf).foldl (fun An iif =>
        TransABblock A An (SkewSymmetricMatrix (delta ib)) (ib * 6) (jb * 6) iif) An)) An)
    (Initialize_AB Nb Nf)

/-- `A.block<3,3>(i0, j0)` of a `MatrixXd`. -/
def block3 (A : RMatrix K) (i0 j0 : Nat) : Matrix (Fin 3) (Fin 3) (Option K) :=
  fun i j => (get2 A (i0 + i.val) (j0 + j.val)).getD none

/-- `An.block<3,3>(i0, j0) = src`. -/
def setBlock3 (src : Matrix (Fin 3) (Fin 3) K) (An : RMatrix K) (i0 j0 : Nat) : RMatrix K :=
  (List.finRange 3).foldl (fun a (i : Fin 3) =>
    (List.finRange 3).foldl (fun a (j : Fin 3) =>
      set2 a (i0 + i.val) (j0 + j.val) (some (src i j))) a) An

/-- The block `(ib, jb)` of the matrix is fully populated, its four 3x3 partitions
being the numeric matrices `Q11`, `Q12`, `Q21`, `Q22`. -/
def PartitionsA (A : RMatrix K) (ib jb : Nat)
    (Q11 Q12 Q21 Q22 : Matrix (Fin 3) (Fin 3) K) : Prop :=
  block3 A (ib * 6) (jb * 6) = (fun i j => some (Q11 i j)) ∧
  block3 A (ib * 6) (jb * 6 + 3) = (fun i j => some (Q12 i j)) ∧
  block3 A (ib * 6 + 3) (jb * 6) = (fun i j => some (Q21 i j)) ∧
  block3 A (ib * 6 + 3) (jb * 6 + 3) = (fun i j => some (Q22 i j))

/-- The test of `TransA` on the block at `(ib6, jb6)`: its 36 entries are numbers. -/
def TransAcheck (A : RMatrix K) (ib6 jb6 : Nat) : Bool :=
  (List.range 6).all (fun idof => (List.range 6).all (fun jdof =>
    IsNum ((get2 A (ib6 + idof) (jb6 + jdof)).getD none)))

/-- The body of the loops of `TransA` for the block `(ib6, jb6)`. -/
def TransAblock (A An : RMatrix K) (Rg : Matrix (Fin 3) (Fin 3) K) (ib6 jb6 : Nat) :
    RMatrix K :=
  let Q11 := Nvl0 (block3 A (ib6 + 0) (jb6 + 0))
  let Q12 := Nvl0 (block3 A (ib6 + 0) (jb6 + 3))
  let Q21 := Nvl0 (block3 A (ib6 + 3) (jb6 + 0))
  let Q22 := Nvl0 (block3 A (ib6 + 3) (jb6 + 3))
  let An := setBlock3 Q11 An (ib6 + 0) (jb6 + 0)
  let An := setBlock3 (Q12 + Q11 * Rg) An (ib6 + 0) (jb6 + 3)
  let An := setBlock3 (Q21 - Rg * Q11) An (ib6 + 3) (jb6 + 0)
  setBlock3 (Q22 - Rg * Q12 + Q21 * Rg - Rg * Q11 * Rg) An (ib6 + 3) (jb6 + 3)

/-- The lambda `TransA`, for the frequency-independent matrices `A0` and `Ainf`. -/
def TransA (Nb : Nat) (force : Bool) (delta : Nat → Fin 3 → K) (A : RMatrix K) :
    Except String (RMatrix K) :=
  (List.range Nb).foldlM (fun An ib =>
    (List.range Nb).foldlM (fun An jb =>
      if !force && !TransAcheck A (ib * 6) (jb * 6) then Except.error allDofMessageA
      else Except.ok (TransAblock A An (SkewSymmetricMatrix (delta ib)) (ib * 6) (jb * 6))) An)
    (List.replicate (6 * Nb) (List.replicate (6 * Nb) (some 0)))

/-- Update in place the entry `a[i][j]` of a two-level array by `f`. -/
def modify2 {α : Type} (a : List (List α)) (i j : Nat) (f : α → α) : List (List α) :=
  a.modify (fun r => r.modify f j) i

/-- The three statements of `TransF` on row `ifr` of the force matrix `m = exforce[ib][ih]`. -/
def TransFrow (d : Fin 3 → K) (m : CMatrix K) (ifr : Nat) : CMatrix K :=
  let rd := fun (m : CMatrix K) (c : Nat) => (get2 m ifr c).getD ⟨none, none⟩
  let m := set2 m ifr 3 (CVal.add (rd m 3)
    (CVal.add (CVal.smul (-(d 1)) (rd m 2)) (CVal.smul (d 2) (rd m 1))))
  let m := set2 m ifr 4 (CVal.add (rd m 4)
    (CVal.add (CVal.smul (-(d 2)) (rd m 0)) (CVal.smul (d 0) (rd m 2))))
  set2 m ifr 5 (CVal.add (rd m 5)
    (CVal.add (CVal.smul (-(d 0)) (rd m 1)) (CVal.smul (d 1) (rd m 0))))

/-- The lambda `TransF`. -/
def TransF (Nb Nh Nf : Nat) (delta : Nat → Fin 3 → K) (ex : Forces K) : Forces K :=
  (List.range Nh).foldl (fun e ih =>
    (List.range Nb).foldl (fun e ib =>
      (List.range Nf).foldl (fun e ifr =>
        modify2 e ib ih (fun m => TransFrow (delta ib) m ifr)) e) e) ex

/-- The three statements of `TransMD` at sample `ifr` of `m = mdn[ib][ih]`. -/
def TransMDcol (d : Fin 3 → K) (m : List (List (Option K))) (ifr : Nat) :
    List (List (Option K)) :=
  let rd := fun (m : List (List (Option K))) (c : Nat) => (get2 m c ifr).getD none
  let m := set2 m 3 ifr (Val.add (rd m 3)
    (Val.add (Val.smul (-(d 1)) (rd m 2)) (Val.smul (d 2) (rd m 1))))
  let m := set2 m 4 ifr (Val.add (rd m 4)
    (Val.add (Val.smul (-(d 2)) (rd m 0)) (Val.smul (d 0) (rd m 2))))
  set2 m 5 ifr (Val.add (rd m 5)
    (Val.add (Val.smul (-(d 0)) (rd m 1)) (Val.smul (d 1) (rd m 0))))

/-- The lambda `TransMD`; `nmh` is `dt.mdhead.size()`. -/
def TransMD (Nb nmh Nf : Nat) (delta : Nat → Fin 3 → K) (md : MDTable K) : MDTable K :=
  (List.range Nb).foldl (fun e ib =>
    (List.range nmh).foldl (fun e ih =>
      (List.range Nf).foldl (fun e ifr =>
        modify2 e ib ih (fun m => TransMDcol (delta ib) m ifr)) e) e) md

/-- The three statements of `TransQTF` at the frequency pair `(ifr1, ifr2)` of
`m = qtf[ib][ih]`. -/
def TransQTFcell (d : Fin 3 → K) (m : List (CMatrix K)) (ifr1 ifr2 : Nat) : List (CMatrix K) :=
  let rd := fun (m : List (CMatrix K)) (c : Nat) => (get3 m c ifr1 ifr2).getD ⟨none, none⟩
  let m := set3 m 3 ifr1 ifr2 (CVal.add (rd m 3)
    (CVal.add (CVal.smul (-(d 1)) (rd m 2)) (CVal.smul (d 2) (rd m 1))))
  let m := set3 m 4 ifr1 ifr2 (CVal.add (rd m 4)
    (CVal.add (CVal.smul (-(d 2)) (rd m 0)) (CVal.smul (d 0) (rd m 2))))
  set3 m 5 ifr1 ifr2 (CVal.add (rd m 5)
    (CVal.add (CVal.smul (-(d 0)) (rd m 1)) (CVal.smul (d 1) (rd m 0))))

/-- The lambda `TransQTF`; `nqh` is `dt.qhead.size()`, `nqw` is `dt.qw.size()`. -/
def TransQTF (Nb nqh nqw : Nat) (delta : Nat → Fin 3 → K) (qtf : QTFTable K) : QTFTable K :=
  (List.range Nb).foldl (fun e ib =>
    (List.range nqh).foldl (fun e ih =>
      (List.range nqw).foldl (fun e ifr1 =>
        (List.range nqw).foldl (fun e ifr2 =>
          modify2 e ib ih (fun m => TransQTFcell (delta ib) m ifr1 ifr2)) e) e) e) qtf

/-- The state of the loop that deletes the crossed QTF headings. -/
structure QTFHeads (K : Type) where
  qhead : List (CVal K)
  qtfsum : QTFTable K
  qtfdif : QTFTable K

/-- The loop "QTF translation only valid for same headings. Crossed headings are
deleted" of `GetTranslationTo`. -/
def deleteCrossedHeadings (L : LoadedTests K) (Nb : Nat) (s : QTFHeads K) : QTFHeads K :=
  (List.range s.qhead.length).reverse.foldl (fun s ih =>
    let q := (s.qhead[ih]?).getD ⟨none, none⟩
    if Val.ne q.re q.im then
      (List.range Nb).foldl (fun s ib =>
        let s := if L.IsLoadedQTF true s.qtfsum 0 then
          { s with qtfsum := s.qtfsum.modify (fun hs => hs.eraseIdx ih) ib } else s
        if L.IsLoadedQTF false s.qtfdif 0 then
          { s with qtfdif := s.qtfdif.modify (fun hs => hs.eraseIdx ih) ib } else s)
        { s with qhead := s.qhead.eraseIdx ih }
    else s) s

/-- Routines called by the operations whose code is not among the sources:
the inertia translation `Surface::TranslateInertia66(M, cg, c0, to)` of a body
and the recomputation of the radiation kernel `GetK_IRF`. -/
structure Externals (K : Type) where
  TranslateInertia66 : Body K → Point3D K → RMatrix K
  GetK_IRF : Hydro K → SeriesTable K

/-- What a call leaves behind: the store as it is when the call returns or
throws, and the exception thrown, if any. -/
structure Outcome (K : Type) where
  store : Hydro K
  error : Option String

/-- The value that `if (loaded) X = f(X)` leaves in `X`, or the exception of `f`. -/
def attempt {α : Type} (loaded : Bool) (r : Except String α) (old : α) : Except String α :=
  if loaded then r else Except.ok old

/-- The part of `GetTranslationTo` after the added-mass and damping families, in
which nothing throws: forces, mean drift, QTF, inertia, kernel, invalidation of
the derived data and the new reference points. The radiation potentials are not
part of the model. -/
def translateRest (L : LoadedTests K) (X : Externals K) (to' : RMatrix K)
    (delta : Nat → Fin 3 → K) (h : Hydro K) : Hydro K :=
  let h := { h with ex := if L.IsLoadedFex h.ex then TransF h.Nb h.Nh h.Nf delta h.ex else h.ex }
  let h := { h with sc := if L.IsLoadedFsc h.sc then TransF h.Nb h.Nh h.Nf delta h.sc else h.sc }
  let h := { h with fk := if L.IsLoadedFfk h.fk then TransF h.Nb h.Nh h.Nf delta h.fk else h.fk }
  let h := { h with
    md := if L.IsLoadedMD h.md 0 then TransMD h.Nb h.mdhead.length h.Nf delta h.md else h.md }
  let s := deleteCrossedHeadings L h.Nb ⟨h.qhead, h.qtfsum, h.qtfdif⟩
  let h := { h with qhead := s.qhead, qtfsum := s.qtfsum, qtfdif := s.qtfdif }
  let h := { h with
    qtfsum := if L.IsLoadedQTF true h.qtfsum 0 then
      TransQTF h.Nb h.qhead.length h.qw.length delta h.qtfsum else h.qtfsum }
  let h := { h with
    qtfdif := if L.IsLoadedQTF false h.qtfdif 0 then
      TransQTF h.Nb h.qhead.length h.qw.length delta h.qtfdif else h.qtfdif }
  let h := { h with
    msh := if L.IsLoadedM (h.msh.map Body.M) then
      (List.range h.Nb).foldl (fun msh ib =>
        msh.modify (fun b => { b with M := X.TranslateInertia66 b (colPoint to' ib) }) ib) h.msh
      else h.msh }
  let h := { h with Kirf := if L.IsLoadedKirf h.Kirf then X.GetK_IRF h else h.Kirf }
  let h := { h with rao := [] }
  let h := { h with
    msh := (List.range h.Nb).foldl (fun msh ib =>
      msh.modify (fun b =>
        { b with Aadd := [], C := [], Cmoor := [], Cadd := [], Dlin := [], Dquad := [] }) ib)
      h.msh }
  { h with
    msh := (List.range h.Nb).foldl (fun msh ib =>
      msh.modify (fun b => { b with c0 := colPoint to' ib }) ib) h.msh }

/-- `Hydro::GetTranslationTo(to, force, Status)`, up to its closing call of
`AfterLoad`. The answers of `Status` are not looked at by the source. The six
transforms of the added-mass and damping families run in the order of the
source, each on its own container; when one throws, the store is left with the
containers already replaced. -/
def GetTranslationTo (L : LoadedTests K) (X : Externals K) (h : Hydro K) (to' : RMatrix K)
    (force : Bool) (Status : String → Int → Bool) : Outcome K :=
  if !IsNumMat to' then ⟨h, some "New centres have undefined data"⟩
  else
    let delta := translationDelta to' h.msh
    let _ := Status "Translating A" 10
    match attempt (L.IsLoadedA h.A) (TransAB h.Nb h.Nf force delta h.A) h.A with
    | Except.error e => ⟨h, some e⟩
    | Except.ok A =>
    match attempt (L.IsLoadedAinf_w h.Ainf_w) (TransAB h.Nb h.Nf force delta h.Ainf_w)
        h.Ainf_w with
    | Except.error e => ⟨{ h with A := A }, some e⟩
    | Except.ok Aw =>
    let _ := Status "Translating B" 20
    match attempt (L.IsLoadedB h.B) (TransAB h.Nb h.Nf force delta h.B) h.B with
    | Except.error e => ⟨{ h with A := A, Ainf_w := Aw }, some e⟩
    | Except.ok B =>
    match attempt (L.IsLoadedB_H h.B_H) (TransAB h.Nb h.Nf force delta h.B_H) h.B_H with
    | Except.error e => ⟨{ h with A := A, Ainf_w := Aw, B := B }, some e⟩
    | Except.ok BH =>
    match attempt (L.IsLoadedA0 h.A0) (TransA h.Nb force delta h.A0) h.A0 with
    | Except.error e => ⟨{ h with A := A, Ainf_w := Aw, B := B, B_H := BH }, some e⟩
    | Except.ok A0 =>
    match attempt (L.IsLoadedAinf h.Ainf) (TransA h.Nb force delta h.Ainf) h.Ainf with
    | Except.error e =>
      ⟨{ h with A := A, Ainf_w := Aw, B := B, B_H := BH, A0 := A0 }, some e⟩
    | Except.ok Ainf =>
    let _ := Status "Translating Forces" 30
    ⟨translateRest L X to' delta
      { h with A := A, Ainf_w := Aw, B := B, B_H := BH, A0 := A0, Ainf := Ainf }, none⟩

end

/-! ## Deleting frequencies, headings and bodies -/

section

variable {α σ K : Type}

/-- The list without the elements at the listed positions, the others in their
original order: what "removing the positions `ids`" means. -/
def removePositions (ids : List Nat) (l : List α) : List α :=
  (l.enum.filter (fun p => !ids.contains p.1)).map Prod.snd

/-- The loop of `DeleteFrequencies` that copies the samples to keep:
`int i = 0, j = 0; for (iif < Nf) if (j >= idFreq.size() || iif != idFreq[j])
dst[i++] = src[iif]; else j++;`, where `copy dst i iif` is `dst[i] = src[iif]`. -/
def copyKept (idFreq : List Nat) (Nf : Nat) (copy : σ → Nat → Nat → σ) (dst : σ) : σ :=
  ((List.range Nf).foldl (fun (st : σ × Nat × Nat) iif =>
      if st.2.2 ≥ idFreq.length ∨ iif ≠ idFreq.getD st.2.2 0 then
        (copy st.1 st.2.1 iif, st.2.1 + 1, st.2.2)
      else (st.1, st.2.1, st.2.2 + 1)) (dst, 0, 0)).1

/-- The loop that removes the listed positions from the back:
`int j = ids.size()-1; for (int i = n-1; i >= 0 && j >= 0; --i)
if (i == ids[j]) { l.Remove(i); j--; }`. The second component of the state is
`j + 1`; once it is `0` the source leaves the loop. -/
def removeListed (ids : List Nat) (n : Nat) (l : List α) : List α :=
  ((List.range n).reverse.foldl (fun (st : List α × Nat) i =>
      if 0 < st.2 ∧ i = ids.getD (st.2 - 1) 0 then (st.1.eraseIdx i, st.2 - 1) else st)
    (l, ids.length)).1

/-- The loop of `removeListed` with the positions still to remove held as a queue,
largest first, instead of the index `j` into `ids`. -/
def removeQueued (queue : List Nat) (n : Nat) (l : List α) : List α :=
  ((List.range n).reverse.foldl (fun (st : List α × List Nat) i =>
      match st.2 with
      | q :: qs => if i = q then (st.1.eraseIdx i, qs) else st
      | [] => st)
    (l, queue)).1

/-- The loop of `copyKept` over the indices `is`, with the positions still to skip
held as a queue, smallest first, instead of the index `j` into `idFreq`; `i0` is the
first free place of the destination. -/
def copyQueued (queue : List Nat) (is : List Nat) (copy : σ → Nat → Nat → σ) (dst : σ)
    (i0 : Nat) : σ :=
  (is.foldl (fun (st : σ × Nat × List Nat) iif =>
      match st.2.2 with
      | q :: qs =>
        if iif ≠ q then (copy st.1 st.2.1 iif, st.2.1 + 1, q :: qs) else (st.1, st.2.1, qs)
      | [] => (copy st.1 st.2.1 iif, st.2.1 + 1, []))
    (dst, i0, queue)).1

/-- The lambda `DeleteAB` of `DeleteFrequencies`. -/
def DeleteFrequenciesAB (Nb Nf : Nat) (idFreq : List Nat) (A : SeriesTable K) : SeriesTable K :=
  (List.range (6 * Nb)).foldl (fun An idof =>
    (List.range (6 * Nb)).foldl (fun An jdof =>
      set2 An idof jdof (copyKept idFreq Nf
        (fun dst i iif => dst.set i ((get3 A idof jdof iif).getD none))
        (List.replicate (Nf - idFreq.length) none))) An)
    (List.replicate (6 * Nb) (List.replicate (6 * Nb) []))

/-- The lambda `DeleteF` of `DeleteFrequencies`. -/
def DeleteFrequenciesF (Nb Nh Nf : Nat) (idFreq : List Nat) (ex : Forces K) : Forces K :=
  (List.range Nb).foldl (fun e ib =>
    (List.range Nh).foldl (fun e ih =>
      set2 e ib ih ((List.range 6).foldl (fun m idof =>
        copyKept idFreq Nf
          (fun dst i iif => set2 dst i idof ((get3 ex ib ih iif).bind (fun r => r[idof]?)
            |>.getD ⟨none, none⟩)) m)
        (List.replicate (Nf - idFreq.length) (List.replicate 6 ⟨none, none⟩)))) e)
    (List.replicate Nb (List.replicate Nh []))

/-- The lambda `DeleteMD` of `DeleteFrequencies`. The new table `mdn` gets, for every
body, heading and DOF, `setConstant(dt.Nf - idFreq.size())` on a vector that was just
created: Eigen's one-argument `setConstant` assigns that value to the existing
entries and does not resize, so the vector stays empty. The copying loop writes
into `dt.md` itself (first component of the state), which is then replaced by `mdn`. -/
def DeleteFrequenciesMD [NatCast K] (Nb nmh Nf : Nat) (idFreq : List Nat) (md : MDTable K) :
    MDTable K :=
  ((List.range Nb).foldl (fun (st : MDTable K × MDTable K) ib =>
    (List.range nmh).foldl (fun (st : MDTable K × MDTable K) ih =>
      (List.range 6).foldl (fun (st : MDTable K × MDTable K) idf =>
        let mdn := set3 st.2 ib ih idf
          (((get3 st.2 ib ih idf).getD []).map
            (fun _ => some (((Nf - idFreq.length : Nat) : K))))
        let old := copyKept idFreq Nf
          (fun (m : MDTable K) i iif =>
            modify3 m ib ih idf (fun s => s.set i ((s[iif]?).getD none))) st.1
        (old, mdn)) st) st)
    (md, List.replicate Nb (List.replicate nmh (List.replicate 6 [])))).2

/-- `Hydro::DeleteFrequencies(idFreq)`. -/
def DeleteFrequencies [NatCast K] (L : LoadedTests K) (h : Hydro K) (idFreq : List Nat) :
    Hydro K :=
  if idFreq.isEmpty then h
  else
    let h := { h with
      A := if L.IsLoadedA h.A then DeleteFrequenciesAB h.Nb h.Nf idFreq h.A else h.A }
    let h := { h with
      Ainf_w := if L.IsLoadedAinf_w h.Ainf_w then DeleteFrequenciesAB h.Nb h.Nf idFreq h.Ainf_w
        else h.Ainf_w }
    let h := { h with
      B := if L.IsLoadedB h.B then DeleteFrequenciesAB h.Nb h.Nf idFreq h.B else h.B }
    let h := { h with
      A_P := if L.IsLoadedA_P h.A_P then DeleteFrequenciesAB h.Nb h.Nf idFreq h.A_P else h.A_P }
    let h := { h with
      B_H := if L.IsLoadedB_H h.B_H then DeleteFrequenciesAB h.Nb h.Nf idFreq h.B_H else h.B_H }
    let h := { h with
      B_P := if L.IsLoadedB_P h.B_P then DeleteFrequenciesAB h.Nb h.Nf idFreq h.B_P else h.B_P }
    let h := { h with
      ex := if L.IsLoadedFex h.ex then DeleteFrequenciesF h.Nb h.Nh h.Nf idFreq h.ex else h.ex }
    let h := { h with
      sc := if L.IsLoadedFsc h.sc then DeleteFrequenciesF h.Nb h.Nh h.Nf idFreq h.sc else h.sc }
    let h := { h with
      fk := if L.IsLoadedFfk h.fk then DeleteFrequenciesF h.Nb h.Nh h.Nf idFreq h.fk else h.fk }
    let h := { h with
      rao := if L.IsLoadedRAO h.rao then DeleteFrequenciesF h.Nb h.Nh h.Nf idFreq h.rao
        else h.rao }
    let h := { h with
      sc_pot := if L.IsLoadedFsc_pot h.sc_pot then
        DeleteFrequenciesF h.Nb h.Nh h.Nf idFreq h.sc_pot else h.sc_pot }
    let h := { h with
      fk_pot := if L.IsLoadedFfk_pot h.fk_pot then
        DeleteFrequenciesF h.Nb h.Nh h.Nf idFreq h.fk_pot else h.fk_pot }
    let h := { h with
      fk_pot_bmr := if L.IsLoadedFfk_pot_bmr h.fk_pot_bmr then
        DeleteFrequenciesF h.Nb h.Nh h.Nf idFreq h.fk_pot_bmr else h.fk_pot_bmr }
    let h := { h with
      md := if L.IsLoadedMD h.md 0 then
        DeleteFrequenciesMD h.Nb h.mdhead.length h.Nf idFreq h.md else h.md }
    let h := { h with w := removeListed idFreq h.w.length h.w }
    { h with Nf := h.w.length }

/-- `Hydro::DeleteHeadings(idHead)`. The lambda `DeleteF` calls `ex.Remove(i)` on the
force list itself, whose first index is the body. -/
def DeleteHeadings (L : LoadedTests K) (h : Hydro K) (idHead : List Nat) : Hydro K :=
  if 0 < idHead.length then
    let DeleteF := fun (ex : Forces K) => removeListed idHead h.head.length ex
    let h := { h with ex := if L.IsLoadedFex h.ex then DeleteF h.ex else h.ex }
    let h := { h with sc := if L.IsLoadedFsc h.sc then DeleteF h.sc else h.sc }
    let h := { h with fk := if L.IsLoadedFfk h.fk then DeleteF h.fk else h.fk }
    let h := { h with rao := if L.IsLoadedRAO h.rao then DeleteF h.rao else h.rao }
    let h := { h with
      sc_pot := if L.IsLoadedFsc_pot h.sc_pot then DeleteF h.sc_pot else h.sc_pot }
    let h := { h with
      fk_pot := if L.IsLoadedFfk_pot h.fk_pot then DeleteF h.fk_pot else h.fk_pot }
    let h := { h with
      fk_pot_bmr := if L.IsLoadedFfk_pot_bmr h.fk_pot_bmr then DeleteF h.fk_pot_bmr
        else h.fk_pot_bmr }
    let h := { h with head := removeListed idHead h.head.length h.head }
    { h with Nh := h.head.length }
  else h

/-- The counting loops of `DeleteBodies`, shared by its lambdas `DeleteAinf0` and
`DeleteAB`: `nidof` and `njdof` count the rows and columns kept so far, a row or
column `x` being kept when `Find(idBod, x/6) < 0`; `An` is the new container. -/
def deleteBlocks (Nb : Nat) (idBod : List Nat) (A An : List (List α)) (dflt : α) :
    List (List α) :=
  ((List.range (6 * Nb)).foldl (fun (st : List (List α) × Nat) idof =>
      if !idBod.contains (idof / 6) then
        (((List.range (6 * Nb)).foldl (fun (st2 : List (List α) × Nat) jdof =>
            if !idBod.contains (jdof / 6) then
              (set2 st2.1 st.2 st2.2 ((get2 A idof jdof).getD dflt), st2.2 + 1)
            else st2) (st.1, 0)).1, st.2 + 1)
      else st) (An, 0)).1

/-- The lambda `DeleteAinf0` of `DeleteBodies`; `Nb` is the old body count, `NbNew`
the new one. -/
def DeleteBodiesAinf0 [Zero K] (Nb NbNew : Nat) (idBod : List Nat) (A : RMatrix K) : RMatrix K :=
  deleteBlocks Nb idBod A (List.replicate (6 * NbNew) (List.replicate (6 * NbNew) (some 0))) none

/-- The lambda `DeleteAB` of `DeleteBodies`. -/
def DeleteBodiesAB (Nb NbNew : Nat) (idBod : List Nat) (A : SeriesTable K) : SeriesTable K :=
  deleteBlocks Nb idBod A (List.replicate (6 * NbNew) (List.replicate (6 * NbNew) [])) []

/-- The lambda `DeleteF` of `DeleteBodies`:
`for (int ib = dt.Nb-1; ib >= 0; --ib) if (Find(idBod, ib) >= 0) ex.Remove(ib);`. -/
def DeleteBodiesF (Nb : Nat) (idBod : List Nat) (ex : List α) : List α :=
  (List.range Nb).reverse.foldl (fun ex ib => if idBod.contains ib then ex.eraseIdx ib else ex) ex

/-- One pass of the closing loop of `DeleteBodies`, for the body `ib`: the per-body
tensors of a listed body are removed. The potentials are not part of the model. -/
def DeleteBodiesStep (L : LoadedTests K) (idBod : List Nat) (h : Hydro K) (ib : Nat) : Hydro K :=
  if idBod.contains ib then
    let h := { h with
      qtfsum := if L.IsLoadedQTF true h.qtfsum ib then h.qtfsum.eraseIdx ib else h.qtfsum }
    let h := { h with
      qtfdif := if L.IsLoadedQTF false h.qtfdif ib then h.qtfdif.eraseIdx ib else h.qtfdif }
    let h := { h with md := if L.IsLoadedMD h.md ib then h.md.eraseIdx ib else h.md }
    { h with msh := if L.IsLoadedMesh h.msh ib then h.msh.eraseIdx ib else h.msh }
  else h

/-- `Hydro::DeleteBodies(idBod)`. The potentials are not part of the model. -/
def DeleteBodies [Zero K] (L : LoadedTests K) (h : Hydro K) (idBod : List Nat) : Hydro K :=
  if idBod.isEmpty then h
  else
    let Nb := h.Nb - idBod.length
    let h := { h with
      Ainf := if L.IsLoadedAinf h.Ainf then DeleteBodiesAinf0 h.Nb Nb idBod h.Ainf else h.Ainf }
    let h := { h with
      A0 := if L.IsLoadedA0 h.A0 then DeleteBodiesAinf0 h.Nb Nb idBod h.A0 else h.A0 }
    let h := { h with A := if L.IsLoadedA h.A then DeleteBodiesAB h.Nb Nb idBod h.A else h.A }
    let h := { h with
      Ainf_w := if L.IsLoadedAinf_w h.Ainf_w then DeleteBodiesAB h.Nb Nb idBod h.Ainf_w
        else h.Ainf_w }
    let h := { h with B := if L.IsLoadedB h.B then DeleteBodiesAB h.Nb Nb idBod h.B else h.B }
    let h := { h with
      A_P := if L.IsLoadedA_P h.A_P then DeleteBodiesAB h.Nb Nb idBod h.A_P else h.A_P }
    let h := { h with
      B_H := if L.IsLoadedB_H h.B_H then DeleteBodiesAB h.Nb Nb idBod h.B_H else h.B_H }
    let h := { h with
      B_P := if L.IsLoadedB_P h.B_P then DeleteBodiesAB h.Nb Nb idBod h.B_P else h.B_P }
    let h := { h with ex := if L.IsLoadedFex h.ex then DeleteBodiesF h.Nb idBod h.ex else h.ex }
    let h := { h with sc := if L.IsLoadedFsc h.sc then DeleteBodiesF h.Nb idBod h.sc else h.sc }
    let h := { h with fk := if L.IsLoadedFfk h.fk then DeleteBodiesF h.Nb idBod h.fk else h.fk }
    let h := { h with
      rao := if L.IsLoadedRAO h.rao then DeleteBodiesF h.Nb idBod h.rao else h.rao }
    let h := { h with
      sc_pot := if L.IsLoadedFsc_pot h.sc_pot then DeleteBodiesF h.Nb idBod h.sc_pot
        else h.sc_pot }
    let h := { h with
      fk_pot := if L.IsLoadedFfk_pot h.fk_pot then DeleteBodiesF h.Nb idBod h.fk_pot
        else h.fk_pot }
    let h := { h with
      fk_pot_bmr := if L.IsLoadedFfk_pot_bmr h.fk_pot_bmr then
        DeleteBodiesF h.Nb idBod h.fk_pot_bmr else h.fk_pot_bmr }
    let h := (List.range h.Nb).reverse.foldl (DeleteBodiesStep L idBod) h
    { h with Nb := Nb }

/-- The rank of body `b` among the retained bodies: the number of bodies before `b`
that are not listed in `idBod`. -/
def bodyRank (idBod : List Nat) (b : Nat) : Nat :=
  ((List.range b).filter (fun x => !idBod.contains x)).length

end

/-! ## The response amplitude operator -/

section

/-- A `std::complex<double>` whose two parts are numbers: the entries of the
`MatrixXcd` and `VectorXcd` that `GetRAO` computes with. -/
@[ext]
structure Cx (K : Type) where
  re : K
  im : K
deriving DecidableEq

variable {K : Type}

instance Cx.instZero [Zero K] : Zero (Cx K) := ⟨⟨0, 0⟩⟩

instance Cx.instOne [Zero K] [One K] : One (Cx K) := ⟨⟨1, 0⟩⟩

instance Cx.instAdd [Add K] : Add (Cx K) := ⟨fun a b => ⟨a.re + b.re, a.im + b.im⟩⟩

instance Cx.instNeg [Neg K] : Neg (Cx K) := ⟨fun a => ⟨-a.re, -a.im⟩⟩

instance Cx.instMul [Add K] [Sub K] [Mul K] : Mul (Cx K) :=
  ⟨fun a b => ⟨a.re * b.re - a.im * b.im, a.re * b.im + a.im * b.re⟩⟩

instance Cx.instCommRing [CommRing K] : CommRing (Cx K) where
  zero := 0
  one := 1
  add a b := a + b
  neg a := -a
  mul a b := a * b
  nsmul := nsmulRec
  zsmul := zsmulRec
  add_assoc a b c := Cx.ext (add_assoc _ _ _) (add_assoc _ _ _)
  zero_add a := Cx.ext (zero_add _) (zero_add _)
  add_zero a := Cx.ext (add_zero _) (add_zero _)
  add_comm a b := Cx.ext (add_comm _ _) (add_comm _ _)
  neg_add_cancel a := Cx.ext (neg_add_cancel _) (neg_add_cancel _)
  mul_assoc a b c := Cx.ext
    (show (a.re * b.re - a.im * b.im) * c.re - (a.re * b.im + a.im * b.re) * c.im =
      a.re * (b.re * c.re - b.im * c.im) - a.im * (b.re * c.im + b.im * c.re) by ring)
    (show (a.re * b.re - a.im * b.im) * c.im + (a.re * b.im + a.im * b.re) * c.re =
      a.re * (b.re * c.im + b.im * c.re) + a.im * (b.re * c.re - b.im * c.im) by ring)
  mul_comm a b := Cx.ext
    (show a.re * b.re - a.im * b.im = b.re * a.re - b.im * a.im by ring)
    (show a.re * b.im + a.im * b.re = b.re * a.im + b.im * a.re by ring)
  one_mul a := Cx.ext
    (show 1 * a.re - 0 * a.im = a.re by ring) (show 1 * a.im + 0 * a.re = a.im by ring)
  mul_one a := Cx.ext
    (show a.re * 1 - a.im * 0 = a.re by ring) (show a.re * 0 + a.im * 1 = a.im by ring)
  zero_mul a := Cx.ext
    (show 0 * a.re - 0 * a.im = 0 by ring) (show 0 * a.im + 0 * a.re = 0 by ring)
  mul_zero a := Cx.ext
    (show a.re * 0 - a.im * 0 = 0 by ring) (show a.re * 0 + a.im * 0 = 0 by ring)
  left_distrib a b c := Cx.ext
    (show a.re * (b.re + c.re) - a.im * (b.im + c.im) =
      a.re * b.re - a.im * b.im + (a.re * c.re - a.im * c.im) by ring)
    (show a.re * (b.im + c.im) + a.im * (b.re + c.re) =
      a.re * b.im + a.im * b.re + (a.re * c.im + a.im * c.re) by ring)
  right_distrib a b c := Cx.ext
    (show (a.re + b.re) * c.re - (a.im + b.im) * c.im =
      a.re * c.re - a.im * c.im + (b.re * c.re - b.im * c.im) by ring)
    (show (a.re + b.re) * c.im + (a.im + b.im) * c.re =
      a.re * c.im + a.im * c.re + (b.re * c.im + b.im * c.re) by ring)

variable [Field K] [DecidableEq K]

/-- The promotion of a `double` to `std::complex<double>`. -/
def Cx.ofReal (x : K) : Cx K := ⟨x, 0⟩

/-- The imaginary unit `i<double>()`. -/
def Cx.I : Cx K := ⟨0, 1⟩

/-- The inverse `1/z` of a complex number. -/
def Cx.inv (z : Cx K) : Cx K :=
  ⟨z.re / (z.re * z.re + z.im * z.im), -z.im / (z.re * z.re + z.im * z.im)⟩

/-- `sqr(x)`. -/
def sqr (x : K) : K := x * x

/-- `CriticalDamping(critDamp, M, A, K)`. The function `SquareRoot` of the source
goes through the singular value decomposition of the linear-algebra library, which
is not among the sources: it is the parameter `SquareRoot`. -/
def CriticalDamping {n : Nat} (SquareRoot : Matrix (Fin n) (Fin n) K → Matrix (Fin n) (Fin n) K)
    (critDamp : K) (M A C : Matrix (Fin n) (Fin n) K) : Matrix (Fin n) (Fin n) K :=
  let M_eff_sqrt := SquareRoot (M + A)
  let K_sqrt := SquareRoot C
  ((2 * critDamp) • K_sqrt) * M_eff_sqrt

/-- The static `Hydro::GetRAO(w, Aw, Bw, Fwh, C, M, D, D2, critDamp)`, for `n` degrees
of freedom. The entries of `Aw`, `Bw` and `Fwh` may be missing and are then replaced
by `0`; `w`, `critDamp` and the entries of `C`, `M` and `D` are numbers. The test
`FullPivLU(m).isInvertible()` is that the determinant of `m` is not zero, and
`m.inverse()` is the adjugate over the determinant. `D2` is not used. -/
def GetRAO {n : Nat} (SquareRoot : Matrix (Fin n) (Fin n) K → Matrix (Fin n) (Fin n) K)
    (w : K) (Aw Bw : Matrix (Fin n) (Fin n) (Option K)) (Fwh : Fin n → CVal K)
    (C M D _D2 : Matrix (Fin n) (Fin n) K) (critDamp : K) : Except String (Fin n → Cx K) :=
  let Aw0 : Matrix (Fin n) (Fin n) K := Aw.map (fun x => if IsNum x then Nvl x 0 else 0)
  let Bw0 : Matrix (Fin n) (Fin n) K := Bw.map (fun x => if IsNum x then Nvl x 0 else 0)
  let Fwh0 : Fin n → Cx K := fun i =>
    if (Fwh i).IsNum then ⟨Nvl (Fwh i).re 0, Nvl (Fwh i).im 0⟩ else 0
  let Dc := D + CriticalDamping SquareRoot critDamp M Aw0 C
  let m : Matrix (Fin n) (Fin n) (Cx K) :=
    (C - sqr w • (M + Aw0)).map Cx.ofReal + (Cx.I * Cx.ofReal w) • (Bw0 + Dc).map Cx.ofReal
  if m.det = 0 then Except.error "Problem solving RAO"
  else Except.ok (Matrix.vecMul Fwh0 (Cx.inv m.det • m.adjugate))

end

/-! ## The impedance of the specification -/

section

variable {K : Type} [Field K]

/-- The specification's reading of an input of `GetRAO` with every missing entry
replaced by zero, for a real entry. -/
def zeroFilled (x : Option K) : K :=
  match x with
  | some v => v
  | none => 0

/-- The specification's reading of an input of `GetRAO` with every missing entry
replaced by zero, for a complex entry: an entry is missing when one of its parts is. -/
def CVal.zeroFilled (x : CVal K) : Cx K :=
  match x.re, x.im with
  | some a, some b => ⟨a, b⟩
  | _, _ => 0

/-- The impedance of the specification,
`Z = C - w^2 (M + A0) + i w (B0 + D + D_extra)`, entry by entry: the real part is
`C - w^2 (M + A0)` and the imaginary part `w (B0 + D + D_extra)`. -/
def specImpedance {n : Nat} (w : K) (A0 B0 C M D D_extra : Matrix (Fin n) (Fin n) K) :
    Matrix (Fin n) (Fin n) (Cx K) :=
  fun i j => ⟨C i j - w ^ 2 * (M i j + A0 i j), w * (B0 i j + D i j + D_extra i j)⟩

end

/-! ## `GetRAO` and `GetC` on the store, `GetQTFVal` -/

section

variable {K : Type} [Field K] [DecidableEq K]

/-- `m.rows()` of a `MatrixXd` kept as its list of rows. -/
def rows (m : RMatrix K) : Nat := m.length

/-- `m.cols()` of a `MatrixXd` kept as its list of rows: the length of the first
row; a matrix without rows has no columns here. -/
def cols (m : RMatrix K) : Nat := (m.head?.map List.length).getD 0

/-- `dt.msh[ib].dt.C`; the index is in range when the store has its `Nb` bodies. -/
def bodyC (h : Hydro K) (ib : Nat) : RMatrix K := ((h.msh[ib]?).map Body.C).getD []

/-- `dt.msh[ib].dt.M`; the index is in range when the store has its `Nb` bodies. -/
def bodyM (h : Hydro K) (ib : Nat) : RMatrix K := ((h.msh[ib]?).map Body.M).getD []

/-- A `6 x 6` `MatrixXd` of the store as the linear algebra receives it: a matrix of
numbers. Its entries are numbers when the matrix is loaded; `0` stands where the list
of rows has none. -/
def mat6 (m : RMatrix K) : Matrix (Fin 6) (Fin 6) K :=
  fun i j => Nvl ((get2 m i j).getD none) 0

/-- A `6 x 6` matrix of numbers stored as a `MatrixXd` of the store. -/
def ofMat6 (m : Matrix (Fin 6) (Fin 6) K) : RMatrix K :=
  (List.finRange 6).map fun i => (List.finRange 6).map fun j => some (m i j)

/-- `dt.w[ifr]` as the number the linear algebra receives. -/
def freq (h : Hydro K) (ifr : Nat) : K := Nvl (h.w.getD ifr none) 0

/-- Routines of the store called by `GetRAO` and `GetC` whose code is not among the
sources: `Initialize_Forces(dt.rao)`, the per-body views `C_mat(ndim, ib)`,
`A_mat(ndim, ifr, ib, jb)`, `B_mat(ndim, ifr, ib, jb)`, `F_(ndim, f, ih, ifr, ib)` and
`RAO_(ndim, f, ih, ifr, ib)`, each reading the current store, and the `SquareRoot`
of the linear-algebra library. -/
structure RAOHelpers (K : Type) where
  Initialize_Forces : Hydro K → Forces K
  C_mat : Hydro K → Bool → Nat → Matrix (Fin 6) (Fin 6) K
  A_mat : Hydro K → Bool → Nat → Nat → Nat → Matrix (Fin 6) (Fin 6) (Option K)
  B_mat : Hydro K → Bool → Nat → Nat → Nat → Matrix (Fin 6) (Fin 6) (Option K)
  F_ : Hydro K → Bool → Forces K → Nat → Nat → Nat → Fin 6 → CVal K
  RAO_ : Hydro K → Bool → Forces K → Nat → Nat → Nat → Fin 6 → CVal K
  SquareRoot : Matrix (Fin 6) (Fin 6) K → Matrix (Fin 6) (Fin 6) K

/-- The messages of the exceptions of `GetRAO` and `GetC` that report missing data. -/
def insufficientDataMessages : List String :=
  ["Insufficient data to get RAO: Added mass and Radiation damping are required",
   "Insufficient data to get RAO: Hydrostatic stiffness matrix is required",
   "Insufficient data to get RAO: Inertia matrix is required",
   "Insufficient data to get RAO: Added mass is required"]

/-- The body of the first loop of `Hydro::GetRAO(critDamp)`: the size tests of the
matrices `C` and `M` of the body `ib`. -/
def GetRAOcheck (h : Hydro K) (ib : Nat) : Except String Unit :=
  if rows (bodyC h ib) < 6 ∨ cols (bodyC h ib) < 6 then
    Except.error "Insufficient data to get RAO: Hydrostatic stiffness matrix is required"
  else if rows (bodyM h ib) < 6 ∨ cols (bodyM h ib) < 6 then
    Except.error "Insufficient data to get RAO: Inertia matrix is required"
  else Except.ok ()

/-- The loop `dt.rao[ib][ih](ifr, idf) = RAO[idf]` over the six degrees of freedom. -/
def setRAO (rao : Forces K) (ib ih ifr : Nat) (RAO : Fin 6 → Cx K) : Forces K :=
  (List.finRange 6).foldl (fun rao idf =>
    modify2 rao ib ih (fun m => set2 m ifr idf ⟨some (RAO idf).re, some (RAO idf).im⟩)) rao

/-- The body of the innermost loop of `Hydro::GetRAO(critDamp)`, at body `ib`, heading
`ih` and frequency `ifr`, on the store `h` as it is then. -/
def GetRAOstep (E : RAOHelpers K) (critDamp : K) (C : Matrix (Fin 6) (Fin 6) K) (ib ih : Nat)
    (h : Hydro K) (ifr : Nat) : Except String (Hydro K) :=
  match BEMRosetta.GetRAO E.SquareRoot (freq h ifr) (E.A_mat h false ifr ib ib)
      (E.B_mat h false ifr ib ib) (E.F_ h false h.ex ih ifr ib) C (mat6 (bodyM h ib)) 0 0
      critDamp with
  | Except.error e => Except.error e
  | Except.ok RAO => Except.ok { h with rao := setRAO h.rao ib ih ifr RAO }

/-- `Hydro::GetRAO(critDamp)`: the store with the response amplitude operators of
every body, heading and frequency, or the exception thrown. -/
def Hydro.GetRAO (E : RAOHelpers K) (h : Hydro K) (critDamp : K) : Except String (Hydro K) :=
  if h.Nf = 0 ∨ h.A.length < h.Nb * 6 ∨ h.B.length < h.Nb * 6 then
    Except.error "Insufficient data to get RAO: Added mass and Radiation damping are required"
  else
    match (List.range h.Nb).foldlM (fun _ ib => GetRAOcheck h ib) () with
    | Except.error e => Except.error e
    | Except.ok _ =>
      (List.range h.Nb).foldlM (fun s ib =>
        let C := E.C_mat s false ib
        (List.range h.Nh).foldlM (fun s ih =>
          (List.range h.Nf).foldlM (GetRAOstep E critDamp C ib ih) s) s)
        { h with rao := E.Initialize_Forces h }

/-- `Hydro::GetC_KX(w, Aw, Fwh, X0, M)`, for `n` degrees of freedom. -/
def GetC_KX {n : Nat} (w : K) (Aw : Matrix (Fin n) (Fin n) (Option K)) (Fwh : Fin n → CVal K)
    (X0 : Fin n → K) (M : Matrix (Fin n) (Fin n) K) : Fin n → K :=
  let Aw0 : Matrix (Fin n) (Fin n) K := Aw.map (fun x => if IsNum x then Nvl x 0 else 0)
  let Fwh0 : Fin n → K := fun i => if (Fwh i).IsNum then Nvl (Fwh i).re 0 else 0
  Fwh0 + Matrix.mulVec (sqr w • (M + Aw0)) X0

/-- The test of the first loop of `Hydro::GetC` on the body `ib`. -/
def GetCcheck (h : Hydro K) (ib : Nat) : Except String Unit :=
  if rows (bodyM h ib) < 6 ∨ cols (bodyM h ib) < 6 then
    Except.error "Insufficient data to get RAO: Inertia matrix is required"
  else Except.ok ()

/-- The matrix that the second loop of `Hydro::GetC` assigns to `dt.msh[ib].dt.C`:
the column `ii = ih Nf + ifr` of `X` is the real part of the RAO at `(ih, ifr)`, zero
where it is missing, and that of `F` is `GetC_KX` there; `m.inverse()` is the adjugate
over the determinant. -/
def GetCbody (E : RAOHelpers K) (h : Hydro K) (ib : Nat) : Matrix (Fin 6) (Fin 6) K :=
  let M_ := mat6 (bodyM h ib)
  let X0 : Nat → Nat → Fin 6 → K := fun ih ifr i =>
    if (E.RAO_ h false h.rao ih ifr ib i).IsNum then Nvl (E.RAO_ h false h.rao ih ifr ib i).re 0
    else 0
  let X : Matrix (Fin 6) (Fin (h.Nh * h.Nf)) K := fun i c => X0 (c / h.Nf) (c % h.Nf) i
  let F : Matrix (Fin 6) (Fin (h.Nh * h.Nf)) K := fun i c =>
    GetC_KX (freq h (c % h.Nf)) (E.A_mat h false (c % h.Nf) ib ib)
      (E.F_ h false h.ex (c / h.Nf) (c % h.Nf) ib) (X0 (c / h.Nf) (c % h.Nf)) M_ i
  let lambda : K := 1 / 10
  let G : Matrix (Fin 6) (Fin 6) K := X * X.transpose + lambda • (1 : Matrix (Fin 6) (Fin 6) K)
  F * X.transpose * (G.det⁻¹ • G.adjugate)

/-- `Hydro::GetC`: the store with the hydrostatic stiffness of every body estimated
back from the RAO, or the exception thrown. -/
def GetC (E : RAOHelpers K) (h : Hydro K) : Except String (Hydro K) :=
  if h.Nf = 0 ∨ h.A.length < h.Nb * 6 then
    Except.error "Insufficient data to get RAO: Added mass is required"
  else
    match (List.range h.Nb).foldlM (fun _ ib => GetCcheck h ib) () with
    | Except.error e => Except.error e
    | Except.ok _ =>
      Except.ok ((List.range h.Nb).foldl (fun s ib =>
        { s with msh := s.msh.modify (fun b => { b with C := ofMat6 (GetCbody E s ib) }) ib })
        h)

end

section

variable {K : Type} [LinearOrderedField K]

/-- Routines called by `GetQTFVal`. The conversion `F_(ndim, val, idf)` of a force value
between its dimensional and non-dimensional forms is not among the sources and is a
parameter. `abs` and `arg` are those of the complex library, on the real and imaginary
parts; `abs` is the modulus: it is not negative, and its square is `re² + im²` wherever
that number has a square root in `K`. -/
structure QTFValHelpers (K : Type) [LinearOrderedField K] where
  F_ : Hydro K → Bool → Option K → Nat → Option K
  abs : K → K → K
  abs_nonneg : ∀ re im, 0 ≤ abs re im
  abs_sq : ∀ re im r, r * r = re * re + im * im → abs re im * abs re im = re * re + im * im
  arg : K → K → K

/-- `Hydro::GetQTFVal(ib, idof, idh, ifr1, ifr2, isSum, what, getDim)`. `Null` is
`none`; an entry is `Null` when one of its parts is missing. -/
def GetQTFVal (V : QTFValHelpers K) (h : Hydro K) (ib idof idh ifr1 ifr2 : Nat) (isSum : Bool)
    (what : Char) (getDim : Bool) : Option K :=
  let qtf := if isSum then h.qtfsum else h.qtfdif
  if qtf.isEmpty then none
  else
    let m := (get3 qtf ib idh idof).getD []
    let v := (get2 m ifr1 ifr2).getD ⟨none, none⟩
    match v.re, v.im with
    | some re, some im =>
      if what = 'm' then V.F_ h (!getDim) (some (V.abs re im)) idof
      else if what = 'p' then some (V.arg re im)
      else if what = 'r' then V.F_ h (!getDim) (some re) idof
      else if what = 'i' then V.F_ h (!getDim) (some im) idof
      else none
    | _, _ => none

end

/-! ## Swapping two degrees of freedom -/

section

variable {α K : Type}

/-- The renumbering of `SwapAB`: `if (x == p1) x = p2; else if (x == p2) x = p1;`. -/
def swapIndex (p1 p2 x : Nat) : Nat :=
  if x = p1 then p2 else if x = p2 then p1 else x

/-- The lambda `SwapAB` of `SwapDOF`, with `p1 = idof1 + 6 ib1` and
`p2 = idof2 + 6 ib2`. -/
def SwapAB (Nb p1 p2 : Nat) (A : SeriesTable K) : SeriesTable K :=
  (List.range (6 * Nb)).foldl (fun An idof =>
    (List.range (6 * Nb)).foldl (fun An jdof =>
      set2 An (swapIndex p1 p2 idof) (swapIndex p1 p2 jdof) ((get2 A idof jdof).getD [])) An)
    (List.replicate (6 * Nb) (List.replicate (6 * Nb) []))

/-- Read `ex[ib][ih](ifr, idf)`. -/
def getF (ex : Forces K) (ib ih ifr idf : Nat) : Option (CVal K) :=
  (get2 ex ib ih).bind (fun m => get2 m ifr idf)

/-- Write `ex[ib][ih](ifr, idf) = v`. -/
def setF (ex : Forces K) (ib ih ifr idf : Nat) (v : CVal K) : Forces K :=
  modify2 ex ib ih (fun m => set2 m ifr idf v)

/-- The lambda `SwapF` of `SwapDOF`: `Swap(ex[ib2][ih](ifr, idof2), ex[ib1][ih](ifr, idof1))`
for every heading and frequency; `Swap(a, b)` is `tmp = a; a = b; b = tmp`. -/
def SwapF (Nh Nf ib1 idof1 ib2 idof2 : Nat) (ex : Forces K) : Forces K :=
  (List.range Nh).foldl (fun ex ih =>
    (List.range Nf).foldl (fun ex ifr =>
      let tmp := (getF ex ib2 ih ifr idof2).getD ⟨none, none⟩
      let ex := setF ex ib2 ih ifr idof2 ((getF ex ib1 ih ifr idof1).getD ⟨none, none⟩)
      setF ex ib1 ih ifr idof1 tmp) ex) ex

/-- The loop of the lambdas `SwapMD` and `SwapSumDif` of `SwapDOF`:
`for (ih < n) Swap(t[ib1][ih][idof1], t[ib2][ih][idof2])`. -/
def swapSlices (n ib1 idof1 ib2 idof2 : Nat) (dflt : α) (t : List (List (List α))) :
    List (List (List α)) :=
  (List.range n).foldl (fun t ih =>
    let tmp := (get3 t ib1 ih idof1).getD dflt
    let t := set3 t ib1 ih idof1 ((get3 t ib2 ih idof2).getD dflt)
    set3 t ib2 ih idof2 tmp) t

/-- The lambda `SwapMD` of `SwapDOF`; `nmh` is `dt.mdhead.size()`. -/
def SwapMD (nmh ib1 idof1 ib2 idof2 : Nat) (md : MDTable K) : MDTable K :=
  swapSlices nmh ib1 idof1 ib2 idof2 [] md

/-- The lambda `SwapSumDif` of `SwapDOF`; `nqh` is `dt.qhead.size()`. -/
def SwapSumDif (nqh ib1 idof1 ib2 idof2 : Nat) (qtf : QTFTable K) : QTFTable K :=
  swapSlices nqh ib1 idof1 ib2 idof2 [] qtf

/-- The two `Swap` helpers that `SwapDOF` calls on `MatrixXd`, whose code is not among
the sources: `Swap(A, i, j)` on one matrix, and `Swap(C1, C2, i, j)` on the matrices of
two bodies, with its effect when both are one and the same matrix (`ib1 == ib2`). -/
structure SwapHelpers (K : Type) where
  Swap : RMatrix K → Nat → Nat → RMatrix K
  Swap2 : RMatrix K → RMatrix K → Nat → Nat → RMatrix K × RMatrix K
  Swap2Same : RMatrix K → Nat → Nat → RMatrix K

/-- The matrices of the bodies after `Swap(m[ib1], m[ib2], idof1, idof2)`. -/
def swapBodies (X : SwapHelpers K) (ib1 idof1 ib2 idof2 : Nat) (m : List (RMatrix K)) :
    List (RMatrix K) :=
  if ib1 = ib2 then m.modify (fun c => X.Swap2Same c idof1 idof2) ib1
  else
    let r := X.Swap2 ((m[ib1]?).getD []) ((m[ib2]?).getD []) idof1 idof2
    (m.set ib1 r.1).set ib2 r.2

/-- The bodies with their matrices `C` replaced by the listed ones. -/
def withC (msh : List (Body K)) (cs : List (RMatrix K)) : List (Body K) :=
  List.zipWith (fun b c => { b with C := c }) msh cs

/-- The bodies with their matrices `M` replaced by the listed ones. -/
def withM (msh : List (Body K)) (ms : List (RMatrix K)) : List (Body K) :=
  List.zipWith (fun b c => { b with M := c }) msh ms

/-- The two statements `if (IsLoadedC()) Swap(msh[ib1].C, msh[ib2].C, idof1, idof2)` and
`if (IsLoadedM()) Swap(msh[ib1].M, msh[ib2].M, idof1, idof2)` of `SwapDOF`. -/
def SwapCM (L : LoadedTests K) (X : SwapHelpers K) (ib1 idof1 ib2 idof2 : Nat)
    (msh : List (Body K)) : List (Body K) :=
  let msh := if L.IsLoadedC (msh.map Body.C) then
    withC msh (swapBodies X ib1 idof1 ib2 idof2 (msh.map Body.C)) else msh
  if L.IsLoadedM (msh.map Body.M) then
    withM msh (swapBodies X ib1 idof1 ib2 idof2 (msh.map Body.M)) else msh

/-- `Hydro::SwapDOF(ib1, idof1, ib2, idof2)`, up to its closing call of `AfterLoad`.
Each family is tested and swapped on its own container, with the counts `Nb`, `Nh`,
`Nf` and the heading lists, which the operation does not change; the matrices `C` of
the bodies are swapped before the matrices `M`. The source calls `IsLoadedMD(true)`,
where the other operations pass a body index: the argument is taken as the index `1`. -/
def SwapDOF (L : LoadedTests K) (X : SwapHelpers K) (h : Hydro K)
    (ib1 idof1 ib2 idof2 : Nat) : Hydro K :=
  let p1 := idof1 + 6 * ib1
  let p2 := idof2 + 6 * ib2
  { h with
    A := if L.IsLoadedA h.A then SwapAB h.Nb p1 p2 h.A else h.A
    Ainf_w := if L.IsLoadedAinf_w h.Ainf_w then SwapAB h.Nb p1 p2 h.Ainf_w else h.Ainf_w
    B := if L.IsLoadedB h.B then SwapAB h.Nb p1 p2 h.B else h.B
    A_P := if L.IsLoadedA_P h.A_P then SwapAB h.Nb p1 p2 h.A_P else h.A_P
    B_H := if L.IsLoadedB_H h.B_H then SwapAB h.Nb p1 p2 h.B_H else h.B_H
    B_P := if L.IsLoadedB_P h.B_P then SwapAB h.Nb p1 p2 h.B_P else h.B_P
    Ainf := if L.IsLoadedAinf h.Ainf then X.Swap h.Ainf p1 p2 else h.Ainf
    A0 := if L.IsLoadedA0 h.A0 then X.Swap h.A0 p1 p2 else h.A0
    ex := if L.IsLoadedFex h.ex then SwapF h.Nh h.Nf ib1 idof1 ib2 idof2 h.ex else h.ex
    sc := if L.IsLoadedFsc h.sc then SwapF h.Nh h.Nf ib1 idof1 ib2 idof2 h.sc else h.sc
    fk := if L.IsLoadedFfk h.fk then SwapF h.Nh h.Nf ib1 idof1 ib2 idof2 h.fk else h.fk
    rao := if L.IsLoadedRAO h.rao then SwapF h.Nh h.Nf ib1 idof1 ib2 idof2 h.rao else h.rao
    sc_pot := if L.IsLoadedFsc_pot h.sc_pot then
      SwapF h.Nh h.Nf ib1 idof1 ib2 idof2 h.sc_pot else h.sc_pot
    fk_pot := if L.IsLoadedFfk_pot h.fk_pot then
      SwapF h.Nh h.Nf ib1 idof1 ib2 idof2 h.fk_pot else h.fk_pot
    fk_pot_bmr := if L.IsLoadedFfk_pot_bmr h.fk_pot_bmr then
      SwapF h.Nh h.Nf ib1 idof1 ib2 idof2 h.fk_pot_bmr else h.fk_pot_bmr
    md := if L.IsLoadedMD h.md 1 then SwapMD h.mdhead.length ib1 idof1 ib2 idof2 h.md
      else h.md
    qtfsum := if L.IsLoadedQTF true h.qtfsum 0 then
      SwapSumDif h.qhead.length ib1 idof1 ib2 idof2 h.qtfsum else h.qtfsum
    qtfdif := if L.IsLoadedQTF false h.qtfdif 0 then
      SwapSumDif h.qhead.length ib1 idof1 ib2 idof2 h.qtfdif else h.qtfdif
    msh := SwapCM L X ib1 idof1 ib2 idof2 h.msh
    Kirf := if L.IsLoadedKirf h.Kirf then SwapAB h.Nb p1 p2 h.Kirf else h.Kirf }

/-- The three-level array has `n1` rows of `n2` cells of `n3` entries each. -/
def Dims3 (t : List (List (List α))) (n1 n2 n3 : Nat) : Prop :=
  Dims2 t n1 n2 ∧ ∀ r ∈ t, ∀ c ∈ r, c.length = n3

instance (t : List (List (List α))) (n1 n2 n3 : Nat) : Decidable (Dims3 t n1 n2 n3) := by
  unfold Dims3; infer_instance

/-- The force table holds, for each of `Nb` bodies and `Nh` headings, a matrix of
shape `(Nf, 6)`. -/
def ForcesDims (ex : Forces K) (Nb Nh Nf : Nat) : Prop :=
  Dims2 ex Nb Nh ∧ ∀ r ∈ ex, ∀ m ∈ r, Dims2 m Nf 6

instance (ex : Forces K) (Nb Nh Nf : Nat) : Decidable (ForcesDims ex Nb Nh Nf) := by
  unfold ForcesDims; infer_instance

/-- The loaded tensors of the store have the shapes that the counts `Nb`, `Nf`, `Nh`
and the heading lists announce. -/
def LoadedShapes (L : LoadedTests K) (h : Hydro K) : Prop :=
  (L.IsLoadedA h.A = true → Dims2 h.A (6 * h.Nb) (6 * h.Nb)) ∧
  (L.IsLoadedAinf_w h.Ainf_w = true → Dims2 h.Ainf_w (6 * h.Nb) (6 * h.Nb)) ∧
  (L.IsLoadedB h.B = true → Dims2 h.B (6 * h.Nb) (6 * h.Nb)) ∧
  (L.IsLoadedA_P h.A_P = true → Dims2 h.A_P (6 * h.Nb) (6 * h.Nb)) ∧
  (L.IsLoadedB_H h.B_H = true → Dims2 h.B_H (6 * h.Nb) (6 * h.Nb)) ∧
  (L.IsLoadedB_P h.B_P = true → Dims2 h.B_P (6 * h.Nb) (6 * h.Nb)) ∧
  (L.IsLoadedKirf h.Kirf = true → Dims2 h.Kirf (6 * h.Nb) (6 * h.Nb)) ∧
  (L.IsLoadedFex h.ex = true → ForcesDims h.ex h.Nb h.Nh h.Nf) ∧
  (L.IsLoadedFsc h.sc = true → ForcesDims h.sc h.Nb h.Nh h.Nf) ∧
  (L.IsLoadedFfk h.fk = true → ForcesDims h.fk h.Nb h.Nh h.Nf) ∧
  (L.IsLoadedRAO h.rao = true → ForcesDims h.rao h.Nb h.Nh h.Nf) ∧
  (L.IsLoadedFsc_pot h.sc_pot = true → ForcesDims h.sc_pot h.Nb h.Nh h.Nf) ∧
  (L.IsLoadedFfk_pot h.fk_pot = true → ForcesDims h.fk_pot h.Nb h.Nh h.Nf) ∧
  (L.IsLoadedFfk_pot_bmr h.fk_pot_bmr = true → ForcesDims h.fk_pot_bmr h.Nb h.Nh h.Nf) ∧
  (L.IsLoadedMD h.md 1 = true → Dims3 h.md h.Nb h.mdhead.length 6) ∧
  (L.IsLoadedQTF true h.qtfsum 0 = true → Dims3 h.qtfsum h.Nb h.qhead.length 6) ∧
  (L.IsLoadedQTF false h.qtfdif 0 = true → Dims3 h.qtfdif h.Nb h.qhead.length 6) ∧
  h.msh.length = h.Nb

instance (L : LoadedTests K) (h : Hydro K) : Decidable (LoadedShapes L h) := by
  unfold LoadedShapes; infer_instance

/-- The tests that `SwapDOF` calls answer on the store `h'` as they do on `h`. -/
def LoadedAgree (L : LoadedTests K) (h h' : Hydro K) : Prop :=
  L.IsLoadedA h'.A = L.IsLoadedA h.A ∧
  L.IsLoadedAinf_w h'.Ainf_w = L.IsLoadedAinf_w h.Ainf_w ∧
  L.IsLoadedB h'.B = L.IsLoadedB h.B ∧
  L.IsLoadedA_P h'.A_P = L.IsLoadedA_P h.A_P ∧
  L.IsLoadedB_H h'.B_H = L.IsLoadedB_H h.B_H ∧
  L.IsLoadedB_P h'.B_P = L.IsLoadedB_P h.B_P ∧
  L.IsLoadedKirf h'.Kirf = L.IsLoadedKirf h.Kirf ∧
  L.IsLoadedAinf h'.Ainf = L.IsLoadedAinf h.Ainf ∧
  L.IsLoadedA0 h'.A0 = L.IsLoadedA0 h.A0 ∧
  L.IsLoadedFex h'.ex = L.IsLoadedFex h.ex ∧
  L.IsLoadedFsc h'.sc = L.IsLoadedFsc h.sc ∧
  L.IsLoadedFfk h'.fk = L.IsLoadedFfk h.fk ∧
  L.IsLoadedRAO h'.rao = L.IsLoadedRAO h.rao ∧
  L.IsLoadedFsc_pot h'.sc_pot = L.IsLoadedFsc_pot h.sc_pot ∧
  L.IsLoadedFfk_pot h'.fk_pot = L.IsLoadedFfk_pot h.fk_pot ∧
  L.IsLoadedFfk_pot_bmr h'.fk_pot_bmr = L.IsLoadedFfk_pot_bmr h.fk_pot_bmr ∧
  L.IsLoadedMD h'.md 1 = L.IsLoadedMD h.md 1 ∧
  L.IsLoadedQTF true h'.qtfsum 0 = L.IsLoadedQTF true h.qtfsum 0 ∧
  L.IsLoadedQTF false h'.qtfdif 0 = L.IsLoadedQTF false h.qtfdif 0 ∧
  L.IsLoadedC (h'.msh.map Body.C) = L.IsLoadedC (h.msh.map Body.C) ∧
  L.IsLoadedM (h'.msh.map Body.M) = L.IsLoadedM (h.msh.map Body.M)

instance (L : LoadedTests K) (h h' : Hydro K) : Decidable (LoadedAgree L h h') := by
  unfold LoadedAgree; infer_instance

/-- The helpers `Swap` undo themselves: applied twice with the same indices they give
back the matrices they were given. -/
def SwapHelpers.Involutive (X : SwapHelpers K) : Prop :=
  (∀ A i j, X.Swap (X.Swap A i j) i j = A) ∧
  (∀ C1 C2 i j, X.Swap2 (X.Swap2 C1 C2 i j).1 (X.Swap2 C1 C2 i j).2 i j = (C1, C2)) ∧
  (∀ C i j, X.Swap2Same (X.Swap2Same C i j) i j = C)

/-- The matrix of the shape of `M` that holds `f r c` at `(r, c)`. -/
def tabulate (M : RMatrix K) (f : Nat → Nat → Option K) : RMatrix K :=
  (List.range M.length).map (fun r => (List.range ((M[r]?).getD []).length).map (f r))

/-- Modelled from the spec: `Swap(A, rc1, rc2)` of the utility library on one matrix,
not among the sources ("exchanges all tensor slices associated with one (body, DOF)
pair with another, including mass/stiffness matrix rows+columns"): the exchange of the
rows `rc1` and `rc2` and of the columns `rc1` and `rc2` of the matrix. -/
def exchangeRC (A : RMatrix K) (rc1 rc2 : Nat) : RMatrix K :=
  tabulate A (fun r c => (get2 A (swapIndex rc1 rc2 r) (swapIndex rc1 rc2 c)).getD none)

/-- Modelled from the spec: `Swap(C1, C2, rc1, rc2)` of the utility library on the
matrices of two bodies, not among the sources ("mass/stiffness matrix rows+columns"):
the column `rc1` of `C1` is exchanged with the column `rc2` of `C2`, entry by entry,
and then the row `rc1` of `C1` with the row `rc2` of `C2`. -/
def exchangeRC2 (C1 C2 : RMatrix K) (rc1 rc2 : Nat) : RMatrix K × RMatrix K :=
  let D1 := tabulate C1 (fun r c =>
    if c = rc1 then (get2 C2 r rc2).getD none else (get2 C1 r c).getD none)
  let D2 := tabulate C2 (fun r c =>
    if c = rc2 then (get2 C1 r rc1).getD none else (get2 C2 r c).getD none)
  (tabulate D1 (fun r c =>
      if r = rc1 then (get2 D2 rc2 c).getD none else (get2 D1 r c).getD none),
    tabulate D2 (fun r c =>
      if r = rc2 then (get2 D1 rc1 c).getD none else (get2 D2 r c).getD none))

/-- The helpers `Swap` of `SwapDOF` as exchanges of rows and columns; on one and the
same matrix the exchange of two bodies is the exchange within the matrix. -/
def exchangeHelpers : SwapHelpers K :=
  { Swap := exchangeRC
    Swap2 := exchangeRC2
    Swap2Same := exchangeRC }

/-- The loaded matrices `Ainf` and `A0` are `6Nb x 6Nb`, and the loaded matrices `C`
and `M` of the bodies are `6 x 6`. -/
def MatrixShapes (L : LoadedTests K) (h : Hydro K) : Prop :=
  (L.IsLoadedAinf h.Ainf = true → Dims2 h.Ainf (6 * h.Nb) (6 * h.Nb)) ∧
  (L.IsLoadedA0 h.A0 = true → Dims2 h.A0 (6 * h.Nb) (6 * h.Nb)) ∧
  (L.IsLoadedC (h.msh.map Body.C) = true → ∀ c ∈ h.msh.map Body.C, Dims2 c 6 6) ∧
  (L.IsLoadedM (h.msh.map Body.M) = true → ∀ c ∈ h.msh.map Body.M, Dims2 c 6 6)

instance (L : LoadedTests K) (h : Hydro K) : Decidable (MatrixShapes L h) := by
  unfold MatrixShapes; infer_instance

end

/-! ## Translating there and back -/

section

variable {K : Type} [Field K] [DecidableEq K]

/-- The component `c` after the three statements "cross product of rotation dof" of
`TransF`, `TransMD` and `TransQTF`, from the six components `v` before them and the
translation `d = (dx, dy, dz)`: `v3 += -dy v2 + dz v1`, `v4 += -dz v0 + dx v2`,
`v5 += -dx v1 + dy v0`, the other components as they are. -/
def momentTerm {V : Type} (add : V → V → V) (smul : K → V → V) (d : Fin 3 → K) (v : Nat → V)
    (c : Nat) : V :=
  if c = 3 then add (v 3) (add (smul (-(d 1)) (v 2)) (smul (d 2) (v 1)))
  else if c = 4 then add (v 4) (add (smul (-(d 2)) (v 0)) (smul (d 0) (v 2)))
  else if c = 5 then add (v 5) (add (smul (-(d 0)) (v 1)) (smul (d 1) (v 0)))
  else v c

/-- Read `md[ib][ih][idf](ifr)`. -/
def getMD (md : MDTable K) (ib ih idf ifr : Nat) : Option (Option K) :=
  (get2 md ib ih).bind (fun m => get2 m idf ifr)

/-- The moment transfer of a complex force with six numeric components, `old` before
and `new` after: the force components `0..2` are as before, and the moment components
`3..5` have gained the cross product `F x d` of the force `F = (F0, F1, F2)` with the
vector `d`, in the real and in the imaginary part. -/
def MomentTransferC (d : Fin 3 → K) (old new : Nat → Option (CVal K)) : Prop :=
  ∀ a b : Nat → K, (∀ c, c < 6 → old c = some ⟨some (a c), some (b c)⟩) →
    (∀ c, c < 3 → new c = some ⟨some (a c), some (b c)⟩) ∧
    ∀ k : Fin 3, new (3 + k.val) =
      some ⟨some (a (3 + k.val) + crossProduct ![a 0, a 1, a 2] d k),
        some (b (3 + k.val) + crossProduct ![b 0, b 1, b 2] d k)⟩

/-- The moment transfer of a real force with six numeric components, as
`MomentTransferC`. -/
def MomentTransferR (d : Fin 3 → K) (old new : Nat → Option (Option K)) : Prop :=
  ∀ a : Nat → K, (∀ c, c < 6 → old c = some (some (a c))) →
    (∀ c, c < 3 → new c = some (some (a c))) ∧
    ∀ k : Fin 3, new (3 + k.val) =
      some (some (a (3 + k.val) + crossProduct ![a 0, a 1, a 2] d k))

/-- The loop `for (ib < Nb) qtf[ib].Remove(ih)` on one QTF family. -/
def eraseHeading (Nb ih : Nat) (q : QTFTable K) : QTFTable K :=
  (List.range Nb).foldl (fun q ib => q.modify (fun hs => hs.eraseIdx ih) ib) q

/-- The loop `for (ib < Nb) if (IsLoadedQTF(..)) qtf[ib].Remove(ih)` on one QTF family,
with the test `t` asked on the family as it is when the body `ib` is reached. -/
def eraseHeadingIf (t : QTFTable K → Bool) (Nb ih : Nat) (q : QTFTable K) : QTFTable K :=
  (List.range Nb).foldl (fun q ib =>
    if t q then q.modify (fun hs => hs.eraseIdx ih) ib else q) q

/-- The positions below `n` of the crossed headings of `qhead`: those whose incident
and outgoing headings differ, `qhead[ih].real() != qhead[ih].imag()`. -/
def crossedBelow (n : Nat) (qhead : List (CVal K)) : List Nat :=
  (List.range n).filter (fun ih =>
    Val.ne ((qhead[ih]?).getD ⟨none, none⟩).re ((qhead[ih]?).getD ⟨none, none⟩).im)

/-- The positions of the crossed headings of `qhead`. -/
def crossedHeadings (qhead : List (CVal K)) : List Nat :=
  crossedBelow qhead.length qhead

end

/-! ## Populated stores -/

section

variable {K : Type} [Field K] [DecidableEq K]

/-- The table holds a series of `Nf > 0` samples for each of the `6Nb x 6Nb` pairs of
degrees of freedom, and every sample is a number. -/
def NumAB (A : SeriesTable K) (Nb Nf : Nat) : Prop :=
  0 < Nf ∧ Dims3 A (6 * Nb) (6 * Nb) Nf ∧ ∀ r ∈ A, ∀ c ∈ r, ∀ v ∈ c, IsNum v = true

instance (A : SeriesTable K) (Nb Nf : Nat) : Decidable (NumAB A Nb Nf) := by
  unfold NumAB; infer_instance

/-- The matrix is `6Nb x 6Nb` and every entry is a number. -/
def NumA (A : RMatrix K) (Nb : Nat) : Prop :=
  Dims2 A (6 * Nb) (6 * Nb) ∧ ∀ r ∈ A, ∀ v ∈ r, IsNum v = true

instance (A : RMatrix K) (Nb : Nat) : Decidable (NumA A Nb) := by
  unfold NumA; infer_instance

/-- Every matrix of the force table is `Nf x 6` and holds complex numbers. -/
def NumF (ex : Forces K) (Nf : Nat) : Prop :=
  ∀ r ∈ ex, ∀ m ∈ r, Dims2 m Nf 6 ∧ ∀ row ∈ m, ∀ v ∈ row, CVal.IsNum v = true

instance (ex : Forces K) (Nf : Nat) : Decidable (NumF ex Nf) := by
  unfold NumF; infer_instance

/-- Every matrix of the mean drift is `6 x Nf` and holds numbers. -/
def NumMD (md : MDTable K) (Nf : Nat) : Prop :=
  ∀ r ∈ md, ∀ m ∈ r, Dims2 m 6 Nf ∧ ∀ row ∈ m, ∀ v ∈ row, IsNum v = true

instance (md : MDTable K) (Nf : Nat) : Decidable (NumMD md Nf) := by
  unfold NumMD; infer_instance

/-- Every cell of the QTF table holds six `nqw x nqw` matrices of complex numbers. -/
def NumQTF (q : QTFTable K) (nqw : Nat) : Prop :=
  ∀ r ∈ q, ∀ m ∈ r, m.length = 6 ∧
    ∀ c ∈ m, Dims2 c nqw nqw ∧ ∀ row ∈ c, ∀ v ∈ row, CVal.IsNum v = true

instance (q : QTFTable K) (nqw : Nat) : Decidable (NumQTF q nqw) := by
  unfold NumQTF; infer_instance

/-- The reference points `dt.msh[ib].dt.c0` of the `Nb` bodies as a `3 x Nb` target
matrix: the argument of the translation back to the original reference points. -/
def centres (h : Hydro K) : RMatrix K :=
  (List.finRange 3).map (fun idf => (List.range h.Nb).map (fun ib => (c0Of h.msh ib).get idf))

/-- The store is populated: it has its `Nb` bodies, their reference points are numbers,
and each loaded family that `GetTranslationTo` transforms has the shape that the counts
of the store announce and holds numbers only. -/
def Populated (L : LoadedTests K) (h : Hydro K) : Prop :=
  h.Nb ≤ h.msh.length ∧ IsNumMat (centres h) = true ∧
  (L.IsLoadedA h.A = true → NumAB h.A h.Nb h.Nf) ∧
  (L.IsLoadedAinf_w h.Ainf_w = true → NumAB h.Ainf_w h.Nb h.Nf) ∧
  (L.IsLoadedB h.B = true → NumAB h.B h.Nb h.Nf) ∧
  (L.IsLoadedB_H h.B_H = true → NumAB h.B_H h.Nb h.Nf) ∧
  (L.IsLoadedA0 h.A0 = true → NumA h.A0 h.Nb) ∧
  (L.IsLoadedAinf h.Ainf = true → NumA h.Ainf h.Nb) ∧
  (L.IsLoadedFex h.ex = true → NumF h.ex h.Nf) ∧
  (L.IsLoadedFsc h.sc = true → NumF h.sc h.Nf) ∧
  (L.IsLoadedFfk h.fk = true → NumF h.fk h.Nf) ∧
  (L.IsLoadedMD h.md 0 = true → NumMD h.md h.Nf) ∧
  (L.IsLoadedQTF true h.qtfsum 0 = true → NumQTF h.qtfsum h.qw.length) ∧
  (L.IsLoadedQTF false h.qtfdif 0 = true → NumQTF h.qtfdif h.qw.length)

instance (L : LoadedTests K) (h : Hydro K) : Decidable (Populated L h) := by
  unfold Populated; infer_instance

/-- The tests that `GetTranslationTo` calls answer on the store `h'` as they do on
`h`. -/
def TranslationAgree (L : LoadedTests K) (h h' : Hydro K) : Prop :=
  L.IsLoadedA h'.A = L.IsLoadedA h.A ∧
  L.IsLoadedAinf_w h'.Ainf_w = L.IsLoadedAinf_w h.Ainf_w ∧
  L.IsLoadedB h'.B = L.IsLoadedB h.B ∧
  L.IsLoadedB_H h'.B_H = L.IsLoadedB_H h.B_H ∧
  L.IsLoadedA0 h'.A0 = L.IsLoadedA0 h.A0 ∧
  L.IsLoadedAinf h'.Ainf = L.IsLoadedAinf h.Ainf ∧
  L.IsLoadedFex h'.ex = L.IsLoadedFex h.ex ∧
  L.IsLoadedFsc h'.sc = L.IsLoadedFsc h.sc ∧
  L.IsLoadedFfk h'.fk = L.IsLoadedFfk h.fk ∧
  L.IsLoadedMD h'.md 0 = L.IsLoadedMD h.md 0 ∧
  L.IsLoadedQTF true h'.qtfsum 0 = L.IsLoadedQTF true h.qtfsum 0 ∧
  L.IsLoadedQTF false h'.qtfdif 0 = L.IsLoadedQTF false h.qtfdif 0

instance (L : LoadedTests K) (h h' : Hydro K) : Decidable (TranslationAgree L h h') := by
  unfold TranslationAgree; infer_instance

/-- The added-mass and damping families are populated: the store has its `Nb` bodies,
and each loaded table or matrix that `TransAB` or `TransA` transforms has the shape that
the counts of the store announce and holds numbers only. -/
def PopulatedAB (L : LoadedTests K) (h : Hydro K) : Prop :=
  h.Nb ≤ h.msh.length ∧
  (L.IsLoadedA h.A = true → NumAB h.A h.Nb h.Nf) ∧
  (L.IsLoadedAinf_w h.Ainf_w = true → NumAB h.Ainf_w h.Nb h.Nf) ∧
  (L.IsLoadedB h.B = true → NumAB h.B h.Nb h.Nf) ∧
  (L.IsLoadedB_H h.B_H = true → NumAB h.B_H h.Nb h.Nf) ∧
  (L.IsLoadedA0 h.A0 = true → NumA h.A0 h.Nb) ∧
  (L.IsLoadedAinf h.Ainf = true → NumA h.Ainf h.Nb)

instance (L : LoadedTests K) (h : Hydro K) : Decidable (PopulatedAB L h) := by
  unfold PopulatedAB; infer_instance

/-- The tests of the added-mass and damping families and of the first-order forces
answer on the store `h'` as they do on `h`. -/
def TranslationAgreeAF (L : LoadedTests K) (h h' : Hydro K) : Prop :=
  L.IsLoadedA h'.A = L.IsLoadedA h.A ∧
  L.IsLoadedAinf_w h'.Ainf_w = L.IsLoadedAinf_w h.Ainf_w ∧
  L.IsLoadedB h'.B = L.IsLoadedB h.B ∧
  L.IsLoadedB_H h'.B_H = L.IsLoadedB_H h.B_H ∧
  L.IsLoadedA0 h'.A0 = L.IsLoadedA0 h.A0 ∧
  L.IsLoadedAinf h'.Ainf = L.IsLoadedAinf h.Ainf ∧
  L.IsLoadedFex h'.ex = L.IsLoadedFex h.ex ∧
  L.IsLoadedFsc h'.sc = L.IsLoadedFsc h.sc ∧
  L.IsLoadedFfk h'.fk = L.IsLoadedFfk h.fk

instance (L : LoadedTests K) (h h' : Hydro K) : Decidable (TranslationAgreeAF L h h') := by
  unfold TranslationAgreeAF; infer_instance

end

/-! ## The Haskind damping -/

section

variable {K : Type} [LinearOrderedField K]

/-- Routines and data called by `GetB_H` whose code is not among the sources: the
per-DOF test `IsLoadedFex(idf, ih, ib)`, the modulus `abs` of a complex value, the
change of dimension `F_dim(val, idf)`, `SeaWaves::WaveNumber_w(w, -1, g, true)`, the
constants `g_dim()`, `rho_dim()`, `rho_ndim()` and `M_PI`, the factor
`pow(dt.len, GetK_AB(idf, idf))`, `LinearInterpolate` and the Simpson `Integral`. -/
structure HaskindHelpers (K : Type) where
  IsLoadedFexDOF : Forces K → Nat → Nat → Nat → Bool
  abs : CVal K → K
  F_dim : K → Nat → K
  WaveNumber_w : K → K
  g_dim : K
  rho_dim : K
  rho_ndim : K
  pi : K
  lenPow : Nat → K
  LinearInterpolate : K → K → K → K → K → K
  Integral : List K → List K → K

/-- The loop of `GetB_H` that lists in `idRemove` the headings closer than `angle` to
the last heading kept: the state is `(idRemove, nextAngle)`. -/
def HaskindRemove (head360 : List K) (angle : K) : List Nat × K :=
  (List.range' 1 (head360.length - 1)).foldl (fun (st : List Nat × K) i =>
    if head360.getD i 0 < st.2 then (st.1 ++ [i], st.2) else (st.1, st.2 + angle))
    ([], head360.getD 0 0 + angle)

/-- The loop `for (i = idRemove.size()-1; i >= 0; --i) v.Remove(idRemove[i])`. -/
def removeBackwards {α : Type} (idRemove : List Nat) (v : List α) : List α :=
  idRemove.reverse.foldl (fun v i => v.eraseIdx i) v

/-- The range of the headings kept, `enum RangeType` of `GetB_H`. -/
inductive RangeType where
  | R_0_360
  | R_x_360
  | R_0_x
  | R_x_x
deriving DecidableEq

/-- The range type of the headings kept, from the first one `hd0` and the last one
`hdl`. -/
def HaskindRange (hd0 hdl : K) : RangeType :=
  if hd0 = 0 ∧ hdl < 360 then RangeType.R_0_x
  else if 0 < hd0 ∧ hdl = 360 then RangeType.R_x_360
  else if 0 < hd0 ∧ hdl < 360 then RangeType.R_x_x
  else RangeType.R_0_360

/-- The headings kept, completed to the range from 0 to 360 degrees. -/
def HaskindHeads (rt : RangeType) (head360 : List K) : List K :=
  match rt with
  | RangeType.R_0_x => head360 ++ [360]
  | RangeType.R_x_360 => 0 :: head360
  | RangeType.R_x_x => 0 :: head360 ++ [360]
  | RangeType.R_0_360 => head360

/-- The squared forces `F2` of one body, degree of freedom and frequency, thinned and
completed like the headings. -/
def HaskindF2 (E : HaskindHelpers K) (h : Hydro K) (idRemove : List Nat) (rt : RangeType)
    (hd0 hdl : K) (ib idf ifr : Nat) : List K :=
  let F2 := (List.range h.Nh).map (fun ih =>
    sqr (E.F_dim (E.abs ((getF h.ex ib ih ifr idf).getD ⟨none, none⟩)) idf))
  let F2 := removeBackwards idRemove F2
  match rt with
  | RangeType.R_0_x => F2 ++ [F2.getD 0 0]
  | RangeType.R_x_360 => (F2.getLast?.getD 0) :: F2
  | RangeType.R_x_x =>
    let f := E.LinearInterpolate 360 hdl (360 + hd0) (F2.getLast?.getD 0) (F2.getD 0 0)
    f :: F2 ++ [f]
  | RangeType.R_0_360 => F2

/-- `Hydro::GetB_H(num)`: the store with the Haskind damping `B_H` and the number of
headings used, which the source returns in `num`, or the exception thrown. The depth
`dt.h` and the flag `dt.dimen`, which the store of this model does not hold, are the
arguments `depth` and `dimen`; the headings and frequencies are numbers. `360/num` is
the quotient of two `int`s. -/
def GetB_H (L : LoadedTests K) (E : HaskindHelpers K) (h : Hydro K) (depth : Option K)
    (dimen : Bool) (num : Int) : Except String (Hydro K × Int) :=
  if !L.IsLoadedFex h.ex then Except.error "The excitation force is not loaded"
  else if h.Nf = 0 then Except.error "No frecuencies loaded"
  else if num > h.Nh then Except.error "Number of headings is higher than available"
  else if num ≤ 0 then Except.error "Not enough headings for Haskind calculation"
  else if depth.isNone then Except.error "Unknown depth"
  else
    let head := h.head.map (fun x => Nvl x 0)
    let angle : K := ((Int.tdiv 360 num : Int) : K)
    let idRemove := (HaskindRemove head angle).1
    let num' : Int := (h.head.length : Int) - idRemove.length
    let head360 := removeBackwards idRemove head
    let hd0 := head360.getD 0 0
    let hdl := head360.getLast?.getD 0
    let rt := HaskindRange hd0 hdl
    let heads := HaskindHeads rt head360
    let val : Nat → K := fun ifr =>
      freq h ifr * E.WaveNumber_w (freq h ifr) / (4 * E.pi * E.rho_dim * E.g_dim * E.g_dim)
    let B_H := (List.range h.Nb).foldl (fun B_H ib =>
      (List.range 6).foldl (fun B_H idf =>
        if !E.IsLoadedFexDOF h.ex idf 0 ib then B_H
        else
          let b : Nat → K := fun ifr =>
            E.Integral heads (HaskindF2 E h idRemove rt hd0 hdl ib idf ifr) * val ifr * E.pi / 180
          if dimen then
            set2 B_H idf idf ((List.range h.Nf).map (fun ifr =>
              some (b ifr * E.rho_ndim / E.rho_dim)))
          else
            set2 B_H idf idf ((List.range h.Nf).map (fun ifr =>
              some (b ifr / (E.rho_dim * E.lenPow idf * freq h ifr))))) B_H)
      (Initialize_AB h.Nb h.Nf)
    Except.ok ({ h with B_H := B_H }, num')

end

/-! ## The cutoff time of the radiation kernel -/

section

variable {K : Type} [Field K] [DecidableEq K]

/-- The quotient `a/b` of two `double`s: not a number (`none`) when the divisor is
zero, where the machine quotient is `NaN` or infinite. -/
def fdiv (a b : K) : Option K := if b = 0 then none else some (a / b)

/-- The loop of `GetK_IRF_MaxT` over `iw = 1 .. w.size() - 1`: the state is
`(delta, num)`. -/
def GetK_IRF_MaxT_loop (w : List K) : K × Nat :=
  (List.range' 1 (w.length - 1)).foldl (fun (st : K × Nat) iw =>
    if w.getD iw 0 ≠ w.getD (iw - 1) 0 then
      (st.1 + (w.getD iw 0 - w.getD (iw - 1) 0), st.2 + 1)
    else st) (0, 0)

/-- The static `Hydro::GetK_IRF_MaxT(w)`, with `M_PI` as the parameter `pi`: `-1` for
fewer than two samples, else `pi/(delta/num)`; the result is not a number (`none`)
when one of the two divisions is by zero. -/
def GetK_IRF_MaxT (pi : K) (w : List K) : Option K :=
  if w.length < 2 then some (-1)
  else
    let st := GetK_IRF_MaxT_loop w
    (fdiv st.1 (st.2 : K)).bind (fun delta => fdiv pi delta)

end

/-! ## MultiplyDOF -/

section

variable {K : Type} [Field K] [DecidableEq K]

/-- The list `idDOF` that `MultiplyDOF` builds from its argument `_idDOF`:
`for (idof) for (ib) idDOF << _idDOF[idof] + ib*6`. -/
def expandDOF (Nb : Nat) (_idDOF : List Nat) : List Nat :=
  _idDOF.flatMap (fun d => (List.range Nb).map (fun ib => d + ib * 6))

/-- The test of the innermost loop of `MultiplyAB` and `MultiplyAinfA0`, which stops at
the first `idof` that passes: some entry of `idDOF` selects the pair `(idf, jdf)`. -/
def MultiplyABtest (diag : Bool) (idDOF : List Nat) (idf jdf : Nat) : Bool :=
  idDOF.any (fun d => (diag && idf == d && jdf == d) || (!diag && (idf == d || jdf == d)))

/-- The lambda `MultiplyAB` of `MultiplyDOF`. -/
def MultiplyAB (factor : K) (Nb : Nat) (diag : Bool) (idDOF : List Nat) (A : SeriesTable K) :
    SeriesTable K :=
  (List.range (6 * Nb)).foldl (fun A idf =>
    (List.range (6 * Nb)).foldl (fun A jdf =>
      if MultiplyABtest diag idDOF idf jdf then
        modify2 A idf jdf (fun s => s.map (Val.smul factor))
      else A) A) A

/-- The lambda `MultiplyAinfA0` of `MultiplyDOF`. -/
def MultiplyAinfA0 (factor : K) (Nb : Nat) (diag : Bool) (idDOF : List Nat) (A : RMatrix K) :
    RMatrix K :=
  (List.range (6 * Nb)).foldl (fun A idf =>
    (List.range (6 * Nb)).foldl (fun A jdf =>
      if MultiplyABtest diag idDOF idf jdf then modify2 A idf jdf (Val.smul factor)
      else A) A) A

/-- The lambda `MultiplyF` of `MultiplyDOF`; it runs over the argument `_idDOF`. -/
def MultiplyF (factor : K) (Nb Nh Nf : Nat) (_idDOF : List Nat) (ex : Forces K) : Forces K :=
  (List.range Nb).foldl (fun ex ib =>
    (List.range Nh).foldl (fun ex ih =>
      (List.range Nf).foldl (fun ex ifr =>
        _idDOF.foldl (fun ex d =>
          modify2 ex ib ih (fun m => modify2 m ifr d (CVal.smul factor))) ex) ex) ex) ex

/-- The entries `dt.md[ib][ih][idDOF[idof]](ifr)` that the loops of the lambda
`MultiplyMD` go through, in their order, as `(ib, ih, idDOF[idof], ifr)`; `nmh` is
`dt.mdhead.size()`. -/
def MultiplyMDaccesses (Nb nmh Nf : Nat) (idDOF : List Nat) : List (Nat × Nat × Nat × Nat) :=
  (List.range Nb).flatMap (fun ib => (List.range nmh).flatMap (fun ih =>
    idDOF.flatMap (fun d => (List.range Nf).map (fun ifr => (ib, ih, d, ifr)))))

/-- The lambda `MultiplyMD` of `MultiplyDOF`: each entry it goes through is multiplied
by `factor`. It runs over the list `idDOF` built by `MultiplyDOF`. An entry that the
table does not hold is left out here; the source indexes the array with it. -/
def MultiplyMD (factor : K) (Nb nmh Nf : Nat) (idDOF : List Nat) (md : MDTable K) :
    MDTable K :=
  (MultiplyMDaccesses Nb nmh Nf idDOF).foldl (fun md p =>
    modify2 md p.1 p.2.1 (fun m => modify2 m p.2.2.1 p.2.2.2 (Val.smul factor))) md

/-- The lambda `MultiplySumDif` of `MultiplyDOF`; `nqh` is `dt.qhead.size()`; it runs
over the argument `_idDOF`. -/
def MultiplySumDif (factor : K) (Nb nqh : Nat) (_idDOF : List Nat) (qtf : QTFTable K) :
    QTFTable K :=
  (List.range Nb).foldl (fun q ib =>
    (List.range nqh).foldl (fun q ih =>
      _idDOF.foldl (fun q d =>
        modify3 q ib ih d (fun m => m.map (fun r => r.map (CVal.smul factor)))) q) q) qtf

/-- `Hydro::MultiplyDOF(factor, _idDOF, a, b, diag, f, ismd, qtf, C)`, up to its closing
call of `AfterLoad`. Each family is tested and multiplied on its own container. -/
def MultiplyDOF (L : LoadedTests K) (h : Hydro K) (factor : K) (_idDOF : List Nat)
    (a b diag f ismd qtf C : Bool) : Hydro K :=
  if _idDOF.length = 0 then h
  else
    let idDOF := expandDOF h.Nb _idDOF
    { h with
      A := if a && L.IsLoadedA h.A then MultiplyAB factor h.Nb diag idDOF h.A else h.A
      Ainf_w := if a && L.IsLoadedAinf_w h.Ainf_w then
        MultiplyAB factor h.Nb diag idDOF h.Ainf_w else h.Ainf_w
      B := if b && L.IsLoadedB h.B then MultiplyAB factor h.Nb diag idDOF h.B else h.B
      A_P := if a && L.IsLoadedA_P h.A_P then
        MultiplyAB factor h.Nb diag idDOF h.A_P else h.A_P
      B_H := if b && L.IsLoadedB_H h.B_H then
        MultiplyAB factor h.Nb diag idDOF h.B_H else h.B_H
      B_P := if b && L.IsLoadedB_P h.B_P then
        MultiplyAB factor h.Nb diag idDOF h.B_P else h.B_P
      Ainf := if a && L.IsLoadedAinf h.Ainf then
        MultiplyAinfA0 factor h.Nb diag idDOF h.Ainf else h.Ainf
      A0 := if a && L.IsLoadedA0 h.A0 then MultiplyAinfA0 factor h.Nb diag idDOF h.A0 else h.A0
      ex := if f && L.IsLoadedFex h.ex then MultiplyF factor h.Nb h.Nh h.Nf _idDOF h.ex
        else h.ex
      sc := if f && L.IsLoadedFsc h.sc then MultiplyF factor h.Nb h.Nh h.Nf _idDOF h.sc
        else h.sc
      fk := if f && L.IsLoadedFfk h.fk then MultiplyF factor h.Nb h.Nh h.Nf _idDOF h.fk
        else h.fk
      rao := if f && L.IsLoadedRAO h.rao then MultiplyF factor h.Nb h.Nh h.Nf _idDOF h.rao
        else h.rao
      sc_pot := if f && L.IsLoadedFsc_pot h.sc_pot then
        MultiplyF factor h.Nb h.Nh h.Nf _idDOF h.sc_pot else h.sc_pot
      fk_pot := if f && L.IsLoadedFfk_pot h.fk_pot then
        MultiplyF factor h.Nb h.Nh h.Nf _idDOF h.fk_pot else h.fk_pot
      fk_pot_bmr := if f && L.IsLoadedFfk_pot_bmr h.fk_pot_bmr then
        MultiplyF factor h.Nb h.Nh h.Nf _idDOF h.fk_pot_bmr else h.fk_pot_bmr
      md := if ismd && L.IsLoadedMD h.md 0 then
        MultiplyMD factor h.Nb h.mdhead.length h.Nf idDOF h.md else h.md
      qtfsum := if qtf && L.IsLoadedQTF true h.qtfsum 0 then
        MultiplySumDif factor h.Nb h.qhead.length _idDOF h.qtfsum else h.qtfsum
      qtfdif := if qtf && L.IsLoadedQTF false h.qtfdif 0 then
        MultiplySumDif factor h.Nb h.qhead.length _idDOF h.qtfdif else h.qtfdif
      msh := if C && L.IsLoadedC (h.msh.map Body.C) then
        (List.range h.Nb).foldl (fun msh ib =>
          msh.modify (fun bd => { bd with C := bd.C.map (fun r => r.map (Val.smul factor)) }) ib)
          h.msh
        else h.msh
      Kirf := [] }

end

/-! ## NumSets -/

/-- The loop of `NumSets`: `for (int i = 0; numsets > 0; ++i) { int delta = int(num/numsets);
ret[i] = delta; num -= delta; numsets--; }`. The division of two `int`s truncates. The
loop ends because `numsets` decreases; `fuel` bounds the number of rounds. -/
def NumSetsLoop : Nat → List Int → Nat → Int → Int → List Int
  | 0, ret, _, _, _ => ret
  | fuel + 1, ret, i, num, numsets =>
    if numsets > 0 then
      let delta := Int.tdiv num numsets
      NumSetsLoop fuel (ret.set i delta) (i + 1) (num - delta) (numsets - 1)
    else ret

/-- `NumSets(num, numsets)`: `ret.SetCount(numsets)` and the loop, which runs `numsets`
rounds. -/
def NumSets (num numsets : Int) : List Int :=
  NumSetsLoop numsets.toNat (List.replicate numsets.toNat 0) 0 num numsets

/-! ## The ridge system of `GetC` -/

section

variable {K : Type} [Field K]

/-- The statement `C = F * X.transpose() * (X * X.transpose() + lambda * Identity(6, 6))
.inverse()` of `GetC`, with `lambda = 0.1`, for matrices `X` and `F` of `n` columns;
`m.inverse()` is the adjugate over the determinant. -/
def GetCsolve {n : Nat} (F X : Matrix (Fin 6) (Fin n) K) : Matrix (Fin 6) (Fin 6) K :=
  let lambda : K := 1 / 10
  let G : Matrix (Fin 6) (Fin 6) K := X * X.transpose + lambda • (1 : Matrix (Fin 6) (Fin 6) K)
  F * X.transpose * (G.det⁻¹ • G.adjugate)

/-- The matrix `X` that `GetC` builds for the body `ib`: the column `ii = ih Nf + ifr`
is the real part of the RAO at `(ih, ifr)`, zero where it is missing. -/
def GetC_X (E : RAOHelpers K) (h : Hydro K) (ib : Nat) : Matrix (Fin 6) (Fin (h.Nh * h.Nf)) K :=
  fun i c =>
    if (E.RAO_ h false h.rao (c / h.Nf) (c % h.Nf) ib i).IsNum then
      Nvl (E.RAO_ h false h.rao (c / h.Nf) (c % h.Nf) ib i).re 0
    else 0

/-- The matrix `F` that `GetC` builds for the body `ib`: the column `ii = ih Nf + ifr`
is `GetC_KX` at `(ih, ifr)`. -/
def GetC_F (E : RAOHelpers K) (h : Hydro K) (ib : Nat) : Matrix (Fin 6) (Fin (h.Nh * h.Nf)) K :=
  fun i c =>
    GetC_KX (freq h (c % h.Nf)) (E.A_mat h false (c % h.Nf) ib ib)
      (E.F_ h false h.ex (c / h.Nf) (c % h.Nf) ib) (fun i => GetC_X E h ib i c)
      (mat6 (bodyM h ib)) i

end

/-! ## SpreadNegative -/

section

variable {K : Type} [LinearOrderedField K]

/-- `Tensor<double, 5>`: the per-panel added mass `dt.Apan(ib, ip, idf, jdf, ifr)`, as
the function of its five indices. -/
abbrev Tensor5 (K : Type) := Nat → Nat → Nat → Nat → Nat → K

/-- The assignment `A(i1, i2, i3, i4, i5) = v`. -/
def Tensor5.set (A : Tensor5 K) (i1 i2 i3 i4 i5 : Nat) (v : K) : Tensor5 K :=
  fun a b c d e => if a = i1 ∧ b = i2 ∧ c = i3 ∧ d = i4 ∧ e = i5 then v else A a b c d e

/-- The loop of `SpreadNegative` over the closest panels `panIDs` of the panel `idp`,
for the degree of freedom `idf` and the frequency `ifr`: the negative mass `apan` of the
panel is taken from the panels that have a positive one, until one of them has enough
of it (`break`). `apan` and `apan_i` are references into the tensor. -/
def SpreadToPanels (ib idp idf ifr : Nat) : List Nat → Tensor5 K → Tensor5 K
  | [], A => A
  | i :: rest, A =>
    if A ib i idf idf ifr > 0 then
      if A ib i idf idf ifr + A ib idp idf idf ifr ≥ 0 then
        (A.set ib i idf idf ifr (A ib i idf idf ifr + A ib idp idf idf ifr)).set
          ib idp idf idf ifr 0
      else
        SpreadToPanels ib idp idf ifr rest
          ((A.set ib idp idf idf ifr (A ib idp idf idf ifr + A ib i idf idf ifr)).set
            ib i idf idf ifr 0)
    else SpreadToPanels ib idp idf ifr rest A

/-- `FindAdd(errors, s)`: `s` is added when it is not there. -/
def FindAdd (errors : List String) (s : String) : List String :=
  if errors.contains s then errors else errors ++ [s]

/-- The body of the loops over `ifr` and `idf` of `SpreadNegative`, for the panel `idp`
of the body `ib`: the state is the tensor and the list `errors`. `npan` is
`dt.pots_rad[ib].size()`, `panIDs` the closest panels of `idp` given by
`GetClosestPanels`, and `text` the message made by `Format`. -/
def SpreadPanelStep (npan : Nat) (panIDs : List Nat) (text : Nat → Nat → Nat → String)
    (ib idp ifr : Nat) (st : Tensor5 K × List String) (idf : Nat) :
    Tensor5 K × List String :=
  if st.1 ib idp idf idf ifr < 0 then
    let A := SpreadToPanels ib idp idf ifr panIDs st.1
    if A ib idp idf idf ifr < 0 then
      ((List.range npan).foldl (fun A i => A.set ib i idf idf ifr 0) A,
        FindAdd st.2 (text ib idf ifr))
    else (A, st.2)
  else st

/-- The state of the loops over the bodies and panels of `SpreadNegative`. -/
structure SpreadState (K : Type) where
  Apan : Tensor5 K
  errors : List String
  num : Nat

/-- The body of the loop over the panels of `SpreadNegative`: the progress callback,
which may be empty, is called when the percentage is even, and the call throws when
it declines. -/
def SpreadPanel (Nf numT : Nat) (npan : Nat → Nat) (closest : Nat → Nat → List Nat)
    (text : Nat → Nat → Nat → String) (Status : Option (String → Int → Bool)) (ib : Nat)
    (st : SpreadState K) (idp : Nat) : Except String (SpreadState K) :=
  let adv := 100 * st.num / numT
  if (match Status with
      | some g => adv % 2 == 0 && !g "Spreading negative values in diagonal" adv
      | none => false) then
    Except.error "Stop by user"
  else
    let r := (List.range Nf).foldl (fun s ifr =>
      (List.range 6).foldl (SpreadPanelStep (npan ib) (closest ib idp) text ib idp ifr) s)
      (st.Apan, st.errors)
    Except.ok ⟨r.1, r.2, st.num + 1⟩

/-- `Hydro::SpreadNegative(Status)` on the per-panel added mass `Apan`, which the store
of this model does not hold: the tensor it leaves and the text it returns, or the
exception thrown. `Nb` and `Nf` are the counts of the store, `npan ib` is
`dt.pots_rad[ib].size()`, `closest ib idp` the list given by `GetClosestPanels` and
`text` the message made by `Format`, all three not among the sources. -/
def SpreadNegative (Nb Nf : Nat) (npan : Nat → Nat) (closest : Nat → Nat → List Nat)
    (text : Nat → Nat → Nat → String) (Status : Option (String → Int → Bool))
    (Apan : Tensor5 K) : Except String (Tensor5 K × String) :=
  let numT := ((List.range Nb).map npan).sum
  match (List.range Nb).foldlM (fun st ib =>
      (List.range (npan ib)).foldlM (SpreadPanel Nf numT npan closest text Status ib) st)
      (⟨Apan, [], 0⟩ : SpreadState K) with
  | Except.error e => Except.error e
  | Except.ok st =>
    Except.ok (st.Apan, String.intercalate "\n" (st.errors.mergeSort (fun a b => decide (a ≤ b))))

end

/-! ## The joined fields of a Wamit line -/

/-- `IsTabSpace(c)`. -/
def IsTabSpace (c : Char) : Bool := c = '\t' || c = ' ' || c = '!'

/-- The scan of `Split`: `cur` holds the characters of the token being read. -/
def SplitScan (sep : Char → Bool) : List Char → List Char → List (List Char)
  | [], cur => if cur.isEmpty then [] else [cur]
  | c :: rest, cur =>
    if sep c then
      if cur.isEmpty then SplitScan sep rest [] else cur :: SplitScan sep rest []
    else SplitScan sep rest (cur ++ [c])

/-- Modelled from the spec: `Split(line, IsTabSpace, true)` of the string library, not
among the sources: the tokens of the line delimited by the separator characters,
empty tokens ignored. -/
def Split (sep : Char → Bool) (line : List Char) : List (List Char) := SplitScan sep line []

/-- The body of the loop over the characters of the token `s` in
`LoadWamitJoinedFields`, at index `i`: the state is `fields` and the field `ns` being
built. -/
def JoinedFieldsStep (s : List Char) (st : List (List Char) × List Char) (i : Nat) :
    List (List Char) × List Char :=
  let c := s.getD i ' '
  if c = '-' then
    if i = 0 then (st.1, st.2 ++ [c])
    else if s.getD (i - 1) ' ' = 'E' then (st.1, st.2 ++ [c])
    else (st.1 ++ [st.2], [c])
  else (st.1, st.2 ++ [c])

/-- The body of the loop over the tokens in `LoadWamitJoinedFields`: the fields of the
token `s` are added to `fields`. -/
def JoinedFieldsToken (fields : List (List Char)) (s : List Char) : List (List Char) :=
  let st := (List.range s.length).foldl (JoinedFieldsStep s) (fields, [])
  st.1 ++ [st.2]

/-- `LineParserWamit::LoadWamitJoinedFields(line)`: the member `fields` that it leaves;
a string is the list of its characters. -/
def LoadWamitJoinedFields (line : List Char) : List (List Char) :=
  (Split IsTabSpace line).foldl JoinedFieldsToken []

/-! ## Sample stores -/

section

variable {K : Type}

/-- A store with no body and every container empty. -/
def emptyStore : Hydro K :=
  { Nb := 0, Nf := 0, Nh := 0, w := [], head := [], A := [], Ainf_w := [], B := [], A_P := [],
    B_H := [], B_P := [], Kirf := [], Ainf := [], A0 := [], ex := [], sc := [], fk := [],
    rao := [], sc_pot := [], fk_pot := [], fk_pot_bmr := [], md := [], mdhead := [],
    qtfsum := [], qtfdif := [], qw := [], qhead := [], msh := [] }

/-- Loaded tests that answer from the first body's first entry being a number,
the idiom `x.size() == 0 || !IsNum(x[0])` of the source turned into a test. -/
def firstEntryTests : LoadedTests K :=
  { IsLoadedA := fun a => ((get3 a 0 0 0).getD none).isSome
    IsLoadedAinf_w := fun a => ((get3 a 0 0 0).getD none).isSome
    IsLoadedB := fun a => ((get3 a 0 0 0).getD none).isSome
    IsLoadedA_P := fun a => ((get3 a 0 0 0).getD none).isSome
    IsLoadedB_H := fun a => ((get3 a 0 0 0).getD none).isSome
    IsLoadedB_P := fun a => ((get3 a 0 0 0).getD none).isSome
    IsLoadedKirf := fun a => ((get3 a 0 0 0).getD none).isSome
    IsLoadedAinf := fun a => ((get2 a 0 0).getD none).isSome
    IsLoadedA0 := fun a => ((get2 a 0 0).getD none).isSome
    IsLoadedFex := fun f => !f.isEmpty
    IsLoadedFsc := fun f => !f.isEmpty
    IsLoadedFfk := fun f => !f.isEmpty
    IsLoadedRAO := fun f => !f.isEmpty
    IsLoadedFsc_pot := fun f => !f.isEmpty
    IsLoadedFfk_pot := fun f => !f.isEmpty
    IsLoadedFfk_pot_bmr := fun f => !f.isEmpty
    IsLoadedMD := fun m ib => (m[ib]?).isSome
    IsLoadedQTF := fun _ q ib => (q[ib]?).isSome
    IsLoadedC := fun m => !m.isEmpty
    IsLoadedM := fun m => !m.isEmpty
    IsLoadedMesh := fun m ib => (m[ib]?).isSome }

/-- A body at the origin with no matrices. -/
def bodyAtOrigin : Body ℚ :=
  { c0 := ⟨some 0, some 0, some 0⟩, C := [], M := [], Aadd := [], Cmoor := [], Cadd := [],
    Dlin := [], Dquad := [] }

/-- One body, two frequencies: `A[i][j] = (i + 2 j, 1)`, `B[i][j] = (i j, missing)`. -/
def storeAB : Hydro ℚ :=
  { (emptyStore : Hydro ℚ) with
    Nb := 1, Nf := 2, w := [some 1, some 2], msh := [bodyAtOrigin]
    A := (List.range 6).map (fun i => (List.range 6).map (fun j =>
      [some ((i : ℚ) + 2 * j), some 1]))
    B := (List.range 6).map (fun i => (List.range 6).map (fun j =>
      [some ((i : ℚ) * j), none])) }

/-- The target `(1, 2, 3)` for one body, as a `3 x 1` matrix. -/
def target123 : RMatrix ℚ := [[some 1], [some 2], [some 3]]

/-- External routines that leave the inertia matrix and the kernel as they are. -/
def keepExternals : Externals K :=
  { TranslateInertia66 := fun b _ => b.M
    GetK_IRF := fun h => h.Kirf }

/-- A progress callback that always asks to continue. -/
def goOn : String → Int → Bool := fun _ _ => true

/-- The partition at the offsets `(oi, oj)` of the block `(0, 0)` of `storeAB.A` at the
first frequency. -/
def partAB (oi oj : Nat) : Matrix (Fin 3) (Fin 3) ℚ :=
  fun i j => ((oi + i.val : Nat) : ℚ) + 2 * ((oj + j.val : Nat) : ℚ)

/-- One body, one mean-drift heading, two frequencies: every mean-drift series is
`(5, 7)`. -/
def storeMD : Hydro ℚ :=
  { (emptyStore : Hydro ℚ) with
    Nb := 1, Nf := 2, w := [some 1, some 2], mdhead := [⟨some 0, some 0⟩]
    md := [[List.replicate 6 [some 5, some 7]]] }

/-- A force matrix with one frequency, all six entries equal to `v`. -/
def forceRow (v : ℚ) : CMatrix ℚ := [List.replicate 6 ⟨some v, some 0⟩]

/-- Two bodies, two headings, one frequency: `ex[ib][ih]` is filled with `10 ib + ih`. -/
def storeFex : Hydro ℚ :=
  { (emptyStore : Hydro ℚ) with
    Nb := 2, Nh := 2, Nf := 1, w := [some 1], head := [some 0, some 90]
    ex := [[forceRow 0, forceRow 1], [forceRow 10, forceRow 11]] }

/-- Two bodies, one heading, two frequencies: `A[i][j] = (i, j)`, `Ainf[i][j] = i`,
`ex[ib][0]` filled with `10 ib`. -/
def storeTwo : Hydro ℚ :=
  { (emptyStore : Hydro ℚ) with
    Nb := 2, Nf := 2, Nh := 1, w := [some 1, some 2], head := [some 0]
    A := (List.range 12).map (fun i => (List.range 12).map (fun j =>
      [some (i : ℚ), some (j : ℚ)]))
    Ainf := (List.range 12).map (fun i => (List.range 12).map (fun _ => some (i : ℚ)))
    ex := [[forceRow 0], [forceRow 10]] }

/-- Two bodies, one heading, one frequency: `A[i][j] = (12 i + j)`, `Ainf[i][j] = i`,
`ex[ib][0]` filled with `10 ib`. -/
def storeSwap : Hydro ℚ :=
  { storeTwo with
    Nf := 1, w := [some 1], msh := [bodyAtOrigin, bodyAtOrigin]
    A := (List.range 12).map (fun i => (List.range 12).map (fun j =>
      [some ((12 * i + j : Nat) : ℚ)])) }

/-- Helpers `Swap` that leave one matrix as it is and exchange two matrices. -/
def plainHelpers : SwapHelpers K :=
  { Swap := fun A _ _ => A
    Swap2 := fun C1 C2 _ _ => (C2, C1)
    Swap2Same := fun C _ _ => C }

/-- The store `storeAB` with the first sample of every damping series but `B[0][0]`
missing: `B[0][0] = (1, 1)`, the other `B[i][j] = (missing, 1)`. -/
def storeFail : Hydro ℚ :=
  { storeAB with
    B := (List.range 6).map (fun i => (List.range 6).map (fun j =>
      [if i = 0 ∧ j = 0 then some 1 else none, some 1])) }

/-- One body at the origin, one heading, one frequency, with the excitation force
`F = (1, 0, 0)` and no moment. -/
def storeForce : Hydro ℚ :=
  { (emptyStore : Hydro ℚ) with
    Nb := 1, Nh := 1, Nf := 1, w := [some 1], head := [some 0], msh := [bodyAtOrigin]
    ex := [[[[⟨some 1, some 0⟩, ⟨some 0, some 0⟩, ⟨some 0, some 0⟩, ⟨some 0, some 0⟩,
      ⟨some 0, some 0⟩, ⟨some 0, some 0⟩]]]] }

/-- The target `(0, 1, 0)` for one body, as a `3 x 1` matrix. -/
def target010 : RMatrix ℚ := [[some 0], [some 1], [some 0]]

/-- The six `1 x 1` QTF matrices of one body and heading pair, all holding `v`. -/
def qtfCell (v : ℚ) : List (CMatrix ℚ) := List.replicate 6 [[⟨some v, some 0⟩]]

/-- One body at the origin and three QTF heading pairs `(0, 0)`, `(0, 90)`, `(90, 90)`,
the second one crossed; the sum QTF of the pair of index `k` holds `k` everywhere. -/
def storeQTF : Hydro ℚ :=
  { (emptyStore : Hydro ℚ) with
    Nb := 1, msh := [bodyAtOrigin], qw := [some 1]
    qhead := [⟨some 0, some 0⟩, ⟨some 0, some 90⟩, ⟨some 90, some 90⟩]
    qtfsum := [[qtfCell 0, qtfCell 1, qtfCell 2]] }

/-- One body, one heading pair, two frequencies: the six difference-frequency QTF
matrices are `[[1, 2 + 3i], [4 + 5i, 6]]`. -/
def storeDif : Hydro ℚ :=
  { (emptyStore : Hydro ℚ) with
    Nb := 1, msh := [bodyAtOrigin], qw := [some 1, some 2]
    qhead := [⟨some 0, some 0⟩]
    qtfdif := [[List.replicate 6 [[⟨some 1, some 0⟩, ⟨some 2, some 3⟩],
      [⟨some 4, some 5⟩, ⟨some 6, some 0⟩]]]] }

/-- Helpers that read the store as it is, with no change of dimension:
`Initialize_Forces` sizes the table to `Nb x Nh x (Nf x 6)` with every entry missing,
and the square root is not taken. -/
def plainRAOHelpers : RAOHelpers ℚ :=
  { Initialize_Forces := fun h =>
      List.replicate h.Nb (List.replicate h.Nh
        (List.replicate h.Nf (List.replicate 6 ⟨none, none⟩)))
    C_mat := fun h _ ib => mat6 (bodyC h ib)
    A_mat := fun h _ ifr ib jb i j => (get3 h.A (ib * 6 + i) (jb * 6 + j) ifr).getD none
    B_mat := fun h _ ifr ib jb i j => (get3 h.B (ib * 6 + i) (jb * 6 + j) ifr).getD none
    F_ := fun _ _ f ih ifr ib i => (get2 ((get2 f ib ih).getD []) ifr i).getD ⟨none, none⟩
    RAO_ := fun _ _ f ih ifr ib i => (get2 ((get2 f ib ih).getD []) ifr i).getD ⟨none, none⟩
    SquareRoot := fun a => a }

/-- A body at the origin with the identity as inertia matrix and no stiffness. -/
def bodyM6 : Body ℚ :=
  { bodyAtOrigin with
    M := (List.range 6).map fun i => (List.range 6).map fun j => some (if i = j then 1 else 0) }

/-- One body with its inertia matrix, one frequency, no heading, a populated added
mass and no RAO. -/
def storeNoRAO : Hydro ℚ :=
  { (emptyStore : Hydro ℚ) with
    Nb := 1, Nf := 1, Nh := 0, w := [some 1], msh := [bodyM6]
    A := List.replicate 6 (List.replicate 6 [some 1]) }

/-- The square root of a rational number that is the square of a rational one, from
the integer square roots of its numerator and denominator. -/
def ratSqrt (q : ℚ) : ℚ := (Nat.sqrt q.num.natAbs : ℚ) / (Nat.sqrt q.den : ℚ)

/-- Helpers of `GetQTFVal` over the rational numbers: the modulus is the square root
of `re² + im²` where it is rational, the argument is not computed, and there is no
change of dimension. -/
def rootQTFValHelpers : QTFValHelpers ℚ :=
  { F_ := fun _ _ v _ => v
    abs := fun re im => ratSqrt (re * re + im * im)
    abs_nonneg := fun re im => by
      show 0 ≤ ratSqrt (re * re + im * im)
      unfold ratSqrt
      positivity
    abs_sq := fun re im r hr => by
      show ratSqrt (re * re + im * im) * ratSqrt (re * re + im * im) = re * re + im * im
      rw [← hr]
      unfold ratSqrt
      rw [Rat.mul_self_num, Rat.mul_self_den, Int.natAbs_mul, Nat.sqrt_eq, Nat.sqrt_eq,
        Nat.cast_natAbs, Int.cast_abs, div_mul_div_comm, abs_mul_abs_self,
        ← div_mul_div_comm, Rat.num_div_den]
    arg := fun _ _ => 0 }

/-- One body and one heading pair whose six `1 x 1` sum QTF matrices hold a missing
entry. -/
def storeQTFmissing : Hydro ℚ :=
  { (emptyStore : Hydro ℚ) with
    Nb := 1, msh := [bodyAtOrigin], qw := [some 1]
    qhead := [⟨some 0, some 0⟩]
    qtfsum := [[List.replicate 6 [[⟨none, none⟩]]]] }

/-- One body and one heading pair whose six `1 x 1` sum QTF matrices hold the entry
`3 + 4i`. -/
def storeQTF34 : Hydro ℚ :=
  { (emptyStore : Hydro ℚ) with
    Nb := 1, msh := [bodyAtOrigin], qw := [some 1]
    qhead := [⟨some 0, some 0⟩]
    qtfsum := [[List.replicate 6 [[⟨some 3, some 4⟩]]]] }

/-- One body at the origin, one frequency and one heading, fully populated:
`A[i][j] = (i + 2 j)`, the excitation force `(1, 2, 3, 4, 5, 6)`, the mean drift
`(0, 1, 2, 3, 4, 5)`, and the sum QTF of `storeQTF` with its crossed heading pair. -/
def storeFull : Hydro ℚ :=
  { (emptyStore : Hydro ℚ) with
    Nb := 1, Nf := 1, Nh := 1, w := [some 1], head := [some 0], msh := [bodyAtOrigin]
    A := (List.range 6).map (fun i => (List.range 6).map (fun j => [some ((i : ℚ) + 2 * j)]))
    ex := [[[[⟨some 1, some 0⟩, ⟨some 2, some 0⟩, ⟨some 3, some 0⟩, ⟨some 4, some 0⟩,
      ⟨some 5, some 0⟩, ⟨some 6, some 0⟩]]]]
    mdhead := [⟨some 0, some 0⟩]
    md := [[[[some 0], [some 1], [some 2], [some 3], [some 4], [some 5]]]]
    qw := [some 1]
    qhead := [⟨some 0, some 0⟩, ⟨some 0, some 90⟩, ⟨some 90, some 90⟩]
    qtfsum := [[qtfCell 0, qtfCell 1, qtfCell 2]] }

/-- One body, one heading and one frequency with the excitation force and the RAO
`(1, 2, 3, 4, 5, 6)` and a radiation kernel. -/
def storeRAO : Hydro ℚ :=
  { storeForce with
    rao := [[[[⟨some 1, some 0⟩, ⟨some 2, some 0⟩, ⟨some 3, some 0⟩, ⟨some 4, some 0⟩,
      ⟨some 5, some 0⟩, ⟨some 6, some 0⟩]]]]
    Kirf := List.replicate 6 (List.replicate 6 [some 1]) }

/-- Two bodies, one mean-drift heading and one frequency; the mean drift of each body
holds its six series, `md[ib][0][idf] = (idf + 1)`. -/
def storeMD2 : Hydro ℚ :=
  { (emptyStore : Hydro ℚ) with
    Nb := 2, Nf := 1, w := [some 1], msh := [bodyAtOrigin, bodyAtOrigin]
    mdhead := [⟨some 0, some 0⟩]
    md := List.replicate 2 [[[some 1], [some 2], [some 3], [some 4], [some 5], [some 6]]] }

/-- Helpers of `GetB_H` with unit constants, the real part as modulus, no change of
dimension and the sum of the ordinates as integral. -/
def unitHaskindHelpers : HaskindHelpers ℚ :=
  { IsLoadedFexDOF := fun ex idf ih ib => ((getF ex ib ih 0 idf).getD ⟨none, none⟩).IsNum
    abs := fun v => Nvl v.re 0
    F_dim := fun v _ => v
    WaveNumber_w := fun w => w * w
    g_dim := 1
    rho_dim := 1
    rho_ndim := 1
    pi := 3
    lenPow := fun _ => 1
    LinearInterpolate := fun _ _ _ y0 _ => y0
    Integral := fun _ y => y.sum }

/-- One body, one frequency and the seven headings `0, 50, .., 300`, each with the
excitation force `(1, 0, 0, 0, 0, 0)`. -/
def storeHaskind : Hydro ℚ :=
  { (emptyStore : Hydro ℚ) with
    Nb := 1, Nf := 1, Nh := 7, w := [some 1], msh := [bodyAtOrigin]
    head := [some 0, some 50, some 100, some 150, some 200, some 250, some 300]
    ex := [List.replicate 7 [[⟨some 1, some 0⟩, ⟨some 0, some 0⟩, ⟨some 0, some 0⟩,
      ⟨some 0, some 0⟩, ⟨some 0, some 0⟩, ⟨some 0, some 0⟩]]] }

/-- Two bodies at the origin, one frequency, and the symmetric added mass
`A[i][j] = (1)` for all `i`, `j`. -/
def storeSym2 : Hydro ℚ :=
  { (emptyStore : Hydro ℚ) with
    Nb := 2, Nf := 1, w := [some 1], msh := [bodyAtOrigin, bodyAtOrigin]
    A := List.replicate 12 (List.replicate 12 [some 1]) }

/-- The targets `(1, 0, 0)` for the first body and `(0, 0, 0)` for the second one, as a
`3 x 2` matrix. -/
def targetFirstBody : RMatrix ℚ := [[some 1, some 0], [some 0, some 0], [some 0, some 0]]

/-- Per-panel added mass of one body with two panels: `-1` on the panel `0` and `3` on
the other one, for every degree of freedom and frequency. -/
def apanNegative : Tensor5 ℚ := fun _ ip _ _ _ => if ip = 0 then -1 else 3

/-- The closest panel of each of the two panels is the other one. -/
def closestOther : Nat → Nat → List Nat := fun _ idp => [1 - idp]

/-- The text of a body, degree of freedom and frequency. -/
def spreadText : Nat → Nat → Nat → String := fun ib idf ifr =>
  toString (ib + 1) ++ "." ++ toString idf ++ " Freq " ++ toString ifr

/-- A progress callback that never declines. -/
def statusGoOn : String → Int → Bool := fun _ _ => true

/-- The target `(4, -1, 2)` for one body, as a `3 x 1` matrix. -/
def target412 : RMatrix ℚ := [[some 4], [some (-1)], [some 2]]

/-- The store `storeFull` with the third component of its excitation force missing:
`(1, 2, missing, 4, 5, 6)`; the added mass is fully populated. -/
def storeGap : Hydro ℚ :=
  { storeFull with
    ex := [[[[⟨some 1, some 0⟩, ⟨some 2, some 0⟩, ⟨none, none⟩, ⟨some 4, some 0⟩,
      ⟨some 5, some 0⟩, ⟨some 6, some 0⟩]]]] }

/-- A body at the origin with the `6 x 6` matrices `C[r][c] = 100 b + 10 r + c` and
`M[r][c] = 1000 + 100 b + 10 r + c`. -/
def bodyCM (b : Nat) : Body ℚ :=
  { bodyAtOrigin with
    C := (List.range 6).map (fun r => (List.range 6).map (fun c =>
      some ((100 * b + 10 * r + c : Nat) : ℚ)))
    M := (List.range 6).map (fun r => (List.range 6).map (fun c =>
      some ((1000 + 100 * b + 10 * r + c : Nat) : ℚ))) }

/-- The store `storeSwap` with the matrices `C` and `M` of `bodyCM` for its two bodies. -/
def storeSwapCM : Hydro ℚ := { storeSwap with msh := [bodyCM 0, bodyCM 1] }

/-- The store `storeFull` with the third component missing in its excitation force
`(1, 2, missing, 4, 5, 6)`, in its mean drift `(0, 1, missing, 3, 4, 5)` and in the
first slice `(1, 2, missing, 4, 5, 6)` of its sum QTF; the added mass is fully
populated. -/
def storeGaps : Hydro ℚ :=
  { storeGap with
    md := [[[[some 0], [some 1], [none], [some 3], [some 4], [some 5]]]]
    qtfsum := [[[[[⟨some 1, some 0⟩]], [[⟨some 2, some 0⟩]], [[⟨none, none⟩]],
      [[⟨some 4, some 0⟩]], [[⟨some 5, some 0⟩]], [[⟨some 6, some 0⟩]]],
      qtfCell 1, qtfCell 2]] }

end

/-! # Part II: the properties (theorems) -/

/-! ## Containers: reading after writing -/

section

variable {α : Type}

theorem getElem?_set_map (l : List α) (i j : Nat) (v : α) :
    (l.set i v)[j]? = if i = j then (l[j]?).map (fun _ => v) else l[j]? := by
  rw [List.getElem?_set']
  rfl

theorem get2_set2 (a : List (List α)) (i j i' j' : Nat) (v : α) :
    get2 (set2 a i j v) i' j' =
      if i = i' ∧ j = j' then (get2 a i' j').map (fun _ => v) else get2 a i' j' := by
  unfold get2 set2
  rw [List.getElem?_modify]
  cases h : a[i']? with
  | none => simp
  | some r =>
    by_cases hi : i = i'
    · by_cases hj : j = j'
      · simp [hi, hj, getElem?_set_map]
      · simp [hi, hj, getElem?_set_map]
    · simp [hi]

theorem get3_set3 (a : List (List (List α))) (i j k i' j' k' : Nat) (v : α) :
    get3 (set3 a i j k v) i' j' k' =
      if i = i' ∧ j = j' ∧ k = k' then (get3 a i' j' k').map (fun _ => v)
      else get3 a i' j' k' := by
  unfold get3 get2 set3
  rw [List.getElem?_modify]
  cases h : a[i']? with
  | none => simp
  | some r =>
    by_cases hi : i = i'
    · subst hi
      simp only [Option.map_eq_map, Option.map_some', if_true, Option.some_bind, true_and]
      rw [List.getElem?_modify]
      cases h2 : r[j']? with
      | none => simp
      | some s =>
        by_cases hj : j = j'
        · by_cases hk : k = k'
          · simp [hj, hk, getElem?_set_map]
          · simp [hj, hk, getElem?_set_map]
        · simp [hj]
    · simp [hi]

theorem Dims2.set2 {a : List (List α)} {n m : Nat} (h : Dims2 a n m) (i j : Nat) (v : α) :
    Dims2 (set2 a i j v) n m := by
  obtain ⟨h1, h2⟩ := h
  refine ⟨by simp [BEMRosetta.set2, h1], ?_⟩
  intro r hr
  obtain ⟨k, hk, rfl⟩ := List.getElem_of_mem hr
  have hk' : k < a.length := by simpa [BEMRosetta.set2] using hk
  have : (BEMRosetta.set2 a i j v)[k]? = some ((BEMRosetta.set2 a i j v)[k]) :=
    List.getElem?_eq_getElem hk
  unfold BEMRosetta.set2 at this
  rw [List.getElem?_modify, List.getElem?_eq_getElem hk'] at this
  simp only [Option.map_eq_map, Option.map_some', Option.some.injEq] at this
  unfold BEMRosetta.set2
  rw [← this]
  split
  · simp [h2 _ (List.getElem_mem hk')]
  · exact h2 _ (List.getElem_mem hk')

theorem Dims2.get2_isSome {a : List (List α)} {n m : Nat} (h : Dims2 a n m) {i j : Nat}
    (hi : i < n) (hj : j < m) : (get2 a i j).isSome = true := by
  obtain ⟨h1, h2⟩ := h
  have hi' : i < a.length := by omega
  have hr := h2 _ (List.getElem_mem hi')
  unfold get2
  rw [List.getElem?_eq_getElem hi']
  simp only [Option.some_bind]
  rw [List.getElem?_eq_getElem (by omega)]
  rfl

theorem get2_eq_some_iff_dims {a b : List (List α)} {n m : Nat} (ha : Dims2 a n m)
    (hb : Dims2 b n m) (h : ∀ i j, i < n → j < m → get2 a i j = get2 b i j) : a = b := by
  obtain ⟨ha1, ha2⟩ := ha
  obtain ⟨hb1, hb2⟩ := hb
  apply List.ext_getElem (by omega)
  intro i hi1 hi2
  have hra := ha2 _ (List.getElem_mem hi1)
  have hrb := hb2 _ (List.getElem_mem hi2)
  apply List.ext_getElem (by omega)
  intro j hj1 hj2
  have := h i j (by omega) (by omega)
  unfold get2 at this
  rw [List.getElem?_eq_getElem hi1, List.getElem?_eq_getElem hi2] at this
  simp only [Option.some_bind] at this
  rw [List.getElem?_eq_getElem hj1, List.getElem?_eq_getElem hj2] at this
  exact Option.some.inj this

theorem set_self {l : List α} {j : Nat} {v : α} (h : l[j]? = some v) : l.set j v = l := by
  apply List.ext_getElem?
  intro k
  rw [getElem?_set_map]
  split
  · next hk => subst hk; simp [h]
  · rfl

theorem set2_self {a : List (List α)} {i j : Nat} {v : α} (h : get2 a i j = some v) :
    set2 a i j v = a := by
  unfold get2 at h
  unfold set2
  apply List.ext_getElem?
  intro k
  rw [List.getElem?_modify]
  cases hk : a[k]? with
  | none => rfl
  | some r =>
    by_cases hik : i = k
    · subst hik
      rw [hk] at h
      simp only [Option.some_bind] at h
      simp [set_self h]
    · simp [hik]

/-- Writing `x` to `(i, j)` and `y` to `(j, i)`, for `i ≠ j`. -/
theorem get2_set2_pair (s : List (List α)) (i j : Nat) (hij : i ≠ j) (x y : α) (a b : Nat) :
    get2 (set2 (set2 s j i y) i j x) a b =
      if a = i ∧ b = j then (get2 s a b).map (fun _ => x)
      else if a = j ∧ b = i then (get2 s a b).map (fun _ => y)
      else get2 s a b := by
  rw [get2_set2, get2_set2]
  by_cases h1 : a = i ∧ b = j
  · obtain ⟨rfl, rfl⟩ := h1
    have : ¬ (b = a ∧ a = b) := by omega
    simp [this]
  · by_cases h2 : a = j ∧ b = i
    · obtain ⟨rfl, rfl⟩ := h2
      have : ¬ (b = a ∧ a = b) := by omega
      simp [this, h1]
    · have h1' : ¬ (i = a ∧ j = b) := by omega
      have h2' : ¬ (j = a ∧ i = b) := by omega
      simp [h1, h2, h1', h2']

theorem get3_modify3 (a : List (List (List α))) (i j k i' j' k' : Nat) (f : α → α) :
    get3 (modify3 a i j k f) i' j' k' =
      if i = i' ∧ j = j' ∧ k = k' then (get3 a i' j' k').map f else get3 a i' j' k' := by
  unfold get3 get2 modify3
  rw [List.getElem?_modify]
  cases h : a[i']? with
  | none => simp
  | some r =>
    by_cases hi : i = i'
    · subst hi
      simp only [Option.map_eq_map, Option.map_some', if_true, Option.some_bind, true_and]
      rw [List.getElem?_modify]
      cases h2 : r[j']? with
      | none => simp
      | some s =>
        by_cases hj : j = j'
        · subst hj
          simp only [Option.map_eq_map, Option.map_some', if_true, Option.some_bind, true_and]
          rw [List.getElem?_modify]
          by_cases hk : k = k'
          · simp [hk]
          · simp [hk]
        · simp [hj]
    · simp [hi]

theorem modify_self {l : List α} {j : Nat} {f : α → α} (h : ∀ v, l[j]? = some v → f v = v) :
    l.modify f j = l := by
  apply List.ext_getElem?
  intro k
  rw [List.getElem?_modify]
  cases hk : l[k]? with
  | none => rfl
  | some v =>
    by_cases hjk : j = k
    · subst hjk
      simp [h v hk]
    · simp [hjk]

theorem modify3_self {a : List (List (List α))} {i j k : Nat} {f : α → α}
    (h : ∀ v, get3 a i j k = some v → f v = v) : modify3 a i j k f = a := by
  unfold modify3
  apply modify_self
  intro r hr
  apply modify_self
  intro s hs
  apply modify_self
  intro v hv
  apply h
  simp [get3, get2, hr, hs, hv]

end

/-! ## Loops -/

/-- Two nested loops are one loop over the list of index pairs, in the same order. -/
theorem foldl_nested {σ ι κ : Type} (f : σ → ι → κ → σ) (g : ι → List κ) (l : List ι) (s : σ) :
    l.foldl (fun s i => (g i).foldl (fun s j => f s i j) s) s =
      (l.flatMap (fun i => (g i).map (fun j => (i, j)))).foldl (fun s p => f s p.1 p.2) s := by
  induction l generalizing s with
  | nil => rfl
  | cons a l ih =>
    simp only [List.foldl_cons, List.flatMap_cons, List.foldl_append, List.foldl_map]
    exact ih _

theorem nodup_pairs {ι κ : Type} (g : ι → List κ) (l : List ι) (hl : l.Nodup)
    (hg : ∀ i, (g i).Nodup) : (l.flatMap (fun i => (g i).map (fun j => (i, j)))).Nodup := by
  induction l with
  | nil => simp
  | cons a l ih =>
    rw [List.nodup_cons] at hl
    rw [List.flatMap_cons, List.nodup_append]
    refine ⟨?_, ih hl.2, ?_⟩
    · exact (hg a).map (fun x y h => (Prod.mk.inj h).2)
    · intro p hp1 hp2
      rw [List.mem_map] at hp1
      rw [List.mem_flatMap] at hp2
      obtain ⟨j, _, rfl⟩ := hp1
      obtain ⟨i, hi, hp⟩ := hp2
      rw [List.mem_map] at hp
      obtain ⟨j', _, hj'⟩ := hp
      have : i = a := (Prod.mk.inj hj').1
      exact hl.1 (this ▸ hi)

theorem mem_pairs {ι κ : Type} (g : ι → List κ) (l : List ι) (i : ι) (j : κ) :
    (i, j) ∈ l.flatMap (fun i => (g i).map (fun j => (i, j))) ↔ i ∈ l ∧ j ∈ g i := by
  simp only [List.mem_flatMap, List.mem_map, Prod.mk.injEq]
  constructor
  · rintro ⟨a, ha, b, hb, rfl, rfl⟩
    exact ⟨ha, hb⟩
  · rintro ⟨h1, h2⟩
    exact ⟨i, h1, j, h2, rfl, rfl⟩

/-- A loop whose steps write pairwise disjoint regions of a container, each
step computing what it writes from the cells of its own region: every cell of
the result holds what its one step wrote, computed from the initial state. -/
theorem foldl_regions {σ ι P V : Type} (get : σ → P → Option V) (step : σ → ι → σ)
    (R : ι → P → Prop) (val : σ → ι → P → V) (l : List ι)
    (hin : ∀ s, ∀ i ∈ l, ∀ p, R i p → get (step s i) p = (get s p).map (fun _ => val s i p))
    (hout : ∀ s, ∀ i ∈ l, ∀ p, ¬ R i p → get (step s i) p = get s p)
    (hval : ∀ s s', ∀ i ∈ l, (∀ p, R i p → get s p = get s' p) →
      ∀ p, R i p → val s i p = val s' i p)
    (hnd : l.Nodup)
    (hdisj : ∀ i ∈ l, ∀ j ∈ l, ∀ p, R i p → R j p → i = j) (s : σ) :
    (∀ p, (∀ i ∈ l, ¬ R i p) → get (l.foldl step s) p = get s p) ∧
    (∀ i ∈ l, ∀ p, R i p → get (l.foldl step s) p = (get s p).map (fun _ => val s i p)) := by
  induction l generalizing s with
  | nil => simp
  | cons a l ih =>
    rw [List.nodup_cons] at hnd
    have hdisj' : ∀ i ∈ l, ∀ j ∈ l, ∀ p, R i p → R j p → i = j := fun i hi j hj =>
      hdisj i (List.mem_cons_of_mem _ hi) j (List.mem_cons_of_mem _ hj)
    have ha : a ∈ a :: l := List.mem_cons_self _ _
    obtain ⟨ih1, ih2⟩ := ih (fun s i hi => hin s i (List.mem_cons_of_mem _ hi))
      (fun s i hi => hout s i (List.mem_cons_of_mem _ hi))
      (fun s s' i hi => hval s s' i (List.mem_cons_of_mem _ hi)) hnd.2 hdisj' (step s a)
    have hnot : ∀ i ∈ l, ∀ p, R i p → ¬ R a p := by
      intro i hi p hp hap
      have := hdisj a ha i (List.mem_cons_of_mem _ hi) p hap hp
      exact hnd.1 (this ▸ hi)
    constructor
    · intro p hp
      rw [List.foldl_cons, ih1 p (fun i hi => hp i (List.mem_cons_of_mem _ hi))]
      exact hout s a ha p (hp a ha)
    · intro i hi p hp
      rw [List.foldl_cons]
      rcases List.mem_cons.1 hi with rfl | hi'
      · rw [ih1 p (fun j hj hjp => hnot j hj p hjp hp)]
        exact hin s i ha p hp
      · rw [ih2 i hi' p hp, hout s a ha p (hnot i hi' p hp)]
        congr 1
        funext _
        exact hval _ _ i hi (fun q hq => hout s a ha q (hnot i hi' q hq)) p hp

/-- A loop none of whose steps changes the state leaves it as it is. -/
theorem foldl_fixed {σ ι : Type} (step : σ → ι → σ) (l : List ι) (s : σ)
    (h : ∀ i ∈ l, step s i = s) : l.foldl step s = s := by
  induction l with
  | nil => rfl
  | cons a l ih =>
    rw [List.foldl_cons, h a (List.mem_cons_self _ _)]
    exact ih (fun i hi => h i (List.mem_cons_of_mem _ hi))

/-- The loop `for i < n, for j in (i, n)` over the cells `(i, j)` and `(j, i)` of a
two-level array, each step rewriting its two cells from their current content. -/
theorem tri_loop {α : Type} (n : Nat) (step : List (List α) → Nat → Nat → List (List α))
    (v1 v2 : Option α → Option α → α)
    (hstep : ∀ s i j, i ≠ j → ∀ a b, get2 (step s i j) a b =
        if a = i ∧ b = j then (get2 s a b).map (fun _ => v1 (get2 s i j) (get2 s j i))
        else if a = j ∧ b = i then (get2 s a b).map (fun _ => v2 (get2 s i j) (get2 s j i))
        else get2 s a b)
    (A : List (List α)) (a b : Nat) :
    get2 ((List.range n).foldl (fun A i =>
        (List.range' (i + 1) (n - (i + 1))).foldl (fun A j => step A i j) A) A) a b =
      if a < b ∧ b < n then (get2 A a b).map (fun _ => v1 (get2 A a b) (get2 A b a))
      else if b < a ∧ a < n then (get2 A a b).map (fun _ => v2 (get2 A b a) (get2 A a b))
      else get2 A a b := by
  rw [foldl_nested (fun s i j => step s i j) (fun i => List.range' (i + 1) (n - (i + 1)))]
  have hmem : ∀ q : Nat × Nat,
      q ∈ (List.range n).flatMap (fun i =>
        (List.range' (i + 1) (n - (i + 1))).map (fun j => (i, j))) ↔ q.1 < q.2 ∧ q.2 < n := by
    rintro ⟨i, j⟩
    rw [mem_pairs]
    simp only [List.mem_range, List.mem_range'_1]
    omega
  obtain ⟨h1, h2⟩ := foldl_regions (fun (s : List (List α)) (p : Nat × Nat) => get2 s p.1 p.2)
    (fun s q => step s q.1 q.2) (fun q p => p = q ∨ p = (q.2, q.1))
    (fun s q p => if p = q then v1 (get2 s q.1 q.2) (get2 s q.2 q.1)
      else v2 (get2 s q.1 q.2) (get2 s q.2 q.1))
    ((List.range n).flatMap (fun i =>
        (List.range' (i + 1) (n - (i + 1))).map (fun j => (i, j))))
    (by
      rintro s ⟨i, j⟩ hq ⟨a, b⟩ hp
      have hij : i < j := ((hmem (i, j)).1 hq).1
      simp only [hstep s i j (by omega) a b, Prod.mk.injEq]
      rcases hp with hp | hp
      · obtain ⟨rfl, rfl⟩ := Prod.mk.inj hp
        simp
      · obtain ⟨rfl, rfl⟩ := Prod.mk.inj hp
        have h1 : ¬ (a = b ∧ b = a) := by omega
        simp [h1])
    (by
      rintro s ⟨i, j⟩ hq ⟨a, b⟩ hp
      have hij : i < j := ((hmem (i, j)).1 hq).1
      simp only [Prod.mk.injEq, not_or] at hp
      simp only [hstep s i j (by omega) a b]
      rw [if_neg hp.1, if_neg hp.2])
    (by
      rintro s s' ⟨i, j⟩ hq hs p _
      have e1 := hs (i, j) (Or.inl rfl)
      have e2 := hs (j, i) (Or.inr rfl)
      simp only at e1 e2
      simp only [e1, e2])
    (nodup_pairs _ _ (List.nodup_range n) (fun i => List.nodup_range' _ _))
    (by
      rintro ⟨i, j⟩ hq ⟨i', j'⟩ hq' ⟨a, b⟩ hp hp'
      have hij := ((hmem (i, j)).1 hq).1
      have hij' := ((hmem (i', j')).1 hq').1
      simp only [Prod.mk.injEq] at hp hp' hij hij' ⊢
      omega)
    A
  by_cases hab : a < b ∧ b < n
  · rw [if_pos hab]
    have := h2 (a, b) ((hmem (a, b)).2 hab) (a, b) (Or.inl rfl)
    simpa using this
  · rw [if_neg hab]
    by_cases hba : b < a ∧ a < n
    · rw [if_pos hba]
      have := h2 (b, a) ((hmem (b, a)).2 hba) (a, b) (Or.inr rfl)
      have hne : ¬ (a = b) := by omega
      simpa [hne] using this
    · rw [if_neg hba]
      apply h1 (a, b)
      rintro ⟨i, j⟩ hq hp
      have hij := (hmem (i, j)).1 hq
      simp only [Prod.mk.injEq] at hp hij
      omega

/-- A property kept by every step of a loop holds after the loop. -/
theorem foldl_inv {σ ι : Type} (P : σ → Prop) (step : σ → ι → σ) (l : List ι) (s : σ)
    (h0 : P s) (hstep : ∀ s i, P s → P (step s i)) : P (l.foldl step s) := by
  induction l generalizing s with
  | nil => exact h0
  | cons a l ih => exact ih _ (hstep s a h0)

/-- The triangular loop leaves a state alone that none of its steps changes. -/
theorem tri_fixed {σ : Type} (n : Nat) (step : σ → Nat → Nat → σ) (s : σ)
    (h : ∀ i j, i < j → j < n → step s i j = s) :
    (List.range n).foldl (fun A i =>
      (List.range' (i + 1) (n - (i + 1))).foldl (fun A j => step A i j) A) s = s := by
  apply foldl_fixed
  intro i _
  apply foldl_fixed
  intro j hj
  rw [List.mem_range'_1] at hj
  exact h i j (by omega) (by omega)

/-- The triangular loop keeps a property that each of its steps keeps. -/
theorem tri_inv {σ : Type} (P : σ → Prop) (n : Nat) (step : σ → Nat → Nat → σ) (s : σ)
    (h0 : P s) (hstep : ∀ s i j, P s → P (step s i j)) :
    P ((List.range n).foldl (fun A i =>
      (List.range' (i + 1) (n - (i + 1))).foldl (fun A j => step A i j) A) s) :=
  foldl_inv P _ _ s h0 (fun s i hs => foldl_inv P _ _ s hs (fun s j hs => hstep s i j hs))

/-- Three nested rectangular loops are one loop over the index triples. -/
theorem foldl_nested3 {σ : Type} (step : σ → Nat → Nat → Nat → σ) (n1 n2 n3 : Nat) (s : σ) :
    (List.range n1).foldl (fun s i => (List.range n2).foldl (fun s j =>
      (List.range n3).foldl (fun s k => step s i j k) s) s) s =
    ((List.range n1).flatMap (fun i =>
      ((List.range n2).flatMap (fun j => (List.range n3).map (fun k => (j, k)))).map
        (fun q => (i, q)))).foldl (fun s t => step s t.1 t.2.1 t.2.2) s := by
  have e : (fun s i => (List.range n2).foldl (fun s j =>
      (List.range n3).foldl (fun s k => step s i j k) s) s) =
      (fun s i => ((List.range n2).flatMap (fun j => (List.range n3).map (fun k => (j, k)))).foldl
        (fun s q => step s i q.1 q.2) s) := by
    funext s i
    exact foldl_nested (fun s j k => step s i j k) (fun _ => List.range n3) (List.range n2) s
  rw [e]
  exact foldl_nested (fun s i (q : Nat × Nat) => step s i q.1 q.2)
    (fun _ => (List.range n2).flatMap (fun j => (List.range n3).map (fun k => (j, k))))
    (List.range n1) s

/-- The region lemma for three nested rectangular loops. -/
theorem foldl3_regions {σ P V : Type} (get : σ → P → Option V)
    (step : σ → Nat → Nat → Nat → σ) (R : Nat → Nat → Nat → P → Prop)
    (val : σ → Nat → Nat → Nat → P → V) (n1 n2 n3 : Nat)
    (hin : ∀ s i j k, i < n1 → j < n2 → k < n3 → ∀ p, R i j k p →
      get (step s i j k) p = (get s p).map (fun _ => val s i j k p))
    (hout : ∀ s i j k, i < n1 → j < n2 → k < n3 → ∀ p, ¬ R i j k p →
      get (step s i j k) p = get s p)
    (hval : ∀ s s' i j k, i < n1 → j < n2 → k < n3 → (∀ p, R i j k p → get s p = get s' p) →
      ∀ p, R i j k p → val s i j k p = val s' i j k p)
    (hdisj : ∀ i j k i' j' k' p, R i j k p → R i' j' k' p → i = i' ∧ j = j' ∧ k = k')
    (s : σ) :
    (∀ p, (∀ i j k, i < n1 → j < n2 → k < n3 → ¬ R i j k p) →
      get ((List.range n1).foldl (fun s i => (List.range n2).foldl (fun s j =>
        (List.range n3).foldl (fun s k => step s i j k) s) s) s) p = get s p) ∧
    (∀ i j k, i < n1 → j < n2 → k < n3 → ∀ p, R i j k p →
      get ((List.range n1).foldl (fun s i => (List.range n2).foldl (fun s j =>
        (List.range n3).foldl (fun s k => step s i j k) s) s) s) p =
        (get s p).map (fun _ => val s i j k p)) := by
  rw [foldl_nested3]
  have hmem : ∀ t : Nat × Nat × Nat,
      t ∈ (List.range n1).flatMap (fun i =>
        ((List.range n2).flatMap (fun j => (List.range n3).map (fun k => (j, k)))).map
          (fun q => (i, q))) ↔ t.1 < n1 ∧ t.2.1 < n2 ∧ t.2.2 < n3 := by
    rintro ⟨i, j, k⟩
    rw [mem_pairs (fun _ => (List.range n2).flatMap (fun j => (List.range n3).map (fun k => (j, k)))),
      mem_pairs (fun _ => List.range n3)]
    simp only [List.mem_range]
  obtain ⟨h1, h2⟩ := foldl_regions get (fun s (t : Nat × Nat × Nat) => step s t.1 t.2.1 t.2.2)
    (fun t p => R t.1 t.2.1 t.2.2 p) (fun s t p => val s t.1 t.2.1 t.2.2 p)
    ((List.range n1).flatMap (fun i =>
        ((List.range n2).flatMap (fun j => (List.range n3).map (fun k => (j, k)))).map
          (fun q => (i, q))))
    (fun s t ht p hp => by
      obtain ⟨a, b, c⟩ := (hmem t).1 ht
      exact hin s _ _ _ a b c p hp)
    (fun s t ht p hp => by
      obtain ⟨a, b, c⟩ := (hmem t).1 ht
      exact hout s _ _ _ a b c p hp)
    (fun s s' t ht hs p hp => by
      obtain ⟨a, b, c⟩ := (hmem t).1 ht
      exact hval s s' _ _ _ a b c hs p hp)
    (nodup_pairs _ _ (List.nodup_range n1)
      (fun _ => nodup_pairs _ _ (List.nodup_range n2) (fun _ => List.nodup_range n3)))
    (by
      rintro ⟨i, j, k⟩ _ ⟨i', j', k'⟩ _ p hp hp'
      obtain ⟨rfl, rfl, rfl⟩ := hdisj i j k i' j' k' p hp hp'
      rfl)
    s
  constructor
  · intro p hp
    apply h1 p
    rintro ⟨i, j, k⟩ ht
    obtain ⟨a, b, c⟩ := (hmem _).1 ht
    exact hp i j k a b c
  · intro i j k hi hj hk p hp
    exact h2 (i, j, k) ((hmem _).2 ⟨hi, hj, hk⟩) p hp

/-- Three nested loops leave a state alone that none of their steps changes. -/
theorem foldl3_fixed {σ : Type} (step : σ → Nat → Nat → Nat → σ) (n1 n2 n3 : Nat) (s : σ)
    (h : ∀ i j k, i < n1 → j < n2 → k < n3 → step s i j k = s) :
    (List.range n1).foldl (fun s i => (List.range n2).foldl (fun s j =>
      (List.range n3).foldl (fun s k => step s i j k) s) s) s = s := by
  apply foldl_fixed
  intro i hi
  apply foldl_fixed
  intro j hj
  apply foldl_fixed
  intro k hk
  exact h i j k (List.mem_range.1 hi) (List.mem_range.1 hj) (List.mem_range.1 hk)

/-- The region lemma for two nested rectangular loops. -/
theorem foldl2_regions {σ P V : Type} (get : σ → P → Option V)
    (step : σ → Nat → Nat → σ) (R : Nat → Nat → P → Prop)
    (val : σ → Nat → Nat → P → V) (n1 n2 : Nat)
    (hin : ∀ s i j, i < n1 → j < n2 → ∀ p, R i j p →
      get (step s i j) p = (get s p).map (fun _ => val s i j p))
    (hout : ∀ s i j, i < n1 → j < n2 → ∀ p, ¬ R i j p → get (step s i j) p = get s p)
    (hval : ∀ s s' i j, i < n1 → j < n2 → (∀ p, R i j p → get s p = get s' p) →
      ∀ p, R i j p → val s i j p = val s' i j p)
    (hdisj : ∀ i j i' j' p, R i j p → R i' j' p → i = i' ∧ j = j')
    (s : σ) :
    (∀ p, (∀ i j, i < n1 → j < n2 → ¬ R i j p) →
      get ((List.range n1).foldl (fun s i => (List.range n2).foldl (fun s j =>
        step s i j) s) s) p = get s p) ∧
    (∀ i j, i < n1 → j < n2 → ∀ p, R i j p →
      get ((List.range n1).foldl (fun s i => (List.range n2).foldl (fun s j =>
        step s i j) s) s) p = (get s p).map (fun _ => val s i j p)) := by
  rw [foldl_nested (fun s i j => step s i j) (fun _ => List.range n2)]
  have hmem : ∀ t : Nat × Nat,
      t ∈ (List.range n1).flatMap (fun i => (List.range n2).map (fun j => (i, j))) ↔
        t.1 < n1 ∧ t.2 < n2 := by
    rintro ⟨i, j⟩
    rw [mem_pairs (fun _ => List.range n2)]
    simp only [List.mem_range]
  obtain ⟨h1, h2⟩ := foldl_regions get (fun s (t : Nat × Nat) => step s t.1 t.2)
    (fun t p => R t.1 t.2 p) (fun s t p => val s t.1 t.2 p)
    ((List.range n1).flatMap (fun i => (List.range n2).map (fun j => (i, j))))
    (fun s t ht p hp => by
      obtain ⟨a, b⟩ := (hmem t).1 ht
      exact hin s _ _ a b p hp)
    (fun s t ht p hp => by
      obtain ⟨a, b⟩ := (hmem t).1 ht
      exact hout s _ _ a b p hp)
    (fun s s' t ht hs p hp => by
      obtain ⟨a, b⟩ := (hmem t).1 ht
      exact hval s s' _ _ a b hs p hp)
    (nodup_pairs _ _ (List.nodup_range n1) (fun _ => List.nodup_range n2))
    (by
      rintro ⟨i, j⟩ _ ⟨i', j'⟩ _ p hp hp'
      obtain ⟨rfl, rfl⟩ := hdisj i j i' j' p hp hp'
      rfl)
    s
  constructor
  · intro p hp
    apply h1 p
    rintro ⟨i, j⟩ ht
    obtain ⟨a, b⟩ := (hmem _).1 ht
    exact hp i j a b
  · intro i j hi hj p hp
    exact h2 (i, j) ((hmem _).2 ⟨hi, hj⟩) p hp

/-! ## Values: averaging -/

section

variable {K : Type}

theorem AvgSafe_self [Field K] [CharZero K] (a : Option K) : AvgSafe a a = a := by
  cases a with
  | none => rfl
  | some x =>
    simp only [AvgSafe, Option.some.injEq]
    field_simp

theorem AvgSafeVec_self [Field K] [CharZero K] (a : List (Option K)) : AvgSafeVec a a = a := by
  apply List.ext_getElem
  · simp [AvgSafeVec]
  · intro i h1 h2
    simp [AvgSafeVec, AvgSafe_self, List.getElem?_eq_getElem h2]

theorem AvgSafeC_self [Field K] [CharZero K] (a : CVal K) : AvgSafeC a a = a := by
  obtain ⟨re, im⟩ := a
  cases re <;> cases im <;> simp only [AvgSafeC]
  congr 2 <;> field_simp

theorem CVal.conj_conj [InvolutiveNeg K] (c : CVal K) : c.conj.conj = c := by
  obtain ⟨re, im⟩ := c
  cases im <;> simp [CVal.conj]

end

/-! ## Symmetrize: symmetry and idempotence -/

section

variable {K : Type} [Field K]

theorem SymmetrizeAB_get (Nb : Nat) (A : SeriesTable K) (a b : Nat) :
    get2 (SymmetrizeAB Nb A) a b =
      if a < b ∧ b < 6 * Nb then (get2 A a b).map (fun _ =>
          AvgSafeVec ((get2 A a b).getD []) ((get2 A b a).getD []))
      else if b < a ∧ a < 6 * Nb then (get2 A a b).map (fun _ =>
          AvgSafeVec ((get2 A b a).getD []) ((get2 A a b).getD []))
      else get2 A a b :=
  tri_loop (6 * Nb) (fun A idf jdf =>
      let v := AvgSafeVec ((get2 A idf jdf).getD []) ((get2 A jdf idf).getD [])
      set2 (set2 A jdf idf v) idf jdf v)
    (fun x y => AvgSafeVec (x.getD []) (y.getD [])) (fun x y => AvgSafeVec (x.getD []) (y.getD []))
    (fun s i j hij a b => get2_set2_pair s i j hij _ _ a b) A a b

theorem SymmetrizeAinfA0_get (Nb : Nat) (A : RMatrix K) (a b : Nat) :
    get2 (SymmetrizeAinfA0 Nb A) a b =
      if a < b ∧ b < 6 * Nb then (get2 A a b).map (fun _ =>
          AvgSafe ((get2 A a b).getD none) ((get2 A b a).getD none))
      else if b < a ∧ a < 6 * Nb then (get2 A a b).map (fun _ =>
          AvgSafe ((get2 A b a).getD none) ((get2 A a b).getD none))
      else get2 A a b :=
  tri_loop (6 * Nb) (fun A idf jdf =>
      let v := AvgSafe ((get2 A idf jdf).getD none) ((get2 A jdf idf).getD none)
      set2 (set2 A jdf idf v) idf jdf v)
    (fun x y => AvgSafe (x.getD none) (y.getD none)) (fun x y => AvgSafe (x.getD none) (y.getD none))
    (fun s i j hij a b => get2_set2_pair s i j hij _ _ a b) A a b

/-- After `SymmetrizeAB` the series at `(i, j)` and at `(j, i)` are the same one. -/
theorem SymmetrizeAB_symm (Nb : Nat) (A : SeriesTable K) (hd : Dims2 A (6 * Nb) (6 * Nb))
    (i j : Nat) (hi : i < 6 * Nb) (hj : j < 6 * Nb) :
    ∃ v, get2 (SymmetrizeAB Nb A) i j = some v ∧ get2 (SymmetrizeAB Nb A) j i = some v := by
  obtain ⟨x, hx⟩ := Option.isSome_iff_exists.1 (hd.get2_isSome hi hj)
  obtain ⟨y, hy⟩ := Option.isSome_iff_exists.1 (hd.get2_isSome hj hi)
  rw [SymmetrizeAB_get, SymmetrizeAB_get]
  rcases Nat.lt_trichotomy i j with h | h | h
  · have h1 : ¬ (j < i ∧ i < 6 * Nb) := by omega
    have h2 : ¬ (j < i) := by omega
    simp [h, hi, hj, h1, h2, hx, hy]
  · subst h
    simp [hx]
  · have h1 : ¬ (i < j ∧ j < 6 * Nb) := by omega
    have h2 : ¬ (i < j) := by omega
    simp [h, hi, hj, h1, h2, hx, hy]

theorem SymmetrizeAinfA0_symm (Nb : Nat) (A : RMatrix K) (hd : Dims2 A (6 * Nb) (6 * Nb))
    (i j : Nat) (hi : i < 6 * Nb) (hj : j < 6 * Nb) :
    ∃ v, get2 (SymmetrizeAinfA0 Nb A) i j = some v ∧
      get2 (SymmetrizeAinfA0 Nb A) j i = some v := by
  obtain ⟨x, hx⟩ := Option.isSome_iff_exists.1 (hd.get2_isSome hi hj)
  obtain ⟨y, hy⟩ := Option.isSome_iff_exists.1 (hd.get2_isSome hj hi)
  rw [SymmetrizeAinfA0_get, SymmetrizeAinfA0_get]
  rcases Nat.lt_trichotomy i j with h | h | h
  · have h1 : ¬ (j < i ∧ i < 6 * Nb) := by omega
    have h2 : ¬ (j < i) := by omega
    simp [h, hi, hj, h1, h2, hx, hy]
  · subst h
    simp [hx]
  · have h1 : ¬ (i < j ∧ j < 6 * Nb) := by omega
    have h2 : ¬ (i < j) := by omega
    simp [h, hi, hj, h1, h2, hx, hy]

theorem Symmetrize_A (L : LoadedTests K) (h : Hydro K) :
    (Symmetrize L h).A = if L.IsLoadedA h.A then SymmetrizeAB h.Nb h.A else h.A := by
  rfl

theorem Symmetrize_B (L : LoadedTests K) (h : Hydro K) :
    (Symmetrize L h).B = if L.IsLoadedB h.B then SymmetrizeAB h.Nb h.B else h.B := by
  rfl

theorem Symmetrize_Ainf (L : LoadedTests K) (h : Hydro K) :
    (Symmetrize L h).Ainf =
      if L.IsLoadedAinf h.Ainf then SymmetrizeAinfA0 h.Nb h.Ainf else h.Ainf := by
  rfl

theorem Symmetrize_A0 (L : LoadedTests K) (h : Hydro K) :
    (Symmetrize L h).A0 = if L.IsLoadedA0 h.A0 then SymmetrizeAinfA0 h.Nb h.A0 else h.A0 := by
  rfl

theorem Symmetrize_qtfsum (L : LoadedTests K) (h : Hydro K) :
    (Symmetrize L h).qtfsum = if L.IsLoadedQTF true h.qtfsum 0 then
      SymmetrizeSumDif h.Nb h.qhead.length h.qtfsum true else h.qtfsum := by
  rfl

theorem Symmetrize_qtfdif (L : LoadedTests K) (h : Hydro K) :
    (Symmetrize L h).qtfdif = if L.IsLoadedQTF false h.qtfdif 0 then
      SymmetrizeSumDif h.Nb h.qhead.length h.qtfdif false else h.qtfdif := by
  rfl

theorem Symmetrize_Nb (L : LoadedTests K) (h : Hydro K) : (Symmetrize L h).Nb = h.Nb := rfl

theorem Symmetrize_qhead (L : LoadedTests K) (h : Hydro K) :
    (Symmetrize L h).qhead = h.qhead := rfl

theorem SymmetrizeAB_idem [CharZero K] (Nb : Nat) (A : SeriesTable K)
    (hd : Dims2 A (6 * Nb) (6 * Nb)) :
    SymmetrizeAB Nb (SymmetrizeAB Nb A) = SymmetrizeAB Nb A := by
  apply tri_fixed (6 * Nb) (fun A idf jdf =>
      let v := AvgSafeVec ((get2 A idf jdf).getD []) ((get2 A jdf idf).getD [])
      set2 (set2 A jdf idf v) idf jdf v)
  intro i j hij hj
  obtain ⟨v, h1, h2⟩ := SymmetrizeAB_symm Nb A hd i j (by omega) hj
  simp only [h1, h2, Option.getD_some, AvgSafeVec_self]
  rw [set2_self h2, set2_self h1]

theorem SymmetrizeAinfA0_idem [CharZero K] (Nb : Nat) (A : RMatrix K)
    (hd : Dims2 A (6 * Nb) (6 * Nb)) :
    SymmetrizeAinfA0 Nb (SymmetrizeAinfA0 Nb A) = SymmetrizeAinfA0 Nb A := by
  apply tri_fixed (6 * Nb) (fun A idf jdf =>
      let v := AvgSafe ((get2 A idf jdf).getD none) ((get2 A jdf idf).getD none)
      set2 (set2 A jdf idf v) idf jdf v)
  intro i j hij hj
  obtain ⟨v, h1, h2⟩ := SymmetrizeAinfA0_symm Nb A hd i j (by omega) hj
  simp only [h1, h2, Option.getD_some, AvgSafe_self]
  rw [set2_self h2, set2_self h1]

theorem SymmetrizeMat_length (isSum : Bool) (c : CMatrix K) :
    (SymmetrizeMat isSum c).length = c.length := by
  unfold SymmetrizeMat
  apply tri_inv (fun (s : CMatrix K) => s.length = c.length) c.length
    (fun c iw jw => SymmetrizeCell isSum c iw jw) c rfl
  intro s i j hs
  cases isSum <;> simp [SymmetrizeCell, set2, hs]

theorem SymmetrizeCell_get (isSum : Bool) (s : CMatrix K) (i j : Nat) (hij : i ≠ j)
    (a b : Nat) :
    get2 (SymmetrizeCell isSum s i j) a b =
      if a = i ∧ b = j then (get2 s a b).map (fun _ =>
        AvgSafeC ((get2 s i j).getD ⟨none, none⟩)
          (if isSum then (get2 s j i).getD ⟨none, none⟩
           else ((get2 s j i).getD ⟨none, none⟩).conj))
      else if a = j ∧ b = i then (get2 s a b).map (fun _ =>
        if isSum then AvgSafeC ((get2 s i j).getD ⟨none, none⟩) ((get2 s j i).getD ⟨none, none⟩)
        else (AvgSafeC ((get2 s i j).getD ⟨none, none⟩)
          ((get2 s j i).getD ⟨none, none⟩).conj).conj)
      else get2 s a b := by
  cases isSum
  · simp only [SymmetrizeCell, Bool.false_eq_true, if_false]
    rw [get2_set2_pair s j i (Ne.symm hij)]
    by_cases h1 : a = i ∧ b = j
    · have h2 : ¬ (a = j ∧ b = i) := by omega
      rw [if_neg h2, if_pos h1, if_pos h1]
    · simp [h1]
  · simp only [SymmetrizeCell, if_true]
    exact get2_set2_pair s i j hij _ _ a b

/-- What `SymmetrizeMat` leaves in each cell of the matrix. -/
theorem SymmetrizeMat_get (isSum : Bool) (c : CMatrix K) (a b : Nat) :
    get2 (SymmetrizeMat isSum c) a b =
      if a < b ∧ b < c.length then (get2 c a b).map (fun _ =>
          AvgSafeC ((get2 c a b).getD ⟨none, none⟩)
            (if isSum then (get2 c b a).getD ⟨none, none⟩
             else ((get2 c b a).getD ⟨none, none⟩).conj))
      else if b < a ∧ a < c.length then (get2 c a b).map (fun _ =>
          if isSum then AvgSafeC ((get2 c b a).getD ⟨none, none⟩) ((get2 c a b).getD ⟨none, none⟩)
          else (AvgSafeC ((get2 c b a).getD ⟨none, none⟩)
            ((get2 c a b).getD ⟨none, none⟩).conj).conj)
      else get2 c a b :=
  tri_loop c.length (fun c iw jw => SymmetrizeCell isSum c iw jw)
    (fun x y => AvgSafeC (x.getD ⟨none, none⟩)
      (if isSum then y.getD ⟨none, none⟩ else (y.getD ⟨none, none⟩).conj))
    (fun x y => if isSum then AvgSafeC (x.getD ⟨none, none⟩) (y.getD ⟨none, none⟩)
      else (AvgSafeC (x.getD ⟨none, none⟩) (y.getD ⟨none, none⟩).conj).conj)
    (fun s i j hij a b => SymmetrizeCell_get isSum s i j hij a b) c a b

/-- After `SymmetrizeMat` the cell `(j, i)` holds the value of `(i, j)`, conjugated
for a difference-frequency matrix. -/
theorem SymmetrizeMat_symm (isSum : Bool) (c : CMatrix K) (hd : Dims2 c c.length c.length)
    (i j : Nat) (hij : i < j) (hj : j < c.length) :
    ∃ v, get2 (SymmetrizeMat isSum c) i j = some v ∧
      get2 (SymmetrizeMat isSum c) j i = some (if isSum then v else v.conj) := by
  obtain ⟨x, hx⟩ := Option.isSome_iff_exists.1 (hd.get2_isSome (show i < c.length by omega) hj)
  obtain ⟨y, hy⟩ := Option.isSome_iff_exists.1 (hd.get2_isSome hj (show i < c.length by omega))
  rw [SymmetrizeMat_get, SymmetrizeMat_get]
  have h1 : ¬ (j < i ∧ i < c.length) := by omega
  have h2 : i < j ∧ j < c.length := ⟨hij, hj⟩
  rw [if_pos h2, if_neg h1, if_pos h2, hx, hy]
  cases isSum <;> simp

theorem SymmetrizeMat_idem [CharZero K] (isSum : Bool) (c : CMatrix K)
    (hd : Dims2 c c.length c.length) :
    SymmetrizeMat isSum (SymmetrizeMat isSum c) = SymmetrizeMat isSum c := by
  have hlen := SymmetrizeMat_length isSum c
  generalize hc1 : SymmetrizeMat isSum c = c1 at hlen
  have hsym : ∀ i j, i < j → j < c.length → ∃ v, get2 c1 i j = some v ∧
      get2 c1 j i = some (if isSum then v else v.conj) := by
    intro i j hij hj
    rw [← hc1]
    exact SymmetrizeMat_symm isSum c hd i j hij hj
  unfold SymmetrizeMat
  rw [hlen]
  apply tri_fixed c.length (fun c iw jw => SymmetrizeCell isSum c iw jw)
  intro i j hij hj
  obtain ⟨v, h1, h2⟩ := hsym i j hij hj
  cases isSum
  · simp only [Bool.false_eq_true, if_false] at h2
    simp only [SymmetrizeCell, Bool.false_eq_true, if_false, h1, h2, Option.getD_some,
      CVal.conj_conj, AvgSafeC_self]
    rw [set2_self h1, set2_self h2]
  · simp only [if_true] at h2
    simp only [SymmetrizeCell, if_true, h1, h2, Option.getD_some, AvgSafeC_self]
    rw [set2_self h2, set2_self h1]

/-- What `SymmetrizeSumDif` leaves at each `[ib][ih][idf]`. -/
theorem SymmetrizeSumDif_get (Nb nqh : Nat) (qtf : QTFTable K) (isSum : Bool) (ib ih idf : Nat) :
    get3 (SymmetrizeSumDif Nb nqh qtf isSum) ib ih idf =
      if ib < Nb ∧ ih < nqh ∧ idf < 6 then (get3 qtf ib ih idf).map (SymmetrizeMat isSum)
      else get3 qtf ib ih idf := by
  obtain ⟨h1, h2⟩ := foldl3_regions
    (fun (s : QTFTable K) (p : Nat × Nat × Nat) => get3 s p.1 p.2.1 p.2.2)
    (fun s i j k => modify3 s i j k (SymmetrizeMat isSum))
    (fun i j k p => p = (i, j, k))
    (fun s i j k _ => SymmetrizeMat isSum ((get3 s i j k).getD []))
    Nb nqh 6
    (by
      rintro s i j k - - - p rfl
      simp only [get3_modify3, and_self, if_true]
      cases get3 s i j k <;> rfl)
    (by
      rintro s i j k - - - ⟨a, b, c⟩ hp
      simp only [Prod.mk.injEq] at hp
      simp only [get3_modify3]
      rw [if_neg (by omega)])
    (by
      rintro s s' i j k - - - hs p -
      have := hs (i, j, k) rfl
      simp only at this
      simp only [this])
    (by
      rintro i j k i' j' k' p rfl h
      simp only [Prod.mk.injEq] at h
      exact h)
    qtf
  unfold SymmetrizeSumDif
  by_cases h : ib < Nb ∧ ih < nqh ∧ idf < 6
  · rw [if_pos h]
    have := h2 ib ih idf h.1 h.2.1 h.2.2 (ib, ih, idf) rfl
    simp only at this
    rw [this]
    cases get3 qtf ib ih idf <;> rfl
  · rw [if_neg h]
    apply h1 (ib, ih, idf)
    intro i j k hi hj hk hp
    simp only [Prod.mk.injEq] at hp
    omega

theorem SymmetrizeSumDif_idem [CharZero K] (Nb nqh : Nat) (qtf : QTFTable K) (isSum : Bool)
    (hsq : SquareQTF Nb nqh qtf) :
    SymmetrizeSumDif Nb nqh (SymmetrizeSumDif Nb nqh qtf isSum) isSum =
      SymmetrizeSumDif Nb nqh qtf isSum := by
  have hget := SymmetrizeSumDif_get Nb nqh qtf isSum
  generalize SymmetrizeSumDif Nb nqh qtf isSum = q1 at hget
  unfold SymmetrizeSumDif
  apply foldl3_fixed (fun s i j k => modify3 s i j k (SymmetrizeMat isSum))
  intro i j k hi hj hk
  apply modify3_self
  intro c hc
  rw [hget, if_pos ⟨hi, hj, hk⟩] at hc
  cases h0 : get3 qtf i j k with
  | none => simp [h0] at hc
  | some c0 =>
    rw [h0] at hc
    simp only [Option.map_some', Option.some.injEq] at hc
    rw [← hc]
    exact SymmetrizeMat_idem isSum c0 (hsq i j k hi hj hk c0 h0)

theorem cond_idem {α : Type} (p : α → Bool) (f : α → α) (x : α)
    (hf : p x = true → f (f x) = f x) :
    (if p (if p x then f x else x) then f (if p x then f x else x)
      else (if p x then f x else x)) = if p x then f x else x := by
  by_cases hx : p x = true
  · simp only [hx, if_true]
    split
    · exact hf hx
    · rfl
  · simp [hx]

end

section

variable {K : Type} [Field K]

theorem AvgSafe_comm (a b : Option K) : AvgSafe a b = AvgSafe b a := by
  cases a <;> cases b <;> simp only [AvgSafe]
  rw [add_comm]

theorem AvgSafeVec_length (a b : List (Option K)) : (AvgSafeVec a b).length = a.length := by
  simp [AvgSafeVec]

theorem AvgSafeVec_get (a b : List (Option K)) (k : Nat) (hk : k < a.length) :
    (AvgSafeVec a b)[k]? = some (AvgSafe ((a[k]?).getD none) ((b[k]?).getD none)) := by
  simp [AvgSafeVec, hk]

/-- What `SymmetrizeAB` leaves at `(i, j)` and `(j, i)`: one and the same series, of the
length of the series at `(i, j)`, whose sample `k` is the one of before on the diagonal
and the safe average of the two samples of before elsewhere. -/
theorem SymmetrizeAB_values (Nb : Nat) (A : SeriesTable K) (hd : Dims2 A (6 * Nb) (6 * Nb))
    (hlen : ∀ i, i < 6 * Nb → ∀ j, j < 6 * Nb →
      ((get2 A i j).getD []).length = ((get2 A j i).getD []).length)
    (i j : Nat) (hi : i < 6 * Nb) (hj : j < 6 * Nb) :
    ∃ s, get2 (SymmetrizeAB Nb A) i j = some s ∧ get2 (SymmetrizeAB Nb A) j i = some s ∧
      s.length = ((get2 A i j).getD []).length ∧
      ∀ k, k < s.length →
        get3 (SymmetrizeAB Nb A) i j k =
          some (if i = j then (get3 A i j k).getD none
            else AvgSafe ((get3 A i j k).getD none) ((get3 A j i k).getD none)) ∧
        get3 (SymmetrizeAB Nb A) j i k =
          some (if i = j then (get3 A i j k).getD none
            else AvgSafe ((get3 A i j k).getD none) ((get3 A j i k).getD none)) := by
  obtain ⟨x, hx⟩ := Option.isSome_iff_exists.1 (hd.get2_isSome hi hj)
  obtain ⟨y, hy⟩ := Option.isSome_iff_exists.1 (hd.get2_isSome hj hi)
  have hxy := hlen i hi j hj
  rw [hx, hy] at hxy
  simp only [Option.getD_some] at hxy
  have g3 : ∀ k, get3 A i j k = x[k]? := fun k => by simp [get3, hx]
  have g3' : ∀ k, get3 A j i k = y[k]? := fun k => by simp [get3, hy]
  rcases Nat.lt_trichotomy i j with h | h | h
  · have h1 : ¬ (j < i ∧ i < 6 * Nb) := by omega
    have e1 : get2 (SymmetrizeAB Nb A) i j = some (AvgSafeVec x y) := by
      rw [SymmetrizeAB_get, if_pos ⟨h, hj⟩, hx, hy]
      rfl
    have e2 : get2 (SymmetrizeAB Nb A) j i = some (AvgSafeVec x y) := by
      rw [SymmetrizeAB_get, if_neg h1, if_pos ⟨h, hj⟩, hx, hy]
      rfl
    refine ⟨_, e1, e2, by rw [AvgSafeVec_length, hx]; rfl, ?_⟩
    intro k hk
    rw [AvgSafeVec_length] at hk
    have hne : i ≠ j := by omega
    simp only [get3, e1, e2, Option.some_bind, AvgSafeVec_get x y k hk, hx, hy, if_neg hne,
      and_self]
  · subst h
    have h1 : ¬ (i < i ∧ i < 6 * Nb) := by omega
    have e1 : get2 (SymmetrizeAB Nb A) i i = some x := by
      rw [SymmetrizeAB_get, if_neg h1, if_neg h1, hx]
    refine ⟨_, e1, e1, by rw [hx]; rfl, ?_⟩
    intro k hk
    simp only [get3, e1, hx, Option.some_bind, if_true, List.getElem?_eq_getElem hk,
      Option.getD_some, and_self]
  · have h1 : ¬ (i < j ∧ j < 6 * Nb) := by omega
    have e1 : get2 (SymmetrizeAB Nb A) i j = some (AvgSafeVec y x) := by
      rw [SymmetrizeAB_get, if_neg h1, if_pos ⟨h, hi⟩, hx, hy]
      rfl
    have e2 : get2 (SymmetrizeAB Nb A) j i = some (AvgSafeVec y x) := by
      rw [SymmetrizeAB_get, if_pos ⟨h, hi⟩, hx, hy]
      rfl
    refine ⟨_, e1, e2, by rw [AvgSafeVec_length, hx, Option.getD_some, hxy], ?_⟩
    intro k hk
    rw [AvgSafeVec_length] at hk
    have hne : i ≠ j := by omega
    simp only [get3, e1, e2, Option.some_bind, AvgSafeVec_get y x k hk, hx, hy, if_neg hne,
      AvgSafe_comm ((y[k]?).getD none), and_self]

end

/-- C1. For a store whose added mass `A` and damping `B` are loaded, of dimension
`6 Nb x 6 Nb` and with the series at `(i, j)` and `(j, i)` of equal length, after
`Symmetrize` the cells `(i, j)` and `(j, i)` of `A` hold one and the same series, as
long as the series at `(i, j)` before the call, and at every frequency index `k` of that
series `A[i][j][k]` and `A[j][i][k]` are there and hold the same value: the value of
before on the diagonal, and the safe average of the two values of before elsewhere;
likewise for `B`. At every index the two cells agree. -/
theorem C1_Symmetrize_symmetric {K : Type} [Field K] (L : LoadedTests K) (h : Hydro K)
    (hA : L.IsLoadedA h.A = true) (hB : L.IsLoadedB h.B = true)
    (hdA : Dims2 h.A (6 * h.Nb) (6 * h.Nb)) (hdB : Dims2 h.B (6 * h.Nb) (6 * h.Nb))
    (hlenA : ∀ i, i < 6 * h.Nb → ∀ j, j < 6 * h.Nb →
      ((get2 h.A i j).getD []).length = ((get2 h.A j i).getD []).length)
    (hlenB : ∀ i, i < 6 * h.Nb → ∀ j, j < 6 * h.Nb →
      ((get2 h.B i j).getD []).length = ((get2 h.B j i).getD []).length)
    (i j : Nat) (hi : i < 6 * h.Nb) (hj : j < 6 * h.Nb) :
    (∃ s, get2 (Symmetrize L h).A i j = some s ∧ get2 (Symmetrize L h).A j i = some s ∧
      s.length = ((get2 h.A i j).getD []).length ∧
      ∀ k, k < s.length →
        get3 (Symmetrize L h).A i j k =
          some (if i = j then (get3 h.A i j k).getD none
            else AvgSafe ((get3 h.A i j k).getD none) ((get3 h.A j i k).getD none)) ∧
        get3 (Symmetrize L h).A j i k =
          some (if i = j then (get3 h.A i j k).getD none
            else AvgSafe ((get3 h.A i j k).getD none) ((get3 h.A j i k).getD none))) ∧
    (∀ k, get3 (Symmetrize L h).A i j k = get3 (Symmetrize L h).A j i k) ∧
    (∃ s, get2 (Symmetrize L h).B i j = some s ∧ get2 (Symmetrize L h).B j i = some s ∧
      s.length = ((get2 h.B i j).getD []).length ∧
      ∀ k, k < s.length →
        get3 (Symmetrize L h).B i j k =
          some (if i = j then (get3 h.B i j k).getD none
            else AvgSafe ((get3 h.B i j k).getD none) ((get3 h.B j i k).getD none)) ∧
        get3 (Symmetrize L h).B j i k =
          some (if i = j then (get3 h.B i j k).getD none
            else AvgSafe ((get3 h.B i j k).getD none) ((get3 h.B j i k).getD none))) ∧
    (∀ k, get3 (Symmetrize L h).B i j k = get3 (Symmetrize L h).B j i k) := by
  rw [Symmetrize_A, Symmetrize_B, if_pos hA, if_pos hB]
  have kA := SymmetrizeAB_values h.Nb h.A hdA hlenA i j hi hj
  have kB := SymmetrizeAB_values h.Nb h.B hdB hlenB i j hi hj
  refine ⟨kA, fun k => ?_, kB, fun k => ?_⟩
  · obtain ⟨s, h1, h2, -⟩ := kA
    simp only [get3, h1, h2]
  · obtain ⟨s, h1, h2, -⟩ := kB
    simp only [get3, h1, h2]

theorem C1_Symmetrize_symmetric_witness :
    (firstEntryTests : LoadedTests ℚ).IsLoadedA storeAB.A = true ∧
    get3 (Symmetrize firstEntryTests storeAB).A 1 4 0 = some (some (15 / 2)) ∧
    get3 (Symmetrize firstEntryTests storeAB).A 4 1 0 = some (some (15 / 2)) ∧
    ∃ s, get2 (Symmetrize firstEntryTests storeAB).A 1 4 = some s ∧
      get2 (Symmetrize firstEntryTests storeAB).A 4 1 = some s ∧
      s.length = ((get2 storeAB.A 1 4).getD []).length :=
  have h := (C1_Symmetrize_symmetric firstEntryTests storeAB (by decide) (by decide)
    (by decide) (by decide) (by decide) (by decide) 1 4 (by decide) (by decide)).1
  ⟨by decide, by decide!, by decide!, h.imp (fun _ hs => ⟨hs.1, hs.2.1, hs.2.2.1⟩)⟩

/-- C2. `Symmetrize` is idempotent: for a store whose loaded `A`, `B`, `Ainf`, `A0`
have dimension `6 Nb x 6 Nb` and whose loaded QTF matrices are square, applying
`Symmetrize` twice leaves `A`, `B`, `Ainf`, `A0`, `qtfsum` and `qtfdif` as they are
after applying it once. -/
theorem C2_Symmetrize_idempotent {K : Type} [Field K] [CharZero K] (L : LoadedTests K)
    (h : Hydro K)
    (hA : L.IsLoadedA h.A = true → Dims2 h.A (6 * h.Nb) (6 * h.Nb))
    (hB : L.IsLoadedB h.B = true → Dims2 h.B (6 * h.Nb) (6 * h.Nb))
    (hAinf : L.IsLoadedAinf h.Ainf = true → Dims2 h.Ainf (6 * h.Nb) (6 * h.Nb))
    (hA0 : L.IsLoadedA0 h.A0 = true → Dims2 h.A0 (6 * h.Nb) (6 * h.Nb))
    (hqs : L.IsLoadedQTF true h.qtfsum 0 = true → SquareQTF h.Nb h.qhead.length h.qtfsum)
    (hqd : L.IsLoadedQTF false h.qtfdif 0 = true → SquareQTF h.Nb h.qhead.length h.qtfdif) :
    (Symmetrize L (Symmetrize L h)).A = (Symmetrize L h).A ∧
    (Symmetrize L (Symmetrize L h)).B = (Symmetrize L h).B ∧
    (Symmetrize L (Symmetrize L h)).Ainf = (Symmetrize L h).Ainf ∧
    (Symmetrize L (Symmetrize L h)).A0 = (Symmetrize L h).A0 ∧
    (Symmetrize L (Symmetrize L h)).qtfsum = (Symmetrize L h).qtfsum ∧
    (Symmetrize L (Symmetrize L h)).qtfdif = (Symmetrize L h).qtfdif := by
  refine ⟨?_, ?_, ?_, ?_, ?_, ?_⟩
  · rw [Symmetrize_A L (Symmetrize L h), Symmetrize_Nb, Symmetrize_A]
    exact cond_idem L.IsLoadedA (SymmetrizeAB h.Nb) h.A
      (fun hl => SymmetrizeAB_idem h.Nb h.A (hA hl))
  · rw [Symmetrize_B L (Symmetrize L h), Symmetrize_Nb, Symmetrize_B]
    exact cond_idem L.IsLoadedB (SymmetrizeAB h.Nb) h.B
      (fun hl => SymmetrizeAB_idem h.Nb h.B (hB hl))
  · rw [Symmetrize_Ainf L (Symmetrize L h), Symmetrize_Nb, Symmetrize_Ainf]
    exact cond_idem L.IsLoadedAinf (SymmetrizeAinfA0 h.Nb) h.Ainf
      (fun hl => SymmetrizeAinfA0_idem h.Nb h.Ainf (hAinf hl))
  · rw [Symmetrize_A0 L (Symmetrize L h), Symmetrize_Nb, Symmetrize_A0]
    exact cond_idem L.IsLoadedA0 (SymmetrizeAinfA0 h.Nb) h.A0
      (fun hl => SymmetrizeAinfA0_idem h.Nb h.A0 (hA0 hl))
  · rw [Symmetrize_qtfsum L (Symmetrize L h), Symmetrize_Nb, Symmetrize_qhead, Symmetrize_qtfsum]
    exact cond_idem (fun q => L.IsLoadedQTF true q 0)
      (fun q => SymmetrizeSumDif h.Nb h.qhead.length q true) h.qtfsum
      (fun hl => SymmetrizeSumDif_idem h.Nb h.qhead.length h.qtfsum true (hqs hl))
  · rw [Symmetrize_qtfdif L (Symmetrize L h), Symmetrize_Nb, Symmetrize_qhead, Symmetrize_qtfdif]
    exact cond_idem (fun q => L.IsLoadedQTF false q 0)
      (fun q => SymmetrizeSumDif h.Nb h.qhead.length q false) h.qtfdif
      (fun hl => SymmetrizeSumDif_idem h.Nb h.qhead.length h.qtfdif false (hqd hl))

theorem C2_Symmetrize_idempotent_witness :
    (Symmetrize firstEntryTests (Symmetrize firstEntryTests storeAB)).A =
      (Symmetrize firstEntryTests storeAB).A ∧
    (Symmetrize firstEntryTests (Symmetrize firstEntryTests storeAB)).B =
      (Symmetrize firstEntryTests storeAB).B :=
  have h := C2_Symmetrize_idempotent firstEntryTests storeAB (fun _ => by decide)
    (fun _ => by decide) (fun h => absurd h (by decide)) (fun h => absurd h (by decide))
    (fun h => absurd h (by decide)) (fun h => absurd h (by decide))
  ⟨h.1, h.2.1⟩

/-! ## GetTranslationTo: the added-mass and damping transform -/

section

variable {K : Type}

theorem finRange3 : List.finRange 3 = [0, 1, 2] := by decide

theorem CopyTo_get_in (F : Matrix (Fin 3) (Fin 3) K) (s : SeriesTable K) (i0 j0 k : Nat)
    (i j : Fin 3) :
    get3 (CopyTo F s i0 j0 k) (i0 + i) (j0 + j) k =
      (get3 s (i0 + i) (j0 + j) k).map (fun _ => some (F i j)) := by
  unfold CopyTo
  simp only [finRange3, List.foldl_cons, List.foldl_nil, get3_set3]
  fin_cases i <;> fin_cases j <;> simp

theorem CopyTo_get_out (F : Matrix (Fin 3) (Fin 3) K) (s : SeriesTable K) (i0 j0 k : Nat)
    (a b c : Nat) (h : ¬ (i0 ≤ a ∧ a < i0 + 3 ∧ j0 ≤ b ∧ b < j0 + 3 ∧ c = k)) :
    get3 (CopyTo F s i0 j0 k) a b c = get3 s a b c := by
  unfold CopyTo
  simp only [finRange3, List.foldl_cons, List.foldl_nil, get3_set3]
  have e0 : ((0 : Fin 3) : Nat) = 0 := rfl
  have e1 : ((1 : Fin 3) : Nat) = 1 := rfl
  have e2 : ((2 : Fin 3) : Nat) = 2 := rfl
  simp only [e0, e1, e2]
  repeat rw [if_neg (by omega)]

theorem Fin_ofNat_lt {n x : Nat} (h : x < n + 1) : ((Fin.ofNat x : Fin (n + 1)) : Nat) = x := by
  simp [Fin.ofNat, Nat.mod_eq_of_lt h]

theorem CopyTo_get (F : Matrix (Fin 3) (Fin 3) K) (s : SeriesTable K) (i0 j0 k a b c : Nat) :
    get3 (CopyTo F s i0 j0 k) a b c =
      if i0 ≤ a ∧ a < i0 + 3 ∧ j0 ≤ b ∧ b < j0 + 3 ∧ c = k then
        (get3 s a b c).map (fun _ => some (F (Fin.ofNat (a - i0)) (Fin.ofNat (b - j0))))
      else get3 s a b c := by
  split
  · next h =>
    obtain ⟨h1, h2, h3, h4, rfl⟩ := h
    have ha : a = i0 + ((Fin.ofNat (a - i0) : Fin 3) : Nat) := by
      rw [Fin_ofNat_lt (by omega)]; omega
    have hb : b = j0 + ((Fin.ofNat (b - j0) : Fin 3) : Nat) := by
      rw [Fin_ofNat_lt (by omega)]; omega
    have := CopyTo_get_in F s i0 j0 c (Fin.ofNat (a - i0)) (Fin.ofNat (b - j0))
    rw [← ha, ← hb] at this
    exact this
  · next h => exact CopyTo_get_out F s i0 j0 k a b c h

theorem TransABblock_get [Field K] (A s : SeriesTable K) (Rg : Matrix (Fin 3) (Fin 3) K)
    (i0 j0 k a b c : Nat) :
    get3 (TransABblock A s Rg i0 j0 k) a b c =
      if i0 ≤ a ∧ a < i0 + 6 ∧ j0 ≤ b ∧ b < j0 + 6 ∧ c = k then
        (get3 s a b c).map (fun _ => some (rigidBlock
          (Nvl0 (CopyFrom A (i0 + 0) (j0 + 0) k)) (Nvl0 (CopyFrom A (i0 + 0) (j0 + 3) k))
          (Nvl0 (CopyFrom A (i0 + 3) (j0 + 0) k)) (Nvl0 (CopyFrom A (i0 + 3) (j0 + 3) k)) Rg
          (a - i0) (b - j0)))
      else get3 s a b c := by
  unfold TransABblock
  simp only [CopyTo_get, Nat.add_zero]
  by_cases hin : i0 ≤ a ∧ a < i0 + 6 ∧ j0 ≤ b ∧ b < j0 + 6 ∧ c = k
  · rw [if_pos hin]
    obtain ⟨h1, h2, h3, h4, rfl⟩ := hin
    unfold rigidBlock block6
    by_cases ha : a < i0 + 3 <;> by_cases hb : b < j0 + 3
    · have e1 : ¬ (i0 + 3 ≤ a ∧ a < i0 + 3 + 3 ∧ j0 + 3 ≤ b ∧ b < j0 + 3 + 3 ∧ c = c) := by omega
      have e2 : ¬ (i0 + 3 ≤ a ∧ a < i0 + 3 + 3 ∧ j0 ≤ b ∧ b < j0 + 3 ∧ c = c) := by omega
      have e3 : ¬ (i0 ≤ a ∧ a < i0 + 3 ∧ j0 + 3 ≤ b ∧ b < j0 + 3 + 3 ∧ c = c) := by omega
      have e4 : (i0 ≤ a ∧ a < i0 + 3 ∧ j0 ≤ b ∧ b < j0 + 3 ∧ c = c) := by omega
      have e5 : a - i0 < 3 := by omega
      have e6 : b - j0 < 3 := by omega
      rw [if_neg e1, if_neg e2, if_neg e3, if_pos e4, if_pos e5, if_pos e6]
    · have e1 : ¬ (i0 + 3 ≤ a ∧ a < i0 + 3 + 3 ∧ j0 + 3 ≤ b ∧ b < j0 + 3 + 3 ∧ c = c) := by omega
      have e2 : ¬ (i0 + 3 ≤ a ∧ a < i0 + 3 + 3 ∧ j0 ≤ b ∧ b < j0 + 3 ∧ c = c) := by omega
      have e3 : (i0 ≤ a ∧ a < i0 + 3 ∧ j0 + 3 ≤ b ∧ b < j0 + 3 + 3 ∧ c = c) := by omega
      have e4 : ¬ (i0 ≤ a ∧ a < i0 + 3 ∧ j0 ≤ b ∧ b < j0 + 3 ∧ c = c) := by omega
      have e5 : a - i0 < 3 := by omega
      have e6 : ¬ (b - j0 < 3) := by omega
      have e7 : b - (j0 + 3) = b - j0 - 3 := by omega
      rw [if_neg e1, if_neg e2, if_pos e3, if_neg e4, if_pos e5, if_neg e6, e7]
    · have e1 : ¬ (i0 + 3 ≤ a ∧ a < i0 + 3 + 3 ∧ j0 + 3 ≤ b ∧ b < j0 + 3 + 3 ∧ c = c) := by omega
      have e2 : (i0 + 3 ≤ a ∧ a < i0 + 3 + 3 ∧ j0 ≤ b ∧ b < j0 + 3 ∧ c = c) := by omega
      have e3 : ¬ (i0 ≤ a ∧ a < i0 + 3 ∧ j0 + 3 ≤ b ∧ b < j0 + 3 + 3 ∧ c = c) := by omega
      have e4 : ¬ (i0 ≤ a ∧ a < i0 + 3 ∧ j0 ≤ b ∧ b < j0 + 3 ∧ c = c) := by omega
      have e5 : ¬ (a - i0 < 3) := by omega
      have e6 : (b - j0 < 3) := by omega
      have e7 : a - (i0 + 3) = a - i0 - 3 := by omega
      rw [if_neg e1, if_pos e2, if_neg e3, if_neg e4, if_neg e5, if_pos e6, e7]
    · have e1 : (i0 + 3 ≤ a ∧ a < i0 + 3 + 3 ∧ j0 + 3 ≤ b ∧ b < j0 + 3 + 3 ∧ c = c) := by omega
      have e2 : ¬ (i0 + 3 ≤ a ∧ a < i0 + 3 + 3 ∧ j0 ≤ b ∧ b < j0 + 3 ∧ c = c) := by omega
      have e3 : ¬ (i0 ≤ a ∧ a < i0 + 3 ∧ j0 + 3 ≤ b ∧ b < j0 + 3 + 3 ∧ c = c) := by omega
      have e4 : ¬ (i0 ≤ a ∧ a < i0 + 3 ∧ j0 ≤ b ∧ b < j0 + 3 ∧ c = c) := by omega
      have e5 : ¬ (a - i0 < 3) := by omega
      have e6 : ¬ (b - j0 < 3) := by omega
      have e7 : a - (i0 + 3) = a - i0 - 3 := by omega
      have e8 : b - (j0 + 3) = b - j0 - 3 := by omega
      rw [if_pos e1, if_neg e2, if_neg e3, if_neg e4, if_neg e5, if_neg e6, e7, e8]
  · rw [if_neg hin, if_neg (by omega), if_neg (by omega), if_neg (by omega), if_neg (by omega)]

theorem foldlM_ok {σ ι ε : Type} (f : σ → ι → Except ε σ) (g : σ → ι → σ) (l : List ι) (s : σ)
    (h : ∀ s, ∀ i ∈ l, f s i = Except.ok (g s i)) :
    l.foldlM f s = Except.ok (l.foldl g s) := by
  induction l generalizing s with
  | nil => rfl
  | cons a l ih =>
    rw [List.foldlM_cons, h s a (List.mem_cons_self _ _)]
    exact ih _ (fun s i hi => h s i (List.mem_cons_of_mem _ hi))

theorem get3_replicate {α : Type} (n m k : Nat) (v : α) (a b c : Nat) :
    get3 (List.replicate n (List.replicate m (List.replicate k v))) a b c =
      if a < n ∧ b < m ∧ c < k then some v else none := by
  unfold get3 get2
  by_cases ha : a < n
  · by_cases hb : b < m
    · by_cases hc : c < k
      · simp [ha, hb, hc, List.getElem?_replicate]
      · simp [ha, hb, hc, List.getElem?_replicate]
    · simp [ha, hb, List.getElem?_replicate]
  · simp [ha, List.getElem?_replicate]

/-- The table that `TransAB` builds when no block is refused. -/
theorem TransAB_ok [Field K] (Nb Nf : Nat) (force : Bool) (delta : Nat → Fin 3 → K)
    (A : SeriesTable K)
    (hc : force = true ∨ ∀ ib jb, ib < Nb → jb < Nb → TransABcheck A (ib * 6) (jb * 6) = true) :
    TransAB Nb Nf force delta A = Except.ok
      ((List.range Nb).foldl (fun An ib => (List.range Nb).foldl (fun An jb =>
        (List.range Nf).foldl (fun An iif =>
          TransABblock A An (SkewSymmetricMatrix (delta ib)) (ib * 6) (jb * 6) iif) An) An)
        (Initialize_AB Nb Nf)) := by
  unfold TransAB
  apply foldlM_ok
  intro s ib hib
  apply foldlM_ok
  intro s jb hjb
  have : (!force && !TransABcheck A (ib * 6) (jb * 6)) = false := by
    rcases hc with hc | hc
    · simp [hc]
    · simp [hc ib jb (List.mem_range.1 hib) (List.mem_range.1 hjb)]
  simp [this]

/-- Every entry of the table built by `TransAB`. -/
theorem TransAB_get [Field K] (Nb Nf : Nat) (delta : Nat → Fin 3 → K) (A : SeriesTable K)
    (ib jb iif x y : Nat) (hib : ib < Nb) (hjb : jb < Nb) (hif : iif < Nf) (hx : x < 6)
    (hy : y < 6) :
    get3 ((List.range Nb).foldl (fun An ib => (List.range Nb).foldl (fun An jb =>
        (List.range Nf).foldl (fun An iif =>
          TransABblock A An (SkewSymmetricMatrix (delta ib)) (ib * 6) (jb * 6) iif) An) An)
        (Initialize_AB Nb Nf)) (ib * 6 + x) (jb * 6 + y) iif =
      some (some (rigidBlock
          (Nvl0 (CopyFrom A (ib * 6 + 0) (jb * 6 + 0) iif))
          (Nvl0 (CopyFrom A (ib * 6 + 0) (jb * 6 + 3) iif))
          (Nvl0 (CopyFrom A (ib * 6 + 3) (jb * 6 + 0) iif))
          (Nvl0 (CopyFrom A (ib * 6 + 3) (jb * 6 + 3) iif)) (SkewSymmetricMatrix (delta ib))
          x y)) := by
  obtain ⟨-, h2⟩ := foldl3_regions
    (fun (s : SeriesTable K) (p : Nat × Nat × Nat) => get3 s p.1 p.2.1 p.2.2)
    (fun An ib jb iif =>
      TransABblock A An (SkewSymmetricMatrix (delta ib)) (ib * 6) (jb * 6) iif)
    (fun ib jb iif p => ib * 6 ≤ p.1 ∧ p.1 < ib * 6 + 6 ∧ jb * 6 ≤ p.2.1 ∧ p.2.1 < jb * 6 + 6 ∧
      p.2.2 = iif)
    (fun _ ib jb iif p => some (rigidBlock
          (Nvl0 (CopyFrom A (ib * 6 + 0) (jb * 6 + 0) iif))
          (Nvl0 (CopyFrom A (ib * 6 + 0) (jb * 6 + 3) iif))
          (Nvl0 (CopyFrom A (ib * 6 + 3) (jb * 6 + 0) iif))
          (Nvl0 (CopyFrom A (ib * 6 + 3) (jb * 6 + 3) iif)) (SkewSymmetricMatrix (delta ib))
          (p.1 - ib * 6) (p.2.1 - jb * 6)))
    Nb Nb Nf
    (by
      rintro s i j k - - - ⟨a, b, c⟩ hp
      simp only [TransABblock_get]
      rw [if_pos hp])
    (by
      rintro s i j k - - - ⟨a, b, c⟩ hp
      simp only [TransABblock_get]
      rw [if_neg hp])
    (by intros; rfl)
    (by
      rintro i j k i' j' k' ⟨a, b, c⟩ hp hp'
      simp only at hp hp'
      omega)
    (Initialize_AB Nb Nf)
  have := h2 ib jb iif hib hjb hif (ib * 6 + x, jb * 6 + y, iif) (by dsimp only; omega)
  simp only at this
  rw [this]
  have e1 : ib * 6 + x - ib * 6 = x := by omega
  have e2 : jb * 6 + y - jb * 6 = y := by omega
  rw [e1, e2]
  unfold Initialize_AB
  rw [get3_replicate, if_pos (by omega)]
  rfl

theorem setBlock3_get_in (F : Matrix (Fin 3) (Fin 3) K) (s : RMatrix K) (i0 j0 : Nat)
    (i j : Fin 3) :
    get2 (setBlock3 F s i0 j0) (i0 + i) (j0 + j) =
      (get2 s (i0 + i) (j0 + j)).map (fun _ => some (F i j)) := by
  unfold setBlock3
  simp only [finRange3, List.foldl_cons, List.foldl_nil, get2_set2]
  fin_cases i <;> fin_cases j <;> simp

theorem setBlock3_get_out (F : Matrix (Fin 3) (Fin 3) K) (s : RMatrix K) (i0 j0 : Nat)
    (a b : Nat) (h : ¬ (i0 ≤ a ∧ a < i0 + 3 ∧ j0 ≤ b ∧ b < j0 + 3)) :
    get2 (setBlock3 F s i0 j0) a b = get2 s a b := by
  unfold setBlock3
  simp only [finRange3, List.foldl_cons, List.foldl_nil, get2_set2]
  have e0 : ((0 : Fin 3) : Nat) = 0 := rfl
  have e1 : ((1 : Fin 3) : Nat) = 1 := rfl
  have e2 : ((2 : Fin 3) : Nat) = 2 := rfl
  simp only [e0, e1, e2]
  repeat rw [if_neg (by omega)]

theorem setBlock3_get (F : Matrix (Fin 3) (Fin 3) K) (s : RMatrix K) (i0 j0 a b : Nat) :
    get2 (setBlock3 F s i0 j0) a b =
      if i0 ≤ a ∧ a < i0 + 3 ∧ j0 ≤ b ∧ b < j0 + 3 then
        (get2 s a b).map (fun _ => some (F (Fin.ofNat (a - i0)) (Fin.ofNat (b - j0))))
      else get2 s a b := by
  split
  · next h =>
    obtain ⟨h1, h2, h3, h4⟩ := h
    have ha : a = i0 + ((Fin.ofNat (a - i0) : Fin 3) : Nat) := by
      rw [Fin_ofNat_lt (by omega)]; omega
    have hb : b = j0 + ((Fin.ofNat (b - j0) : Fin 3) : Nat) := by
      rw [Fin_ofNat_lt (by omega)]; omega
    have := setBlock3_get_in F s i0 j0 (Fin.ofNat (a - i0)) (Fin.ofNat (b - j0))
    rw [← ha, ← hb] at this
    exact this
  · next h => exact setBlock3_get_out F s i0 j0 a b h

theorem TransAblock_get [Field K] (A s : RMatrix K) (Rg : Matrix (Fin 3) (Fin 3) K)
    (i0 j0 a b : Nat) :
    get2 (TransAblock A s Rg i0 j0) a b =
      if i0 ≤ a ∧ a < i0 + 6 ∧ j0 ≤ b ∧ b < j0 + 6 then
        (get2 s a b).map (fun _ => some (rigidBlock
          (Nvl0 (block3 A (i0 + 0) (j0 + 0))) (Nvl0 (block3 A (i0 + 0) (j0 + 3)))
          (Nvl0 (block3 A (i0 + 3) (j0 + 0))) (Nvl0 (block3 A (i0 + 3) (j0 + 3))) Rg
          (a - i0) (b - j0)))
      else get2 s a b := by
  unfold TransAblock
  simp only [setBlock3_get, Nat.add_zero]
  by_cases hin : i0 ≤ a ∧ a < i0 + 6 ∧ j0 ≤ b ∧ b < j0 + 6
  · rw [if_pos hin]
    obtain ⟨h1, h2, h3, h4⟩ := hin
    unfold rigidBlock block6
    by_cases ha : a < i0 + 3 <;> by_cases hb : b < j0 + 3
    · have e1 : ¬ (i0 + 3 ≤ a ∧ a < i0 + 3 + 3 ∧ j0 + 3 ≤ b ∧ b < j0 + 3 + 3) := by omega
      have e2 : ¬ (i0 + 3 ≤ a ∧ a < i0 + 3 + 3 ∧ j0 ≤ b ∧ b < j0 + 3) := by omega
      have e3 : ¬ (i0 ≤ a ∧ a < i0 + 3 ∧ j0 + 3 ≤ b ∧ b < j0 + 3 + 3) := by omega
      have e4 : (i0 ≤ a ∧ a < i0 + 3 ∧ j0 ≤ b ∧ b < j0 + 3) := by omega
      have e5 : a - i0 < 3 := by omega
      have e6 : b - j0 < 3 := by omega
      rw [if_neg e1, if_neg e2, if_neg e3, if_pos e4, if_pos e5, if_pos e6]
    · have e1 : ¬ (i0 + 3 ≤ a ∧ a < i0 + 3 + 3 ∧ j0 + 3 ≤ b ∧ b < j0 + 3 + 3) := by omega
      have e2 : ¬ (i0 + 3 ≤ a ∧ a < i0 + 3 + 3 ∧ j0 ≤ b ∧ b < j0 + 3) := by omega
      have e3 : (i0 ≤ a ∧ a < i0 + 3 ∧ j0 + 3 ≤ b ∧ b < j0 + 3 + 3) := by omega
      have e4 : ¬ (i0 ≤ a ∧ a < i0 + 3 ∧ j0 ≤ b ∧ b < j0 + 3) := by omega
      have e5 : a - i0 < 3 := by omega
      have e6 : ¬ (b - j0 < 3) := by omega
      have e7 : b - (j0 + 3) = b - j0 - 3 := by omega
      rw [if_neg e1, if_neg e2, if_pos e3, if_neg e4, if_pos e5, if_neg e6, e7]
    · have e1 : ¬ (i0 + 3 ≤ a ∧ a < i0 + 3 + 3 ∧ j0 + 3 ≤ b ∧ b < j0 + 3 + 3) := by omega
      have e2 : (i0 + 3 ≤ a ∧ a < i0 + 3 + 3 ∧ j0 ≤ b ∧ b < j0 + 3) := by omega
      have e3 : ¬ (i0 ≤ a ∧ a < i0 + 3 ∧ j0 + 3 ≤ b ∧ b < j0 + 3 + 3) := by omega
      have e4 : ¬ (i0 ≤ a ∧ a < i0 + 3 ∧ j0 ≤ b ∧ b < j0 + 3) := by omega
      have e5 : ¬ (a - i0 < 3) := by omega
      have e6 : (b - j0 < 3) := by omega
      have e7 : a - (i0 + 3) = a - i0 - 3 := by omega
      rw [if_neg e1, if_pos e2, if_neg e3, if_neg e4, if_neg e5, if_pos e6, e7]
    · have e1 : (i0 + 3 ≤ a ∧ a < i0 + 3 + 3 ∧ j0 + 3 ≤ b ∧ b < j0 + 3 + 3) := by omega
      have e2 : ¬ (i0 + 3 ≤ a ∧ a < i0 + 3 + 3 ∧ j0 ≤ b ∧ b < j0 + 3) := by omega
      have e3 : ¬ (i0 ≤ a ∧ a < i0 + 3 ∧ j0 + 3 ≤ b ∧ b < j0 + 3 + 3) := by omega
      have e4 : ¬ (i0 ≤ a ∧ a < i0 + 3 ∧ j0 ≤ b ∧ b < j0 + 3) := by omega
      have e5 : ¬ (a - i0 < 3) := by omega
      have e6 : ¬ (b - j0 < 3) := by omega
      have e7 : a - (i0 + 3) = a - i0 - 3 := by omega
      have e8 : b - (j0 + 3) = b - j0 - 3 := by omega
      rw [if_pos e1, if_neg e2, if_neg e3, if_neg e4, if_neg e5, if_neg e6, e7, e8]
  · rw [if_neg hin, if_neg (by omega), if_neg (by omega), if_neg (by omega), if_neg (by omega)]

theorem get2_replicate {α : Type} (n m : Nat) (v : α) (a b : Nat) :
    get2 (List.replicate n (List.replicate m v)) a b =
      if a < n ∧ b < m then some v else none := by
  unfold get2
  by_cases ha : a < n
  · by_cases hb : b < m
    · simp [ha, hb, List.getElem?_replicate]
    · simp [ha, hb, List.getElem?_replicate]
  · simp [ha, List.getElem?_replicate]

/-- The matrix that `TransA` builds when no block is refused. -/
theorem TransA_ok [Field K] (Nb : Nat) (force : Bool) (delta : Nat → Fin 3 → K)
    (A : RMatrix K)
    (hc : force = true ∨ ∀ ib jb, ib < Nb → jb < Nb → TransAcheck A (ib * 6) (jb * 6) = true) :
    TransA Nb force delta A = Except.ok
      ((List.range Nb).foldl (fun An ib => (List.range Nb).foldl (fun An jb =>
          TransAblock A An (SkewSymmetricMatrix (delta ib)) (ib * 6) (jb * 6)) An)
        (List.replicate (6 * Nb) (List.replicate (6 * Nb) (some 0)))) := by
  unfold TransA
  apply foldlM_ok
  intro s ib hib
  apply foldlM_ok
  intro s jb hjb
  have : (!force && !TransAcheck A (ib * 6) (jb * 6)) = false := by
    rcases hc with hc | hc
    · simp [hc]
    · simp [hc ib jb (List.mem_range.1 hib) (List.mem_range.1 hjb)]
  simp [this]

/-- Every entry of the matrix built by `TransA`. -/
theorem TransA_get [Field K] (Nb : Nat) (delta : Nat → Fin 3 → K) (A : RMatrix K)
    (ib jb x y : Nat) (hib : ib < Nb) (hjb : jb < Nb) (hx : x < 6) (hy : y < 6) :
    get2 ((List.range Nb).foldl (fun An ib => (List.range Nb).foldl (fun An jb =>
          TransAblock A An (SkewSymmetricMatrix (delta ib)) (ib * 6) (jb * 6)) An)
        (List.replicate (6 * Nb) (List.replicate (6 * Nb) (some 0)))) (ib * 6 + x) (jb * 6 + y) =
      some (some (rigidBlock
          (Nvl0 (block3 A (ib * 6 + 0) (jb * 6 + 0)))
          (Nvl0 (block3 A (ib * 6 + 0) (jb * 6 + 3)))
          (Nvl0 (block3 A (ib * 6 + 3) (jb * 6 + 0)))
          (Nvl0 (block3 A (ib * 6 + 3) (jb * 6 + 3))) (SkewSymmetricMatrix (delta ib))
          x y)) := by
  obtain ⟨-, h2⟩ := foldl2_regions
    (fun (s : RMatrix K) (p : Nat × Nat) => get2 s p.1 p.2)
    (fun An ib jb => TransAblock A An (SkewSymmetricMatrix (delta ib)) (ib * 6) (jb * 6))
    (fun ib jb p => ib * 6 ≤ p.1 ∧ p.1 < ib * 6 + 6 ∧ jb * 6 ≤ p.2 ∧ p.2 < jb * 6 + 6)
    (fun _ ib jb p => some (rigidBlock
          (Nvl0 (block3 A (ib * 6 + 0) (jb * 6 + 0)))
          (Nvl0 (block3 A (ib * 6 + 0) (jb * 6 + 3)))
          (Nvl0 (block3 A (ib * 6 + 3) (jb * 6 + 0)))
          (Nvl0 (block3 A (ib * 6 + 3) (jb * 6 + 3))) (SkewSymmetricMatrix (delta ib))
          (p.1 - ib * 6) (p.2 - jb * 6)))
    Nb Nb
    (by
      rintro s i j - - ⟨a, b⟩ hp
      simp only [TransAblock_get]
      rw [if_pos hp])
    (by
      rintro s i j - - ⟨a, b⟩ hp
      simp only [TransAblock_get]
      rw [if_neg hp])
    (by intros; rfl)
    (by
      rintro i j i' j' ⟨a, b⟩ hp hp'
      simp only at hp hp'
      omega)
    (List.replicate (6 * Nb) (List.replicate (6 * Nb) (some 0)))
  have := h2 ib jb hib hjb (ib * 6 + x, jb * 6 + y) (by dsimp only; omega)
  simp only at this
  rw [this]
  have e1 : ib * 6 + x - ib * 6 = x := by omega
  have e2 : jb * 6 + y - jb * 6 = y := by omega
  rw [e1, e2, get2_replicate, if_pos (by omega)]
  rfl

/-- A call of `GetTranslationTo` that does not throw: the target is numeric, none of
the six transforms of the added-mass and damping families threw, and the store is
the one left by the rest of the call. -/
theorem GetTranslationTo_ok [Field K] [DecidableEq K] (L : LoadedTests K) (X : Externals K)
    (h : Hydro K) (to' : RMatrix K) (force : Bool) (Status : String → Int → Bool)
    (hok : (GetTranslationTo L X h to' force Status).error = none) :
    IsNumMat to' = true ∧ ∃ A Aw B BH A0 Ainf,
      attempt (L.IsLoadedA h.A)
        (TransAB h.Nb h.Nf force (translationDelta to' h.msh) h.A) h.A = Except.ok A ∧
      attempt (L.IsLoadedAinf_w h.Ainf_w)
        (TransAB h.Nb h.Nf force (translationDelta to' h.msh) h.Ainf_w) h.Ainf_w
          = Except.ok Aw ∧
      attempt (L.IsLoadedB h.B)
        (TransAB h.Nb h.Nf force (translationDelta to' h.msh) h.B) h.B = Except.ok B ∧
      attempt (L.IsLoadedB_H h.B_H)
        (TransAB h.Nb h.Nf force (translationDelta to' h.msh) h.B_H) h.B_H = Except.ok BH ∧
      attempt (L.IsLoadedA0 h.A0)
        (TransA h.Nb force (translationDelta to' h.msh) h.A0) h.A0 = Except.ok A0 ∧
      attempt (L.IsLoadedAinf h.Ainf)
        (TransA h.Nb force (translationDelta to' h.msh) h.Ainf) h.Ainf = Except.ok Ainf ∧
      (GetTranslationTo L X h to' force Status).store =
        translateRest L X to' (translationDelta to' h.msh)
          { h with A := A, Ainf_w := Aw, B := B, B_H := BH, A0 := A0, Ainf := Ainf } := by
  unfold GetTranslationTo at hok ⊢
  by_cases hto : IsNumMat to' = true
  · refine ⟨hto, ?_⟩
    simp only [hto, Bool.not_true, Bool.false_eq_true, if_false] at hok ⊢
    cases hA : attempt (L.IsLoadedA h.A)
        (TransAB h.Nb h.Nf force (translationDelta to' h.msh) h.A) h.A with
    | error e => simp [hA] at hok
    | ok A =>
    cases hAw : attempt (L.IsLoadedAinf_w h.Ainf_w)
        (TransAB h.Nb h.Nf force (translationDelta to' h.msh) h.Ainf_w) h.Ainf_w with
    | error e => simp [hA, hAw] at hok
    | ok Aw =>
    cases hB : attempt (L.IsLoadedB h.B)
        (TransAB h.Nb h.Nf force (translationDelta to' h.msh) h.B) h.B with
    | error e => simp [hA, hAw, hB] at hok
    | ok B =>
    cases hBH : attempt (L.IsLoadedB_H h.B_H)
        (TransAB h.Nb h.Nf force (translationDelta to' h.msh) h.B_H) h.B_H with
    | error e => simp [hA, hAw, hB, hBH] at hok
    | ok BH =>
    cases hA0 : attempt (L.IsLoadedA0 h.A0)
        (TransA h.Nb force (translationDelta to' h.msh) h.A0) h.A0 with
    | error e => simp [hA, hAw, hB, hBH, hA0] at hok
    | ok A0 =>
    cases hAinf : attempt (L.IsLoadedAinf h.Ainf)
        (TransA h.Nb force (translationDelta to' h.msh) h.Ainf) h.Ainf with
    | error e => simp [hA, hAw, hB, hBH, hA0, hAinf] at hok
    | ok Ainf =>
    exact ⟨A, Aw, B, BH, A0, Ainf, rfl, rfl, rfl, rfl, rfl, rfl, rfl⟩
  · simp [hto] at hok

theorem foldlM_eq_ok {σ ι ε : Type} (f : σ → ι → Except ε σ) (g : σ → ι → σ) (l : List ι)
    (s r : σ) (h : ∀ s i, f s i = Except.ok (g s i) ∨ ∃ e, f s i = Except.error e)
    (hr : l.foldlM f s = Except.ok r) : r = l.foldl g s := by
  induction l generalizing s with
  | nil =>
    simp only [List.foldlM_nil, pure, Except.pure, Except.ok.injEq] at hr
    exact hr.symm
  | cons a l ih =>
    rw [List.foldlM_cons] at hr
    rcases h s a with h1 | ⟨e, h1⟩
    · rw [h1] at hr
      exact ih _ hr
    · rw [h1] at hr
      simp [bind, Except.bind] at hr

/-- A table returned by `TransAB` is the one built block by block. -/
theorem TransAB_eq [Field K] (Nb Nf : Nat) (force : Bool) (delta : Nat → Fin 3 → K)
    (A An : SeriesTable K) (hT : TransAB Nb Nf force delta A = Except.ok An) :
    An = (List.range Nb).foldl (fun An ib => (List.range Nb).foldl (fun An jb =>
        (List.range Nf).foldl (fun An iif =>
          TransABblock A An (SkewSymmetricMatrix (delta ib)) (ib * 6) (jb * 6) iif) An) An)
        (Initialize_AB Nb Nf) := by
  unfold TransAB at hT
  refine foldlM_eq_ok _ _ _ _ _ ?_ hT
  intro s ib
  cases hi : (List.range Nb).foldlM (fun An jb =>
      if (!force && !TransABcheck A (ib * 6) (jb * 6)) = true then Except.error allDofMessage
      else Except.ok ((List.range Nf).foldl (fun An iif =>
        TransABblock A An (SkewSymmetricMatrix (delta ib)) (ib * 6) (jb * 6) iif) An)) s with
  | error e => exact Or.inr ⟨e, rfl⟩
  | ok r =>
    left
    congr 1
    refine foldlM_eq_ok _ _ _ _ _ ?_ hi
    intro s jb
    by_cases hc : (!force && !TransABcheck A (ib * 6) (jb * 6)) = true
    · exact Or.inr ⟨allDofMessage, by rw [if_pos hc]⟩
    · exact Or.inl (by rw [if_neg hc])

theorem TransA_eq [Field K] (Nb : Nat) (force : Bool) (delta : Nat → Fin 3 → K)
    (A An : RMatrix K) (hT : TransA Nb force delta A = Except.ok An) :
    An = (List.range Nb).foldl (fun An ib => (List.range Nb).foldl (fun An jb =>
          TransAblock A An (SkewSymmetricMatrix (delta ib)) (ib * 6) (jb * 6)) An)
        (List.replicate (6 * Nb) (List.replicate (6 * Nb) (some 0))) := by
  unfold TransA at hT
  refine foldlM_eq_ok _ _ _ _ _ ?_ hT
  intro s ib
  cases hi : (List.range Nb).foldlM (fun An jb =>
      if (!force && !TransAcheck A (ib * 6) (jb * 6)) = true then Except.error allDofMessageA
      else Except.ok (TransAblock A An (SkewSymmetricMatrix (delta ib)) (ib * 6) (jb * 6))) s with
  | error e => exact Or.inr ⟨e, rfl⟩
  | ok r =>
    left
    congr 1
    refine foldlM_eq_ok _ _ _ _ _ ?_ hi
    intro s jb
    by_cases hc : (!force && !TransAcheck A (ib * 6) (jb * 6)) = true
    · exact Or.inr ⟨allDofMessageA, by rw [if_pos hc]⟩
    · exact Or.inl (by rw [if_neg hc])

theorem Fin_ofNat_val (i : Fin 3) : (Fin.ofNat i.val : Fin 3) = i :=
  Fin.ext (Fin_ofNat_lt i.isLt)

theorem Nvl0_some [Field K] (Q : Matrix (Fin 3) (Fin 3) K) :
    Nvl0 (fun i j => some (Q i j)) = Q := rfl

/-- The four partitions written by `TransAB` for a block whose partitions before the
call are the numeric matrices `Q11 .. Q22`. -/
theorem TransAB_partitions [Field K] (Nb Nf : Nat) (force : Bool) (delta : Nat → Fin 3 → K)
    (A An : SeriesTable K) (hT : TransAB Nb Nf force delta A = Except.ok An)
    (ib jb iif : Nat) (hib : ib < Nb) (hjb : jb < Nb) (hif : iif < Nf)
    (Q11 Q12 Q21 Q22 : Matrix (Fin 3) (Fin 3) K)
    (h11 : CopyFrom A (ib * 6) (jb * 6) iif = fun i j => some (Q11 i j))
    (h12 : CopyFrom A (ib * 6) (jb * 6 + 3) iif = fun i j => some (Q12 i j))
    (h21 : CopyFrom A (ib * 6 + 3) (jb * 6) iif = fun i j => some (Q21 i j))
    (h22 : CopyFrom A (ib * 6 + 3) (jb * 6 + 3) iif = fun i j => some (Q22 i j)) :
    CopyFrom An (ib * 6) (jb * 6) iif = (fun i j => some (Q11 i j)) ∧
    CopyFrom An (ib * 6) (jb * 6 + 3) iif =
      (fun i j => some ((Q12 + Q11 * SkewSymmetricMatrix (delta ib)) i j)) ∧
    CopyFrom An (ib * 6 + 3) (jb * 6) iif =
      (fun i j => some ((Q21 - SkewSymmetricMatrix (delta ib) * Q11) i j)) ∧
    CopyFrom An (ib * 6 + 3) (jb * 6 + 3) iif =
      (fun i j => some ((Q22 - SkewSymmetricMatrix (delta ib) * Q12
        + Q21 * SkewSymmetricMatrix (delta ib)
        - SkewSymmetricMatrix (delta ib) * Q11 * SkewSymmetricMatrix (delta ib)) i j)) := by
  have hAn := TransAB_eq Nb Nf force delta A An hT
  have hget := fun x y hx hy => TransAB_get Nb Nf delta A ib jb iif x y hib hjb hif hx hy
  rw [← hAn] at hget
  simp only [Nat.add_zero, h11, h12, h21, h22, Nvl0_some] at hget
  refine ⟨?_, ?_, ?_, ?_⟩ <;> funext i j <;> unfold CopyFrom
  · rw [hget i j (by omega) (by omega)]
    simp [rigidBlock, block6, Fin_ofNat_val]
  · rw [Nat.add_assoc, hget i (3 + j) (by omega) (by omega)]
    simp [rigidBlock, block6, Fin_ofNat_val]
  · rw [Nat.add_assoc, hget (3 + i) j (by omega) (by omega)]
    simp [rigidBlock, block6, Fin_ofNat_val]
  · rw [Nat.add_assoc, Nat.add_assoc, hget (3 + i) (3 + j) (by omega) (by omega)]
    simp [rigidBlock, block6, Fin_ofNat_val]

/-- The four partitions written by `TransA` for a fully populated block. -/
theorem TransA_partitions [Field K] (Nb : Nat) (force : Bool) (delta : Nat → Fin 3 → K)
    (A An : RMatrix K) (hT : TransA Nb force delta A = Except.ok An)
    (ib jb : Nat) (hib : ib < Nb) (hjb : jb < Nb)
    (Q11 Q12 Q21 Q22 : Matrix (Fin 3) (Fin 3) K)
    (hQ : PartitionsA A ib jb Q11 Q12 Q21 Q22) :
    PartitionsA An ib jb Q11 (Q12 + Q11 * SkewSymmetricMatrix (delta ib))
      (Q21 - SkewSymmetricMatrix (delta ib) * Q11)
      (Q22 - SkewSymmetricMatrix (delta ib) * Q12 + Q21 * SkewSymmetricMatrix (delta ib)
        - SkewSymmetricMatrix (delta ib) * Q11 * SkewSymmetricMatrix (delta ib)) := by
  obtain ⟨h11, h12, h21, h22⟩ := hQ
  have hAn := TransA_eq Nb force delta A An hT
  have hget := fun x y hx hy => TransA_get Nb delta A ib jb x y hib hjb hx hy
  rw [← hAn] at hget
  simp only [Nat.add_zero, h11, h12, h21, h22, Nvl0_some] at hget
  refine ⟨?_, ?_, ?_, ?_⟩ <;> funext i j <;> unfold block3
  · rw [hget i j (by omega) (by omega)]
    simp [rigidBlock, block6, Fin_ofNat_val]
  · rw [Nat.add_assoc, hget i (3 + j) (by omega) (by omega)]
    simp [rigidBlock, block6, Fin_ofNat_val]
  · rw [Nat.add_assoc, hget (3 + i) j (by omega) (by omega)]
    simp [rigidBlock, block6, Fin_ofNat_val]
  · rw [Nat.add_assoc, Nat.add_assoc, hget (3 + i) (3 + j) (by omega) (by omega)]
    simp [rigidBlock, block6, Fin_ofNat_val]

theorem attempt_true {α : Type} (r : Except String α) (old v : α)
    (h : attempt true r old = Except.ok v) : r = Except.ok v := h

theorem translateRest_A [Field K] [DecidableEq K] (L : LoadedTests K) (X : Externals K)
    (to' : RMatrix K) (delta : Nat → Fin 3 → K) (h : Hydro K) :
    (translateRest L X to' delta h).A = h.A := rfl

theorem translateRest_B [Field K] [DecidableEq K] (L : LoadedTests K) (X : Externals K)
    (to' : RMatrix K) (delta : Nat → Fin 3 → K) (h : Hydro K) :
    (translateRest L X to' delta h).B = h.B := rfl

theorem translateRest_A0 [Field K] [DecidableEq K] (L : LoadedTests K) (X : Externals K)
    (to' : RMatrix K) (delta : Nat → Fin 3 → K) (h : Hydro K) :
    (translateRest L X to' delta h).A0 = h.A0 := rfl

theorem translateRest_Ainf [Field K] [DecidableEq K] (L : LoadedTests K) (X : Externals K)
    (to' : RMatrix K) (delta : Nat → Fin 3 → K) (h : Hydro K) :
    (translateRest L X to' delta h).Ainf = h.Ainf := rfl

end

/-- C4. When `GetTranslationTo` succeeds, for every block `(ib, jb)` of a loaded
added-mass or damping table that is fully populated at the frequency `iif`, with
partitions `Q11, Q12, Q21, Q22` before the call, and `R` the cross-product matrix of
`delta = to - c0` of body `ib`, the partitions after the call are `Q11`,
`Q12 + Q11 R`, `Q21 - R Q11` and `Q22 - R Q12 + Q21 R - R Q11 R`; the same holds
for the frequency-independent matrices `A0` and `Ainf`. -/
theorem C4_translation_partitions {K : Type} [Field K] [DecidableEq K] (L : LoadedTests K)
    (X : Externals K) (h : Hydro K) (to' : RMatrix K) (force : Bool)
    (Status : String → Int → Bool)
    (hok : (GetTranslationTo L X h to' force Status).error = none)
    (ib jb : Nat) (hib : ib < h.Nb) (hjb : jb < h.Nb)
    (Q11 Q12 Q21 Q22 : Matrix (Fin 3) (Fin 3) K) :
    (L.IsLoadedA h.A = true → ∀ iif, iif < h.Nf → PartitionsAB h.A ib jb iif Q11 Q12 Q21 Q22 →
      PartitionsAB (GetTranslationTo L X h to' force Status).store.A ib jb iif Q11
        (Q12 + Q11 * SkewSymmetricMatrix (translationDelta to' h.msh ib))
        (Q21 - SkewSymmetricMatrix (translationDelta to' h.msh ib) * Q11)
        (Q22 - SkewSymmetricMatrix (translationDelta to' h.msh ib) * Q12
          + Q21 * SkewSymmetricMatrix (translationDelta to' h.msh ib)
          - SkewSymmetricMatrix (translationDelta to' h.msh ib) * Q11
            * SkewSymmetricMatrix (translationDelta to' h.msh ib))) ∧
    (L.IsLoadedB h.B = true → ∀ iif, iif < h.Nf → PartitionsAB h.B ib jb iif Q11 Q12 Q21 Q22 →
      PartitionsAB (GetTranslationTo L X h to' force Status).store.B ib jb iif Q11
        (Q12 + Q11 * SkewSymmetricMatrix (translationDelta to' h.msh ib))
        (Q21 - SkewSymmetricMatrix (translationDelta to' h.msh ib) * Q11)
        (Q22 - SkewSymmetricMatrix (translationDelta to' h.msh ib) * Q12
          + Q21 * SkewSymmetricMatrix (translationDelta to' h.msh ib)
          - SkewSymmetricMatrix (translationDelta to' h.msh ib) * Q11
            * SkewSymmetricMatrix (translationDelta to' h.msh ib))) ∧
    (L.IsLoadedA0 h.A0 = true → PartitionsA h.A0 ib jb Q11 Q12 Q21 Q22 →
      PartitionsA (GetTranslationTo L X h to' force Status).store.A0 ib jb Q11
        (Q12 + Q11 * SkewSymmetricMatrix (translationDelta to' h.msh ib))
        (Q21 - SkewSymmetricMatrix (translationDelta to' h.msh ib) * Q11)
        (Q22 - SkewSymmetricMatrix (translationDelta to' h.msh ib) * Q12
          + Q21 * SkewSymmetricMatrix (translationDelta to' h.msh ib)
          - SkewSymmetricMatrix (translationDelta to' h.msh ib) * Q11
            * SkewSymmetricMatrix (translationDelta to' h.msh ib))) ∧
    (L.IsLoadedAinf h.Ainf = true → PartitionsA h.Ainf ib jb Q11 Q12 Q21 Q22 →
      PartitionsA (GetTranslationTo L X h to' force Status).store.Ainf ib jb Q11
        (Q12 + Q11 * SkewSymmetricMatrix (translationDelta to' h.msh ib))
        (Q21 - SkewSymmetricMatrix (translationDelta to' h.msh ib) * Q11)
        (Q22 - SkewSymmetricMatrix (translationDelta to' h.msh ib) * Q12
          + Q21 * SkewSymmetricMatrix (translationDelta to' h.msh ib)
          - SkewSymmetricMatrix (translationDelta to' h.msh ib) * Q11
            * SkewSymmetricMatrix (translationDelta to' h.msh ib))) := by
  obtain ⟨-, A, Aw, B, BH, A0, Ainf, hA, -, hB, -, hA0, hAinf, hst⟩ :=
    GetTranslationTo_ok L X h to' force Status hok
  rw [hst, translateRest_A, translateRest_B, translateRest_A0, translateRest_Ainf]
  refine ⟨?_, ?_, ?_, ?_⟩
  · intro hl iif hif hQ
    rw [hl] at hA
    exact TransAB_partitions h.Nb h.Nf force _ h.A A (attempt_true _ _ _ hA) ib jb iif hib hjb
      hif Q11 Q12 Q21 Q22 hQ.1 hQ.2.1 hQ.2.2.1 hQ.2.2.2
  · intro hl iif hif hQ
    rw [hl] at hB
    exact TransAB_partitions h.Nb h.Nf force _ h.B B (attempt_true _ _ _ hB) ib jb iif hib hjb
      hif Q11 Q12 Q21 Q22 hQ.1 hQ.2.1 hQ.2.2.1 hQ.2.2.2
  · intro hl hQ
    rw [hl] at hA0
    exact TransA_partitions h.Nb force _ h.A0 A0 (attempt_true _ _ _ hA0) ib jb hib hjb
      Q11 Q12 Q21 Q22 hQ
  · intro hl hQ
    rw [hl] at hAinf
    exact TransA_partitions h.Nb force _ h.Ainf Ainf (attempt_true _ _ _ hAinf) ib jb hib hjb
      Q11 Q12 Q21 Q22 hQ
theorem partAB_storeAB : PartitionsAB storeAB.A 0 0 0 (partAB 0 0) (partAB 0 3) (partAB 3 0)
    (partAB 3 3) := by
  refine ⟨?_, ?_, ?_, ?_⟩ <;> funext i j <;> fin_cases i <;> fin_cases j <;> rfl

theorem C4_translation_partitions_witness :
    (GetTranslationTo firstEntryTests keepExternals storeAB target123 false goOn).error = none ∧
    PartitionsAB storeAB.A 0 0 0 (partAB 0 0) (partAB 0 3) (partAB 3 0) (partAB 3 3) ∧
    PartitionsAB (GetTranslationTo firstEntryTests keepExternals storeAB target123 false
        goOn).store.A 0 0 0 (partAB 0 0)
      (partAB 0 3 + partAB 0 0 * SkewSymmetricMatrix (translationDelta target123 storeAB.msh 0))
      (partAB 3 0 - SkewSymmetricMatrix (translationDelta target123 storeAB.msh 0) * partAB 0 0)
      (partAB 3 3 - SkewSymmetricMatrix (translationDelta target123 storeAB.msh 0) * partAB 0 3
        + partAB 3 0 * SkewSymmetricMatrix (translationDelta target123 storeAB.msh 0)
        - SkewSymmetricMatrix (translationDelta target123 storeAB.msh 0) * partAB 0 0
          * SkewSymmetricMatrix (translationDelta target123 storeAB.msh 0)) :=
  ⟨by decide, partAB_storeAB,
    (C4_translation_partitions firstEntryTests keepExternals storeAB target123 false goOn
      (by decide) 0 0 (by decide) (by decide) (partAB 0 0) (partAB 0 3) (partAB 3 0)
      (partAB 3 3)).1 (by decide) 0 (by decide) partAB_storeAB⟩

/-! ## Deleting frequencies, headings and bodies: the loops remove the listed positions -/

section

variable {α σ : Type}

theorem removePositions_nil (ids : List Nat) : removePositions ids ([] : List α) = [] := rfl

/-- Removal of positions, with the positions counted from `start`. -/
theorem removePositions_eq_enumFrom (ids : List Nat) (l : List α) :
    removePositions ids l = ((l.enumFrom 0).filter (fun p => !ids.contains p.1)).map Prod.snd :=
  rfl

theorem enumFrom_keep (ids : List Nat) (n : Nat) (l : List α)
    (h : ∀ x ∈ ids, x < n ∨ n + l.length ≤ x) :
    ((l.enumFrom n).filter (fun p => !ids.contains p.1)).map Prod.snd = l := by
  induction l generalizing n with
  | nil => rfl
  | cons a l ih =>
    have hn : ids.contains n = false := by
      rw [Bool.eq_false_iff]
      intro hc
      have := h n (by simpa using hc)
      simp at this
    simp only [List.enumFrom_cons, List.filter_cons, hn, Bool.not_false, if_true, List.map_cons]
    rw [ih (n + 1) (fun x hx => by have := h x hx; simp only [List.length_cons] at this; omega)]

theorem enumFrom_congr (ids ids' : List Nat) (n : Nat) (l : List α)
    (h : ∀ x, n ≤ x → x < n + l.length → (x ∈ ids ↔ x ∈ ids')) :
    ((l.enumFrom n).filter (fun p => !ids.contains p.1)).map Prod.snd =
      ((l.enumFrom n).filter (fun p => !ids'.contains p.1)).map Prod.snd := by
  congr 1
  apply List.filter_congr
  rintro ⟨k, x⟩ hp
  have hk := List.fst_lt_add_of_mem_enumFrom hp
  have hk' := List.le_fst_of_mem_enumFrom hp
  have := h k hk' hk
  simp only [Bool.not_eq_eq_eq_not, Bool.not_not]
  by_cases hc : k ∈ ids
  · simp [hc, this.1 hc]
  · have hc' : k ∉ ids' := fun h' => hc (this.2 h')
    simp [hc, hc']

theorem removePositions_append (ids : List Nat) (a b : List α) :
    removePositions ids (a ++ b) = removePositions ids a ++
      ((b.enumFrom a.length).filter (fun p => !ids.contains p.1)).map Prod.snd := by
  unfold removePositions
  rw [List.enum, List.enumFrom_append, List.filter_append, List.map_append]
  simp [List.enum]

theorem removePositions_erase (qs : List Nat) (n : Nat) (l : List α) (h : ∀ x ∈ qs, x < n) :
    removePositions qs (l.eraseIdx n) = removePositions (n :: qs) l := by
  by_cases hn : n < l.length
  · have hl : l = l.take n ++ (l[n] :: l.drop (n + 1)) := by
      rw [← List.drop_eq_getElem_cons hn, List.take_append_drop]
    have hlen : (l.take n).length = n := by rw [List.length_take]; omega
    rw [List.eraseIdx_eq_take_drop_succ]
    conv_rhs => rw [hl]
    rw [removePositions_append, removePositions_append, hlen]
    congr 1
    · exact enumFrom_congr qs (n :: qs) 0 (l.take n) (fun x _ hx => by
        simp only [List.mem_cons]
        constructor
        · exact Or.inr
        · rintro (rfl | h')
          · omega
          · exact h')
    · rw [enumFrom_keep qs n _ (fun x hx => Or.inl (h x hx))]
      have hc : (n :: qs).contains n = true := by simp
      rw [List.enumFrom_cons, List.filter_cons, hc]
      simp only [Bool.not_true, Bool.false_eq_true, if_false]
      rw [enumFrom_keep (n :: qs) (n + 1) _ (fun x hx => by
        rcases List.mem_cons.1 hx with rfl | hx
        · omega
        · have := h x hx; omega)]
  · rw [List.eraseIdx_of_length_le (by omega)]
    exact enumFrom_congr qs (n :: qs) 0 l (fun x _ hx => by
        simp only [List.mem_cons]
        constructor
        · exact Or.inr
        · rintro (rfl | h')
          · omega
          · exact h')

/-- The backward loop with a queue removes exactly the queued positions. -/
theorem removeQueued_eq (n : Nat) (queue : List Nat) (l : List α)
    (hs : queue.Pairwise (· > ·)) (hn : ∀ q ∈ queue, q < n) :
    removeQueued queue n l = removePositions queue l := by
  unfold removeQueued
  induction n generalizing queue l with
  | zero =>
    cases queue with
    | nil => exact (enumFrom_keep [] 0 l (by simp)).symm
    | cons q qs => exact absurd (hn q (List.mem_cons_self _ _)) (by omega)
  | succ n ih =>
    rw [List.range_succ, List.reverse_append, List.reverse_singleton, List.singleton_append,
      List.foldl_cons]
    cases queue with
    | nil => exact ih [] l List.Pairwise.nil (by simp)
    | cons q qs =>
      rw [List.pairwise_cons] at hs
      by_cases hq : n = q
      · subst hq
        simp only [if_true]
        rw [ih qs (l.eraseIdx n) hs.2 (fun x hx => hs.1 x hx)]
        exact removePositions_erase qs n l (fun x hx => hs.1 x hx)
      · simp only [hq, if_false]
        apply ih (q :: qs) l (List.pairwise_cons.2 hs)
        intro x hx
        rcases List.mem_cons.1 hx with rfl | hx
        · have := hn x (List.mem_cons_self _ _); omega
        · have := hs.1 x hx
          have := hn q (List.mem_cons_self _ _)
          omega

theorem take_succ_reverse (ids : List Nat) (k : Nat) (hk : k < ids.length) :
    (ids.take (k + 1)).reverse = ids.getD k 0 :: (ids.take k).reverse := by
  rw [List.take_succ, List.reverse_append, List.getElem?_eq_getElem hk]
  simp [List.getD, List.getElem?_eq_getElem hk]

theorem removeListed_sim (ids : List Nat) (is : List Nat) (l : List α) (jj : Nat)
    (hjj : jj ≤ ids.length) :
    (is.foldl (fun (st : List α × Nat) i =>
      if 0 < st.2 ∧ i = ids.getD (st.2 - 1) 0 then (st.1.eraseIdx i, st.2 - 1) else st)
      (l, jj)).1 =
    (is.foldl (fun (st : List α × List Nat) i =>
      match st.2 with
      | q :: qs => if i = q then (st.1.eraseIdx i, qs) else st
      | [] => st) (l, (ids.take jj).reverse)).1 := by
  induction is generalizing l jj with
  | nil => rfl
  | cons i is ih =>
    rw [List.foldl_cons, List.foldl_cons]
    cases jj with
    | zero =>
      simp only [Nat.lt_irrefl, false_and, if_false, List.take_zero, List.reverse_nil]
      exact ih l 0 hjj
    | succ k =>
      rw [take_succ_reverse ids k (by omega)]
      simp only [Nat.zero_lt_succ, true_and, Nat.add_sub_cancel]
      by_cases hi : i = ids.getD k 0
      · simp only [hi, if_true]
        exact ih _ k (by omega)
      · simp only [hi, if_false]
        have := ih l (k + 1) hjj
        rw [take_succ_reverse ids k (by omega)] at this
        exact this

/-- The backward loop removes exactly the listed positions, when these are listed in
increasing order and lie below the loop bound. -/
theorem removeListed_eq (ids : List Nat) (n : Nat) (l : List α)
    (hs : ids.Pairwise (· < ·)) (hn : ∀ x ∈ ids, x < n) :
    removeListed ids n l = removePositions ids l := by
  have h1 := removeListed_sim ids (List.range n).reverse l ids.length (Nat.le_refl _)
  rw [List.take_length] at h1
  have h2 := removeQueued_eq n ids.reverse l (List.pairwise_reverse.2 hs)
    (fun q hq => hn q (List.mem_reverse.1 hq))
  unfold removeListed
  unfold removeQueued at h2
  rw [h1, h2]
  exact enumFrom_congr ids.reverse ids 0 l (fun x _ _ => List.mem_reverse)

theorem contains_cons_of_ne {x a : Nat} {qs : List Nat} (h : x ≠ a) :
    (a :: qs).contains x = qs.contains x := by
  rw [List.contains_cons]
  simp [h]

theorem copyKept_sim (ids : List Nat) (is : List Nat) (copy : σ → Nat → Nat → σ) (d : σ)
    (i j : Nat) :
    (is.foldl (fun (st : σ × Nat × Nat) iif =>
      if st.2.2 ≥ ids.length ∨ iif ≠ ids.getD st.2.2 0 then
        (copy st.1 st.2.1 iif, st.2.1 + 1, st.2.2)
      else (st.1, st.2.1, st.2.2 + 1)) (d, i, j)).1 =
    (is.foldl (fun (st : σ × Nat × List Nat) iif =>
      match st.2.2 with
      | q :: qs =>
        if iif ≠ q then (copy st.1 st.2.1 iif, st.2.1 + 1, q :: qs) else (st.1, st.2.1, qs)
      | [] => (copy st.1 st.2.1 iif, st.2.1 + 1, [])) (d, i, ids.drop j)).1 := by
  induction is generalizing d i j with
  | nil => rfl
  | cons x is ih =>
    rw [List.foldl_cons, List.foldl_cons]
    by_cases hj : j < ids.length
    · have hd : ids.drop j = ids.getD j 0 :: ids.drop (j + 1) := by
        rw [List.drop_eq_getElem_cons hj]
        simp [List.getD, List.getElem?_eq_getElem hj]
      have hge : ¬ (j ≥ ids.length) := by omega
      by_cases hx : x ≠ ids.getD j 0
      · have := ih (copy d i x) (i + 1) j
        rw [hd] at this ⊢
        simp only [hge, false_or, hx, if_true, ne_eq, not_false_eq_true]
        simpa using this
      · have := ih d i (j + 1)
        rw [hd]
        simp only [hge, false_or, hx, if_false]
        simpa using this
    · have hd : ids.drop j = [] := List.drop_eq_nil_of_le (by omega)
      have hge : j ≥ ids.length := by omega
      have := ih (copy d i x) (i + 1) j
      rw [hd] at this ⊢
      simp only [hge, true_or, if_true]
      exact this

theorem copyQueued_eq (n : Nat) (a : Nat) (queue : List Nat) (copy : σ → Nat → Nat → σ)
    (d : σ) (i0 : Nat) (hs : queue.Pairwise (· < ·)) (ha : ∀ q ∈ queue, a ≤ q) :
    copyQueued queue (List.range' a n) copy d i0 =
      ((((List.range' a n).filter (fun x => !queue.contains x)).enumFrom i0).foldl
        (fun d p => copy d p.1 p.2) d) := by
  unfold copyQueued
  induction n generalizing a queue d i0 with
  | zero => rfl
  | succ n ih =>
    rw [List.range'_succ, List.foldl_cons]
    cases queue with
    | nil =>
      have := ih (a + 1) [] (copy d i0 a) (i0 + 1) List.Pairwise.nil (by simp)
      simp only [List.contains_nil, Bool.not_false, List.filter_cons, if_true,
        List.enumFrom_cons, List.foldl_cons] at this ⊢
      exact this
    | cons q qs =>
      rw [List.pairwise_cons] at hs
      by_cases hq : a = q
      · subst hq
        have hc : (a :: qs).contains a = true := by simp
        have := ih (a + 1) qs d i0 hs.2 (fun x hx => by have := hs.1 x hx; omega)
        simp only [ne_eq, not_true_eq_false, if_false, List.filter_cons, hc, Bool.not_true,
          Bool.false_eq_true]
        rw [this]
        congr 2
        apply List.filter_congr
        intro x hx
        rw [List.mem_range'_1] at hx
        rw [contains_cons_of_ne (show x ≠ a by omega)]
      · have hc : (q :: qs).contains a = false := by
          rw [Bool.eq_false_iff]
          intro hc
          have hc : a ∈ q :: qs := by simpa using hc
          rcases List.mem_cons.1 hc with rfl | hc
          · exact hq rfl
          · have := hs.1 a hc
            have := ha q (List.mem_cons_self _ _)
            omega
        have := ih (a + 1) (q :: qs) (copy d i0 a) (i0 + 1) (List.pairwise_cons.2 hs)
          (fun x hx => by
            rcases List.mem_cons.1 hx with rfl | hx
            · have := ha x (List.mem_cons_self _ _); omega
            · have := hs.1 x hx
              have := ha q (List.mem_cons_self _ _)
              omega)
        simp only [ne_eq, hq, not_false_eq_true, if_true, List.filter_cons, hc, Bool.not_false,
          List.enumFrom_cons, List.foldl_cons]
        exact this

/-- The copying loop of `DeleteFrequencies` copies, in order, the samples whose index
is not listed, to the places `0, 1, 2, ...` of the destination. -/
theorem copyKept_eq (ids : List Nat) (Nf : Nat) (copy : σ → Nat → Nat → σ) (d : σ)
    (hs : ids.Pairwise (· < ·)) :
    copyKept ids Nf copy d =
      ((((List.range Nf).filter (fun x => !ids.contains x)).enumFrom 0).foldl
        (fun d p => copy d p.1 p.2) d) := by
  have h1 := copyKept_sim ids (List.range Nf) copy d 0 0
  have h2 := copyQueued_eq Nf 0 ids copy d 0 hs (fun _ _ => Nat.zero_le _)
  unfold copyKept
  unfold copyQueued at h2
  rw [List.drop_zero] at h1
  rw [h1, List.range_eq_range', h2]

/-- How many positions are kept. -/
theorem kept_length (n a : Nat) (queue : List Nat) (hs : queue.Pairwise (· < ·))
    (ha : ∀ q ∈ queue, a ≤ q ∧ q < a + n) :
    ((List.range' a n).filter (fun x => !queue.contains x)).length = n - queue.length ∧
      queue.length ≤ n := by
  induction n generalizing a queue with
  | zero =>
    cases queue with
    | nil => simp
    | cons q qs => exact absurd (ha q (List.mem_cons_self _ _)) (by omega)
  | succ n ih =>
    rw [List.range'_succ]
    cases queue with
    | nil => simp
    | cons q qs =>
      rw [List.pairwise_cons] at hs
      by_cases hq : a = q
      · subst hq
        have hc : (a :: qs).contains a = true := by simp
        have := ih (a + 1) qs hs.2 (fun x hx => by
          have := hs.1 x hx
          have := ha x (List.mem_cons_of_mem _ hx)
          omega)
        simp only [List.filter_cons, hc, Bool.not_true, Bool.false_eq_true, if_false,
          List.length_cons]
        have e : (List.range' (a + 1) n).filter (fun x => !(a :: qs).contains x) =
            (List.range' (a + 1) n).filter (fun x => !qs.contains x) := by
          apply List.filter_congr
          intro x hx
          rw [List.mem_range'_1] at hx
          rw [contains_cons_of_ne (show x ≠ a by omega)]
        rw [e]
        omega
      · have hc : (q :: qs).contains a = false := by
          rw [Bool.eq_false_iff]
          intro hc
          have hc : a ∈ q :: qs := by simpa using hc
          rcases List.mem_cons.1 hc with rfl | hc
          · exact hq rfl
          · have := hs.1 a hc
            have := ha q (List.mem_cons_self _ _)
            omega
        have := ih (a + 1) (q :: qs) (List.pairwise_cons.2 hs) (fun x hx => by
            rcases List.mem_cons.1 hx with rfl | hx'
            · have := ha x (List.mem_cons_self _ _); omega
            · have := hs.1 x hx'
              have := ha q (List.mem_cons_self _ _)
              have := ha x hx
              omega)
        simp only [List.filter_cons, hc, Bool.not_false, if_true, List.length_cons] at this ⊢
        omega

theorem foldl_enumFrom_set_get (f : Nat → α) (l : List Nat) (i0 : Nat) (d : List α) (k : Nat) :
    ((l.enumFrom i0).foldl (fun d p => d.set p.1 (f p.2)) d)[k]? =
      if i0 ≤ k ∧ k < i0 + l.length then (d[k]?).map (fun _ => f (l.getD (k - i0) 0))
      else d[k]? := by
  induction l generalizing i0 d with
  | nil =>
    have e : ¬ (i0 ≤ k ∧ k < i0 + ([] : List Nat).length) := by
      simp only [List.length_nil]; omega
    rw [if_neg e]
    rfl
  | cons x l ih =>
    rw [List.enumFrom_cons, List.foldl_cons, ih (i0 + 1) (d.set i0 (f x)), getElem?_set_map]
    simp only [List.length_cons]
    by_cases h1 : i0 = k
    · subst h1
      have e1 : ¬ (i0 + 1 ≤ i0 ∧ i0 < i0 + 1 + l.length) := by omega
      have e2 : i0 ≤ i0 ∧ i0 < i0 + (l.length + 1) := by omega
      rw [if_neg e1, if_pos e2, if_pos rfl]
      simp
    · by_cases h2 : i0 + 1 ≤ k ∧ k < i0 + 1 + l.length
      · have e2 : i0 ≤ k ∧ k < i0 + (l.length + 1) := by omega
        have e3 : k - i0 = (k - (i0 + 1)) + 1 := by omega
        rw [if_pos h2, if_pos e2, if_neg h1, e3]
        rfl
      · have e2 : ¬ (i0 ≤ k ∧ k < i0 + (l.length + 1)) := by omega
        rw [if_neg h2, if_neg e2, if_neg h1]

theorem foldl_enumFrom_set_length (f : Nat → α) (l : List Nat) (i0 : Nat) (d : List α) :
    ((l.enumFrom i0).foldl (fun d p => d.set p.1 (f p.2)) d).length = d.length := by
  induction l generalizing i0 d with
  | nil => rfl
  | cons x l ih => rw [List.enumFrom_cons, List.foldl_cons, ih]; simp

theorem foldl_enum_set_replicate (f : Nat → α) (l : List Nat) (v : α) :
    ((l.enumFrom 0).foldl (fun d p => d.set p.1 (f p.2)) (List.replicate l.length v)) =
      l.map f := by
  apply List.ext_getElem?
  intro k
  rw [foldl_enumFrom_set_get]
  by_cases hk : k < l.length
  · rw [if_pos (by omega)]
    simp [List.getElem?_replicate, hk, List.getD, List.getElem?_eq_getElem hk]
  · rw [if_neg (by omega)]
    simp [List.getElem?_replicate, hk, List.getElem?_eq_none (show l.length ≤ k by omega)]

/-- Removing positions, said with the list of the positions kept. -/
theorem removePositions_eq_map (ids : List Nat) (l : List α) (dflt : α) (a : Nat) :
    ((l.enumFrom a).filter (fun p => !ids.contains p.1)).map Prod.snd =
      ((List.range' a l.length).filter (fun x => !ids.contains x)).map
        (fun k => l.getD (k - a) dflt) := by
  induction l generalizing a with
  | nil => rfl
  | cons x l ih =>
    rw [List.enumFrom_cons, List.length_cons, List.range'_succ, List.filter_cons,
      List.filter_cons]
    have e : ((List.range' (a + 1) l.length).filter (fun x => !ids.contains x)).map
        (fun k => (x :: l).getD (k - a) dflt) =
        ((List.range' (a + 1) l.length).filter (fun x => !ids.contains x)).map
        (fun k => l.getD (k - (a + 1)) dflt) := by
      apply List.map_congr_left
      intro k hk
      have := (List.mem_filter.1 hk).1
      rw [List.mem_range'_1] at this
      have e3 : k - a = (k - (a + 1)) + 1 := by omega
      rw [e3]
      rfl
    cases hc : ids.contains a
    · simp only [Bool.not_false, if_true, List.map_cons, Nat.sub_self]
      rw [ih (a + 1), e]
      rfl
    · simp only [Bool.not_true, Bool.false_eq_true, if_false]
      rw [ih (a + 1), e]

/-- The copying loop of `DeleteFrequencies` on one series leaves the series with the
listed positions removed. -/
theorem copyKept_series (ids : List Nat) (s : List α) (dflt v0 : α)
    (hs : ids.Pairwise (· < ·)) (hn : ∀ x ∈ ids, x < s.length) :
    copyKept ids s.length (fun dst i iif => dst.set i ((s[iif]?).getD dflt))
      (List.replicate (s.length - ids.length) v0) = removePositions ids s := by
  rw [copyKept_eq ids s.length _ _ hs]
  have hlen := (kept_length s.length 0 ids hs (fun q hq => ⟨Nat.zero_le _, by
    have := hn q hq; omega⟩)).1
  rw [← List.range_eq_range'] at hlen
  rw [← hlen, foldl_enum_set_replicate (fun iif => (s[iif]?).getD dflt)]
  unfold removePositions
  rw [List.enum, removePositions_eq_map ids s dflt 0, ← List.range_eq_range']
  apply List.map_congr_left
  intro k _
  simp [List.getD]

end

section

variable {K : Type}

/-- Each series of the table left by `DeleteAB` is the old series with the listed
positions removed. -/
theorem DeleteFrequenciesAB_get (Nb Nf : Nat) (ids : List Nat) (A : SeriesTable K)
    (hs : ids.Pairwise (· < ·)) (hn : ∀ x ∈ ids, x < Nf)
    (i j : Nat) (hi : i < 6 * Nb) (hj : j < 6 * Nb) (s : List (Option K))
    (hA : get2 A i j = some s) (hlen : s.length = Nf) :
    get2 (DeleteFrequenciesAB Nb Nf ids A) i j = some (removePositions ids s) := by
  obtain ⟨-, h2⟩ := foldl2_regions
    (fun (t : SeriesTable K) (p : Nat × Nat) => get2 t p.1 p.2)
    (fun An idof jdof => set2 An idof jdof (copyKept ids Nf
        (fun dst i iif => dst.set i ((get3 A idof jdof iif).getD none))
        (List.replicate (Nf - ids.length) none)))
    (fun idof jdof p => p = (idof, jdof))
    (fun _ idof jdof _ => copyKept ids Nf
        (fun dst i iif => dst.set i ((get3 A idof jdof iif).getD none))
        (List.replicate (Nf - ids.length) none))
    (6 * Nb) (6 * Nb)
    (by
      rintro t a b - - p rfl
      simp only [get2_set2, and_self, if_true])
    (by
      rintro t a b - - ⟨x, y⟩ hp
      simp only [Prod.mk.injEq] at hp
      simp only [get2_set2]
      rw [if_neg (by omega)])
    (by intros; rfl)
    (by
      rintro a b a' b' p rfl h
      simp only [Prod.mk.injEq] at h
      exact h)
    (List.replicate (6 * Nb) (List.replicate (6 * Nb) []))
  have := h2 i j hi hj (i, j) rfl
  simp only at this
  unfold DeleteFrequenciesAB
  rw [this, get2_replicate, if_pos ⟨hi, hj⟩]
  simp only [Option.map_some', Option.some.injEq]
  have e : (fun (dst : List (Option K)) i' iif =>
      dst.set i' ((get3 A i j iif).getD none)) =
      (fun dst i' iif => dst.set i' ((s[iif]?).getD none)) := by
    funext dst i' iif
    simp [get3, hA]
  rw [e, ← hlen]
  exact copyKept_series ids s none none hs (fun x hx => by rw [hlen]; exact hn x hx)

end

section

variable {α : Type}

theorem nodup_enumFrom (n : Nat) (l : List α) : (l.enumFrom n).Nodup := by
  apply List.Nodup.of_map Prod.fst
  rw [List.enumFrom_map_fst]
  exact List.nodup_range' _ _

theorem mem_kept {ids : List Nat} {Nf k : Nat}
    (h : k ∈ (List.range Nf).filter (fun x => !ids.contains x)) : k < Nf :=
  List.mem_range.1 (List.mem_filter.1 h).1

/-- The copying loops of `DeleteF`, column by column, leave the force matrix with the
listed rows removed. -/
theorem copyKept_matrix (ids : List Nat) (Nf : Nat) (m : List (List α)) (dflt : α)
    (hd : Dims2 m Nf 6) (hs : ids.Pairwise (· < ·)) (hn : ∀ x ∈ ids, x < Nf) :
    (List.range 6).foldl (fun m' idof =>
        copyKept ids Nf (fun dst i iif => set2 dst i idof ((get2 m iif idof).getD dflt)) m')
      (List.replicate (Nf - ids.length) (List.replicate 6 dflt)) = removePositions ids m := by
  have hlen := (kept_length Nf 0 ids hs (fun q hq => ⟨Nat.zero_le _, by
    have := hn q hq; omega⟩)).1
  rw [← List.range_eq_range'] at hlen
  generalize hk : (List.range Nf).filter (fun x => !ids.contains x) = kept at hlen
  have hkept : ∀ k ∈ kept, k < Nf := fun k h => mem_kept (hk ▸ h)
  have e : (fun (m' : List (List α)) idof =>
      copyKept ids Nf (fun dst i iif => set2 dst i idof ((get2 m iif idof).getD dflt)) m') =
      (fun m' idof => (kept.enumFrom 0).foldl (fun d p =>
        set2 d p.1 idof ((get2 m p.2 idof).getD dflt)) m') := by
    funext m' idof
    rw [copyKept_eq ids Nf _ _ hs, hk]
  rw [e, foldl_nested (fun d idof (p : Nat × Nat) => set2 d p.1 idof ((get2 m p.2 idof).getD dflt))
    (fun _ => kept.enumFrom 0)]
  have hR : removePositions ids m = kept.map (fun k => m.getD k []) := by
    unfold removePositions
    rw [List.enum, removePositions_eq_map ids m [] 0, hd.1, ← List.range_eq_range', hk]
    rfl
  have hdR : Dims2 (removePositions ids m) (Nf - ids.length) 6 := by
    rw [hR]
    refine ⟨by simp [hlen], ?_⟩
    intro r hr
    rw [List.mem_map] at hr
    obtain ⟨k, hk1, rfl⟩ := hr
    have hk2 : k < m.length := by rw [hd.1]; exact hkept k hk1
    rw [List.getD_eq_getElem _ _ hk2]
    exact hd.2 _ (List.getElem_mem hk2)
  have hdL : Dims2 (((List.range 6).flatMap (fun idof =>
      (kept.enumFrom 0).map (fun j => (idof, j)))).foldl
      (fun s p => set2 s p.2.1 p.1 ((get2 m p.2.2 p.1).getD dflt))
      (List.replicate (Nf - ids.length) (List.replicate 6 dflt))) (Nf - ids.length) 6 := by
    apply foldl_inv (fun s => Dims2 s (Nf - ids.length) 6)
    · exact ⟨by simp, fun r hr => by rw [List.eq_of_mem_replicate hr]; simp⟩
    · intro s p hs'
      exact hs'.set2 _ _ _
  apply get2_eq_some_iff_dims hdL hdR
  intro r c hr hc
  obtain ⟨-, h2⟩ := foldl_regions
    (fun (s : List (List α)) (p : Nat × Nat) => get2 s p.1 p.2)
    (fun s (p : Nat × Nat × Nat) => set2 s p.2.1 p.1 ((get2 m p.2.2 p.1).getD dflt))
    (fun q p => p = (q.2.1, q.1))
    (fun _ q _ => (get2 m q.2.2 q.1).getD dflt)
    ((List.range 6).flatMap (fun idof => (kept.enumFrom 0).map (fun j => (idof, j))))
    (by
      rintro s ⟨a, b, x⟩ - p rfl
      simp only [get2_set2, and_self, if_true])
    (by
      rintro s ⟨a, b, x⟩ - ⟨u, v⟩ hp
      simp only [Prod.mk.injEq] at hp
      simp only [get2_set2]
      rw [if_neg (by omega)])
    (by intros; rfl)
    (nodup_pairs _ _ (List.nodup_range 6) (fun _ => nodup_enumFrom 0 kept))
    (by
      rintro ⟨a, b, x⟩ hq ⟨a', b', x'⟩ hq' p rfl h
      simp only [Prod.mk.injEq] at h
      obtain ⟨rfl, rfl⟩ := h
      rw [mem_pairs (fun _ => kept.enumFrom 0)] at hq hq'
      have h1 := List.mk_mem_enumFrom_iff_le_and_getElem?_sub.1 hq.2
      have h2 := List.mk_mem_enumFrom_iff_le_and_getElem?_sub.1 hq'.2
      have := h1.2.symm.trans h2.2
      simp only [Option.some.injEq] at this
      rw [this])
    (List.replicate (Nf - ids.length) (List.replicate 6 dflt))
  have hr' : r < kept.length := by omega
  have hmem : (c, r, kept[r]) ∈ (List.range 6).flatMap (fun idof =>
      (kept.enumFrom 0).map (fun j => (idof, j))) := by
    rw [mem_pairs (fun _ => kept.enumFrom 0)]
    refine ⟨List.mem_range.2 hc, ?_⟩
    rw [List.mk_mem_enumFrom_iff_le_and_getElem?_sub]
    exact ⟨Nat.zero_le _, by simp [List.getElem?_eq_getElem hr']⟩
  have := h2 (c, r, kept[r]) hmem (r, c) rfl
  simp only at this
  rw [this, get2_replicate, if_pos ⟨hr, hc⟩, hR]
  have hk2 : kept[r] < m.length := by rw [hd.1]; exact hkept _ (List.getElem_mem hr')
  have hrow := hd.2 _ (List.getElem_mem hk2)
  simp only [get2, Option.map_some', List.getElem?_map, List.getElem?_eq_getElem hr',
    List.getD_eq_getElem _ _ hk2, List.getElem?_eq_getElem hk2, Option.getD_some,
    Option.some_bind]
  rw [List.getElem?_eq_getElem (by omega)]
  rfl

end

section

variable {K : Type}

/-- Each force matrix left by `DeleteF` is the old matrix with the listed rows removed. -/
theorem DeleteFrequenciesF_get (Nb Nh Nf : Nat) (ids : List Nat) (ex : Forces K)
    (hs : ids.Pairwise (· < ·)) (hn : ∀ x ∈ ids, x < Nf)
    (ib ih : Nat) (hib : ib < Nb) (hih : ih < Nh) (m : CMatrix K)
    (hm : get2 ex ib ih = some m) (hd : Dims2 m Nf 6) :
    get2 (DeleteFrequenciesF Nb Nh Nf ids ex) ib ih = some (removePositions ids m) := by
  obtain ⟨-, h2⟩ := foldl2_regions
    (fun (t : Forces K) (p : Nat × Nat) => get2 t p.1 p.2)
    (fun e ib ih => set2 e ib ih ((List.range 6).foldl (fun m idof =>
        copyKept ids Nf
          (fun dst i iif => set2 dst i idof ((get3 ex ib ih iif).bind (fun r => r[idof]?)
            |>.getD ⟨none, none⟩)) m)
        (List.replicate (Nf - ids.length) (List.replicate 6 ⟨none, none⟩))))
    (fun ib ih p => p = (ib, ih))
    (fun _ ib ih _ => (List.range 6).foldl (fun m idof =>
        copyKept ids Nf
          (fun dst i iif => set2 dst i idof ((get3 ex ib ih iif).bind (fun r => r[idof]?)
            |>.getD ⟨none, none⟩)) m)
        (List.replicate (Nf - ids.length) (List.replicate 6 ⟨none, none⟩)))
    Nb Nh
    (by
      rintro t a b - - p rfl
      simp only [get2_set2, and_self, if_true])
    (by
      rintro t a b - - ⟨x, y⟩ hp
      simp only [Prod.mk.injEq] at hp
      simp only [get2_set2]
      rw [if_neg (by omega)])
    (by intros; rfl)
    (by
      rintro a b a' b' p rfl h
      simp only [Prod.mk.injEq] at h
      exact h)
    (List.replicate Nb (List.replicate Nh []))
  have := h2 ib ih hib hih (ib, ih) rfl
  simp only at this
  unfold DeleteFrequenciesF
  rw [this, get2_replicate, if_pos ⟨hib, hih⟩]
  simp only [Option.map_some', Option.some.injEq]
  have e : (fun (m' : CMatrix K) idof => copyKept ids Nf
          (fun dst i iif => set2 dst i idof ((get3 ex ib ih iif).bind (fun r => r[idof]?)
            |>.getD ⟨none, none⟩)) m') =
      (fun m' idof => copyKept ids Nf
          (fun dst i iif => set2 dst i idof ((get2 m iif idof).getD ⟨none, none⟩)) m') := by
    funext m' idof
    congr 1
    funext dst i iif
    simp only [get3, hm, Option.some_bind]
    rfl
  rw [e]
  exact copyKept_matrix ids Nf m ⟨none, none⟩ hd hs hn

theorem removePositions_length (ids : List Nat) (l : List K) (hs : ids.Pairwise (· < ·))
    (hn : ∀ x ∈ ids, x < l.length) :
    (removePositions ids l).length = l.length - ids.length := by
  unfold removePositions
  cases l with
  | nil =>
    cases ids with
    | nil => rfl
    | cons q qs => exact absurd (hn q (List.mem_cons_self _ _)) (by simp)
  | cons x l =>
    rw [List.enum, removePositions_eq_map ids (x :: l) x 0, List.length_map]
    exact (kept_length (x :: l).length 0 ids hs (fun q hq => ⟨Nat.zero_le _, by
      have := hn q hq; omega⟩)).1

theorem removePositions_none (l : List K) : removePositions [] l = l :=
  enumFrom_keep [] 0 l (by simp)

end

section
variable {K : Type} [NatCast K]

theorem DeleteFrequencies_nil (L : LoadedTests K) (h : Hydro K) :
    DeleteFrequencies L h [] = h := rfl

theorem DeleteFrequencies_w (L : LoadedTests K) (h : Hydro K) (q : Nat) (qs : List Nat) :
    (DeleteFrequencies L h (q :: qs)).w = removeListed (q :: qs) h.w.length h.w := rfl

theorem DeleteFrequencies_Nf (L : LoadedTests K) (h : Hydro K) (q : Nat) (qs : List Nat) :
    (DeleteFrequencies L h (q :: qs)).Nf = (removeListed (q :: qs) h.w.length h.w).length := rfl

theorem DeleteFrequencies_A (L : LoadedTests K) (h : Hydro K) (q : Nat) (qs : List Nat) :
    (DeleteFrequencies L h (q :: qs)).A =
      if L.IsLoadedA h.A then DeleteFrequenciesAB h.Nb h.Nf (q :: qs) h.A else h.A := rfl

theorem DeleteFrequencies_B (L : LoadedTests K) (h : Hydro K) (q : Nat) (qs : List Nat) :
    (DeleteFrequencies L h (q :: qs)).B =
      if L.IsLoadedB h.B then DeleteFrequenciesAB h.Nb h.Nf (q :: qs) h.B else h.B := rfl

theorem DeleteFrequencies_ex (L : LoadedTests K) (h : Hydro K) (q : Nat) (qs : List Nat) :
    (DeleteFrequencies L h (q :: qs)).ex =
      if L.IsLoadedFex h.ex then DeleteFrequenciesF h.Nb h.Nh h.Nf (q :: qs) h.ex else h.ex :=
  rfl

theorem DeleteFrequencies_sc (L : LoadedTests K) (h : Hydro K) (q : Nat) (qs : List Nat) :
    (DeleteFrequencies L h (q :: qs)).sc =
      if L.IsLoadedFsc h.sc then DeleteFrequenciesF h.Nb h.Nh h.Nf (q :: qs) h.sc else h.sc :=
  rfl

theorem DeleteFrequencies_fk (L : LoadedTests K) (h : Hydro K) (q : Nat) (qs : List Nat) :
    (DeleteFrequencies L h (q :: qs)).fk =
      if L.IsLoadedFfk h.fk then DeleteFrequenciesF h.Nb h.Nh h.Nf (q :: qs) h.fk else h.fk :=
  rfl

theorem DeleteFrequencies_rao (L : LoadedTests K) (h : Hydro K) (q : Nat) (qs : List Nat) :
    (DeleteFrequencies L h (q :: qs)).rao =
      if L.IsLoadedRAO h.rao then DeleteFrequenciesF h.Nb h.Nh h.Nf (q :: qs) h.rao
      else h.rao := rfl

theorem DeleteFrequencies_md (L : LoadedTests K) (h : Hydro K) (q : Nat) (qs : List Nat) :
    (DeleteFrequencies L h (q :: qs)).md =
      if L.IsLoadedMD h.md 0 then
        DeleteFrequenciesMD h.Nb h.mdhead.length h.Nf (q :: qs) h.md else h.md := rfl

end

/-- C7. For a strictly increasing list `idFreq` of valid frequency indices, after
`DeleteFrequencies(idFreq)`: `Nf` is the old `Nf` minus the number of listed indices,
`w` is the old `w` with exactly the listed positions removed and the others in their
order, and every series `A[i][j]`, `B[i][j]` of a loaded table and every force matrix
`ex/sc/fk/rao[ib][ih]` of a loaded family has the same positions removed along its
frequency axis. -/
theorem C7_DeleteFrequencies {K : Type} [NatCast K] (L : LoadedTests K) (h : Hydro K)
    (idFreq : List Nat) (hs : idFreq.Pairwise (· < ·)) (hn : ∀ x ∈ idFreq, x < h.Nf)
    (hw : h.w.length = h.Nf) :
    (DeleteFrequencies L h idFreq).Nf = h.Nf - idFreq.length ∧
    (DeleteFrequencies L h idFreq).w = removePositions idFreq h.w ∧
    (L.IsLoadedA h.A = true → ∀ i j, i < 6 * h.Nb → j < 6 * h.Nb → ∀ s,
      get2 h.A i j = some s → s.length = h.Nf →
      get2 (DeleteFrequencies L h idFreq).A i j = some (removePositions idFreq s)) ∧
    (L.IsLoadedB h.B = true → ∀ i j, i < 6 * h.Nb → j < 6 * h.Nb → ∀ s,
      get2 h.B i j = some s → s.length = h.Nf →
      get2 (DeleteFrequencies L h idFreq).B i j = some (removePositions idFreq s)) ∧
    (L.IsLoadedFex h.ex = true → ∀ ib ih, ib < h.Nb → ih < h.Nh → ∀ m,
      get2 h.ex ib ih = some m → Dims2 m h.Nf 6 →
      get2 (DeleteFrequencies L h idFreq).ex ib ih = some (removePositions idFreq m)) ∧
    (L.IsLoadedFsc h.sc = true → ∀ ib ih, ib < h.Nb → ih < h.Nh → ∀ m,
      get2 h.sc ib ih = some m → Dims2 m h.Nf 6 →
      get2 (DeleteFrequencies L h idFreq).sc ib ih = some (removePositions idFreq m)) ∧
    (L.IsLoadedFfk h.fk = true → ∀ ib ih, ib < h.Nb → ih < h.Nh → ∀ m,
      get2 h.fk ib ih = some m → Dims2 m h.Nf 6 →
      get2 (DeleteFrequencies L h idFreq).fk ib ih = some (removePositions idFreq m)) ∧
    (L.IsLoadedRAO h.rao = true → ∀ ib ih, ib < h.Nb → ih < h.Nh → ∀ m,
      get2 h.rao ib ih = some m → Dims2 m h.Nf 6 →
      get2 (DeleteFrequencies L h idFreq).rao ib ih = some (removePositions idFreq m)) := by
  cases idFreq with
  | nil =>
    rw [DeleteFrequencies_nil]
    refine ⟨rfl, (removePositions_none _).symm, ?_, ?_, ?_, ?_, ?_, ?_⟩ <;>
      intro _ i j _ _ s hs' _ <;> rw [hs', removePositions_none]
  | cons q qs =>
    have hn' : ∀ x ∈ q :: qs, x < h.w.length := fun x hx => by rw [hw]; exact hn x hx
    have hwe := removeListed_eq (q :: qs) h.w.length h.w hs hn'
    refine ⟨?_, ?_, ?_, ?_, ?_, ?_, ?_, ?_⟩
    · rw [DeleteFrequencies_Nf, hwe, removePositions_length _ _ hs hn', hw]
    · rw [DeleteFrequencies_w, hwe]
    · intro hl i j hi hj s hA hlen
      rw [DeleteFrequencies_A, if_pos hl]
      exact DeleteFrequenciesAB_get h.Nb h.Nf _ h.A hs hn i j hi hj s hA hlen
    · intro hl i j hi hj s hA hlen
      rw [DeleteFrequencies_B, if_pos hl]
      exact DeleteFrequenciesAB_get h.Nb h.Nf _ h.B hs hn i j hi hj s hA hlen
    · intro hl ib ih hib hih m hm hd
      rw [DeleteFrequencies_ex, if_pos hl]
      exact DeleteFrequenciesF_get h.Nb h.Nh h.Nf _ h.ex hs hn ib ih hib hih m hm hd
    · intro hl ib ih hib hih m hm hd
      rw [DeleteFrequencies_sc, if_pos hl]
      exact DeleteFrequenciesF_get h.Nb h.Nh h.Nf _ h.sc hs hn ib ih hib hih m hm hd
    · intro hl ib ih hib hih m hm hd
      rw [DeleteFrequencies_fk, if_pos hl]
      exact DeleteFrequenciesF_get h.Nb h.Nh h.Nf _ h.fk hs hn ib ih hib hih m hm hd
    · intro hl ib ih hib hih m hm hd
      rw [DeleteFrequencies_rao, if_pos hl]
      exact DeleteFrequenciesF_get h.Nb h.Nh h.Nf _ h.rao hs hn ib ih hib hih m hm hd

theorem C7_DeleteFrequencies_witness :
    (DeleteFrequencies firstEntryTests storeAB [0]).Nf = 1 ∧
    (DeleteFrequencies firstEntryTests storeAB [0]).w = [some 2] ∧
    get2 (DeleteFrequencies firstEntryTests storeAB [0]).A 1 2 = some [some 1] :=
  have h := C7_DeleteFrequencies firstEntryTests storeAB [0] (by decide) (by decide) (by decide)
  ⟨h.1, h.2.1, h.2.2.1 (by decide) 1 2 (by decide) (by decide) _ rfl rfl⟩

/-! ## The mean-drift and heading deletions evaluated -/

/-- C8 (the code at the failing input). Deleting the first of two frequencies from a
store with loaded mean drift leaves `Nf = 1` and `w` with one sample, but every
mean-drift series empty instead of holding the retained sample `7`. -/
theorem C8_DeleteFrequencies_md_empty :
    (DeleteFrequencies firstEntryTests storeMD [0]).Nf = 1 ∧
    (DeleteFrequencies firstEntryTests storeMD [0]).w = [some 2] ∧
    (DeleteFrequencies firstEntryTests storeMD [0]).md = [[List.replicate 6 []]] ∧
    removePositions [0] [some (5 : ℚ), some 7] = [some 7] := by
  decide

/-- C9 (the code at the failing input). Deleting the heading of index 1 from a store
with two bodies and two headings leaves `Nh = 1` and one heading in `head`, but the
excitation forces lose body 1 and keep both headings of body 0, instead of keeping
both bodies with heading 0 each. -/
theorem C9_DeleteHeadings_removes_body :
    (DeleteHeadings firstEntryTests storeFex [1]).Nh = 1 ∧
    (DeleteHeadings firstEntryTests storeFex [1]).head = [some 0] ∧
    (DeleteHeadings firstEntryTests storeFex [1]).ex = [[forceRow 0, forceRow 1]] ∧
    storeFex.ex.map (removePositions [1]) = [[forceRow 0], [forceRow 10]] := by
  decide

/-! ## Deleting bodies -/

theorem countLoop_eq {σ : Type} (keep : Nat → Bool) (f : σ → Nat → Nat → σ) (l : List Nat)
    (s : σ) (c : Nat) :
    l.foldl (fun (st : σ × Nat) x => if keep x then (f st.1 st.2 x, st.2 + 1) else st) (s, c) =
      (((l.filter keep).enumFrom c).foldl (fun s p => f s p.1 p.2) s,
        c + (l.filter keep).length) := by
  induction l generalizing s c with
  | nil => simp
  | cons a l ih =>
    rw [List.foldl_cons]
    by_cases h : keep a = true
    · rw [if_pos h, ih, List.filter_cons_of_pos h]
      simp only [List.enumFrom_cons, List.foldl_cons, List.length_cons]
      congr 1; omega
    · rw [if_neg h, ih, List.filter_cons_of_neg h]

/-- The rows and columns `DeleteBodies` keeps. -/
theorem deleteBlocks_eq {α : Type} (Nb : Nat) (idBod : List Nat) (A An : List (List α))
    (dflt : α) :
    deleteBlocks Nb idBod A An dflt =
      ((((List.range (6 * Nb)).filter (fun x => !idBod.contains (x / 6))).enumFrom 0).flatMap
        (fun p => ((((List.range (6 * Nb)).filter
          (fun x => !idBod.contains (x / 6))).enumFrom 0)).map (fun q => (p, q)))).foldl
        (fun s t => set2 s t.1.1 t.2.1 ((get2 A t.1.2 t.2.2).getD dflt)) An := by
  unfold deleteBlocks
  rw [← foldl_nested (fun s (p : Nat × Nat) (q : Nat × Nat) =>
    set2 s p.1 q.1 ((get2 A p.2 q.2).getD dflt))]
  have h1 := countLoop_eq (fun x => !idBod.contains (x / 6))
    (fun (s : List (List α)) n x =>
      ((List.range (6 * Nb)).foldl (fun (st2 : List (List α) × Nat) jdof =>
            if !idBod.contains (jdof / 6) then
              (set2 st2.1 n st2.2 ((get2 A x jdof).getD dflt), st2.2 + 1)
            else st2) (s, 0)).1) (List.range (6 * Nb)) An 0
  simp only at h1
  rw [h1]
  simp only
  congr 1
  funext s p
  have h2 := countLoop_eq (fun x => !idBod.contains (x / 6))
    (fun (s : List (List α)) n x => set2 s p.1 n ((get2 A p.2 x).getD dflt))
    (List.range (6 * Nb)) s 0
  simp only at h2
  rw [h2]
theorem mem_enum0 {α : Type} (l : List α) (i : Nat) (x : α) :
    (i, x) ∈ l.enumFrom 0 ↔ l[i]? = some x := by
  rw [List.mk_mem_enumFrom_iff_le_and_getElem?_sub]
  simp

theorem filter_range_pos (keep : Nat → Bool) (n x : Nat) (hx : x < n) (hk : keep x = true) :
    ((List.range n).filter keep)[((List.range x).filter keep).length]? = some x := by
  induction n with
  | zero => omega
  | succ n ih =>
    rw [List.range_succ, List.filter_append]
    by_cases h : x < n
    · have h1 := ih h
      have h2 : ((List.range x).filter keep).length < ((List.range n).filter keep).length := by
        by_contra hc
        rw [List.getElem?_eq_none (by omega)] at h1
        cases h1
      rw [List.getElem?_append_left h2, h1]
    · have hxn : x = n := by omega
      subst hxn
      rw [List.getElem?_append_right (le_refl _)]
      simp [hk]

theorem count6 (idBod : List Nat) (b : Nat) :
    ((List.range (6 * b)).filter (fun x => !idBod.contains (x / 6))).length =
      6 * ((List.range b).filter (fun x => !idBod.contains x)).length := by
  induction b with
  | zero => simp
  | succ b ih =>
    have e : 6 * (b + 1) = 6 * b + 1 + 1 + 1 + 1 + 1 + 1 := by ring
    have d0 : (6 * b) / 6 = b := by omega
    have d1 : (6 * b + 1) / 6 = b := by omega
    have d2 : (6 * b + 1 + 1) / 6 = b := by omega
    have d3 : (6 * b + 1 + 1 + 1) / 6 = b := by omega
    have d4 : (6 * b + 1 + 1 + 1 + 1) / 6 = b := by omega
    have d5 : (6 * b + 1 + 1 + 1 + 1 + 1) / 6 = b := by omega
    rw [e]
    simp only [List.range_succ, List.filter_append, List.length_append, ih]
    by_cases hb : b ∈ idBod
    · simp [List.filter_cons, d0, d1, d2, d3, d4, d5, hb]
    · simp [List.filter_cons, d0, d1, d2, d3, d4, d5, hb]
      omega

theorem count6_add (idBod : List Nat) (b d : Nat) (hd : d ≤ 6)
    (hb : idBod.contains b = false) :
    ((List.range (6 * b + d)).filter (fun x => !idBod.contains (x / 6))).length =
      6 * ((List.range b).filter (fun x => !idBod.contains x)).length + d := by
  induction d with
  | zero => simpa using count6 idBod b
  | succ d ih =>
    have e : (6 * b + d) / 6 = b := by omega
    have hb' : b ∉ idBod := by simpa using hb
    rw [← Nat.add_assoc, List.range_succ, List.filter_append, List.length_append, ih (by omega)]
    simp [List.filter_cons, e, hb']
    omega

theorem count_kept (ids : List Nat) (n : Nat) (hnd : ids.Nodup) (hv : ∀ x ∈ ids, x < n) :
    ((List.range n).filter (fun x => !ids.contains x)).length = n - ids.length := by
  have h1 := List.length_eq_length_filter_add (l := List.range n) (fun x => ids.contains x)
  have h2 : ((List.range n).filter (fun x => ids.contains x)).Perm ids := by
    rw [List.perm_ext_iff_of_nodup ((List.nodup_range n).filter _) hnd]
    intro a
    simp only [List.mem_filter, List.mem_range, List.contains_eq_any_beq, List.any_eq_true,
      beq_iff_eq]
    constructor
    · rintro ⟨_, x, hx, rfl⟩; exact hx
    · intro ha; exact ⟨hv a ha, a, ha, rfl⟩
  rw [List.length_range, h2.length_eq] at h1
  omega
theorem deleteBlocks_dims {α : Type} (Nb : Nat) (idBod : List Nat) (A An : List (List α))
    (dflt : α) (n m : Nat) (h : Dims2 An n m) : Dims2 (deleteBlocks Nb idBod A An dflt) n m := by
  rw [deleteBlocks_eq]
  exact foldl_inv (fun s => Dims2 s n m) _ _ _ h (fun s t hs => hs.set2 _ _ _)

theorem deleteBlocks_get {α : Type} (Nb : Nat) (idBod : List Nat) (A An : List (List α))
    (dflt : α) (ri i rj j : Nat)
    (hi : ((List.range (6 * Nb)).filter (fun x => !idBod.contains (x / 6)))[ri]? = some i)
    (hj : ((List.range (6 * Nb)).filter (fun x => !idBod.contains (x / 6)))[rj]? = some j) :
    get2 (deleteBlocks Nb idBod A An dflt) ri rj =
      (get2 An ri rj).map (fun _ => (get2 A i j).getD dflt) := by
  rw [deleteBlocks_eq]
  have key := (foldl_regions (fun (s : List (List α)) (p : Nat × Nat) => get2 s p.1 p.2)
    (fun s (t : (Nat × Nat) × (Nat × Nat)) => set2 s t.1.1 t.2.1 ((get2 A t.1.2 t.2.2).getD dflt))
    (fun t p => p = (t.1.1, t.2.1))
    (fun _ t _ => (get2 A t.1.2 t.2.2).getD dflt)
    ((((List.range (6 * Nb)).filter (fun x => !idBod.contains (x / 6))).enumFrom 0).flatMap
        (fun p => ((((List.range (6 * Nb)).filter
          (fun x => !idBod.contains (x / 6))).enumFrom 0)).map (fun q => (p, q))))
    ?_ ?_ ?_ ?_ ?_ An).2 ((ri, i), (rj, j)) ?_ (ri, rj) rfl
  · exact key
  · intro s t _ p hp
    subst hp
    simp only [get2_set2, and_self, if_true]
  · intro s t _ p hp
    simp only [get2_set2]
    rw [if_neg]
    intro hc
    exact hp (Prod.ext hc.1.symm hc.2.symm)
  · intro s s' t _ _ p _
    rfl
  · exact nodup_pairs _ _ (nodup_enumFrom _ _) (fun _ => nodup_enumFrom _ _)
  · rintro ⟨⟨a, x⟩, ⟨b, y⟩⟩ ht ⟨⟨a', x'⟩, ⟨b', y'⟩⟩ ht' p hp hp'
    rw [mem_pairs] at ht ht'
    rw [mem_enum0, mem_enum0] at ht ht'
    subst hp
    simp only [Prod.mk.injEq] at hp'
    obtain ⟨rfl, rfl⟩ := hp'
    have e1 := ht.1.symm.trans ht'.1
    have e2 := ht.2.symm.trans ht'.2
    simp only [Option.some.injEq] at e1 e2
    subst e1 e2
    rfl
  · rw [mem_pairs, mem_enum0, mem_enum0]
    exact ⟨hi, hj⟩

theorem DeleteBodiesF_sim {α : Type} (idBod : List Nat) (n : Nat) (l : List α) :
    DeleteBodiesF n idBod l = removePositions (idBod.filter (fun x => decide (x < n))) l := by
  unfold DeleteBodiesF
  induction n generalizing l with
  | zero =>
    have : idBod.filter (fun x => decide (x < 0)) = [] := by simp
    rw [this, removePositions_none]
    rfl
  | succ n ih =>
    rw [List.range_succ, List.reverse_append, List.reverse_singleton, List.singleton_append,
      List.foldl_cons, ih]
    by_cases hn : idBod.contains n = true
    · rw [if_pos hn, removePositions_erase _ _ _ (by simp)]
      rw [removePositions_eq_enumFrom, removePositions_eq_enumFrom]
      apply enumFrom_congr
      intro x _ _
      have hn' : n ∈ idBod := by simpa using hn
      simp only [List.mem_cons, List.mem_filter, decide_eq_true_eq]
      constructor
      · rintro (rfl | ⟨h1, h2⟩)
        · exact ⟨hn', by omega⟩
        · exact ⟨h1, by omega⟩
      · rintro ⟨h1, h2⟩
        by_cases e : x = n
        · exact Or.inl e
        · exact Or.inr ⟨h1, by omega⟩
    · rw [if_neg hn]
      rw [removePositions_eq_enumFrom, removePositions_eq_enumFrom]
      apply enumFrom_congr
      intro x _ _
      have hn' : n ∉ idBod := by simpa using hn
      simp only [List.mem_filter, decide_eq_true_eq]
      constructor
      · rintro ⟨h1, h2⟩; exact ⟨h1, by omega⟩
      · rintro ⟨h1, h2⟩
        refine ⟨h1, ?_⟩
        by_contra hc
        have : x = n := by omega
        subst this
        exact hn' h1

theorem DeleteBodiesF_eq {α : Type} (idBod : List Nat) (n : Nat) (l : List α)
    (hv : ∀ x ∈ idBod, x < n) : DeleteBodiesF n idBod l = removePositions idBod l := by
  rw [DeleteBodiesF_sim]
  congr 1
  rw [List.filter_eq_self]
  intro x hx
  simpa using hv x hx

theorem Dims2_replicate {α : Type} (n m : Nat) (v : α) :
    Dims2 (List.replicate n (List.replicate m v)) n m := by
  refine ⟨by simp, ?_⟩
  intro r hr
  rw [List.eq_of_mem_replicate hr]
  simp

theorem deleteBlocks_spec {α : Type} (Nb : Nat) (idBod : List Nat) (A : List (List α))
    (dflt v0 : α) (hnd : idBod.Nodup) (hv : ∀ x ∈ idBod, x < Nb)
    (hA : Dims2 A (6 * Nb) (6 * Nb)) :
    Dims2 (deleteBlocks Nb idBod A (List.replicate (6 * (Nb - idBod.length))
        (List.replicate (6 * (Nb - idBod.length)) v0)) dflt)
      (6 * (Nb - idBod.length)) (6 * (Nb - idBod.length)) ∧
    ∀ b1 b2 d1 d2, b1 < Nb → b2 < Nb → b1 ∉ idBod → b2 ∉ idBod → d1 < 6 → d2 < 6 →
      get2 (deleteBlocks Nb idBod A (List.replicate (6 * (Nb - idBod.length))
        (List.replicate (6 * (Nb - idBod.length)) v0)) dflt)
        (6 * bodyRank idBod b1 + d1) (6 * bodyRank idBod b2 + d2) =
      get2 A (6 * b1 + d1) (6 * b2 + d2) := by
  refine ⟨deleteBlocks_dims _ _ _ _ _ _ _ (Dims2_replicate _ _ _), ?_⟩
  intro b1 b2 d1 d2 hb1 hb2 hn1 hn2 hd1 hd2
  have hlen : ((List.range (6 * Nb)).filter (fun x => !idBod.contains (x / 6))).length =
      6 * (Nb - idBod.length) := by
    rw [count6, count_kept idBod Nb hnd hv]
  have pos : ∀ b d, b < Nb → b ∉ idBod → d < 6 →
      ((List.range (6 * Nb)).filter (fun x => !idBod.contains (x / 6)))[6 * bodyRank idBod b + d]?
        = some (6 * b + d) := by
    intro b d hb hn hd
    have hc : idBod.contains b = false := by simpa using hn
    have e : (6 * b + d) / 6 = b := by omega
    have h1 := filter_range_pos (fun x => !idBod.contains (x / 6)) (6 * Nb) (6 * b + d)
      (by omega) (by simp only [e, hc]; rfl)
    rw [count6_add idBod b d (by omega) hc] at h1
    exact h1
  have lt : ∀ b d, b < Nb → b ∉ idBod → d < 6 →
      6 * bodyRank idBod b + d < 6 * (Nb - idBod.length) := by
    intro b d hb hn hd
    have h1 := pos b d hb hn hd
    rw [← hlen]
    by_contra hc
    rw [List.getElem?_eq_none (by omega)] at h1
    cases h1
  rw [deleteBlocks_get Nb idBod A _ dflt _ _ _ _ (pos b1 d1 hb1 hn1 hd1) (pos b2 d2 hb2 hn2 hd2),
    get2_replicate, if_pos ⟨lt b1 d1 hb1 hn1 hd1, lt b2 d2 hb2 hn2 hd2⟩]
  have hs := hA.get2_isSome (i := 6 * b1 + d1) (j := 6 * b2 + d2) (by omega) (by omega)
  obtain ⟨v, hv'⟩ := Option.isSome_iff_exists.1 hs
  rw [hv']
  rfl

theorem bodyRank_nil (b : Nat) : bodyRank [] b = b := by
  simp [bodyRank]

section

variable {K : Type}

theorem DeleteBodiesStep_frame (L : LoadedTests K) (idBod : List Nat) (l : List Nat)
    (h : Hydro K) :
    (l.foldl (DeleteBodiesStep L idBod) h).A = h.A ∧
    (l.foldl (DeleteBodiesStep L idBod) h).B = h.B ∧
    (l.foldl (DeleteBodiesStep L idBod) h).Ainf = h.Ainf ∧
    (l.foldl (DeleteBodiesStep L idBod) h).A0 = h.A0 ∧
    (l.foldl (DeleteBodiesStep L idBod) h).ex = h.ex ∧
    (l.foldl (DeleteBodiesStep L idBod) h).sc = h.sc ∧
    (l.foldl (DeleteBodiesStep L idBod) h).fk = h.fk ∧
    (l.foldl (DeleteBodiesStep L idBod) h).rao = h.rao := by
  apply foldl_inv (fun (h' : Hydro K) => h'.A = h.A ∧ h'.B = h.B ∧ h'.Ainf = h.Ainf ∧
    h'.A0 = h.A0 ∧ h'.ex = h.ex ∧ h'.sc = h.sc ∧ h'.fk = h.fk ∧ h'.rao = h.rao)
  · exact ⟨rfl, rfl, rfl, rfl, rfl, rfl, rfl, rfl⟩
  · intro s i hs
    unfold DeleteBodiesStep
    by_cases hc : idBod.contains i = true
    · rw [if_pos hc]; exact hs
    · rw [if_neg hc]; exact hs

variable [Zero K]

theorem DeleteBodies_Nb (L : LoadedTests K) (h : Hydro K) (idBod : List Nat) :
    (DeleteBodies L h idBod).Nb = h.Nb - idBod.length := by
  unfold DeleteBodies
  cases idBod with
  | nil => rfl
  | cons a l => rfl

theorem DeleteBodies_A (L : LoadedTests K) (h : Hydro K) (a : Nat) (l : List Nat) :
    (DeleteBodies L h (a :: l)).A = if L.IsLoadedA h.A then
      DeleteBodiesAB h.Nb (h.Nb - (a :: l).length) (a :: l) h.A else h.A :=
  (DeleteBodiesStep_frame L (a :: l) _ _).1

theorem DeleteBodies_B (L : LoadedTests K) (h : Hydro K) (a : Nat) (l : List Nat) :
    (DeleteBodies L h (a :: l)).B = if L.IsLoadedB h.B then
      DeleteBodiesAB h.Nb (h.Nb - (a :: l).length) (a :: l) h.B else h.B :=
  (DeleteBodiesStep_frame L (a :: l) _ _).2.1

theorem DeleteBodies_Ainf (L : LoadedTests K) (h : Hydro K) (a : Nat) (l : List Nat) :
    (DeleteBodies L h (a :: l)).Ainf = if L.IsLoadedAinf h.Ainf then
      DeleteBodiesAinf0 h.Nb (h.Nb - (a :: l).length) (a :: l) h.Ainf else h.Ainf :=
  (DeleteBodiesStep_frame L (a :: l) _ _).2.2.1

theorem DeleteBodies_A0 (L : LoadedTests K) (h : Hydro K) (a : Nat) (l : List Nat) :
    (DeleteBodies L h (a :: l)).A0 = if L.IsLoadedA0 h.A0 then
      DeleteBodiesAinf0 h.Nb (h.Nb - (a :: l).length) (a :: l) h.A0 else h.A0 :=
  (DeleteBodiesStep_frame L (a :: l) _ _).2.2.2.1

theorem DeleteBodies_ex (L : LoadedTests K) (h : Hydro K) (a : Nat) (l : List Nat) :
    (DeleteBodies L h (a :: l)).ex = if L.IsLoadedFex h.ex then
      DeleteBodiesF h.Nb (a :: l) h.ex else h.ex :=
  (DeleteBodiesStep_frame L (a :: l) _ _).2.2.2.2.1

theorem DeleteBodies_sc (L : LoadedTests K) (h : Hydro K) (a : Nat) (l : List Nat) :
    (DeleteBodies L h (a :: l)).sc = if L.IsLoadedFsc h.sc then
      DeleteBodiesF h.Nb (a :: l) h.sc else h.sc :=
  (DeleteBodiesStep_frame L (a :: l) _ _).2.2.2.2.2.1

theorem DeleteBodies_fk (L : LoadedTests K) (h : Hydro K) (a : Nat) (l : List Nat) :
    (DeleteBodies L h (a :: l)).fk = if L.IsLoadedFfk h.fk then
      DeleteBodiesF h.Nb (a :: l) h.fk else h.fk :=
  (DeleteBodiesStep_frame L (a :: l) _ _).2.2.2.2.2.2.1

theorem DeleteBodies_rao (L : LoadedTests K) (h : Hydro K) (a : Nat) (l : List Nat) :
    (DeleteBodies L h (a :: l)).rao = if L.IsLoadedRAO h.rao then
      DeleteBodiesF h.Nb (a :: l) h.rao else h.rao :=
  (DeleteBodiesStep_frame L (a :: l) _ _).2.2.2.2.2.2.2

end

theorem blocks_nil {α : Type} (A : List (List α)) (Nb : Nat) (hA : Dims2 A (6 * Nb) (6 * Nb)) :
    Dims2 A (6 * (Nb - ([] : List Nat).length)) (6 * (Nb - ([] : List Nat).length)) ∧
    ∀ b1 b2 d1 d2, b1 < Nb → b2 < Nb → b1 ∉ ([] : List Nat) → b2 ∉ ([] : List Nat) →
      d1 < 6 → d2 < 6 →
      get2 A (6 * bodyRank [] b1 + d1) (6 * bodyRank [] b2 + d2) =
        get2 A (6 * b1 + d1) (6 * b2 + d2) := by
  refine ⟨hA, ?_⟩
  intros
  rw [bodyRank_nil, bodyRank_nil]

/-- C10. For a list `idBod` of distinct valid body indices, `DeleteBodies` leaves
`Nb` equal to the old `Nb` minus the number of listed bodies; each of `A`, `B`, `Ainf`
and `A0`, when loaded (with `6 Nb` rows and columns), has `6 Nb_new` rows and columns
and holds at `[6 r(b1) + d1][6 r(b2) + d2]` the old entry `[6 b1 + d1][6 b2 + d2]`, for
retained bodies `b1`, `b2` of ranks `r(b1)`, `r(b2)` among the retained bodies and
`d1, d2 < 6`; and each loaded force list `ex`, `sc`, `fk`, `rao` is the old list with
the listed bodies removed, the others in their original order. -/
theorem C10_DeleteBodies {K : Type} [Zero K] (L : LoadedTests K) (h : Hydro K)
    (idBod : List Nat) (hnd : idBod.Nodup) (hv : ∀ b ∈ idBod, b < h.Nb) :
    (DeleteBodies L h idBod).Nb = h.Nb - idBod.length ∧
    (L.IsLoadedA h.A = true → Dims2 h.A (6 * h.Nb) (6 * h.Nb) →
      Dims2 (DeleteBodies L h idBod).A (6 * (h.Nb - idBod.length)) (6 * (h.Nb - idBod.length)) ∧
      ∀ b1 b2 d1 d2, b1 < h.Nb → b2 < h.Nb → b1 ∉ idBod → b2 ∉ idBod → d1 < 6 → d2 < 6 →
        get2 (DeleteBodies L h idBod).A (6 * bodyRank idBod b1 + d1)
          (6 * bodyRank idBod b2 + d2) = get2 h.A (6 * b1 + d1) (6 * b2 + d2)) ∧
    (L.IsLoadedB h.B = true → Dims2 h.B (6 * h.Nb) (6 * h.Nb) →
      Dims2 (DeleteBodies L h idBod).B (6 * (h.Nb - idBod.length)) (6 * (h.Nb - idBod.length)) ∧
      ∀ b1 b2 d1 d2, b1 < h.Nb → b2 < h.Nb → b1 ∉ idBod → b2 ∉ idBod → d1 < 6 → d2 < 6 →
        get2 (DeleteBodies L h idBod).B (6 * bodyRank idBod b1 + d1)
          (6 * bodyRank idBod b2 + d2) = get2 h.B (6 * b1 + d1) (6 * b2 + d2)) ∧
    (L.IsLoadedAinf h.Ainf = true → Dims2 h.Ainf (6 * h.Nb) (6 * h.Nb) →
      Dims2 (DeleteBodies L h idBod).Ainf (6 * (h.Nb - idBod.length))
        (6 * (h.Nb - idBod.length)) ∧
      ∀ b1 b2 d1 d2, b1 < h.Nb → b2 < h.Nb → b1 ∉ idBod → b2 ∉ idBod → d1 < 6 → d2 < 6 →
        get2 (DeleteBodies L h idBod).Ainf (6 * bodyRank idBod b1 + d1)
          (6 * bodyRank idBod b2 + d2) = get2 h.Ainf (6 * b1 + d1) (6 * b2 + d2)) ∧
    (L.IsLoadedA0 h.A0 = true → Dims2 h.A0 (6 * h.Nb) (6 * h.Nb) →
      Dims2 (DeleteBodies L h idBod).A0 (6 * (h.Nb - idBod.length))
        (6 * (h.Nb - idBod.length)) ∧
      ∀ b1 b2 d1 d2, b1 < h.Nb → b2 < h.Nb → b1 ∉ idBod → b2 ∉ idBod → d1 < 6 → d2 < 6 →
        get2 (DeleteBodies L h idBod).A0 (6 * bodyRank idBod b1 + d1)
          (6 * bodyRank idBod b2 + d2) = get2 h.A0 (6 * b1 + d1) (6 * b2 + d2)) ∧
    (L.IsLoadedFex h.ex = true → (DeleteBodies L h idBod).ex = removePositions idBod h.ex) ∧
    (L.IsLoadedFsc h.sc = true → (DeleteBodies L h idBod).sc = removePositions idBod h.sc) ∧
    (L.IsLoadedFfk h.fk = true → (DeleteBodies L h idBod).fk = removePositions idBod h.fk) ∧
    (L.IsLoadedRAO h.rao = true →
      (DeleteBodies L h idBod).rao = removePositions idBod h.rao) := by
  refine ⟨DeleteBodies_Nb L h idBod, ?_⟩
  cases idBod with
  | nil =>
    have e : DeleteBodies L h [] = h := rfl
    rw [e]
    exact ⟨fun _ hA => blocks_nil _ _ hA, fun _ hA => blocks_nil _ _ hA,
      fun _ hA => blocks_nil _ _ hA, fun _ hA => blocks_nil _ _ hA,
      fun _ => (removePositions_none _).symm, fun _ => (removePositions_none _).symm,
      fun _ => (removePositions_none _).symm, fun _ => (removePositions_none _).symm⟩
  | cons a l =>
    refine ⟨?_, ?_, ?_, ?_, ?_, ?_, ?_, ?_⟩
    · intro hl hA
      rw [DeleteBodies_A, if_pos hl]
      exact deleteBlocks_spec h.Nb (a :: l) h.A [] [] hnd hv hA
    · intro hl hA
      rw [DeleteBodies_B, if_pos hl]
      exact deleteBlocks_spec h.Nb (a :: l) h.B [] [] hnd hv hA
    · intro hl hA
      rw [DeleteBodies_Ainf, if_pos hl]
      exact deleteBlocks_spec h.Nb (a :: l) h.Ainf none (some 0) hnd hv hA
    · intro hl hA
      rw [DeleteBodies_A0, if_pos hl]
      exact deleteBlocks_spec h.Nb (a :: l) h.A0 none (some 0) hnd hv hA
    · intro hl
      rw [DeleteBodies_ex, if_pos hl, DeleteBodiesF_eq _ _ _ hv]
    · intro hl
      rw [DeleteBodies_sc, if_pos hl, DeleteBodiesF_eq _ _ _ hv]
    · intro hl
      rw [DeleteBodies_fk, if_pos hl, DeleteBodiesF_eq _ _ _ hv]
    · intro hl
      rw [DeleteBodies_rao, if_pos hl, DeleteBodiesF_eq _ _ _ hv]

theorem C10_DeleteBodies_witness :
    (DeleteBodies firstEntryTests storeTwo [0]).Nb = 1 ∧
    get2 (DeleteBodies firstEntryTests storeTwo [0]).A 1 2 = some [some 7, some 8] ∧
    (DeleteBodies firstEntryTests storeTwo [0]).ex = [[forceRow 10]] :=
  have h := C10_DeleteBodies firstEntryTests storeTwo [0] (by decide) (by decide)
  ⟨h.1,
    ((h.2.1 (by decide) (by decide)).2 1 1 1 2 (by decide) (by decide) (by decide) (by decide)
      (by decide) (by decide)).trans rfl,
    h.2.2.2.2.2.1 (by decide)⟩

/-! ## The response amplitude operator of one degree of freedom -/

section
variable {K : Type} [Field K]

theorem Cx.re_add (a b : Cx K) : (a + b).re = a.re + b.re := rfl
theorem Cx.im_add (a b : Cx K) : (a + b).im = a.im + b.im := rfl
theorem Cx.re_mul (a b : Cx K) : (a * b).re = a.re * b.re - a.im * b.im := rfl
theorem Cx.im_mul (a b : Cx K) : (a * b).im = a.re * b.im + a.im * b.re := rfl
theorem Cx.re_zero : (0 : Cx K).re = 0 := rfl
theorem Cx.im_zero : (0 : Cx K).im = 0 := rfl
theorem Cx.re_one : (1 : Cx K).re = 1 := rfl
theorem Cx.im_one : (1 : Cx K).im = 0 := rfl

variable [DecidableEq K]

/-- C6. For one degree of freedom with added mass, damping and `D` zero and the
critical-damping fraction zero, stiffness `k`, mass `m`, excitation `F = fre + i fim`
and frequency `w` with `k - w^2 m` not zero, the static `GetRAO` returns
`F / (k - w^2 m)`, whatever `SquareRoot` yields. -/
theorem C6_GetRAO_single_dof
    (SquareRoot : Matrix (Fin 1) (Fin 1) K → Matrix (Fin 1) (Fin 1) K)
    (w k m fre fim : K) (D2 : Matrix (Fin 1) (Fin 1) K) (hne : k - w * w * m ≠ 0) :
    GetRAO SquareRoot w (Matrix.of fun _ _ => some 0) (Matrix.of fun _ _ => some 0)
      (fun _ => ⟨some fre, some fim⟩) (Matrix.of fun _ _ => k) (Matrix.of fun _ _ => m)
      (Matrix.of fun _ _ => 0) D2 0 =
    Except.ok (fun _ => ⟨fre / (k - w * w * m), fim / (k - w * w * m)⟩) := by
  have hm : ((Matrix.of fun (_ _ : Fin 1) => k) - sqr w •
      ((Matrix.of fun (_ _ : Fin 1) => m) +
        (Matrix.of fun (_ _ : Fin 1) => some (0 : K)).map
          (fun x => if IsNum x then Nvl x 0 else 0))).map Cx.ofReal +
      (Cx.I * Cx.ofReal w) • ((Matrix.of fun (_ _ : Fin 1) => some (0 : K)).map
          (fun x => if IsNum x then Nvl x 0 else 0) +
        ((Matrix.of fun (_ _ : Fin 1) => (0 : K)) + CriticalDamping SquareRoot 0
          (Matrix.of fun (_ _ : Fin 1) => m)
          ((Matrix.of fun (_ _ : Fin 1) => some (0 : K)).map
            (fun x => if IsNum x then Nvl x 0 else 0)) (Matrix.of fun (_ _ : Fin 1) => k))).map
        Cx.ofReal = Matrix.of fun (_ _ : Fin 1) => (⟨k - w * w * m, 0⟩ : Cx K) := by
    ext i j
    · simp [CriticalDamping, Cx.re_add, Cx.re_mul, Cx.ofReal, Cx.I, sqr, IsNum, Nvl]
    · simp [CriticalDamping, Cx.im_add, Cx.im_mul, Cx.ofReal, Cx.I, sqr, IsNum, Nvl]
  unfold GetRAO
  simp only [hm]
  have hd : (Matrix.of fun (_ _ : Fin 1) => (⟨k - w * w * m, 0⟩ : Cx K)).det =
      ⟨k - w * w * m, 0⟩ := by
    simp [Matrix.det_unique]
  rw [hd]
  have hz : (⟨k - w * w * m, 0⟩ : Cx K) ≠ 0 := by
    intro h
    exact hne (congrArg Cx.re h)
  rw [if_neg hz]
  congr 1
  funext i
  simp only [Matrix.vecMul, Matrix.dotProduct, Finset.univ_unique, Finset.sum_singleton,
    Matrix.adjugate_fin_one, Matrix.smul_apply, Matrix.one_apply, eq_iff_true_of_subsingleton,
    smul_eq_mul, mul_one,
    CVal.IsNum, Option.isSome_some, Bool.and_self, if_true, Nvl, Option.getD_some]
  apply Cx.ext
  · simp only [Cx.re_mul, Cx.inv]
    field_simp
  · simp only [Cx.im_mul, Cx.inv]
    field_simp
end

theorem C6_GetRAO_single_dof_witness :
    (5 : ℚ) - 1 * 1 * 1 ≠ 0 ∧
    GetRAO (fun (a : Matrix (Fin 1) (Fin 1) ℚ) => a) 1 (Matrix.of fun _ _ => some 0) (Matrix.of fun _ _ => some 0)
      (fun _ => ⟨some 2, some 4⟩) (Matrix.of fun _ _ => 5) (Matrix.of fun _ _ => 1)
      (Matrix.of fun _ _ => 0) 0 0 =
    Except.ok (fun _ => ⟨2 / (5 - 1 * 1 * 1), 4 / (5 - 1 * 1 * 1)⟩) :=
  ⟨by norm_num, C6_GetRAO_single_dof (fun a => a) 1 5 1 2 4 0 (by norm_num)⟩

/-! ## Swapping two degrees of freedom -/

section

variable {α β : Type}

theorem ext_of_shape (sh : α → β) (a b : List α) (hs : a.map sh = b.map sh)
    (h : ∀ (i : Nat) x y, a[i]? = some x → b[i]? = some y → sh x = sh y → x = y) : a = b := by
  have hl : a.length = b.length := by simpa using congrArg List.length hs
  apply List.ext_getElem hl
  intro i h1 h2
  have e := congrArg (fun l => l[i]?) hs
  simp only [List.getElem?_map, List.getElem?_eq_getElem h1, List.getElem?_eq_getElem h2,
    Option.map_some', Option.some.injEq] at e
  exact h i _ _ (List.getElem?_eq_getElem h1) (List.getElem?_eq_getElem h2) e

theorem map_modify_fixed (g : α → β) (f : α → α) (a : List α) (i : Nat)
    (h : ∀ x, g (f x) = g x) : (a.modify f i).map g = a.map g := by
  apply List.ext_getElem?
  intro k
  simp only [List.getElem?_map, List.getElem?_modify]
  cases a[k]? with
  | none => rfl
  | some x =>
    by_cases hk : i = k
    · simp [hk, h]
    · simp [hk]

/-- The lengths of the rows: the shape of a two-level array. -/
theorem shape2_set2 (a : List (List α)) (i j : Nat) (v : α) :
    (set2 a i j v).map List.length = a.map List.length :=
  map_modify_fixed _ _ _ _ (fun x => by simp)

theorem ext2_shape (a b : List (List α)) (hs : a.map List.length = b.map List.length)
    (h : ∀ i j, get2 a i j = get2 b i j) : a = b := by
  apply ext_of_shape List.length a b hs
  intro i x y hx hy hxy
  apply List.ext_getElem hxy
  intro j h1 h2
  have e := h i j
  simp only [get2, hx, hy, Option.some_bind, List.getElem?_eq_getElem h1,
    List.getElem?_eq_getElem h2, Option.some.injEq] at e
  exact e

theorem shape3_set3 (a : List (List (List α))) (i j k : Nat) (v : α) :
    (set3 a i j k v).map (fun r => r.map List.length) = a.map (fun r => r.map List.length) :=
  map_modify_fixed _ _ _ _ (fun x => map_modify_fixed _ _ _ _ (fun y => by simp))

theorem ext3_shape (a b : List (List (List α)))
    (hs : a.map (fun r => r.map List.length) = b.map (fun r => r.map List.length))
    (h : ∀ i j k, get3 a i j k = get3 b i j k) : a = b := by
  apply ext_of_shape (fun r => r.map List.length) a b hs
  intro i x y hx hy hxy
  apply ext2_shape x y hxy
  intro j k
  have e := h i j k
  simp only [get3, get2, hx, hy, Option.some_bind] at e
  exact e

end

section

variable {K : Type}

theorem swapIndex_swapIndex (p1 p2 x : Nat) : swapIndex p1 p2 (swapIndex p1 p2 x) = x := by
  unfold swapIndex
  split_ifs <;> omega

theorem swapIndex_lt (p1 p2 x n : Nat) (h1 : p1 < n) (h2 : p2 < n) (hx : x < n) :
    swapIndex p1 p2 x < n := by
  unfold swapIndex
  split_ifs <;> omega

theorem SwapAB_dims (Nb p1 p2 : Nat) (A : SeriesTable K) :
    Dims2 (SwapAB Nb p1 p2 A) (6 * Nb) (6 * Nb) := by
  unfold SwapAB
  apply foldl_inv (fun s => Dims2 s (6 * Nb) (6 * Nb))
  · exact Dims2_replicate _ _ _
  · intro s i hs
    apply foldl_inv (fun s => Dims2 s (6 * Nb) (6 * Nb)) _ _ _ hs
    intro s j hs
    exact hs.set2 _ _ _

theorem SwapAB_get (Nb p1 p2 : Nat) (A : SeriesTable K) (h1 : p1 < 6 * Nb) (h2 : p2 < 6 * Nb)
    (a b : Nat) (ha : a < 6 * Nb) (hb : b < 6 * Nb) :
    get2 (SwapAB Nb p1 p2 A) a b =
      some ((get2 A (swapIndex p1 p2 a) (swapIndex p1 p2 b)).getD []) := by
  have key := (foldl2_regions (fun (s : SeriesTable K) (p : Nat × Nat) => get2 s p.1 p.2)
    (fun s i j => set2 s (swapIndex p1 p2 i) (swapIndex p1 p2 j) ((get2 A i j).getD []))
    (fun i j p => p = (swapIndex p1 p2 i, swapIndex p1 p2 j))
    (fun _ i j _ => (get2 A i j).getD []) (6 * Nb) (6 * Nb) ?_ ?_ ?_ ?_
    (List.replicate (6 * Nb) (List.replicate (6 * Nb) []))).2
      (swapIndex p1 p2 a) (swapIndex p1 p2 b)
      (swapIndex_lt _ _ _ _ h1 h2 ha) (swapIndex_lt _ _ _ _ h1 h2 hb) (a, b)
      (by simp only [swapIndex_swapIndex])
  · unfold SwapAB
    rw [key]
    simp only [get2_replicate, ha, hb, and_self, if_true, Option.map_some']
  · intro s i j _ _ p hp
    subst hp
    simp only [get2_set2, and_self, if_true]
  · intro s i j _ _ p hp
    simp only [get2_set2]
    rw [if_neg]
    intro hc
    exact hp (Prod.ext hc.1.symm hc.2.symm)
  · intros
    rfl
  · intro i j i' j' p hp hp'
    subst hp
    simp only [Prod.mk.injEq] at hp'
    constructor
    · have := congrArg (swapIndex p1 p2) hp'.1
      simpa only [swapIndex_swapIndex] using this
    · have := congrArg (swapIndex p1 p2) hp'.2
      simpa only [swapIndex_swapIndex] using this

theorem SwapAB_SwapAB (Nb p1 p2 : Nat) (A : SeriesTable K) (h1 : p1 < 6 * Nb)
    (h2 : p2 < 6 * Nb) (hA : Dims2 A (6 * Nb) (6 * Nb)) :
    SwapAB Nb p1 p2 (SwapAB Nb p1 p2 A) = A := by
  apply get2_eq_some_iff_dims (SwapAB_dims _ _ _ _) hA
  intro i j hi hj
  rw [SwapAB_get _ _ _ _ h1 h2 _ _ hi hj,
    SwapAB_get _ _ _ _ h1 h2 _ _ (swapIndex_lt _ _ _ _ h1 h2 hi) (swapIndex_lt _ _ _ _ h1 h2 hj),
    swapIndex_swapIndex, swapIndex_swapIndex]
  obtain ⟨v, hv⟩ := Option.isSome_iff_exists.1 (hA.get2_isSome hi hj)
  rw [hv]
  rfl

end
section

variable {σ P V ι : Type} [DecidableEq P]

theorem swapLoop_get (get : σ → P → Option V) (step : σ → ι → σ) (p q : ι → P) (d : V)
    (l : List ι)
    (hstep : ∀ s i r, get (step s i) r =
      if r = p i then (get s r).map (fun _ => (get s (q i)).getD d)
      else if r = q i then (get s r).map (fun _ => (get s (p i)).getD d) else get s r)
    (hnd : l.Nodup)
    (hdisj : ∀ i ∈ l, ∀ j ∈ l, (p i = p j ∨ p i = q j ∨ q i = p j ∨ q i = q j) → i = j)
    (s : σ) :
    (∀ r, (∀ i ∈ l, r ≠ p i ∧ r ≠ q i) → get (l.foldl step s) r = get s r) ∧
    (∀ i ∈ l, get (l.foldl step s) (p i) = (get s (p i)).map (fun _ => (get s (q i)).getD d)) ∧
    (∀ i ∈ l, get (l.foldl step s) (q i) =
      (get s (q i)).map (fun _ => (get s (p i)).getD d)) := by
  obtain ⟨k1, k2⟩ := foldl_regions get step (fun i r => r = p i ∨ r = q i)
    (fun s i r => if r = p i then (get s (q i)).getD d else (get s (p i)).getD d) l
    (by
      intro s i _ r hr
      rw [hstep]
      by_cases h1 : r = p i
      · simp only [h1, if_true]
      · have h2 : r = q i := hr.resolve_left h1
        subst h2
        simp only [h1, if_false, if_true])
    (by
      intro s i _ r hr
      rw [hstep, if_neg (fun h => hr (Or.inl h)), if_neg (fun h => hr (Or.inr h))])
    (by
      intro s s' i _ hss r _
      dsimp only
      rw [hss (p i) (Or.inl rfl), hss (q i) (Or.inr rfl)])
    hnd
    (by
      intro i hi j hj r h1 h2
      apply hdisj i hi j hj
      rcases h1 with h1 | h1 <;> rcases h2 with h2 | h2
      · exact Or.inl (h1.symm.trans h2)
      · exact Or.inr (Or.inl (h1.symm.trans h2))
      · exact Or.inr (Or.inr (Or.inl (h1.symm.trans h2)))
      · exact Or.inr (Or.inr (Or.inr (h1.symm.trans h2))))
    s
  refine ⟨?_, ?_, ?_⟩
  · intro r hr
    apply k1
    intro i hi hc
    rcases hc with hc | hc
    · exact (hr i hi).1 hc
    · exact (hr i hi).2 hc
  · intro i hi
    rw [k2 i hi (p i) (Or.inl rfl)]
    simp only [if_true]
  · intro i hi
    rw [k2 i hi (q i) (Or.inr rfl)]
    by_cases h : q i = p i
    · simp only [h, if_true]
    · simp only [h, if_false]

theorem swapLoop_twice (get : σ → P → Option V) (step : σ → ι → σ) (p q : ι → P) (d : V)
    (l : List ι)
    (hstep : ∀ s i r, get (step s i) r =
      if r = p i then (get s r).map (fun _ => (get s (q i)).getD d)
      else if r = q i then (get s r).map (fun _ => (get s (p i)).getD d) else get s r)
    (hnd : l.Nodup)
    (hdisj : ∀ i ∈ l, ∀ j ∈ l, (p i = p j ∨ p i = q j ∨ q i = p j ∨ q i = q j) → i = j)
    (s : σ) (hs : ∀ i ∈ l, (get s (p i)).isSome = true ∧ (get s (q i)).isSome = true) (r : P) :
    get (l.foldl step (l.foldl step s)) r = get s r := by
  obtain ⟨a1, a2, a3⟩ := swapLoop_get get step p q d l hstep hnd hdisj s
  obtain ⟨b1, b2, b3⟩ := swapLoop_get get step p q d l hstep hnd hdisj (l.foldl step s)
  by_cases hr : ∃ i ∈ l, r = p i ∨ r = q i
  · obtain ⟨i, hi, hri⟩ := hr
    obtain ⟨vp, hvp⟩ := Option.isSome_iff_exists.1 (hs i hi).1
    obtain ⟨vq, hvq⟩ := Option.isSome_iff_exists.1 (hs i hi).2
    rcases hri with rfl | rfl
    · rw [b2 i hi, a2 i hi, a3 i hi, hvp, hvq]
      rfl
    · rw [b3 i hi, a2 i hi, a3 i hi, hvp, hvq]
      rfl
  · have hr' : ∀ i ∈ l, r ≠ p i ∧ r ≠ q i := by
      intro i hi
      constructor
      · intro hc; exact hr ⟨i, hi, Or.inl hc⟩
      · intro hc; exact hr ⟨i, hi, Or.inr hc⟩
    rw [b1 r hr', a1 r hr']

end

section

variable {α : Type}

theorem swapSlices_shape (n ib1 idof1 ib2 idof2 : Nat) (dflt : α) (t : List (List (List α))) :
    (swapSlices n ib1 idof1 ib2 idof2 dflt t).map (fun r => r.map List.length) =
      t.map (fun r => r.map List.length) := by
  unfold swapSlices
  exact foldl_inv (fun (s : List (List (List α))) => s.map (fun r => r.map List.length) =
    t.map (fun r => r.map List.length)) _ _ _ rfl
    (fun s i hs => by simp only [shape3_set3, hs])

theorem swapSlices_twice (n ib1 idof1 ib2 idof2 : Nat) (dflt : α) (t : List (List (List α)))
    (ht : ∀ ih, ih < n → (get3 t ib1 ih idof1).isSome = true ∧
      (get3 t ib2 ih idof2).isSome = true) :
    swapSlices n ib1 idof1 ib2 idof2 dflt (swapSlices n ib1 idof1 ib2 idof2 dflt t) = t := by
  apply ext3_shape
  · rw [swapSlices_shape, swapSlices_shape]
  · intro i j k
    exact swapLoop_twice (fun (s : List (List (List α))) (r : Nat × Nat × Nat) =>
        get3 s r.1 r.2.1 r.2.2)
      (fun t ih => set3 (set3 t ib1 ih idof1 ((get3 t ib2 ih idof2).getD dflt)) ib2 ih idof2
        ((get3 t ib1 ih idof1).getD dflt))
      (fun ih => (ib2, ih, idof2)) (fun ih => (ib1, ih, idof1)) dflt (List.range n)
      (by
        rintro s ih ⟨a, b, c⟩
        simp only [get3_set3, Prod.mk.injEq]
        by_cases h2 : a = ib2 ∧ b = ih ∧ c = idof2
        · obtain ⟨rfl, rfl, rfl⟩ := h2
          by_cases h1 : ib1 = a ∧ idof1 = c
          · obtain ⟨rfl, rfl⟩ := h1
            simp only [and_self, if_true, Option.map_map]
            cases get3 s ib1 b idof1 <;> rfl
          · have h3 : ¬ (ib1 = a ∧ b = b ∧ idof1 = c) := fun hc => h1 ⟨hc.1, hc.2.2⟩
            have h4 : ¬ (a = ib1 ∧ b = b ∧ c = idof1) := fun hc => h1 ⟨hc.1.symm, hc.2.2.symm⟩
            have h5 : ¬ (ib1 = a ∧ True ∧ idof1 = c) := fun hc => h1 ⟨hc.1, hc.2.2⟩
            simp only [h3, h4, h5, and_self, if_true, if_false]
        · have h2' : ¬ (ib2 = a ∧ ih = b ∧ idof2 = c) :=
            fun hc => h2 ⟨hc.1.symm, hc.2.1.symm, hc.2.2.symm⟩
          simp only [h2, h2', if_false]
          by_cases h1 : a = ib1 ∧ b = ih ∧ c = idof1
          · obtain ⟨rfl, rfl, rfl⟩ := h1
            simp only [and_self, if_true]
          · have h1' : ¬ (ib1 = a ∧ ih = b ∧ idof1 = c) :=
              fun hc => h1 ⟨hc.1.symm, hc.2.1.symm, hc.2.2.symm⟩
            simp only [h1, h1', if_false])
      (List.nodup_range n)
      (by
        intro i _ j _ hc
        simp only [Prod.mk.injEq] at hc
        rcases hc with hc | hc | hc | hc <;> exact hc.2.1)
      t
      (by
        intro ih hih
        have := ht ih (List.mem_range.1 hih)
        exact ⟨this.2, this.1⟩)
      (i, j, k)

end
section

variable {α K : Type}

theorem get2_modify2 (a : List (List α)) (i j i' j' : Nat) (f : α → α) :
    get2 (modify2 a i j f) i' j' =
      if i = i' ∧ j = j' then (get2 a i' j').map f else get2 a i' j' := by
  unfold get2 modify2
  rw [List.getElem?_modify]
  cases h : a[i']? with
  | none => simp
  | some r =>
    by_cases hi : i = i'
    · simp only [hi, if_true, Option.map_some', Option.some_bind, List.getElem?_modify,
        true_and]
      by_cases hj : j = j'
      · simp [hj]
      · simp [hj]
    · simp [hi]

theorem getF_setF (ex : Forces K) (ib ih ifr idf a b c e : Nat) (v : CVal K) :
    getF (setF ex ib ih ifr idf v) a b c e =
      if ib = a ∧ ih = b ∧ ifr = c ∧ idf = e then (getF ex a b c e).map (fun _ => v)
      else getF ex a b c e := by
  unfold getF setF
  rw [get2_modify2]
  by_cases h1 : ib = a ∧ ih = b
  · rw [if_pos h1]
    cases hm : get2 ex a b with
    | none => simp
    | some m =>
      simp only [Option.map_some', Option.some_bind, get2_set2]
      by_cases h2 : ifr = c ∧ idf = e
      · rw [if_pos h2, if_pos ⟨h1.1, h1.2, h2.1, h2.2⟩]
      · rw [if_neg h2, if_neg (fun hc => h2 ⟨hc.2.2.1, hc.2.2.2⟩)]
  · rw [if_neg h1, if_neg (fun hc => h1 ⟨hc.1, hc.2.1⟩)]

theorem shapeF_setF (ex : Forces K) (ib ih ifr idf : Nat) (v : CVal K) :
    (setF ex ib ih ifr idf v).map (fun r => r.map (fun m => m.map List.length)) =
      ex.map (fun r => r.map (fun m => m.map List.length)) :=
  map_modify_fixed _ _ _ _ (fun _ => map_modify_fixed _ _ _ _ (fun _ => shape2_set2 _ _ _ _))

theorem extF_shape (a b : Forces K)
    (hs : a.map (fun r => r.map (fun m => m.map List.length)) =
      b.map (fun r => r.map (fun m => m.map List.length)))
    (h : ∀ i j k l, getF a i j k l = getF b i j k l) : a = b := by
  apply ext_of_shape (fun r => r.map (fun m => m.map List.length)) a b hs
  intro i x y hx hy hxy
  apply ext_of_shape (fun m => m.map List.length) x y hxy
  intro j m m' hm hm' hmm
  apply ext2_shape m m' hmm
  intro k l
  have e := h i j k l
  simp only [getF, get2, hx, hy, hm, hm', Option.some_bind] at e
  exact e

theorem SwapF_shape (Nh Nf ib1 idof1 ib2 idof2 : Nat) (ex : Forces K) :
    (SwapF Nh Nf ib1 idof1 ib2 idof2 ex).map (fun r => r.map (fun m => m.map List.length)) =
      ex.map (fun r => r.map (fun m => m.map List.length)) := by
  unfold SwapF
  exact foldl_inv (fun (s : Forces K) => s.map (fun r => r.map (fun m => m.map List.length)) =
    ex.map (fun r => r.map (fun m => m.map List.length))) _ _ _ rfl
    (fun s i hs => foldl_inv (fun (s : Forces K) =>
      s.map (fun r => r.map (fun m => m.map List.length)) =
        ex.map (fun r => r.map (fun m => m.map List.length))) _ _ _ hs
      (fun s j hs => by simp only [shapeF_setF, hs]))

theorem SwapF_twice (Nh Nf ib1 idof1 ib2 idof2 : Nat) (ex : Forces K)
    (hex : ∀ ih ifr, ih < Nh → ifr < Nf → (getF ex ib1 ih ifr idof1).isSome = true ∧
      (getF ex ib2 ih ifr idof2).isSome = true) :
    SwapF Nh Nf ib1 idof1 ib2 idof2 (SwapF Nh Nf ib1 idof1 ib2 idof2 ex) = ex := by
  apply extF_shape
  · rw [SwapF_shape, SwapF_shape]
  · intro i j k l
    unfold SwapF
    rw [foldl_nested (fun (ex : Forces K) ih ifr =>
        setF (setF ex ib2 ih ifr idof2 ((getF ex ib1 ih ifr idof1).getD ⟨none, none⟩))
          ib1 ih ifr idof1 ((getF ex ib2 ih ifr idof2).getD ⟨none, none⟩))
      (fun _ => List.range Nf),
      foldl_nested (fun (ex : Forces K) ih ifr =>
        setF (setF ex ib2 ih ifr idof2 ((getF ex ib1 ih ifr idof1).getD ⟨none, none⟩))
          ib1 ih ifr idof1 ((getF ex ib2 ih ifr idof2).getD ⟨none, none⟩))
      (fun _ => List.range Nf)]
    exact swapLoop_twice (fun (s : Forces K) (r : Nat × Nat × Nat × Nat) =>
        getF s r.1 r.2.1 r.2.2.1 r.2.2.2)
      (fun (ex : Forces K) (t : Nat × Nat) =>
        setF (setF ex ib2 t.1 t.2 idof2 ((getF ex ib1 t.1 t.2 idof1).getD ⟨none, none⟩))
          ib1 t.1 t.2 idof1 ((getF ex ib2 t.1 t.2 idof2).getD ⟨none, none⟩))
      (fun t => (ib1, t.1, t.2, idof1)) (fun t => (ib2, t.1, t.2, idof2)) ⟨none, none⟩ _
      (by
        rintro s ⟨ih, ifr⟩ ⟨a, b, c, e⟩
        simp only [getF_setF, Prod.mk.injEq]
        by_cases h1 : a = ib1 ∧ b = ih ∧ c = ifr ∧ e = idof1
        · obtain ⟨rfl, rfl, rfl, rfl⟩ := h1
          simp only [and_self, if_true]
          by_cases h2 : ib2 = a ∧ idof2 = e
          · obtain ⟨rfl, rfl⟩ := h2
            simp only [and_self, if_true, Option.map_map]
            cases getF s ib2 b c idof2 <;> rfl
          · have h3 : ¬ (ib2 = a ∧ b = b ∧ c = c ∧ idof2 = e) := fun hc => h2 ⟨hc.1, hc.2.2.2⟩
            have h5 : ¬ (ib2 = a ∧ True ∧ True ∧ idof2 = e) := fun hc => h2 ⟨hc.1, hc.2.2.2⟩
            simp only [h3, h5, and_self, if_true, if_false]
        · have h1' : ¬ (ib1 = a ∧ ih = b ∧ ifr = c ∧ idof1 = e) :=
            fun hc => h1 ⟨hc.1.symm, hc.2.1.symm, hc.2.2.1.symm, hc.2.2.2.symm⟩
          simp only [h1, h1', if_false]
          by_cases h2 : a = ib2 ∧ b = ih ∧ c = ifr ∧ e = idof2
          · obtain ⟨rfl, rfl, rfl, rfl⟩ := h2
            simp only [and_self, if_true]
          · have h2' : ¬ (ib2 = a ∧ ih = b ∧ ifr = c ∧ idof2 = e) :=
              fun hc => h2 ⟨hc.1.symm, hc.2.1.symm, hc.2.2.1.symm, hc.2.2.2.symm⟩
            simp only [h2, h2', if_false])
      (nodup_pairs _ _ (List.nodup_range _) (fun _ => List.nodup_range _))
      (by
        rintro ⟨i1, i2⟩ _ ⟨j1, j2⟩ _ hc
        simp only [Prod.mk.injEq] at hc
        rcases hc with hc | hc | hc | hc <;> exact Prod.ext hc.2.1 hc.2.2.1)
      ex
      (by
        rintro ⟨ih, ifr⟩ ht
        rw [mem_pairs (fun _ => List.range Nf)] at ht
        simp only [List.mem_range] at ht
        exact hex ih ifr ht.1 ht.2)
      (i, j, k, l)

end
theorem modify_modify {α : Type} (f g : α → α) (l : List α) (i : Nat) :
    (l.modify f i).modify g i = l.modify (fun x => g (f x)) i := by
  apply List.ext_getElem?
  intro k
  simp only [List.getElem?_modify]
  cases l[k]? with
  | none => rfl
  | some x =>
    by_cases hk : i = k
    · simp [hk]
    · simp [hk]

section

variable {K : Type}

theorem swapBodies_length (X : SwapHelpers K) (ib1 idof1 ib2 idof2 : Nat)
    (m : List (RMatrix K)) : (swapBodies X ib1 idof1 ib2 idof2 m).length = m.length := by
  unfold swapBodies
  split_ifs <;> simp

theorem tabulate_dims (M : RMatrix K) (f : Nat → Nat → Option K) (n m : Nat)
    (h : Dims2 M n m) : Dims2 (tabulate M f) n m := by
  obtain ⟨h1, h2⟩ := h
  refine ⟨by simp [tabulate, h1], ?_⟩
  intro r hr
  unfold tabulate at hr
  obtain ⟨i, hi, rfl⟩ := List.mem_map.1 hr
  have hi' : i < M.length := List.mem_range.1 hi
  rw [List.length_map, List.length_range, List.getElem?_eq_getElem hi', Option.getD_some]
  exact h2 _ (List.getElem_mem hi')

theorem get2_tabulate (M : RMatrix K) (f : Nat → Nat → Option K) (n m : Nat)
    (h : Dims2 M n m) (r c : Nat) (hr : r < n) (hc : c < m) :
    get2 (tabulate M f) r c = some (f r c) := by
  obtain ⟨h1, h2⟩ := h
  have hr' : r < M.length := by omega
  have hrow : (M[r]?.getD []).length = m := by
    rw [List.getElem?_eq_getElem hr', Option.getD_some]
    exact h2 _ (List.getElem_mem hr')
  unfold get2 tabulate
  rw [List.getElem?_map, List.getElem?_range hr', Option.map_some', Option.some_bind,
    List.getElem?_map, hrow, List.getElem?_range hc, Option.map_some']

theorem some_getD_get2 (M : RMatrix K) (n m : Nat) (h : Dims2 M n m) (r c : Nat)
    (hr : r < n) (hc : c < m) : some ((get2 M r c).getD none) = get2 M r c := by
  obtain ⟨v, hv⟩ := Option.isSome_iff_exists.1 (h.get2_isSome hr hc)
  rw [hv, Option.getD_some]

/-- The exchange of two rows and of the same two columns of a square matrix undoes
itself. -/
theorem exchangeRC_twice (A : RMatrix K) (n rc1 rc2 : Nat) (hd : Dims2 A n n)
    (h1 : rc1 < n) (h2 : rc2 < n) : exchangeRC (exchangeRC A rc1 rc2) rc1 rc2 = A := by
  have d1 : Dims2 (exchangeRC A rc1 rc2) n n := tabulate_dims _ _ _ _ hd
  have d2 : Dims2 (exchangeRC (exchangeRC A rc1 rc2) rc1 rc2) n n := tabulate_dims _ _ _ _ d1
  apply get2_eq_some_iff_dims d2 hd
  intro r c hr hc
  have sr := swapIndex_lt rc1 rc2 r n h1 h2 hr
  have sc := swapIndex_lt rc1 rc2 c n h1 h2 hc
  unfold exchangeRC at d1 ⊢
  rw [get2_tabulate _ _ n n d1 r c hr hc, get2_tabulate _ _ n n hd _ _ sr sc, Option.getD_some,
    swapIndex_swapIndex, swapIndex_swapIndex]
  exact some_getD_get2 A n n hd r c hr hc

/-- The entries of the two matrices after the exchange of the column and of the row of
the same index `k` between them. -/
theorem exchangeRC2_get (C1 C2 : RMatrix K) (n k : Nat) (h1 : Dims2 C1 n n)
    (h2 : Dims2 C2 n n) (hk : k < n) (r c : Nat) (hr : r < n) (hc : c < n) :
    get2 (exchangeRC2 C1 C2 k k).1 r c =
      (if (r = k ∧ c ≠ k) ∨ (r ≠ k ∧ c = k) then get2 C2 r c else get2 C1 r c) ∧
    get2 (exchangeRC2 C1 C2 k k).2 r c =
      (if (r = k ∧ c ≠ k) ∨ (r ≠ k ∧ c = k) then get2 C1 r c else get2 C2 r c) := by
  have dD1 : Dims2 (tabulate C1 (fun r c =>
      if c = k then (get2 C2 r k).getD none else (get2 C1 r c).getD none)) n n :=
    tabulate_dims _ _ _ _ h1
  have dD2 : Dims2 (tabulate C2 (fun r c =>
      if c = k then (get2 C1 r k).getD none else (get2 C2 r c).getD none)) n n :=
    tabulate_dims _ _ _ _ h2
  unfold exchangeRC2
  dsimp only
  rw [get2_tabulate _ _ n n dD1 r c hr hc, get2_tabulate _ _ n n dD2 r c hr hc,
    get2_tabulate _ _ n n h1 r c hr hc, get2_tabulate _ _ n n h2 r c hr hc,
    get2_tabulate _ _ n n h1 k c hk hc, get2_tabulate _ _ n n h2 k c hk hc]
  simp only [Option.getD_some]
  have a1 := some_getD_get2 C1 n n h1
  have a2 := some_getD_get2 C2 n n h2
  by_cases e1 : r = k <;> by_cases e2 : c = k <;>
    simp [e1, e2, a1 k k hk hk, a2 k k hk hk, a1 r k hr hk, a2 r k hr hk, a1 k c hk hc,
      a2 k c hk hc, a1 r c hr hc, a2 r c hr hc]

theorem exchangeRC2_dims (C1 C2 : RMatrix K) (n rc1 rc2 : Nat) (h1 : Dims2 C1 n n)
    (h2 : Dims2 C2 n n) :
    Dims2 (exchangeRC2 C1 C2 rc1 rc2).1 n n ∧ Dims2 (exchangeRC2 C1 C2 rc1 rc2).2 n n :=
  ⟨tabulate_dims _ _ _ _ (tabulate_dims _ _ _ _ h1),
    tabulate_dims _ _ _ _ (tabulate_dims _ _ _ _ h2)⟩

/-- The exchange of the column and of the row of the same index between two square
matrices undoes itself. -/
theorem exchangeRC2_twice (C1 C2 : RMatrix K) (n k : Nat) (h1 : Dims2 C1 n n)
    (h2 : Dims2 C2 n n) (hk : k < n) :
    exchangeRC2 (exchangeRC2 C1 C2 k k).1 (exchangeRC2 C1 C2 k k).2 k k = (C1, C2) := by
  obtain ⟨d1, d2⟩ := exchangeRC2_dims C1 C2 n k k h1 h2
  obtain ⟨e1, e2⟩ := exchangeRC2_dims _ _ n k k d1 d2
  apply Prod.ext
  · apply get2_eq_some_iff_dims e1 h1
    intro r c hr hc
    rw [(exchangeRC2_get _ _ n k d1 d2 hk r c hr hc).1,
      (exchangeRC2_get C1 C2 n k h1 h2 hk r c hr hc).1,
      (exchangeRC2_get C1 C2 n k h1 h2 hk r c hr hc).2]
    split_ifs <;> rfl
  · apply get2_eq_some_iff_dims e2 h2
    intro r c hr hc
    rw [(exchangeRC2_get _ _ n k d1 d2 hk r c hr hc).2,
      (exchangeRC2_get C1 C2 n k h1 h2 hk r c hr hc).1,
      (exchangeRC2_get C1 C2 n k h1 h2 hk r c hr hc).2]
    split_ifs <;> rfl

/-- Two exchanges of the matrices of the bodies give back the matrices, when the helper
that is called undoes itself on them. -/
theorem swapBodies_twice_of (X : SwapHelpers K) (ib1 idof1 ib2 idof2 : Nat)
    (m : List (RMatrix K)) (h1 : ib1 < m.length) (h2 : ib2 < m.length)
    (hSame : ib1 = ib2 → ∀ v, m[ib1]? = some v →
      X.Swap2Same (X.Swap2Same v idof1 idof2) idof1 idof2 = v)
    (hTwo : ib1 ≠ ib2 →
      X.Swap2 (X.Swap2 (m[ib1]?.getD []) (m[ib2]?.getD []) idof1 idof2).1
        (X.Swap2 (m[ib1]?.getD []) (m[ib2]?.getD []) idof1 idof2).2 idof1 idof2 =
        (m[ib1]?.getD [], m[ib2]?.getD [])) :
    swapBodies X ib1 idof1 ib2 idof2 (swapBodies X ib1 idof1 ib2 idof2 m) = m := by
  unfold swapBodies
  by_cases hb : ib1 = ib2
  · rw [if_pos hb, if_pos hb, modify_modify]
    apply modify_self
    intro v hv
    exact hSame hb v hv
  · simp only [hb, if_false]
    have e1 : ((m.set ib1 (X.Swap2 (m[ib1]?.getD []) (m[ib2]?.getD []) idof1 idof2).1).set ib2
        (X.Swap2 (m[ib1]?.getD []) (m[ib2]?.getD []) idof1 idof2).2)[ib1]?.getD [] =
        (X.Swap2 (m[ib1]?.getD []) (m[ib2]?.getD []) idof1 idof2).1 := by
      rw [List.getElem?_set_ne (Ne.symm hb), List.getElem?_set_self (by simpa using h1)]
      rfl
    have e2 : ((m.set ib1 (X.Swap2 (m[ib1]?.getD []) (m[ib2]?.getD []) idof1 idof2).1).set ib2
        (X.Swap2 (m[ib1]?.getD []) (m[ib2]?.getD []) idof1 idof2).2)[ib2]?.getD [] =
        (X.Swap2 (m[ib1]?.getD []) (m[ib2]?.getD []) idof1 idof2).2 := by
      rw [List.getElem?_set_self (by simpa using h2)]
      rfl
    rw [e1, e2, hTwo hb]
    apply List.ext_getElem?
    intro k
    simp only [List.getElem?_set]
    by_cases hk2 : ib2 = k
    · subst hk2
      simp [h2]
    · by_cases hk1 : ib1 = k
      · subst hk1
        simp [hk2, h1, hb]
      · simp [hk1, hk2]

theorem swapBodies_twice (X : SwapHelpers K) (hX : X.Involutive) (ib1 idof1 ib2 idof2 : Nat)
    (m : List (RMatrix K)) (h1 : ib1 < m.length) (h2 : ib2 < m.length) :
    swapBodies X ib1 idof1 ib2 idof2 (swapBodies X ib1 idof1 ib2 idof2 m) = m :=
  swapBodies_twice_of X ib1 idof1 ib2 idof2 m h1 h2 (fun _ v _ => hX.2.2 v idof1 idof2)
    (fun _ => hX.2.1 _ _ _ _)

/-- Two exchanges with the row and column helpers give back the `6 x 6` matrices of the
bodies, when the two bodies or the two degrees of freedom are the same. -/
theorem swapBodies_exchange_twice (ib1 idof1 ib2 idof2 : Nat) (m : List (RMatrix K))
    (h1 : ib1 < m.length) (h2 : ib2 < m.length) (hd1 : idof1 < 6) (hd2 : idof2 < 6)
    (hm : ∀ c ∈ m, Dims2 c 6 6) (hor : ib1 = ib2 ∨ idof1 = idof2) :
    swapBodies exchangeHelpers ib1 idof1 ib2 idof2
      (swapBodies exchangeHelpers ib1 idof1 ib2 idof2 m) = m := by
  apply swapBodies_twice_of exchangeHelpers ib1 idof1 ib2 idof2 m h1 h2
  · intro _ v hv
    exact exchangeRC_twice v 6 idof1 idof2 (hm v (List.getElem?_mem hv)) hd1 hd2
  · intro hb
    have hd : idof1 = idof2 := hor.resolve_left hb
    subst hd
    have c1 : Dims2 (m[ib1]?.getD []) 6 6 := by
      rw [List.getElem?_eq_getElem h1, Option.getD_some]
      exact hm _ (List.getElem_mem h1)
    have c2 : Dims2 (m[ib2]?.getD []) 6 6 := by
      rw [List.getElem?_eq_getElem h2, Option.getD_some]
      exact hm _ (List.getElem_mem h2)
    exact exchangeRC2_twice _ _ 6 idof1 c1 c2 hd1

end
section

variable {K : Type}

theorem withC_length (msh : List (Body K)) (cs : List (RMatrix K)) (h : cs.length = msh.length) :
    (withC msh cs).length = msh.length := by
  simp [withC, h]

theorem withM_length (msh : List (Body K)) (cs : List (RMatrix K)) (h : cs.length = msh.length) :
    (withM msh cs).length = msh.length := by
  simp [withM, h]

theorem withC_map_C (msh : List (Body K)) (cs : List (RMatrix K)) (h : cs.length = msh.length) :
    (withC msh cs).map Body.C = cs := by
  apply List.ext_getElem (by simp [withC, h])
  intro i h1 h2
  simp [withC]

theorem withC_map_M (msh : List (Body K)) (cs : List (RMatrix K)) (h : cs.length = msh.length) :
    (withC msh cs).map Body.M = msh.map Body.M := by
  apply List.ext_getElem (by simp [withC, h])
  intro i h1 h2
  simp [withC]

theorem withM_map_M (msh : List (Body K)) (cs : List (RMatrix K)) (h : cs.length = msh.length) :
    (withM msh cs).map Body.M = cs := by
  apply List.ext_getElem (by simp [withM, h])
  intro i h1 h2
  simp [withM]

theorem withM_map_C (msh : List (Body K)) (cs : List (RMatrix K)) (h : cs.length = msh.length) :
    (withM msh cs).map Body.C = msh.map Body.C := by
  apply List.ext_getElem (by simp [withM, h])
  intro i h1 h2
  simp [withM]

theorem withC_self (msh msh' : List (Body K)) (hl : msh'.length = msh.length)
    (h : ∀ i (h1 : i < msh'.length) (h2 : i < msh.length),
      { msh'[i] with C := msh[i].C } = msh[i]) :
    withC msh' (msh.map Body.C) = msh := by
  apply List.ext_getElem (by simp [withC, hl])
  intro i h1 h2
  simp only [withC, List.getElem_zipWith, List.getElem_map]
  exact h i _ _

theorem SwapCM_map_C (L : LoadedTests K) (X : SwapHelpers K) (ib1 idof1 ib2 idof2 : Nat)
    (msh : List (Body K)) :
    (SwapCM L X ib1 idof1 ib2 idof2 msh).map Body.C =
      if L.IsLoadedC (msh.map Body.C) then swapBodies X ib1 idof1 ib2 idof2 (msh.map Body.C)
      else msh.map Body.C := by
  unfold SwapCM
  dsimp only
  have e := withC_map_C msh (swapBodies X ib1 idof1 ib2 idof2 (msh.map Body.C))
    (by rw [swapBodies_length, List.length_map])
  by_cases hc : L.IsLoadedC (msh.map Body.C) = true
  · rw [if_pos hc, if_pos hc]
    by_cases hm : L.IsLoadedM ((withC msh (swapBodies X ib1 idof1 ib2 idof2
        (msh.map Body.C))).map Body.M) = true
    · rw [if_pos hm, withM_map_C _ _ (by rw [swapBodies_length, List.length_map]), e]
    · rw [if_neg hm, e]
  · rw [if_neg hc, if_neg hc]
    by_cases hm : L.IsLoadedM (msh.map Body.M) = true
    · rw [if_pos hm, withM_map_C _ _ (by rw [swapBodies_length, List.length_map])]
    · rw [if_neg hm]

theorem SwapCM_map_M (L : LoadedTests K) (X : SwapHelpers K) (ib1 idof1 ib2 idof2 : Nat)
    (msh : List (Body K)) :
    (SwapCM L X ib1 idof1 ib2 idof2 msh).map Body.M =
      if L.IsLoadedM (msh.map Body.M) then swapBodies X ib1 idof1 ib2 idof2 (msh.map Body.M)
      else msh.map Body.M := by
  unfold SwapCM
  dsimp only
  have e : (if L.IsLoadedC (msh.map Body.C) = true then
      withC msh (swapBodies X ib1 idof1 ib2 idof2 (msh.map Body.C)) else msh).map Body.M =
      msh.map Body.M := by
    by_cases hc : L.IsLoadedC (msh.map Body.C) = true
    · rw [if_pos hc, withC_map_M _ _ (by rw [swapBodies_length, List.length_map])]
    · rw [if_neg hc]
  rw [e]
  by_cases hm : L.IsLoadedM (msh.map Body.M) = true
  · rw [if_pos hm, if_pos hm, withM_map_M]
    rw [swapBodies_length, List.length_map]
    by_cases hc : L.IsLoadedC (msh.map Body.C) = true
    · rw [if_pos hc, withC_length _ _ (by rw [swapBodies_length, List.length_map])]
    · rw [if_neg hc]
  · rw [if_neg hm, if_neg hm, e]

theorem withC_map_rest (msh : List (Body K)) (cs : List (RMatrix K))
    (h : cs.length = msh.length) :
    (withC msh cs).map (fun b => { b with C := [], M := [] }) =
      msh.map (fun b => { b with C := [], M := [] }) := by
  apply List.ext_getElem (by simp [withC, h])
  intro i h1 h2
  simp [withC]

theorem withM_map_rest (msh : List (Body K)) (cs : List (RMatrix K))
    (h : cs.length = msh.length) :
    (withM msh cs).map (fun b => { b with C := [], M := [] }) =
      msh.map (fun b => { b with C := [], M := [] }) := by
  apply List.ext_getElem (by simp [withM, h])
  intro i h1 h2
  simp [withM]

/-- What `SwapCM` leaves of the bodies other than their matrices `C` and `M`. -/
theorem SwapCM_map_rest (L : LoadedTests K) (X : SwapHelpers K) (ib1 idof1 ib2 idof2 : Nat)
    (msh : List (Body K)) :
    (SwapCM L X ib1 idof1 ib2 idof2 msh).map (fun b => { b with C := [], M := [] }) =
      msh.map (fun b => { b with C := [], M := [] }) := by
  unfold SwapCM
  dsimp only
  have e : (if L.IsLoadedC (msh.map Body.C) = true then
      withC msh (swapBodies X ib1 idof1 ib2 idof2 (msh.map Body.C)) else msh).map
        (fun b => { b with C := [], M := [] }) = msh.map (fun b => { b with C := [], M := [] }) := by
    by_cases hc : L.IsLoadedC (msh.map Body.C) = true
    · rw [if_pos hc, withC_map_rest _ _ (by rw [swapBodies_length, List.length_map])]
    · rw [if_neg hc]
  generalize (if L.IsLoadedC (msh.map Body.C) = true then
      withC msh (swapBodies X ib1 idof1 ib2 idof2 (msh.map Body.C)) else msh) = g at e ⊢
  by_cases hm : L.IsLoadedM (g.map Body.M) = true
  · rw [if_pos hm, withM_map_rest _ _ (by rw [swapBodies_length, List.length_map]), e]
  · rw [if_neg hm, e]

theorem bodies_ext (a b : List (Body K))
    (hC : a.map Body.C = b.map Body.C) (hM : a.map Body.M = b.map Body.M)
    (hR : a.map (fun b => { b with C := [], M := [] }) =
      b.map (fun b => { b with C := [], M := [] })) :
    a = b := by
  have hl : a.length = b.length := by simpa using congrArg List.length hC
  apply List.ext_getElem hl
  intro i h1 h2
  have eC := congrArg (fun l => l[i]?) hC
  have eM := congrArg (fun l => l[i]?) hM
  have eR := congrArg (fun l => l[i]?) hR
  simp only [List.getElem?_map, List.getElem?_eq_getElem h1, List.getElem?_eq_getElem h2,
    Option.map_some', Option.some.injEq] at eC eM eR
  cases ha : a[i]
  cases hb : b[i]
  rw [ha, hb] at eC eM eR
  simp only [Body.mk.injEq] at eR ⊢
  simp only at eC eM
  exact ⟨eR.1, eC, eM, eR.2.2.2⟩

/-- Two calls of `SwapCM` give back the bodies, when the two exchanges give back their
loaded matrices `C` and `M`. -/
theorem SwapCM_twice_of (L : LoadedTests K) (X : SwapHelpers K)
    (ib1 idof1 ib2 idof2 : Nat) (msh : List (Body K))
    (hC : L.IsLoadedC ((SwapCM L X ib1 idof1 ib2 idof2 msh).map Body.C) =
      L.IsLoadedC (msh.map Body.C))
    (hM : L.IsLoadedM ((SwapCM L X ib1 idof1 ib2 idof2 msh).map Body.M) =
      L.IsLoadedM (msh.map Body.M))
    (hCC : L.IsLoadedC (msh.map Body.C) = true →
      swapBodies X ib1 idof1 ib2 idof2 (swapBodies X ib1 idof1 ib2 idof2 (msh.map Body.C)) =
        msh.map Body.C)
    (hMM : L.IsLoadedM (msh.map Body.M) = true →
      swapBodies X ib1 idof1 ib2 idof2 (swapBodies X ib1 idof1 ib2 idof2 (msh.map Body.M)) =
        msh.map Body.M) :
    SwapCM L X ib1 idof1 ib2 idof2 (SwapCM L X ib1 idof1 ib2 idof2 msh) = msh := by
  apply bodies_ext
  · rw [SwapCM_map_C, hC, SwapCM_map_C]
    by_cases hc : L.IsLoadedC (msh.map Body.C) = true
    · rw [if_pos hc, if_pos hc, hCC hc]
    · rw [if_neg hc, if_neg hc]
  · rw [SwapCM_map_M, hM, SwapCM_map_M]
    by_cases hc : L.IsLoadedM (msh.map Body.M) = true
    · rw [if_pos hc, if_pos hc, hMM hc]
    · rw [if_neg hc, if_neg hc]
  · rw [SwapCM_map_rest, SwapCM_map_rest]

theorem SwapCM_twice (L : LoadedTests K) (X : SwapHelpers K) (hX : X.Involutive)
    (ib1 idof1 ib2 idof2 : Nat) (msh : List (Body K)) (h1 : ib1 < msh.length)
    (h2 : ib2 < msh.length)
    (hC : L.IsLoadedC ((SwapCM L X ib1 idof1 ib2 idof2 msh).map Body.C) =
      L.IsLoadedC (msh.map Body.C))
    (hM : L.IsLoadedM ((SwapCM L X ib1 idof1 ib2 idof2 msh).map Body.M) =
      L.IsLoadedM (msh.map Body.M)) :
    SwapCM L X ib1 idof1 ib2 idof2 (SwapCM L X ib1 idof1 ib2 idof2 msh) = msh :=
  SwapCM_twice_of L X ib1 idof1 ib2 idof2 msh hC hM
    (fun _ => swapBodies_twice X hX _ _ _ _ _ (by simpa using h1) (by simpa using h2))
    (fun _ => swapBodies_twice X hX _ _ _ _ _ (by simpa using h1) (by simpa using h2))

end
section

variable {K : Type}

theorem Hydro_ext (a b : Hydro K)
    (h0 : a.Nb = b.Nb)
    (h1 : a.Nf = b.Nf)
    (h2 : a.Nh = b.Nh)
    (h3 : a.w = b.w)
    (h4 : a.head = b.head)
    (h5 : a.A = b.A)
    (h6 : a.Ainf_w = b.Ainf_w)
    (h7 : a.B = b.B)
    (h8 : a.A_P = b.A_P)
    (h9 : a.B_H = b.B_H)
    (h10 : a.B_P = b.B_P)
    (h11 : a.Kirf = b.Kirf)
    (h12 : a.Ainf = b.Ainf)
    (h13 : a.A0 = b.A0)
    (h14 : a.ex = b.ex)
    (h15 : a.sc = b.sc)
    (h16 : a.fk = b.fk)
    (h17 : a.rao = b.rao)
    (h18 : a.sc_pot = b.sc_pot)
    (h19 : a.fk_pot = b.fk_pot)
    (h20 : a.fk_pot_bmr = b.fk_pot_bmr)
    (h21 : a.md = b.md)
    (h22 : a.mdhead = b.mdhead)
    (h23 : a.qtfsum = b.qtfsum)
    (h24 : a.qtfdif = b.qtfdif)
    (h25 : a.qw = b.qw)
    (h26 : a.qhead = b.qhead)
    (h27 : a.msh = b.msh) : a = b := by
  cases a
  cases b
  simp only [Hydro.mk.injEq]
  exact ⟨h0, h1, h2, h3, h4, h5, h6, h7, h8, h9, h10, h11, h12, h13, h14, h15, h16, h17, h18, h19, h20, h21, h22, h23, h24, h25, h26, h27⟩

theorem twice_cond {α : Type} (t : α → Bool) (f : α → α) (a : α)
    (hst : t (if t a then f a else a) = t a) (hf : t a = true → f (f a) = a) :
    (if t (if t a then f a else a) then f (if t a then f a else a)
      else (if t a then f a else a)) = a := by
  rw [hst]
  by_cases h : t a = true
  · rw [if_pos h, if_pos h, hf h]
  · rw [if_neg h, if_neg h]

theorem Dims3_get3 {α : Type} {t : List (List (List α))} {n1 n2 n3 : Nat}
    (h : Dims3 t n1 n2 n3) {i j k : Nat} (hi : i < n1) (hj : j < n2) (hk : k < n3) :
    (get3 t i j k).isSome = true := by
  obtain ⟨c, hc⟩ := Option.isSome_iff_exists.1 (h.1.get2_isSome hi hj)
  have hc' := hc
  unfold get2 at hc'
  obtain ⟨r, hr, hrc⟩ := Option.bind_eq_some.1 hc'
  have hlen := h.2 r (List.getElem?_mem hr) c (List.getElem?_mem hrc)
  unfold get3
  rw [hc, Option.some_bind, List.getElem?_eq_getElem (by omega)]
  rfl

theorem ForcesDims_getF {ex : Forces K} {Nb Nh Nf : Nat} (h : ForcesDims ex Nb Nh Nf)
    {ib ih ifr idf : Nat} (hb : ib < Nb) (hh : ih < Nh) (hf : ifr < Nf) (hd : idf < 6) :
    (getF ex ib ih ifr idf).isSome = true := by
  obtain ⟨m, hm⟩ := Option.isSome_iff_exists.1 (h.1.get2_isSome hb hh)
  have hm' := hm
  unfold get2 at hm'
  obtain ⟨r, hr, hrm⟩ := Option.bind_eq_some.1 hm'
  have hd2 := h.2 r (List.getElem?_mem hr) m (List.getElem?_mem hrm)
  unfold getF
  rw [hm, Option.some_bind]
  exact hd2.get2_isSome hf hd

end
section

variable {K : Type}

/-- Two calls of `SwapDOF` give back every field of the store but the bodies, when the
helper `Swap` undoes itself on the loaded `Ainf` and `A0`. -/
theorem SwapDOF_twice_tensors (L : LoadedTests K) (X : SwapHelpers K) (h : Hydro K)
    (ib1 idof1 ib2 idof2 : Nat) (hb1 : ib1 < h.Nb) (hd1 : idof1 < 6) (hb2 : ib2 < h.Nb)
    (hd2 : idof2 < 6) (hsh : LoadedShapes L h)
    (hst : LoadedAgree L h (SwapDOF L X h ib1 idof1 ib2 idof2))
    (hAinf : L.IsLoadedAinf h.Ainf = true →
      X.Swap (X.Swap h.Ainf (idof1 + 6 * ib1) (idof2 + 6 * ib2)) (idof1 + 6 * ib1)
        (idof2 + 6 * ib2) = h.Ainf)
    (hA0 : L.IsLoadedA0 h.A0 = true →
      X.Swap (X.Swap h.A0 (idof1 + 6 * ib1) (idof2 + 6 * ib2)) (idof1 + 6 * ib1)
        (idof2 + 6 * ib2) = h.A0) :
    { SwapDOF L X (SwapDOF L X h ib1 idof1 ib2 idof2) ib1 idof1 ib2 idof2 with
      msh := h.msh } = h := by
  obtain ⟨sA, sAw, sB, sAP, sBH, sBP, sK, sex, ssc, sfk, srao, sscp, sfkp, sfkb, smd, sqs, sqd,
    smsh⟩ := hsh
  obtain ⟨tA, tAw, tB, tAP, tBH, tBP, tK, tAinf, tA0, tex, tsc, tfk, trao, tscp, tfkp, tfkb,
    tmd, tqs, tqd, tC, tM⟩ := hst
  have p1 : idof1 + 6 * ib1 < 6 * h.Nb := by omega
  have p2 : idof2 + 6 * ib2 < 6 * h.Nb := by omega
  have hF : ∀ ex : Forces K, ForcesDims ex h.Nb h.Nh h.Nf →
      SwapF h.Nh h.Nf ib1 idof1 ib2 idof2 (SwapF h.Nh h.Nf ib1 idof1 ib2 idof2 ex) = ex :=
    fun ex hd => SwapF_twice _ _ _ _ _ _ _ (fun ih ifr hh hf =>
      ⟨ForcesDims_getF hd hb1 hh hf hd1, ForcesDims_getF hd hb2 hh hf hd2⟩)
  have hS : ∀ {α : Type} (d : α) (t : List (List (List α))) (n : Nat), Dims3 t h.Nb n 6 →
      swapSlices n ib1 idof1 ib2 idof2 d (swapSlices n ib1 idof1 ib2 idof2 d t) = t :=
    fun d t n hd => swapSlices_twice _ _ _ _ _ _ _ (fun ih hh =>
      ⟨Dims3_get3 hd hb1 hh hd1, Dims3_get3 hd hb2 hh hd2⟩)
  apply Hydro_ext
  · rfl
  · rfl
  · rfl
  · rfl
  · rfl
  · exact twice_cond L.IsLoadedA _ h.A tA (fun hl => SwapAB_SwapAB _ _ _ _ p1 p2 (sA hl))
  · exact twice_cond L.IsLoadedAinf_w _ h.Ainf_w tAw
      (fun hl => SwapAB_SwapAB _ _ _ _ p1 p2 (sAw hl))
  · exact twice_cond L.IsLoadedB _ h.B tB (fun hl => SwapAB_SwapAB _ _ _ _ p1 p2 (sB hl))
  · exact twice_cond L.IsLoadedA_P _ h.A_P tAP (fun hl => SwapAB_SwapAB _ _ _ _ p1 p2 (sAP hl))
  · exact twice_cond L.IsLoadedB_H _ h.B_H tBH (fun hl => SwapAB_SwapAB _ _ _ _ p1 p2 (sBH hl))
  · exact twice_cond L.IsLoadedB_P _ h.B_P tBP (fun hl => SwapAB_SwapAB _ _ _ _ p1 p2 (sBP hl))
  · exact twice_cond L.IsLoadedKirf _ h.Kirf tK (fun hl => SwapAB_SwapAB _ _ _ _ p1 p2 (sK hl))
  · exact twice_cond L.IsLoadedAinf (fun A => X.Swap A (idof1 + 6 * ib1) (idof2 + 6 * ib2))
      h.Ainf tAinf hAinf
  · exact twice_cond L.IsLoadedA0 (fun A => X.Swap A (idof1 + 6 * ib1) (idof2 + 6 * ib2))
      h.A0 tA0 hA0
  · exact twice_cond L.IsLoadedFex _ h.ex tex (fun hl => hF _ (sex hl))
  · exact twice_cond L.IsLoadedFsc _ h.sc tsc (fun hl => hF _ (ssc hl))
  · exact twice_cond L.IsLoadedFfk _ h.fk tfk (fun hl => hF _ (sfk hl))
  · exact twice_cond L.IsLoadedRAO _ h.rao trao (fun hl => hF _ (srao hl))
  · exact twice_cond L.IsLoadedFsc_pot _ h.sc_pot tscp (fun hl => hF _ (sscp hl))
  · exact twice_cond L.IsLoadedFfk_pot _ h.fk_pot tfkp (fun hl => hF _ (sfkp hl))
  · exact twice_cond L.IsLoadedFfk_pot_bmr _ h.fk_pot_bmr tfkb (fun hl => hF _ (sfkb hl))
  · exact twice_cond (fun md => L.IsLoadedMD md 1)
      (SwapMD h.mdhead.length ib1 idof1 ib2 idof2) h.md tmd (fun hl => hS _ _ _ (smd hl))
  · rfl
  · exact twice_cond (fun q => L.IsLoadedQTF true q 0)
      (SwapSumDif h.qhead.length ib1 idof1 ib2 idof2) h.qtfsum tqs (fun hl => hS _ _ _ (sqs hl))
  · exact twice_cond (fun q => L.IsLoadedQTF false q 0)
      (SwapSumDif h.qhead.length ib1 idof1 ib2 idof2) h.qtfdif tqd (fun hl => hS _ _ _ (sqd hl))
  · rfl
  · rfl
  · rfl

theorem plainHelpers_involutive : (plainHelpers : SwapHelpers K).Involutive :=
  ⟨fun _ _ _ => rfl, fun _ _ _ _ => rfl, fun _ _ _ => rfl⟩

/-- With helpers `Swap` that undo themselves on every matrix, two calls of `SwapDOF`
give back the store. -/
theorem SwapDOF_twice_of_involutive (L : LoadedTests K) (X : SwapHelpers K) (h : Hydro K)
    (ib1 idof1 ib2 idof2 : Nat) (hb1 : ib1 < h.Nb) (hd1 : idof1 < 6) (hb2 : ib2 < h.Nb)
    (hd2 : idof2 < 6) (hX : X.Involutive) (hsh : LoadedShapes L h)
    (hst : LoadedAgree L h (SwapDOF L X h ib1 idof1 ib2 idof2)) :
    SwapDOF L X (SwapDOF L X h ib1 idof1 ib2 idof2) ib1 idof1 ib2 idof2 = h := by
  have e1 := SwapDOF_twice_tensors L X h ib1 idof1 ib2 idof2 hb1 hd1 hb2 hd2 hsh hst
    (fun _ => hX.1 _ _ _) (fun _ => hX.1 _ _ _)
  have hlen : h.msh.length = h.Nb := hsh.2.2.2.2.2.2.2.2.2.2.2.2.2.2.2.2.2
  have e2 : (SwapDOF L X (SwapDOF L X h ib1 idof1 ib2 idof2) ib1 idof1 ib2 idof2).msh = h.msh :=
    SwapCM_twice L X hX _ _ _ _ h.msh (by omega) (by omega)
      hst.2.2.2.2.2.2.2.2.2.2.2.2.2.2.2.2.2.2.2.1 hst.2.2.2.2.2.2.2.2.2.2.2.2.2.2.2.2.2.2.2.2
  rw [← e2] at e1
  exact e1

end

section

variable {γ ι : Type}

theorem modify2_modify2 (a : List (List γ)) (i j : Nat) (f g : γ → γ) :
    modify2 (modify2 a i j f) i j g = modify2 a i j (fun x => g (f x)) := by
  unfold modify2
  rw [modify_modify]
  congr 1
  funext r
  rw [modify_modify]

theorem modify2_id (a : List (List γ)) (i j : Nat) : modify2 a i j (fun x => x) = a := by
  unfold modify2
  apply modify_self
  intro r _
  apply modify_self
  intro _ _
  rfl

theorem foldl_modify2 (l : List ι) (f : γ → ι → γ) (e : List (List γ)) (i j : Nat) :
    l.foldl (fun e k => modify2 e i j (fun m => f m k)) e =
      modify2 e i j (fun m => l.foldl f m) := by
  induction l generalizing e with
  | nil => exact (modify2_id e i j).symm
  | cons a l ih =>
    rw [List.foldl_cons, ih, modify2_modify2]
    rfl

theorem shape_modify2 (a : List (List γ)) (i j : Nat) (f : γ → γ) :
    (modify2 a i j f).map List.length = a.map List.length :=
  map_modify_fixed _ _ _ _ (fun r => by simp)

theorem tableLoop_shape (n1 n2 : Nat) (F : Nat → Nat → γ → γ) (e : List (List γ)) :
    ((List.range n1).foldl (fun e i => (List.range n2).foldl (fun e j =>
      modify2 e i j (F i j)) e) e).map List.length = e.map List.length :=
  foldl_inv (fun (s : List (List γ)) => s.map List.length = e.map List.length) _ _ _ rfl
    (fun s i hs => foldl_inv (fun (s : List (List γ)) => s.map List.length = e.map List.length)
      _ _ _ hs (fun s j hs => by dsimp only at hs ⊢; rw [shape_modify2, hs]))

theorem tableLoop_shape' (n1 n2 : Nat) (F : Nat → Nat → γ → γ) (e : List (List γ)) :
    ((List.range n2).foldl (fun e j => (List.range n1).foldl (fun e i =>
      modify2 e i j (F i j)) e) e).map List.length = e.map List.length :=
  foldl_inv (fun (s : List (List γ)) => s.map List.length = e.map List.length) _ _ _ rfl
    (fun s i hs => foldl_inv (fun (s : List (List γ)) => s.map List.length = e.map List.length)
      _ _ _ hs (fun s j hs => by dsimp only at hs ⊢; rw [shape_modify2, hs]))

/-- The loops `for (i < n1) for (j < n2) e[i][j] = F(e[i][j])`. -/
theorem tableLoop_get [Inhabited γ] (n1 n2 : Nat) (F : Nat → Nat → γ → γ) (e : List (List γ))
    (a b : Nat) :
    get2 ((List.range n1).foldl (fun e i => (List.range n2).foldl (fun e j =>
      modify2 e i j (F i j)) e) e) a b =
      if a < n1 ∧ b < n2 then (get2 e a b).map (F a b) else get2 e a b := by
  obtain ⟨k1, k2⟩ := foldl2_regions (fun (s : List (List γ)) (p : Nat × Nat) => get2 s p.1 p.2)
    (fun s i j => modify2 s i j (F i j)) (fun i j p => p = (i, j))
    (fun s i j p => F i j ((get2 s p.1 p.2).getD default)) n1 n2
    (by
      intro s i j _ _ p hp
      subst hp
      simp only [get2_modify2, and_self, if_true]
      cases get2 s i j <;> rfl)
    (by
      intro s i j _ _ p hp
      simp only [get2_modify2]
      rw [if_neg]
      intro hc
      exact hp (Prod.ext hc.1.symm hc.2.symm))
    (by
      intro s s' i j _ _ hss p hp
      subst hp
      have := hss (i, j) rfl
      dsimp only at this ⊢
      rw [this])
    (by
      intro i j i' j' p hp hp'
      subst hp
      simp only [Prod.mk.injEq] at hp'
      exact ⟨hp'.1, hp'.2⟩)
    e
  by_cases h : a < n1 ∧ b < n2
  · rw [if_pos h, k2 a b h.1 h.2 (a, b) rfl]
    cases get2 e a b <;> rfl
  · rw [if_neg h]
    apply k1 (a, b)
    intro i j hi hj hc
    simp only [Prod.mk.injEq] at hc
    exact h ⟨hc.1 ▸ hi, hc.2 ▸ hj⟩

/-- The loops `for (j < n2) for (i < n1) e[i][j] = F(e[i][j])`. -/
theorem tableLoop_get' [Inhabited γ] (n1 n2 : Nat) (F : Nat → Nat → γ → γ)
    (e : List (List γ)) (a b : Nat) :
    get2 ((List.range n2).foldl (fun e j => (List.range n1).foldl (fun e i =>
      modify2 e i j (F i j)) e) e) a b =
      if a < n1 ∧ b < n2 then (get2 e a b).map (F a b) else get2 e a b := by
  obtain ⟨k1, k2⟩ := foldl2_regions (fun (s : List (List γ)) (p : Nat × Nat) => get2 s p.1 p.2)
    (fun s j i => modify2 s i j (F i j)) (fun j i p => p = (i, j))
    (fun s j i p => F i j ((get2 s p.1 p.2).getD default)) n2 n1
    (by
      intro s i j _ _ p hp
      subst hp
      simp only [get2_modify2, and_self, if_true]
      cases get2 s j i <;> rfl)
    (by
      intro s i j _ _ p hp
      simp only [get2_modify2]
      rw [if_neg]
      intro hc
      exact hp (Prod.ext hc.1.symm hc.2.symm))
    (by
      intro s s' i j _ _ hss p hp
      subst hp
      have := hss (j, i) rfl
      dsimp only at this ⊢
      rw [this])
    (by
      intro i j i' j' p hp hp'
      subst hp
      simp only [Prod.mk.injEq] at hp'
      exact ⟨hp'.2, hp'.1⟩)
    e
  by_cases h : a < n1 ∧ b < n2
  · rw [if_pos h, k2 b a h.2 h.1 (a, b) rfl]
    cases get2 e a b <;> rfl
  · rw [if_neg h]
    apply k1 (a, b)
    intro i j hi hj hc
    simp only [Prod.mk.injEq] at hc
    exact h ⟨hc.1 ▸ hj, hc.2 ▸ hi⟩

/-- Two passes over a table that undo each other cell by cell give back the table. -/
theorem table_roundtrip (T T' : List (List γ) → List (List γ)) (n1 n2 : Nat)
    (F F' : Nat → Nat → γ → γ) (e : List (List γ))
    (hT : ∀ e a b, get2 (T e) a b =
      if a < n1 ∧ b < n2 then (get2 e a b).map (F a b) else get2 e a b)
    (hT' : ∀ e a b, get2 (T' e) a b =
      if a < n1 ∧ b < n2 then (get2 e a b).map (F' a b) else get2 e a b)
    (hsh : ∀ e, (T e).map List.length = e.map List.length)
    (hsh' : ∀ e, (T' e).map List.length = e.map List.length)
    (hF : ∀ a b c, a < n1 → b < n2 → get2 e a b = some c → F' a b (F a b c) = c) :
    T' (T e) = e := by
  apply ext2_shape
  · rw [hsh', hsh]
  · intro a b
    rw [hT', hT]
    by_cases h : a < n1 ∧ b < n2
    · rw [if_pos h, if_pos h]
      cases hc : get2 e a b with
      | none => rfl
      | some c =>
        simp only [Option.map_some']
        rw [hF a b c h.1 h.2 hc]
    · rw [if_neg h, if_neg h]

end
section

variable {γ S V K : Type} [Field K] [DecidableEq S]

theorem momentLoop_get (get : γ → Nat × S → Option V) (add : V → V → V) (smul : K → V → V)
    (dflt : V) (step : γ → S → γ) (d : Fin 3 → K) (l : List S)
    (hstep : ∀ m s p, get (step m s) p =
      if p.2 = s then
        (get m p).map (fun _ => momentTerm add smul d (fun c => (get m (c, s)).getD dflt) p.1)
      else get m p)
    (hnd : l.Nodup) (m : γ) (p : Nat × S) :
    get (l.foldl step m) p =
      if p.2 ∈ l then
        (get m p).map (fun _ => momentTerm add smul d (fun c => (get m (c, p.2)).getD dflt) p.1)
      else get m p := by
  obtain ⟨k1, k2⟩ := foldl_regions get step (fun s p => p.2 = s)
    (fun m s p => momentTerm add smul d (fun c => (get m (c, s)).getD dflt) p.1) l
    (by
      intro m s _ p hp
      rw [hstep, if_pos hp])
    (by
      intro m s _ p hp
      rw [hstep, if_neg hp])
    (by
      intro m m' s _ hmm p _
      dsimp only
      congr 1
      funext c
      have := hmm (c, s) rfl
      rw [this])
    hnd
    (by
      intro s _ s' _ p h1 h2
      exact h1.symm.trans h2)
    m
  by_cases h : p.2 ∈ l
  · rw [if_pos h, k2 p.2 h p rfl]
  · rw [if_neg h]
    apply k1
    intro s hs hc
    exact h (hc ▸ hs)

theorem momentLoop_roundtrip (get : γ → Nat × S → Option V) (add : V → V → V)
    (smul : K → V → V) (dflt : V) (step step' : γ → S → γ) (d : Fin 3 → K) (l : List S)
    (hstep : ∀ m s p, get (step m s) p =
      if p.2 = s then
        (get m p).map (fun _ => momentTerm add smul d (fun c => (get m (c, s)).getD dflt) p.1)
      else get m p)
    (hstep' : ∀ m s p, get (step' m s) p =
      if p.2 = s then
        (get m p).map (fun _ => momentTerm add smul (fun i => -d i)
          (fun c => (get m (c, s)).getD dflt) p.1)
      else get m p)
    (hnd : l.Nodup) (num : V → Prop)
    (halg : ∀ v a b k1 k2, num v → num a → num b →
      add (add v (add (smul (-k1) a) (smul k2 b))) (add (smul k1 a) (smul (-k2) b)) = v)
    (m : γ) (hm : ∀ s ∈ l, ∀ c, c < 6 → ∃ v, get m (c, s) = some v ∧ num v) (p : Nat × S) :
    get (l.foldl step' (l.foldl step m)) p = get m p := by
  rw [momentLoop_get get add smul dflt step' (fun i => -d i) l hstep' hnd]
  by_cases h : p.2 ∈ l
  · rw [if_pos h, momentLoop_get get add smul dflt step d l hstep hnd]
    rw [if_pos h]
    obtain ⟨c, s⟩ := p
    dsimp only at h ⊢
    cases hv : get m (c, s) with
    | none => rfl
    | some v =>
      simp only [Option.map_some', Option.some.injEq]
      have hW : ∀ c', c' < 6 → (get (l.foldl step m) (c', s)).getD dflt =
          momentTerm add smul d (fun c => (get m (c, s)).getD dflt) c' := by
        intro c' hc'
        obtain ⟨v', hv', _⟩ := hm s h c' hc'
        rw [momentLoop_get get add smul dflt step d l hstep hnd, if_pos h, hv']
        rfl
      obtain ⟨v0, h0, n0⟩ := hm s h 0 (by omega)
      obtain ⟨v1, h1, n1⟩ := hm s h 1 (by omega)
      obtain ⟨v2, h2, n2⟩ := hm s h 2 (by omega)
      obtain ⟨v3, h3, n3⟩ := hm s h 3 (by omega)
      obtain ⟨v4, h4, n4⟩ := hm s h 4 (by omega)
      obtain ⟨v5, h5, n5⟩ := hm s h 5 (by omega)
      by_cases c3 : c = 3
      · subst c3
        rw [h3] at hv
        cases hv
        simp only [momentTerm, if_true, hW 3 (by omega), hW 2 (by omega), hW 1 (by omega),
          h1, h2, h3, Option.getD_some]
        norm_num
        exact halg _ _ _ _ _ n3 n2 n1
      · by_cases c4 : c = 4
        · subst c4
          rw [h4] at hv
          cases hv
          simp only [momentTerm, if_true, hW 4 (by omega), hW 2 (by omega), hW 0 (by omega),
            h0, h2, h4, Option.getD_some]
          norm_num
          exact halg _ _ _ _ _ n4 n0 n2
        · by_cases c5 : c = 5
          · subst c5
            rw [h5] at hv
            cases hv
            simp only [momentTerm, if_true, hW 5 (by omega), hW 1 (by omega), hW 0 (by omega),
              h0, h1, h5, Option.getD_some]
            norm_num
            exact halg _ _ _ _ _ n5 n1 n0
          · have e1 : momentTerm add smul (fun i => -d i)
                (fun c => (get (l.foldl step m) (c, s)).getD dflt) c =
                (get (l.foldl step m) (c, s)).getD dflt := by
              simp only [momentTerm, c3, c4, c5, if_false]
            rw [e1, momentLoop_get get add smul dflt step d l hstep hnd, if_pos h, hv]
            simp only [Option.map_some', Option.getD_some, momentTerm, c3, c4, c5, if_false, hv]
  · rw [if_neg h, momentLoop_get get add smul dflt step d l hstep hnd, if_neg h]

end
section

variable {K : Type} [Field K]

theorem get2_mem {α : Type} {m : List (List α)} {i j : Nat} {v : α} (h : get2 m i j = some v) :
    ∃ r ∈ m, v ∈ r := by
  unfold get2 at h
  obtain ⟨r, hr, hv⟩ := Option.bind_eq_some.1 h
  exact ⟨r, List.getElem?_mem hr, List.getElem?_mem hv⟩

theorem Val_cancel (v a b : Option K) (k1 k2 : K) (hv : v.isSome = true) (ha : a.isSome = true)
    (hb : b.isSome = true) :
    Val.add (Val.add v (Val.add (Val.smul (-k1) a) (Val.smul k2 b)))
      (Val.add (Val.smul k1 a) (Val.smul (-k2) b)) = v := by
  obtain ⟨x, rfl⟩ := Option.isSome_iff_exists.1 hv
  obtain ⟨y, rfl⟩ := Option.isSome_iff_exists.1 ha
  obtain ⟨z, rfl⟩ := Option.isSome_iff_exists.1 hb
  simp only [Val.add, Val.smul, Option.map_some', Option.some.injEq]
  ring

theorem CVal_cancel (v a b : CVal K) (k1 k2 : K) (hv : v.IsNum = true) (ha : a.IsNum = true)
    (hb : b.IsNum = true) :
    CVal.add (CVal.add v (CVal.add (CVal.smul (-k1) a) (CVal.smul k2 b)))
      (CVal.add (CVal.smul k1 a) (CVal.smul (-k2) b)) = v := by
  obtain ⟨vr, vi⟩ := v
  obtain ⟨ar, ai⟩ := a
  obtain ⟨br, bi⟩ := b
  simp only [CVal.IsNum, Bool.and_eq_true] at hv ha hb
  simp only [CVal.add, CVal.smul, CVal.mk.injEq]
  exact ⟨Val_cancel _ _ _ _ _ hv.1 ha.1 hb.1, Val_cancel _ _ _ _ _ hv.2 ha.2 hb.2⟩

theorem map_getD_self {α : Type} (x : Option α) (d : α) : x.map (fun _ => x.getD d) = x := by
  cases x <;> rfl

theorem TransFrow_get (d : Fin 3 → K) (m : CMatrix K) (s : Nat) (p : Nat × Nat) :
    get2 (TransFrow d m s) p.2 p.1 =
      if p.2 = s then
        (get2 m p.2 p.1).map (fun _ => momentTerm CVal.add CVal.smul d
          (fun c => (get2 m s c).getD ⟨none, none⟩) p.1)
      else get2 m p.2 p.1 := by
  obtain ⟨c, r⟩ := p
  unfold TransFrow
  simp only [get2_set2]
  by_cases hr : r = s
  · subst hr
    simp only [true_and, if_true, momentTerm]
    by_cases c3 : c = 3
    · subst c3
      simp
    · by_cases c4 : c = 4
      · subst c4
        simp
      · by_cases c5 : c = 5
        · subst c5
          simp
        · have e3 : ¬ (3 = c) := fun h => c3 h.symm
          have e4 : ¬ (4 = c) := fun h => c4 h.symm
          have e5 : ¬ (5 = c) := fun h => c5 h.symm
          simp only [c3, c4, c5, e3, e4, e5, if_false, map_getD_self]
  · have hr' : ¬ (s = r) := fun h => hr h.symm
    simp only [hr, hr', false_and, if_false]

theorem TransFrow_shape (d : Fin 3 → K) (m : CMatrix K) (s : Nat) :
    (TransFrow d m s).map List.length = m.map List.length := by
  unfold TransFrow
  simp only [shape2_set2]

theorem TransF_cell_roundtrip (d : Fin 3 → K) (Nf : Nat) (m : CMatrix K)
    (hd : Dims2 m Nf 6) (hn : ∀ row ∈ m, ∀ v ∈ row, CVal.IsNum v = true) :
    (List.range Nf).foldl (fun m ifr => TransFrow (fun i => -d i) m ifr)
      ((List.range Nf).foldl (fun m ifr => TransFrow d m ifr) m) = m := by
  apply ext2_shape
  · rw [foldl_inv (fun (s : CMatrix K) => s.map List.length = m.map List.length) _ _ _ ?_
      (fun s i hs => by dsimp only at hs ⊢; rw [TransFrow_shape, hs])]
    exact foldl_inv (fun (s : CMatrix K) => s.map List.length = m.map List.length) _ _ _ rfl
      (fun s i hs => by dsimp only at hs ⊢; rw [TransFrow_shape, hs])
  · intro i j
    exact momentLoop_roundtrip (fun (m : CMatrix K) (p : Nat × Nat) => get2 m p.2 p.1)
      CVal.add CVal.smul ⟨none, none⟩ (fun m ifr => TransFrow d m ifr)
      (fun m ifr => TransFrow (fun i => -d i) m ifr) d (List.range Nf)
      (fun m s p => TransFrow_get d m s p) (fun m s p => TransFrow_get _ m s p)
      (List.nodup_range Nf) (fun v => CVal.IsNum v = true) CVal_cancel m
      (by
        intro s hs c hc
        obtain ⟨v, hv⟩ := Option.isSome_iff_exists.1
          (hd.get2_isSome (List.mem_range.1 hs) hc)
        obtain ⟨r, hr, hvr⟩ := get2_mem hv
        exact ⟨v, hv, hn r hr v hvr⟩)
      (j, i)

end
section

variable {K : Type} [Field K]

/-- The lambda `TransF`, body by body and heading by heading. -/
theorem TransF_get2 (Nb Nh Nf : Nat) (delta : Nat → Fin 3 → K) (ex : Forces K) (a b : Nat) :
    get2 (TransF Nb Nh Nf delta ex) a b =
      if a < Nb ∧ b < Nh then
        (get2 ex a b).map (fun m => (List.range Nf).foldl (fun m ifr =>
          TransFrow (delta a) m ifr) m)
      else get2 ex a b := by
  unfold TransF
  simp only [foldl_modify2 (List.range Nf) (fun m ifr => TransFrow (delta _) m ifr)]
  exact tableLoop_get' Nb Nh (fun i _ m => (List.range Nf).foldl (fun m ifr =>
    TransFrow (delta i) m ifr) m) ex a b

theorem TransF_shape (Nb Nh Nf : Nat) (delta : Nat → Fin 3 → K) (ex : Forces K) :
    (TransF Nb Nh Nf delta ex).map List.length = ex.map List.length := by
  unfold TransF
  simp only [foldl_modify2 (List.range Nf) (fun m ifr => TransFrow (delta _) m ifr)]
  exact tableLoop_shape' Nb Nh (fun i _ m => (List.range Nf).foldl (fun m ifr =>
    TransFrow (delta i) m ifr) m) ex

theorem TransF_cell_get (d : Fin 3 → K) (Nf : Nat) (m : CMatrix K) (ifr c : Nat) :
    get2 ((List.range Nf).foldl (fun m ifr => TransFrow d m ifr) m) ifr c =
      if ifr < Nf then
        (get2 m ifr c).map (fun _ => momentTerm CVal.add CVal.smul d
          (fun c => (get2 m ifr c).getD ⟨none, none⟩) c)
      else get2 m ifr c := by
  have := momentLoop_get (fun (m : CMatrix K) (p : Nat × Nat) => get2 m p.2 p.1)
    CVal.add CVal.smul ⟨none, none⟩ (fun m ifr => TransFrow d m ifr) d (List.range Nf)
    (fun m s p => TransFrow_get d m s p) (List.nodup_range Nf) m (c, ifr)
  simpa only [List.mem_range] using this

/-- The forces after `TransF`, entry by entry. -/
theorem TransF_getF (Nb Nh Nf : Nat) (delta : Nat → Fin 3 → K) (ex : Forces K)
    (ib ih ifr c : Nat) :
    getF (TransF Nb Nh Nf delta ex) ib ih ifr c =
      if ib < Nb ∧ ih < Nh ∧ ifr < Nf then
        (getF ex ib ih ifr c).map (fun _ => momentTerm CVal.add CVal.smul (delta ib)
          (fun c => (getF ex ib ih ifr c).getD ⟨none, none⟩) c)
      else getF ex ib ih ifr c := by
  unfold getF
  rw [TransF_get2]
  by_cases h1 : ib < Nb ∧ ih < Nh
  · rw [if_pos h1]
    cases hm : get2 ex ib ih with
    | none => simp
    | some m =>
      simp only [Option.map_some', Option.some_bind, TransF_cell_get]
      by_cases h2 : ifr < Nf
      · rw [if_pos h2, if_pos ⟨h1.1, h1.2, h2⟩]
      · rw [if_neg h2, if_neg (fun hc => h2 hc.2.2)]
  · rw [if_neg h1, if_neg (fun hc => h1 ⟨hc.1, hc.2.1⟩)]

theorem TransMDcol_get (d : Fin 3 → K) (m : List (List (Option K))) (s : Nat) (p : Nat × Nat) :
    get2 (TransMDcol d m s) p.1 p.2 =
      if p.2 = s then
        (get2 m p.1 p.2).map (fun _ => momentTerm Val.add Val.smul d
          (fun c => (get2 m c s).getD none) p.1)
      else get2 m p.1 p.2 := by
  obtain ⟨c, r⟩ := p
  unfold TransMDcol
  simp only [get2_set2]
  by_cases hr : r = s
  · subst hr
    simp only [and_true, if_true, momentTerm]
    by_cases c3 : c = 3
    · subst c3
      simp
    · by_cases c4 : c = 4
      · subst c4
        simp
      · by_cases c5 : c = 5
        · subst c5
          simp
        · have e3 : ¬ (3 = c) := fun h => c3 h.symm
          have e4 : ¬ (4 = c) := fun h => c4 h.symm
          have e5 : ¬ (5 = c) := fun h => c5 h.symm
          simp only [c3, c4, c5, e3, e4, e5, if_false, map_getD_self]
  · have hr' : ¬ (s = r) := fun h => hr h.symm
    simp only [hr, hr', and_false, if_false]

theorem TransMDcol_shape (d : Fin 3 → K) (m : List (List (Option K))) (s : Nat) :
    (TransMDcol d m s).map List.length = m.map List.length := by
  unfold TransMDcol
  simp only [shape2_set2]

/-- The lambda `TransMD`, body by body and heading by heading. -/
theorem TransMD_get2 (Nb nmh Nf : Nat) (delta : Nat → Fin 3 → K) (md : MDTable K) (a b : Nat) :
    get2 (TransMD Nb nmh Nf delta md) a b =
      if a < Nb ∧ b < nmh then
        (get2 md a b).map (fun m => (List.range Nf).foldl (fun m ifr =>
          TransMDcol (delta a) m ifr) m)
      else get2 md a b := by
  unfold TransMD
  simp only [foldl_modify2 (List.range Nf) (fun m ifr => TransMDcol (delta _) m ifr)]
  exact tableLoop_get Nb nmh (fun i _ m => (List.range Nf).foldl (fun m ifr =>
    TransMDcol (delta i) m ifr) m) md a b

theorem TransMD_shape (Nb nmh Nf : Nat) (delta : Nat → Fin 3 → K) (md : MDTable K) :
    (TransMD Nb nmh Nf delta md).map List.length = md.map List.length := by
  unfold TransMD
  simp only [foldl_modify2 (List.range Nf) (fun m ifr => TransMDcol (delta _) m ifr)]
  exact tableLoop_shape Nb nmh (fun i _ m => (List.range Nf).foldl (fun m ifr =>
    TransMDcol (delta i) m ifr) m) md

theorem TransMD_cell_get (d : Fin 3 → K) (Nf : Nat) (m : List (List (Option K)))
    (c ifr : Nat) :
    get2 ((List.range Nf).foldl (fun m ifr => TransMDcol d m ifr) m) c ifr =
      if ifr < Nf then
        (get2 m c ifr).map (fun _ => momentTerm Val.add Val.smul d
          (fun c => (get2 m c ifr).getD none) c)
      else get2 m c ifr := by
  have := momentLoop_get (fun (m : List (List (Option K))) (p : Nat × Nat) => get2 m p.1 p.2)
    Val.add Val.smul none (fun m ifr => TransMDcol d m ifr) d (List.range Nf)
    (fun m s p => TransMDcol_get d m s p) (List.nodup_range Nf) m (c, ifr)
  simpa only [List.mem_range] using this

end
section

variable {K : Type} [Field K]

theorem TransMD_getMD (Nb nmh Nf : Nat) (delta : Nat → Fin 3 → K) (md : MDTable K)
    (ib ih c ifr : Nat) :
    getMD (TransMD Nb nmh Nf delta md) ib ih c ifr =
      if ib < Nb ∧ ih < nmh ∧ ifr < Nf then
        (getMD md ib ih c ifr).map (fun _ => momentTerm Val.add Val.smul (delta ib)
          (fun c => (getMD md ib ih c ifr).getD none) c)
      else getMD md ib ih c ifr := by
  unfold getMD
  rw [TransMD_get2]
  by_cases h1 : ib < Nb ∧ ih < nmh
  · rw [if_pos h1]
    cases hm : get2 md ib ih with
    | none => simp
    | some m =>
      simp only [Option.map_some', Option.some_bind, TransMD_cell_get]
      by_cases h2 : ifr < Nf
      · rw [if_pos h2, if_pos ⟨h1.1, h1.2, h2⟩]
      · rw [if_neg h2, if_neg (fun hc => h2 hc.2.2)]
  · rw [if_neg h1, if_neg (fun hc => h1 ⟨hc.1, hc.2.1⟩)]

theorem momentTerm_transferC (d : Fin 3 → K) (old new : Nat → Option (CVal K))
    (h : ∀ c, new c = (old c).map (fun _ => momentTerm CVal.add CVal.smul d
      (fun c => (old c).getD ⟨none, none⟩) c)) : MomentTransferC d old new := by
  intro a b hab
  constructor
  · intro c hc
    have c3 : c ≠ 3 := by omega
    have c4 : c ≠ 4 := by omega
    have c5 : c ≠ 5 := by omega
    rw [h, hab c (by omega)]
    simp only [Option.map_some', momentTerm, c3, c4, c5, if_false, hab c (by omega),
      Option.getD_some]
  · intro k
    rw [h, hab _ (by omega)]
    fin_cases k
    · simp only [Option.map_some', momentTerm, hab 1 (by omega), hab 2 (by omega),
        hab 3 (by omega), Option.getD_some, CVal.add, CVal.smul, Val.add, Val.smul,
        cross_apply]
      simp
      constructor <;> ring
    · simp only [Option.map_some', momentTerm, hab 0 (by omega), hab 2 (by omega),
        hab 4 (by omega), Option.getD_some, CVal.add, CVal.smul, Val.add, Val.smul,
        cross_apply]
      simp
      constructor <;> ring
    · simp only [Option.map_some', momentTerm, hab 0 (by omega), hab 1 (by omega),
        hab 5 (by omega), Option.getD_some, CVal.add, CVal.smul, Val.add, Val.smul,
        cross_apply]
      simp
      constructor <;> ring

theorem momentTerm_transferR (d : Fin 3 → K) (old new : Nat → Option (Option K))
    (h : ∀ c, new c = (old c).map (fun _ => momentTerm Val.add Val.smul d
      (fun c => (old c).getD none) c)) : MomentTransferR d old new := by
  intro a hab
  constructor
  · intro c hc
    have c3 : c ≠ 3 := by omega
    have c4 : c ≠ 4 := by omega
    have c5 : c ≠ 5 := by omega
    rw [h, hab c (by omega)]
    simp only [Option.map_some', momentTerm, c3, c4, c5, if_false, hab c (by omega),
      Option.getD_some]
  · intro k
    rw [h, hab _ (by omega)]
    fin_cases k
    · simp only [Option.map_some', momentTerm, hab 1 (by omega), hab 2 (by omega),
        hab 3 (by omega), Option.getD_some, Val.add, Val.smul, cross_apply]
      simp
      ring
    · simp only [Option.map_some', momentTerm, hab 0 (by omega), hab 2 (by omega),
        hab 4 (by omega), Option.getD_some, Val.add, Val.smul, cross_apply]
      simp
      ring
    · simp only [Option.map_some', momentTerm, hab 0 (by omega), hab 1 (by omega),
        hab 5 (by omega), Option.getD_some, Val.add, Val.smul, cross_apply]
      simp
      ring

end
section

variable {α : Type}

theorem foldl_modify_range (n : Nat) (f : Nat → α → α) (l : List α) (k : Nat) :
    ((List.range n).foldl (fun l i => l.modify (f i) i) l)[k]? =
      if k < n then (l[k]?).map (f k) else l[k]? := by
  induction n with
  | zero => simp
  | succ n ih =>
    rw [List.range_succ, List.foldl_append, List.foldl_cons, List.foldl_nil,
      List.getElem?_modify, ih]
    by_cases h1 : n = k
    · subst h1
      simp
    · by_cases h2 : k < n
      · simp [h1, h2, Nat.lt_succ_of_lt h2]
      · have h3 : ¬ k < n + 1 := by omega
        simp [h1, h2, h3]

theorem eraseDescending (l : List Nat) (hl : l.Pairwise (· > ·)) (r : List α) :
    l.foldl (fun r ih => r.eraseIdx ih) r = removePositions l r := by
  induction l generalizing r with
  | nil => exact (removePositions_none r).symm
  | cons a l ih =>
    rw [List.foldl_cons, ih (List.Pairwise.of_cons hl),
      removePositions_erase l a r (fun x hx => List.rel_of_pairwise_cons hl hx)]

theorem removePositions_congr (ids ids' : List Nat) (l : List α)
    (h : ∀ x, x ∈ ids ↔ x ∈ ids') : removePositions ids l = removePositions ids' l := by
  rw [removePositions_eq_enumFrom, removePositions_eq_enumFrom]
  exact enumFrom_congr ids ids' 0 l (fun x _ _ => h x)

theorem eraseAscending (l : List Nat) (hl : l.Pairwise (· < ·)) (r : List α) :
    l.reverse.foldl (fun r ih => r.eraseIdx ih) r = removePositions l r := by
  rw [eraseDescending l.reverse (List.pairwise_reverse.2 hl)]
  exact removePositions_congr _ _ _ (fun x => List.mem_reverse)

end
section

variable {α ι : Type}

/-- A guarded loop whose test fails at the start leaves the state as it is. -/
theorem guardedFold_false (t : α → Bool) (f : ι → α → α) (l : List ι) (q : α)
    (h : t q = false) : l.foldl (fun q x => if t q then f x q else q) q = q := by
  induction l with
  | nil => rfl
  | cons a l ih =>
    rw [List.foldl_cons]
    simp only [h, Bool.false_eq_true, if_false]
    exact ih

/-- A guarded loop whose test holds at the end has taken every step. -/
theorem guardedFold_true (t : α → Bool) (f : ι → α → α) (l : List ι) (q : α)
    (h : t (l.foldl (fun q x => if t q then f x q else q) q) = true) :
    l.foldl (fun q x => if t q then f x q else q) q = l.foldl (fun q x => f x q) q := by
  induction l generalizing q with
  | nil => rfl
  | cons a l ih =>
    rw [List.foldl_cons] at h ⊢
    rw [List.foldl_cons]
    cases hq : t q with
    | false =>
      simp only [hq, Bool.false_eq_true, if_false] at h
      rw [guardedFold_false t f l q hq, hq] at h
      cases h
    | true =>
      simp only [hq, if_true] at h ⊢
      exact ih _ h

theorem loaded_agree (t : α → Bool) (F : α → α) (q0 q1 : α)
    (hfalse : t q0 = false → q1 = q0)
    (hg : t (if t q1 then F q1 else q1) = t q0) : t q1 = t q0 := by
  cases h0 : t q0 with
  | false => rw [hfalse h0, h0]
  | true =>
    cases h1 : t q1 with
    | true => rfl
    | false =>
      simp only [h1, Bool.false_eq_true, if_false] at hg
      rw [h0] at hg
      exact hg

end

section

variable {K : Type}

theorem eraseHeadingIf_false (t : QTFTable K → Bool) (Nb ih : Nat) (q : QTFTable K)
    (h : t q = false) : eraseHeadingIf t Nb ih q = q :=
  guardedFold_false t (fun ib (q : QTFTable K) => q.modify (fun hs => hs.eraseIdx ih) ib)
    (List.range Nb) q h

theorem eraseHeadingIf_true (t : QTFTable K → Bool) (Nb ih : Nat) (q : QTFTable K)
    (h : t (eraseHeadingIf t Nb ih q) = true) :
    eraseHeadingIf t Nb ih q = eraseHeading Nb ih q :=
  guardedFold_true t (fun ib (q : QTFTable K) => q.modify (fun hs => hs.eraseIdx ih) ib)
    (List.range Nb) q h

theorem eraseFoldIf_false (t : QTFTable K → Bool) (Nb : Nat) (ids : List Nat)
    (q : QTFTable K) (h : t q = false) :
    ids.foldl (fun q ih => eraseHeadingIf t Nb ih q) q = q := by
  induction ids with
  | nil => rfl
  | cons a l ih => rw [List.foldl_cons, eraseHeadingIf_false t Nb a q h]; exact ih

theorem eraseFoldIf_true (t : QTFTable K → Bool) (Nb : Nat) (ids : List Nat)
    (q : QTFTable K) (h : t (ids.foldl (fun q ih => eraseHeadingIf t Nb ih q) q) = true) :
    ids.foldl (fun q ih => eraseHeadingIf t Nb ih q) q =
      ids.foldl (fun q ih => eraseHeading Nb ih q) q := by
  induction ids generalizing q with
  | nil => rfl
  | cons a l ih =>
    rw [List.foldl_cons] at h ⊢
    rw [List.foldl_cons]
    have h1 : t (eraseHeadingIf t Nb a q) = true := by
      cases hc : t (eraseHeadingIf t Nb a q) with
      | true => rfl
      | false =>
        rw [eraseFoldIf_false t Nb l _ hc, hc] at h
        cases h
    rw [ih _ h, eraseHeadingIf_true t Nb a q h1]

/-- The loop over the bodies inside the loop that deletes the crossed headings: each
family goes through its own guarded loop. -/
theorem crossed_inner (L : LoadedTests K) (ih : Nat) (l : List Nat) (s : QTFHeads K) :
    l.foldl (fun (s : QTFHeads K) ib =>
        let s := if L.IsLoadedQTF true s.qtfsum 0 then
          { s with qtfsum := s.qtfsum.modify (fun hs => hs.eraseIdx ih) ib } else s
        if L.IsLoadedQTF false s.qtfdif 0 then
          { s with qtfdif := s.qtfdif.modify (fun hs => hs.eraseIdx ih) ib } else s) s =
      ⟨s.qhead,
        l.foldl (fun q ib => if L.IsLoadedQTF true q 0 then
          q.modify (fun hs => hs.eraseIdx ih) ib else q) s.qtfsum,
        l.foldl (fun q ib => if L.IsLoadedQTF false q 0 then
          q.modify (fun hs => hs.eraseIdx ih) ib else q) s.qtfdif⟩ := by
  induction l generalizing s with
  | nil => rfl
  | cons a l ihl =>
    rw [List.foldl_cons, ihl]
    by_cases h1 : L.IsLoadedQTF true s.qtfsum 0 = true <;>
      by_cases h2 : L.IsLoadedQTF false s.qtfdif 0 = true <;>
      simp [h1, h2]

end

section

variable {K : Type} [DecidableEq K]

theorem crossedBelow_succ (n : Nat) (qs : List (CVal K)) :
    crossedBelow (n + 1) qs =
      if Val.ne ((qs[n]?).getD ⟨none, none⟩).re ((qs[n]?).getD ⟨none, none⟩).im then
        crossedBelow n qs ++ [n]
      else crossedBelow n qs := by
  unfold crossedBelow
  rw [List.range_succ, List.filter_append]
  by_cases h : Val.ne ((qs[n]?).getD ⟨none, none⟩).re ((qs[n]?).getD ⟨none, none⟩).im = true
  · simp [h]
  · simp [h]

theorem crossedBelow_lt (n : Nat) (qs : List (CVal K)) : ∀ x ∈ crossedBelow n qs, x < n := by
  intro x hx
  exact List.mem_range.1 (List.mem_filter.1 hx).1

theorem crossedBelow_sorted (n : Nat) (qs : List (CVal K)) :
    (crossedBelow n qs).Pairwise (· < ·) :=
  (List.pairwise_lt_range n).filter _

theorem crossedBelow_erase (n : Nat) (qs : List (CVal K)) :
    crossedBelow n (qs.eraseIdx n) = crossedBelow n qs := by
  unfold crossedBelow
  apply List.filter_congr
  intro i hi
  rw [List.getElem?_eraseIdx, if_pos (List.mem_range.1 hi)]

end
theorem eraseHeading_get {K : Type} (Nb ih : Nat) (q : QTFTable K) (ib : Nat) :
    (eraseHeading Nb ih q)[ib]? =
      if ib < Nb then (q[ib]?).map (fun hs => hs.eraseIdx ih) else q[ib]? := by
  unfold eraseHeading
  exact foldl_modify_range Nb (fun _ (hs : List (List (CMatrix K))) => hs.eraseIdx ih) q ib

theorem eraseFold_get {K : Type} (Nb : Nat) (ids : List Nat) (q : QTFTable K) (ib : Nat) :
    (ids.foldl (fun q ih => eraseHeading Nb ih q) q)[ib]? =
      if ib < Nb then (q[ib]?).map (fun r => ids.foldl (fun r ih => r.eraseIdx ih) r)
      else q[ib]? := by
  induction ids generalizing q with
  | nil =>
    simp only [List.foldl_nil]
    cases q[ib]? <;> simp
  | cons a l ih =>
    rw [List.foldl_cons, ih, eraseHeading_get]
    by_cases h : ib < Nb
    · simp only [h, if_true, Option.map_map, List.foldl_cons]
      rfl
    · simp only [h, if_false]

section

variable {K : Type} [DecidableEq K]

theorem crossed_filter (qs : List (CVal K)) :
    removePositions (crossedHeadings qs) qs = qs.filter (fun q => !Val.ne q.re q.im) := by
  unfold removePositions
  have e : qs.enum.filter (fun p => !(crossedHeadings qs).contains p.1) =
      qs.enum.filter ((fun q => !Val.ne q.re q.im) ∘ Prod.snd) := by
    apply List.filter_congr
    rintro ⟨i, x⟩ hp
    have hx : qs[i]? = some x := by
      have := List.mk_mem_enumFrom_iff_le_and_getElem?_sub.1 hp
      simpa using this.2
    have hi : i < qs.length := by
      by_contra hc
      rw [List.getElem?_eq_none (by omega)] at hx
      cases hx
    simp only [Function.comp, crossedHeadings, crossedBelow, List.contains_eq_any_beq,
      Bool.not_eq_eq_eq_not, Bool.not_not]
    by_cases hv : Val.ne x.re x.im = true
    · rw [hv, List.any_eq_true]
      exact ⟨i, List.mem_filter.2 ⟨List.mem_range.2 hi, by simp [hx, hv]⟩, by simp⟩
    · have hv' : Val.ne x.re x.im = false := by simpa using hv
      rw [hv', List.any_eq_false]
      intro y hy
      have hy2 := (List.mem_filter.1 hy).2
      intro hc
      have hyi : y = i := by
        have hc2 : i = y := by simpa using hc
        exact hc2.symm
      subst hyi
      simp [hx, hv'] at hy2
  rw [List.enum] at e ⊢
  rw [e, ← List.filter_map, List.enumFrom_map_snd]

/-- The loop that deletes the crossed headings, from the position `n` down. -/
theorem crossed_outer [Field K] (L : LoadedTests K) (Nb n : Nat) (s : QTFHeads K) :
    (List.range n).reverse.foldl (fun (s : QTFHeads K) ih =>
      let q := (s.qhead[ih]?).getD ⟨none, none⟩
      if Val.ne q.re q.im then
        (List.range Nb).foldl (fun s ib =>
          let s := if L.IsLoadedQTF true s.qtfsum 0 then
            { s with qtfsum := s.qtfsum.modify (fun hs => hs.eraseIdx ih) ib } else s
          if L.IsLoadedQTF false s.qtfdif 0 then
            { s with qtfdif := s.qtfdif.modify (fun hs => hs.eraseIdx ih) ib } else s)
          { s with qhead := s.qhead.eraseIdx ih }
      else s) s =
      ⟨removePositions (crossedBelow n s.qhead) s.qhead,
        (crossedBelow n s.qhead).reverse.foldl
          (fun q ih => eraseHeadingIf (fun q => L.IsLoadedQTF true q 0) Nb ih q) s.qtfsum,
        (crossedBelow n s.qhead).reverse.foldl
          (fun q ih => eraseHeadingIf (fun q => L.IsLoadedQTF false q 0) Nb ih q) s.qtfdif⟩ := by
  induction n generalizing s with
  | zero =>
    simp only [List.range_zero, List.reverse_nil, List.foldl_nil, crossedBelow,
      List.filter_nil, removePositions_none]
  | succ n ih =>
    rw [List.range_succ, List.reverse_append, List.reverse_singleton, List.singleton_append,
      List.foldl_cons, ih, crossedBelow_succ]
    by_cases hc : Val.ne ((s.qhead[n]?).getD ⟨none, none⟩).re
        ((s.qhead[n]?).getD ⟨none, none⟩).im = true
    · simp only [hc, if_true]
      rw [crossed_inner L]
      simp only [crossedBelow_erase]
      have e1 : removePositions (crossedBelow n s.qhead) (s.qhead.eraseIdx n) =
          removePositions (crossedBelow n s.qhead ++ [n]) s.qhead := by
        rw [removePositions_erase _ _ _ (crossedBelow_lt n s.qhead)]
        apply removePositions_congr
        intro x
        simp only [List.mem_cons, List.mem_append, List.mem_singleton, List.not_mem_nil,
          or_false]
        exact Or.comm
      rw [e1]
      simp only [List.reverse_append, List.reverse_singleton, List.singleton_append,
        List.foldl_cons]
      rfl
    · simp only [hc]
      simp

/-- What the deletion of the crossed headings leaves: the same-heading pairs; a family
whose test fails before the loop as it was; and in a family whose test holds after the
loop, for every body, the slices of the same-heading pairs. -/
theorem deleteCrossedHeadings_eq [Field K] (L : LoadedTests K) (Nb : Nat) (s : QTFHeads K) :
    (deleteCrossedHeadings L Nb s).qhead = s.qhead.filter (fun q => !Val.ne q.re q.im) ∧
    (L.IsLoadedQTF true s.qtfsum 0 = false → (deleteCrossedHeadings L Nb s).qtfsum = s.qtfsum) ∧
    (L.IsLoadedQTF true (deleteCrossedHeadings L Nb s).qtfsum 0 = true →
      ∀ ib, (deleteCrossedHeadings L Nb s).qtfsum[ib]? =
        if ib < Nb then (s.qtfsum[ib]?).map (removePositions (crossedHeadings s.qhead))
        else s.qtfsum[ib]?) ∧
    (L.IsLoadedQTF false s.qtfdif 0 = false → (deleteCrossedHeadings L Nb s).qtfdif = s.qtfdif) ∧
    (L.IsLoadedQTF false (deleteCrossedHeadings L Nb s).qtfdif 0 = true →
      ∀ ib, (deleteCrossedHeadings L Nb s).qtfdif[ib]? =
        if ib < Nb then (s.qtfdif[ib]?).map (removePositions (crossedHeadings s.qhead))
        else s.qtfdif[ib]?) := by
  have e : deleteCrossedHeadings L Nb s = _ := crossed_outer L Nb s.qhead.length s
  rw [e]
  have key : ∀ (t : QTFTable K → Bool) (q : QTFTable K),
      t ((crossedBelow s.qhead.length s.qhead).reverse.foldl
        (fun q ih => eraseHeadingIf t Nb ih q) q) = true →
      ∀ ib, ((crossedBelow s.qhead.length s.qhead).reverse.foldl
        (fun q ih => eraseHeadingIf t Nb ih q) q)[ib]? =
        if ib < Nb then (q[ib]?).map (removePositions (crossedHeadings s.qhead))
        else q[ib]? := by
    intro t q ht ib
    rw [eraseFoldIf_true t Nb _ q ht, eraseFold_get]
    by_cases h2 : ib < Nb
    · rw [if_pos h2, if_pos h2]
      congr 1
      funext r
      exact eraseAscending _ (crossedBelow_sorted _ _) r
    · rw [if_neg h2, if_neg h2]
  exact ⟨crossed_filter s.qhead,
    fun h0 => eraseFoldIf_false (fun q => L.IsLoadedQTF true q 0) Nb _ s.qtfsum h0,
    fun h1 => key (fun q => L.IsLoadedQTF true q 0) s.qtfsum h1,
    fun h0 => eraseFoldIf_false (fun q => L.IsLoadedQTF false q 0) Nb _ s.qtfdif h0,
    fun h1 => key (fun q => L.IsLoadedQTF false q 0) s.qtfdif h1⟩

end

section

variable {α : Type}

/-- A guarded loop of updates in place leaves the entries that it does not visit. -/
theorem guardedModify_get_notin (t : List α → Bool) (f : α → α) (l : List Nat) (q : List α)
    (k : Nat) (hk : k ∉ l) :
    (l.foldl (fun q ib => if t q then q.modify f ib else q) q)[k]? = q[k]? := by
  induction l generalizing q with
  | nil => rfl
  | cons a l ih =>
    rw [List.foldl_cons, ih _ (fun hc => hk (List.mem_cons_of_mem _ hc))]
    have hak : a ≠ k := fun hc => hk (hc ▸ List.mem_cons_self _ _)
    by_cases h : t q = true
    · rw [if_pos h, List.getElem?_modify]
      simp [hak]
    · rw [if_neg h]

/-- A guarded loop of updates in place over distinct positions has updated an entry
once or not at all. -/
theorem guardedModify_get (t : List α → Bool) (f : α → α) (l : List Nat) (hl : l.Nodup)
    (q : List α) (k : Nat) :
    (l.foldl (fun q ib => if t q then q.modify f ib else q) q)[k]? = (q[k]?).map f ∨
    (l.foldl (fun q ib => if t q then q.modify f ib else q) q)[k]? = q[k]? := by
  induction l generalizing q with
  | nil => exact Or.inr rfl
  | cons a l ih =>
    rw [List.foldl_cons]
    obtain ⟨ha, hl'⟩ := List.nodup_cons.1 hl
    by_cases hak : a = k
    · subst hak
      rw [guardedModify_get_notin t f l _ a ha]
      by_cases h : t q = true
      · rw [if_pos h, List.getElem?_modify]
        exact Or.inl (by simp)
      · rw [if_neg h]
        exact Or.inr rfl
    · have e : (if t q = true then q.modify f a else q)[k]? = q[k]? := by
        by_cases h : t q = true
        · rw [if_pos h, List.getElem?_modify]
          simp [hak]
        · rw [if_neg h]
      rw [← e]
      exact ih hl' _

end

section

variable {K : Type}

/-- The guarded loops over the headings `ids` and the bodies have removed from a body
the slices of some of the headings `ids`, and no other slice. -/
theorem eraseFoldIf_get (t : QTFTable K → Bool) (Nb : Nat) (ids : List Nat)
    (q : QTFTable K) (ib : Nat) :
    ∃ sub : List Nat, sub.Sublist ids ∧
      (ids.foldl (fun q ih => eraseHeadingIf t Nb ih q) q)[ib]? =
        (q[ib]?).map (fun r => sub.foldl (fun r ih => r.eraseIdx ih) r) := by
  induction ids generalizing q with
  | nil =>
    refine ⟨[], List.Sublist.refl _, ?_⟩
    simp only [List.foldl_nil]
    cases q[ib]? <;> rfl
  | cons a l ih =>
    obtain ⟨sub, hs, e⟩ := ih (eraseHeadingIf t Nb a q)
    rw [List.foldl_cons, e]
    rcases guardedModify_get t (fun hs => hs.eraseIdx a) (List.range Nb) (List.nodup_range Nb)
      q ib with h1 | h1
    · refine ⟨a :: sub, List.Sublist.cons₂ a hs, ?_⟩
      unfold eraseHeadingIf
      rw [h1, Option.map_map]
      rfl
    · refine ⟨sub, List.Sublist.cons a hs, ?_⟩
      unfold eraseHeadingIf
      rw [h1]

end

section

variable {K : Type} [DecidableEq K]

/-- The deletion of the crossed headings removes from a body slices of crossed heading
pairs only: the slices of the same-heading pairs are all kept, in their order. -/
theorem deleteCrossedHeadings_kept [Field K] (L : LoadedTests K) (Nb : Nat) (s : QTFHeads K)
    (ib : Nat) :
    (∃ ids : List Nat, ids ⊆ crossedHeadings s.qhead ∧
      (deleteCrossedHeadings L Nb s).qtfsum[ib]? =
        (s.qtfsum[ib]?).map (removePositions ids)) ∧
    (∃ ids : List Nat, ids ⊆ crossedHeadings s.qhead ∧
      (deleteCrossedHeadings L Nb s).qtfdif[ib]? =
        (s.qtfdif[ib]?).map (removePositions ids)) := by
  have e : deleteCrossedHeadings L Nb s = _ := crossed_outer L Nb s.qhead.length s
  rw [e]
  have key : ∀ (t : QTFTable K → Bool) (q : QTFTable K),
      ∃ ids : List Nat, ids ⊆ crossedHeadings s.qhead ∧
        ((crossedBelow s.qhead.length s.qhead).reverse.foldl
          (fun q ih => eraseHeadingIf t Nb ih q) q)[ib]? =
          (q[ib]?).map (removePositions ids) := by
    intro t q
    obtain ⟨sub, hs, e⟩ := eraseFoldIf_get t Nb (crossedBelow s.qhead.length s.qhead).reverse
      q ib
    have hd : sub.Pairwise (· > ·) :=
      (List.pairwise_reverse.2 (crossedBelow_sorted s.qhead.length s.qhead)).sublist hs
    refine ⟨sub, fun x hx => List.mem_reverse.1 (hs.subset hx), ?_⟩
    rw [e]
    congr 1
    funext r
    exact eraseDescending sub hd r
  exact ⟨key _ _, key _ _⟩

end

/-! ## When the translation fails -/

section

variable {K : Type} [Field K]

theorem foldlM_error {σ ι : Type} (f : σ → ι → Except String σ) (l : List ι) (i : ι)
    (hi : i ∈ l) (hbad : ∀ s, ∃ e, f s i = Except.error e) (s : σ) :
    ∃ e, l.foldlM f s = Except.error e := by
  induction l generalizing s with
  | nil => cases hi
  | cons a l ih =>
    rw [List.foldlM_cons]
    cases hfa : f s a with
    | error e => exact ⟨e, rfl⟩
    | ok s' =>
      rcases List.mem_cons.1 hi with rfl | hmem
      · obtain ⟨e, he⟩ := hbad s
        rw [he] at hfa
        cases hfa
      · exact ih hmem s'

/-- Without the force override `TransAB` throws as soon as the first sample of one
series of one block is missing. -/
theorem TransAB_error (Nb Nf : Nat) (delta : Nat → Fin 3 → K) (A : SeriesTable K)
    (ib jb : Nat) (hib : ib < Nb) (hjb : jb < Nb)
    (hc : TransABcheck A (ib * 6) (jb * 6) = false) :
    ∃ e, TransAB Nb Nf false delta A = Except.error e := by
  unfold TransAB
  apply foldlM_error _ _ ib (List.mem_range.2 hib)
  intro s
  apply foldlM_error _ _ jb (List.mem_range.2 hjb)
  intro s'
  exact ⟨allDofMessage, by simp [hc]⟩

variable [DecidableEq K]

theorem GetTranslationTo_error_A (L : LoadedTests K) (X : Externals K) (h : Hydro K)
    (to' : RMatrix K) (force : Bool) (Status : String → Int → Bool)
    (hto : IsNumMat to' = true) (hl : L.IsLoadedA h.A = true)
    (he : ∃ e, TransAB h.Nb h.Nf force (translationDelta to' h.msh) h.A = Except.error e) :
    (GetTranslationTo L X h to' force Status).error ≠ none := by
  obtain ⟨e, he⟩ := he
  unfold GetTranslationTo
  simp only [hto, Bool.not_true, Bool.false_eq_true, if_false, attempt, hl, if_true, he]
  simp

theorem GetTranslationTo_error_B (L : LoadedTests K) (X : Externals K) (h : Hydro K)
    (to' : RMatrix K) (force : Bool) (Status : String → Int → Bool)
    (hto : IsNumMat to' = true) (hl : L.IsLoadedB h.B = true)
    (he : ∃ e, TransAB h.Nb h.Nf force (translationDelta to' h.msh) h.B = Except.error e) :
    (GetTranslationTo L X h to' force Status).error ≠ none := by
  obtain ⟨e, he⟩ := he
  unfold GetTranslationTo
  simp only [hto, Bool.not_true, Bool.false_eq_true, if_false]
  cases attempt (L.IsLoadedA h.A) (TransAB h.Nb h.Nf force (translationDelta to' h.msh) h.A)
      h.A with
  | error e1 => simp
  | ok A =>
    cases attempt (L.IsLoadedAinf_w h.Ainf_w)
        (TransAB h.Nb h.Nf force (translationDelta to' h.msh) h.Ainf_w) h.Ainf_w with
    | error e2 => simp
    | ok Aw =>
      simp only [attempt, hl, if_true, he]
      simp

end

/-- Without the force override `GetTranslationTo` fails as soon as the first frequency
sample of one series of a body-pair block of a loaded `A` or `B` is missing. -/
theorem GetTranslationTo_fails_on_missing_first_sample {K : Type} [Field K] [DecidableEq K]
    (L : LoadedTests K) (X : Externals K) (h : Hydro K) (to' : RMatrix K)
    (Status : String → Int → Bool) (hto : IsNumMat to' = true) (ib jb : Nat)
    (hib : ib < h.Nb) (hjb : jb < h.Nb)
    (hmiss : (L.IsLoadedA h.A = true ∧ TransABcheck h.A (ib * 6) (jb * 6) = false) ∨
      (L.IsLoadedB h.B = true ∧ TransABcheck h.B (ib * 6) (jb * 6) = false)) :
    (GetTranslationTo L X h to' false Status).error ≠ none := by
  rcases hmiss with ⟨hl, hc⟩ | ⟨hl, hc⟩
  · exact GetTranslationTo_error_A L X h to' false Status hto hl
      (TransAB_error _ _ _ _ ib jb hib hjb hc)
  · exact GetTranslationTo_error_B L X h to' false Status hto hl
      (TransAB_error _ _ _ _ ib jb hib hjb hc)

theorem GetTranslationTo_fails_on_storeFail :
    (GetTranslationTo firstEntryTests keepExternals storeFail target123 false goOn).error ≠ none :=
  GetTranslationTo_fails_on_missing_first_sample firstEntryTests keepExternals storeFail
    target123 goOn (by decide) 0 0 (by decide) (by decide) (by decide)

/-- C11 (the code at the failing input). In `storeAB` every damping series misses its
second sample; without the force override the call succeeds all the same, and the missing
sample `B[0][0][1]` comes out as the number `0`: the test of `TransAB` looks at the first
sample of each series only. -/
theorem C11_missing_sample_becomes_zero :
    get3 storeAB.B 0 0 1 = some none ∧
    (GetTranslationTo firstEntryTests keepExternals storeAB target123 false goOn).error = none ∧
    get3 (GetTranslationTo firstEntryTests keepExternals storeAB target123 false goOn).store.B
      0 0 1 = some (some 0) := by
  decide

/-- C12 (the code at the failing input). In `storeFail` the added mass is fully
populated and the damping misses its first samples: without the force override the
call throws, and leaves the added mass translated, not as it was before the call. -/
theorem C12_failure_leaves_A_translated :
    (GetTranslationTo firstEntryTests keepExternals storeFail target123 false goOn).error =
      some allDofMessage ∧
    get3 storeFail.A 0 3 0 = some (some 6) ∧
    get3 (GetTranslationTo firstEntryTests keepExternals storeFail target123 false goOn).store.A
      0 3 0 = some (some 4) := by
  decide!

/-- C13 (the code for every callback). The answers of the `Status` callback do not
reach the outcome of `GetTranslationTo`: whatever it answers, the call does what it
does when the callback always asks to continue. -/
theorem C13_Status_answers_ignored {K : Type} [Field K] [DecidableEq K] (L : LoadedTests K)
    (X : Externals K) (h : Hydro K) (to' : RMatrix K) (force : Bool)
    (Status : String → Int → Bool) :
    GetTranslationTo L X h to' force Status = GetTranslationTo L X h to' force goOn :=
  rfl

/-! ## The moment transfer of the forces -/

section

variable {K : Type} [Field K] [DecidableEq K]

theorem translateRest_ex (L : LoadedTests K) (X : Externals K) (to' : RMatrix K)
    (delta : Nat → Fin 3 → K) (h : Hydro K) :
    (translateRest L X to' delta h).ex =
      if L.IsLoadedFex h.ex then TransF h.Nb h.Nh h.Nf delta h.ex else h.ex := rfl

theorem translateRest_sc (L : LoadedTests K) (X : Externals K) (to' : RMatrix K)
    (delta : Nat → Fin 3 → K) (h : Hydro K) :
    (translateRest L X to' delta h).sc =
      if L.IsLoadedFsc h.sc then TransF h.Nb h.Nh h.Nf delta h.sc else h.sc := rfl

theorem translateRest_fk (L : LoadedTests K) (X : Externals K) (to' : RMatrix K)
    (delta : Nat → Fin 3 → K) (h : Hydro K) :
    (translateRest L X to' delta h).fk =
      if L.IsLoadedFfk h.fk then TransF h.Nb h.Nh h.Nf delta h.fk else h.fk := rfl

theorem translateRest_md (L : LoadedTests K) (X : Externals K) (to' : RMatrix K)
    (delta : Nat → Fin 3 → K) (h : Hydro K) :
    (translateRest L X to' delta h).md =
      if L.IsLoadedMD h.md 0 then TransMD h.Nb h.mdhead.length h.Nf delta h.md else h.md := rfl

/-- What a successful `GetTranslationTo` leaves in the forces and the mean drift. -/
theorem GetTranslationTo_forces (L : LoadedTests K) (X : Externals K) (h : Hydro K)
    (to' : RMatrix K) (force : Bool) (Status : String → Int → Bool)
    (hok : (GetTranslationTo L X h to' force Status).error = none) :
    (GetTranslationTo L X h to' force Status).store.ex =
      (if L.IsLoadedFex h.ex then
        TransF h.Nb h.Nh h.Nf (translationDelta to' h.msh) h.ex else h.ex) ∧
    (GetTranslationTo L X h to' force Status).store.sc =
      (if L.IsLoadedFsc h.sc then
        TransF h.Nb h.Nh h.Nf (translationDelta to' h.msh) h.sc else h.sc) ∧
    (GetTranslationTo L X h to' force Status).store.fk =
      (if L.IsLoadedFfk h.fk then
        TransF h.Nb h.Nh h.Nf (translationDelta to' h.msh) h.fk else h.fk) ∧
    (GetTranslationTo L X h to' force Status).store.md =
      (if L.IsLoadedMD h.md 0 then
        TransMD h.Nb h.mdhead.length h.Nf (translationDelta to' h.msh) h.md else h.md) := by
  obtain ⟨_, A, Aw, B, BH, A0, Ainf, _, _, _, _, _, _, hs⟩ :=
    GetTranslationTo_ok L X h to' force Status hok
  rw [hs]
  exact ⟨rfl, rfl, rfl, rfl⟩

end

/-- C15 (amended). After a successful `GetTranslationTo`, for every body, heading and
frequency, each loaded excitation, scattering and Froude-Krylov force and the loaded
mean drift keep their three force components and gain in their three moment
components the cross product `F x delta` of the force `F = (F0, F1, F2)` with the
translation `delta = to - c0` of the body, that is `-(delta x F)`. -/
theorem C15_moment_transfer {K : Type} [Field K] [DecidableEq K] (L : LoadedTests K)
    (X : Externals K) (h : Hydro K) (to' : RMatrix K) (force : Bool)
    (Status : String → Int → Bool)
    (hok : (GetTranslationTo L X h to' force Status).error = none)
    (ib ih ifr : Nat) (hib : ib < h.Nb) (hifr : ifr < h.Nf) :
    (L.IsLoadedFex h.ex = true → ih < h.Nh →
      MomentTransferC (translationDelta to' h.msh ib) (getF h.ex ib ih ifr)
        (getF (GetTranslationTo L X h to' force Status).store.ex ib ih ifr)) ∧
    (L.IsLoadedFsc h.sc = true → ih < h.Nh →
      MomentTransferC (translationDelta to' h.msh ib) (getF h.sc ib ih ifr)
        (getF (GetTranslationTo L X h to' force Status).store.sc ib ih ifr)) ∧
    (L.IsLoadedFfk h.fk = true → ih < h.Nh →
      MomentTransferC (translationDelta to' h.msh ib) (getF h.fk ib ih ifr)
        (getF (GetTranslationTo L X h to' force Status).store.fk ib ih ifr)) ∧
    (L.IsLoadedMD h.md 0 = true → ih < h.mdhead.length →
      MomentTransferR (translationDelta to' h.msh ib) (fun c => getMD h.md ib ih c ifr)
        (fun c => getMD (GetTranslationTo L X h to' force Status).store.md ib ih c ifr)) := by
  obtain ⟨e1, e2, e3, e4⟩ := GetTranslationTo_forces L X h to' force Status hok
  refine ⟨?_, ?_, ?_, ?_⟩
  · intro hl hih
    apply momentTerm_transferC
    intro c
    rw [e1, if_pos hl, TransF_getF, if_pos ⟨hib, hih, hifr⟩]
  · intro hl hih
    apply momentTerm_transferC
    intro c
    rw [e2, if_pos hl, TransF_getF, if_pos ⟨hib, hih, hifr⟩]
  · intro hl hih
    apply momentTerm_transferC
    intro c
    rw [e3, if_pos hl, TransF_getF, if_pos ⟨hib, hih, hifr⟩]
  · intro hl hih
    apply momentTerm_transferR
    intro c
    rw [e4, if_pos hl, TransMD_getMD, if_pos ⟨hib, hih, hifr⟩]

theorem C15_moment_transfer_witness :
    (GetTranslationTo firstEntryTests keepExternals storeForce target010 false goOn).error =
      none ∧
    MomentTransferC (translationDelta target010 storeForce.msh 0) (getF storeForce.ex 0 0 0)
      (getF (GetTranslationTo firstEntryTests keepExternals storeForce target010 false
        goOn).store.ex 0 0 0) :=
  ⟨by decide,
    (C15_moment_transfer firstEntryTests keepExternals storeForce target010 false goOn
      (by decide) 0 0 0 (by decide) (by decide)).1 (by decide) (by decide)⟩

/-- C15 (counterexample). For the force `F = (1, 0, 0)` with no moment and the
translation `delta = (0, 1, 0)`, the call leaves the moment `(0, 0, 1)`, which is
`F x delta`, where `delta x F` is `(0, 0, -1)`. -/
theorem C15_moment_is_not_delta_cross_F :
    (∀ i, translationDelta target010 storeForce.msh 0 i = ![0, 1, 0] i) ∧
    getF storeForce.ex 0 0 0 0 = some ⟨some 1, some 0⟩ ∧
    getF storeForce.ex 0 0 0 1 = some ⟨some 0, some 0⟩ ∧
    getF storeForce.ex 0 0 0 2 = some ⟨some 0, some 0⟩ ∧
    getF storeForce.ex 0 0 0 5 = some ⟨some 0, some 0⟩ ∧
    getF (GetTranslationTo firstEntryTests keepExternals storeForce target010 false
      goOn).store.ex 0 0 0 5 = some ⟨some 1, some 0⟩ ∧
    crossProduct ![(0 : ℚ), 1, 0] ![1, 0, 0] 2 = -1 ∧
    crossProduct ![(1 : ℚ), 0, 0] ![0, 1, 0] 2 = 1 := by
  refine ⟨by decide!, by decide!, by decide!, by decide!, by decide!, by decide!, ?_, ?_⟩
  · simp [cross_apply]
  · simp [cross_apply]

/-! ## The crossed headings of the QTF -/

section

variable {K : Type} [Field K]

/-- The lambda `TransQTF`, body by body and heading by heading. -/
theorem TransQTF_get2 (Nb nqh nqw : Nat) (delta : Nat → Fin 3 → K) (q : QTFTable K)
    (a b : Nat) :
    get2 (TransQTF Nb nqh nqw delta q) a b =
      if a < Nb ∧ b < nqh then
        (get2 q a b).map (fun m => (List.range nqw).foldl (fun m ifr1 =>
          (List.range nqw).foldl (fun m ifr2 => TransQTFcell (delta a) m ifr1 ifr2) m) m)
      else get2 q a b := by
  unfold TransQTF
  simp only [foldl_modify2 (List.range nqw) (fun m ifr2 => TransQTFcell (delta _) m _ ifr2)]
  simp only [foldl_modify2 (List.range nqw) (fun m ifr1 =>
    (List.range nqw).foldl (fun m ifr2 => TransQTFcell (delta _) m ifr1 ifr2) m)]
  exact tableLoop_get Nb nqh (fun i _ m => (List.range nqw).foldl (fun m ifr1 =>
    (List.range nqw).foldl (fun m ifr2 => TransQTFcell (delta i) m ifr1 ifr2) m) m) q a b

theorem TransQTF_shape (Nb nqh nqw : Nat) (delta : Nat → Fin 3 → K) (q : QTFTable K) :
    (TransQTF Nb nqh nqw delta q).map List.length = q.map List.length := by
  unfold TransQTF
  simp only [foldl_modify2 (List.range nqw) (fun m ifr2 => TransQTFcell (delta _) m _ ifr2)]
  simp only [foldl_modify2 (List.range nqw) (fun m ifr1 =>
    (List.range nqw).foldl (fun m ifr2 => TransQTFcell (delta _) m ifr1 ifr2) m)]
  exact tableLoop_shape Nb nqh (fun i _ m => (List.range nqw).foldl (fun m ifr1 =>
    (List.range nqw).foldl (fun m ifr2 => TransQTFcell (delta i) m ifr1 ifr2) m) m) q

variable [DecidableEq K]

theorem translateRest_qtf (L : LoadedTests K) (X : Externals K) (to' : RMatrix K)
    (delta : Nat → Fin 3 → K) (h : Hydro K) :
    (translateRest L X to' delta h).qhead =
      (deleteCrossedHeadings L h.Nb ⟨h.qhead, h.qtfsum, h.qtfdif⟩).qhead ∧
    (translateRest L X to' delta h).qtfsum =
      (if L.IsLoadedQTF true (deleteCrossedHeadings L h.Nb ⟨h.qhead, h.qtfsum, h.qtfdif⟩).qtfsum 0
        then TransQTF h.Nb
          (deleteCrossedHeadings L h.Nb ⟨h.qhead, h.qtfsum, h.qtfdif⟩).qhead.length h.qw.length
          delta (deleteCrossedHeadings L h.Nb ⟨h.qhead, h.qtfsum, h.qtfdif⟩).qtfsum
        else (deleteCrossedHeadings L h.Nb ⟨h.qhead, h.qtfsum, h.qtfdif⟩).qtfsum) ∧
    (translateRest L X to' delta h).qtfdif =
      (if L.IsLoadedQTF false (deleteCrossedHeadings L h.Nb ⟨h.qhead, h.qtfsum, h.qtfdif⟩).qtfdif 0
        then TransQTF h.Nb
          (deleteCrossedHeadings L h.Nb ⟨h.qhead, h.qtfsum, h.qtfdif⟩).qhead.length h.qw.length
          delta (deleteCrossedHeadings L h.Nb ⟨h.qhead, h.qtfsum, h.qtfdif⟩).qtfdif
        else (deleteCrossedHeadings L h.Nb ⟨h.qhead, h.qtfsum, h.qtfdif⟩).qtfdif) :=
  ⟨rfl, rfl, rfl⟩

/-- What a successful `GetTranslationTo` leaves in the QTF. -/
theorem GetTranslationTo_qtf (L : LoadedTests K) (X : Externals K) (h : Hydro K)
    (to' : RMatrix K) (force : Bool) (Status : String → Int → Bool)
    (hok : (GetTranslationTo L X h to' force Status).error = none) :
    (GetTranslationTo L X h to' force Status).store.qhead =
      (deleteCrossedHeadings L h.Nb ⟨h.qhead, h.qtfsum, h.qtfdif⟩).qhead ∧
    (GetTranslationTo L X h to' force Status).store.qtfsum =
      (if L.IsLoadedQTF true (deleteCrossedHeadings L h.Nb ⟨h.qhead, h.qtfsum, h.qtfdif⟩).qtfsum 0
        then TransQTF h.Nb
          (deleteCrossedHeadings L h.Nb ⟨h.qhead, h.qtfsum, h.qtfdif⟩).qhead.length h.qw.length
          (translationDelta to' h.msh)
          (deleteCrossedHeadings L h.Nb ⟨h.qhead, h.qtfsum, h.qtfdif⟩).qtfsum
        else (deleteCrossedHeadings L h.Nb ⟨h.qhead, h.qtfsum, h.qtfdif⟩).qtfsum) ∧
    (GetTranslationTo L X h to' force Status).store.qtfdif =
      (if L.IsLoadedQTF false (deleteCrossedHeadings L h.Nb ⟨h.qhead, h.qtfsum, h.qtfdif⟩).qtfdif 0
        then TransQTF h.Nb
          (deleteCrossedHeadings L h.Nb ⟨h.qhead, h.qtfsum, h.qtfdif⟩).qhead.length h.qw.length
          (translationDelta to' h.msh)
          (deleteCrossedHeadings L h.Nb ⟨h.qhead, h.qtfsum, h.qtfdif⟩).qtfdif
        else (deleteCrossedHeadings L h.Nb ⟨h.qhead, h.qtfsum, h.qtfdif⟩).qtfdif) := by
  obtain ⟨_, A, Aw, B, BH, A0, Ainf, _, _, _, _, _, _, hs⟩ :=
    GetTranslationTo_ok L X h to' force Status hok
  rw [hs]
  exact translateRest_qtf L X to' _ _

end

/-- Both off-diagonal cells of a symmetrized square matrix, whichever index is the
smaller one. -/
theorem SymmetrizeMat_pair {K : Type} [Field K] (isSum : Bool) (c : CMatrix K)
    (hd : Dims2 c c.length c.length) (i j : Nat) (hne : i ≠ j) (hi : i < c.length)
    (hj : j < c.length) :
    ∃ v, get2 (SymmetrizeMat isSum c) i j = some v ∧
      get2 (SymmetrizeMat isSum c) j i = some (if isSum then v else v.conj) := by
  rcases Nat.lt_or_gt_of_ne hne with hij | hij
  · exact SymmetrizeMat_symm isSum c hd i j hij hj
  · obtain ⟨v, h1, h2⟩ := SymmetrizeMat_symm isSum c hd j i hij hi
    refine ⟨if isSum then v else v.conj, h2, ?_⟩
    rw [h1]
    cases isSum <;> simp [CVal.conj_conj]

theorem storeDif_square :
    SquareQTF storeDif.Nb storeDif.qhead.length storeDif.qtfsum ∧
    SquareQTF storeDif.Nb storeDif.qhead.length storeDif.qtfdif := by
  constructor
  · intro ib ih idf _ _ _ c hc
    simp [storeDif, emptyStore, get3, get2] at hc
  · intro ib ih idf hib hih hidf c hc
    have h1 : ib = 0 := by simpa [storeDif] using hib
    have h2 : ih = 0 := by simpa [storeDif] using hih
    subst h1 h2
    have h3 : get3 storeDif.qtfdif 0 0 idf =
        some [[⟨some 1, some 0⟩, ⟨some 2, some 3⟩], [⟨some 4, some 5⟩, ⟨some 6, some 0⟩]] := by
      interval_cases idf <;> rfl
    rw [h3] at hc
    cases hc
    decide

section

variable {K : Type} [LinearOrderedField K]

theorem Cx.mul_inv (z : Cx K) (hz : z ≠ 0) : z * Cx.inv z = 1 := by
  have hn : z.re * z.re + z.im * z.im ≠ 0 := by
    intro h
    obtain ⟨h1, h2⟩ := mul_self_add_mul_self_eq_zero.1 h
    exact hz (Cx.ext h1 h2)
  apply Cx.ext
  · simp only [Cx.re_mul, Cx.inv, Cx.re_one]
    field_simp
  · simp only [Cx.im_mul, Cx.inv, Cx.im_one]
    field_simp
    ring

theorem Cx.zero_ne_one : (0 : Cx K) ≠ 1 := fun h => one_ne_zero (congrArg Cx.re h).symm

/-- The matrix that the static `GetRAO` inverts is the impedance of the
specification. -/
theorem GetRAO_impedance {n : Nat}
    (SquareRoot : Matrix (Fin n) (Fin n) K → Matrix (Fin n) (Fin n) K)
    (w : K) (Aw Bw : Matrix (Fin n) (Fin n) (Option K)) (C M D : Matrix (Fin n) (Fin n) K)
    (critDamp : K) :
    (C - sqr w • (M + Aw.map (fun x => if IsNum x then Nvl x 0 else 0))).map Cx.ofReal +
      (Cx.I * Cx.ofReal w) • (Bw.map (fun x => if IsNum x then Nvl x 0 else 0) +
        (D + CriticalDamping SquareRoot critDamp M
          (Aw.map (fun x => if IsNum x then Nvl x 0 else 0)) C)).map Cx.ofReal =
    specImpedance w (Aw.map zeroFilled) (Bw.map zeroFilled) C M D
      (CriticalDamping SquareRoot critDamp M (Aw.map zeroFilled) C) := by
  have hz : (fun x : Option K => if IsNum x then Nvl x 0 else 0) = zeroFilled := by
    funext x
    cases x <;> rfl
  rw [hz]
  ext i j
  · simp [specImpedance, Cx.re_add, Cx.re_mul, Cx.ofReal, Cx.I, sqr, pow_two, mul_add]
  · simp [specImpedance, Cx.im_add, Cx.im_mul, Cx.ofReal, Cx.I, sqr, add_assoc]

theorem GetRAO_force {n : Nat} (Fwh : Fin n → CVal K) :
    (fun i => if (Fwh i).IsNum then (⟨Nvl (Fwh i).re 0, Nvl (Fwh i).im 0⟩ : Cx K) else 0) =
      fun i => (Fwh i).zeroFilled := by
  funext i
  obtain ⟨re, im⟩ := Fwh i
  cases re <;> cases im <;> rfl

/-- C18. With `Z` the impedance of the specification built from the zero-filled
inputs and the critical-damping term: the static `GetRAO` fails with
`Problem solving RAO` exactly when `Z` has no inverse; whenever `W` is an inverse of
`Z`, it returns the row vector `F0ᵀ W`; and the critical-damping term is zero when the
critical-damping fraction is zero. -/
theorem C18_GetRAO_singular_or_solution {n : Nat}
    (SquareRoot : Matrix (Fin n) (Fin n) K → Matrix (Fin n) (Fin n) K)
    (w : K) (Aw Bw : Matrix (Fin n) (Fin n) (Option K)) (Fwh : Fin n → CVal K)
    (C M D D2 : Matrix (Fin n) (Fin n) K) (critDamp : K) :
    (GetRAO SquareRoot w Aw Bw Fwh C M D D2 critDamp = Except.error "Problem solving RAO" ↔
      ¬ ∃ W, specImpedance w (Aw.map zeroFilled) (Bw.map zeroFilled) C M D
        (CriticalDamping SquareRoot critDamp M (Aw.map zeroFilled) C) * W = 1) ∧
    (∀ W, specImpedance w (Aw.map zeroFilled) (Bw.map zeroFilled) C M D
        (CriticalDamping SquareRoot critDamp M (Aw.map zeroFilled) C) * W = 1 →
      GetRAO SquareRoot w Aw Bw Fwh C M D D2 critDamp =
        Except.ok (Matrix.vecMul (fun i => (Fwh i).zeroFilled) W)) ∧
    CriticalDamping SquareRoot 0 M (Aw.map zeroFilled) C = 0 := by
  unfold GetRAO
  simp only [GetRAO_impedance, GetRAO_force]
  generalize specImpedance w (Aw.map zeroFilled) (Bw.map zeroFilled) C M D
    (CriticalDamping SquareRoot critDamp M (Aw.map zeroFilled) C) = Z
  have hsing : Z.det = 0 → ¬ ∃ W, Z * W = 1 := by
    rintro h0 ⟨W, hW⟩
    have := congrArg Matrix.det hW
    rw [Matrix.det_mul, h0, zero_mul, Matrix.det_one] at this
    exact Cx.zero_ne_one this
  have hinv : Z.det ≠ 0 → Z * (Cx.inv Z.det • Z.adjugate) = 1 := by
    intro h0
    rw [Matrix.mul_smul, Matrix.mul_adjugate, smul_smul, mul_comm, Cx.mul_inv _ h0, one_smul]
  have hinv2 : Z.det ≠ 0 → (Cx.inv Z.det • Z.adjugate) * Z = 1 := by
    intro h0
    rw [Matrix.smul_mul, Matrix.adjugate_mul, smul_smul, mul_comm, Cx.mul_inv _ h0, one_smul]
  refine ⟨?_, ?_, ?_⟩
  · by_cases h0 : Z.det = 0
    · rw [if_pos h0]
      exact ⟨fun _ => hsing h0, fun _ => rfl⟩
    · rw [if_neg h0]
      constructor
      · intro h
        cases h
      · intro h
        exact absurd ⟨_, hinv h0⟩ h
  · intro W hW
    have h0 : Z.det ≠ 0 := fun h => hsing h ⟨W, hW⟩
    rw [if_neg h0]
    have hWe : Cx.inv Z.det • Z.adjugate = W := by
      calc Cx.inv Z.det • Z.adjugate = (Cx.inv Z.det • Z.adjugate) * (Z * W) := by
            rw [hW, mul_one]
        _ = W := by rw [← mul_assoc, hinv2 h0, one_mul]
    rw [hWe]
  · unfold CriticalDamping
    simp

end

theorem C18_GetRAO_singular_or_solution_witness :
    (GetRAO (fun (a : Matrix (Fin 1) (Fin 1) ℚ) => a) 1 (Matrix.of fun _ _ => none)
        (Matrix.of fun _ _ => none) (fun _ => ⟨some 2, none⟩) (Matrix.of fun _ _ => 1)
        (Matrix.of fun _ _ => 1) (Matrix.of fun _ _ => 0) 0 0 =
      Except.error "Problem solving RAO" ↔
      ¬ ∃ W, specImpedance (1 : ℚ)
        ((Matrix.of fun (_ _ : Fin 1) => (none : Option ℚ)).map zeroFilled)
        ((Matrix.of fun (_ _ : Fin 1) => (none : Option ℚ)).map zeroFilled)
        (Matrix.of fun _ _ => 1) (Matrix.of fun _ _ => 1) (Matrix.of fun _ _ => 0)
        (CriticalDamping (fun (a : Matrix (Fin 1) (Fin 1) ℚ) => a) 0 (Matrix.of fun _ _ => 1)
          ((Matrix.of fun (_ _ : Fin 1) => (none : Option ℚ)).map zeroFilled)
          (Matrix.of fun _ _ => 1)) * W = 1) :=
  (C18_GetRAO_singular_or_solution (fun a => a) 1 (Matrix.of fun _ _ => none)
    (Matrix.of fun _ _ => none) (fun _ => ⟨some 2, none⟩) (Matrix.of fun _ _ => 1)
    (Matrix.of fun _ _ => 1) (Matrix.of fun _ _ => 0) 0 0).1

/-! ## The guards of `GetRAO(critDamp)` -/

/-- An exception of a throwing loop is an exception of one of its steps. -/
theorem foldlM_error_of {σ ι : Type} (P : String → Prop) (f : σ → ι → Except String σ)
    (l : List ι) (hP : ∀ s i e, i ∈ l → f s i = Except.error e → P e) (s : σ) (e : String)
    (he : l.foldlM f s = Except.error e) : P e := by
  induction l generalizing s with
  | nil => cases he
  | cons a l ih =>
    rw [List.foldlM_cons] at he
    cases hfa : f s a with
    | error e' =>
      rw [hfa] at he
      cases he
      exact hP s a e (List.mem_cons_self _ _) hfa
    | ok s' =>
      rw [hfa] at he
      exact ih (fun s i e hi => hP s i e (List.mem_cons_of_mem _ hi)) s' he

/-- A loop of tests that all pass does not throw. -/
theorem foldlM_checks_ok {ι : Type} (f : ι → Except String Unit) (l : List ι)
    (hok : ∀ i ∈ l, f i = Except.ok ()) :
    l.foldlM (fun _ i => f i) () = Except.ok () := by
  induction l with
  | nil => rfl
  | cons a l ih =>
    rw [List.foldlM_cons, hok a (List.mem_cons_self _ _)]
    exact ih (fun i hi => hok i (List.mem_cons_of_mem _ hi))

theorem GetRAOcheck_error {K : Type} (h : Hydro K) (ib : Nat) (e : String)
    (he : GetRAOcheck h ib = Except.error e) : e ∈ insufficientDataMessages := by
  unfold GetRAOcheck at he
  split_ifs at he <;> cases he <;> simp [insufficientDataMessages]

section

variable {K : Type} [Field K] [DecidableEq K]

theorem GetRAOstep_error (E : RAOHelpers K) (critDamp : K) (C : Matrix (Fin 6) (Fin 6) K)
    (ib ih : Nat) (h : Hydro K) (ifr : Nat) (e : String)
    (he : GetRAOstep E critDamp C ib ih h ifr = Except.error e) :
    e = "Problem solving RAO" := by
  unfold GetRAOstep at he
  split at he
  · rename_i e' heq
    cases he
    unfold BEMRosetta.GetRAO at heq
    simp only at heq
    split_ifs at heq
    cases heq
    rfl
  · cases he

/-- C19. `GetRAO(critDamp)` throws one of the
insufficient-data exceptions whenever `Nf = 0`, or `A` or `B` has fewer than `6 Nb`
rows, or the matrix `C` or `M` of some body has fewer than six rows or columns; when
none of these holds, the only exception it can throw is `Problem solving RAO`, which is
not one of them. -/
theorem C19_GetRAO_insufficient_data (E : RAOHelpers K) (h : Hydro K) (critDamp : K) :
    ((h.Nf = 0 ∨ h.A.length < 6 * h.Nb ∨ h.B.length < 6 * h.Nb ∨
        ∃ ib, ib < h.Nb ∧ (rows (bodyC h ib) < 6 ∨ cols (bodyC h ib) < 6 ∨
          rows (bodyM h ib) < 6 ∨ cols (bodyM h ib) < 6)) →
      ∃ msg, msg ∈ insufficientDataMessages ∧ h.GetRAO E critDamp = Except.error msg) ∧
    (¬ (h.Nf = 0 ∨ h.A.length < 6 * h.Nb ∨ h.B.length < 6 * h.Nb ∨
        ∃ ib, ib < h.Nb ∧ (rows (bodyC h ib) < 6 ∨ cols (bodyC h ib) < 6 ∨
          rows (bodyM h ib) < 6 ∨ cols (bodyM h ib) < 6)) →
      ∀ e, h.GetRAO E critDamp = Except.error e →
        e = "Problem solving RAO" ∧ e ∉ insufficientDataMessages) := by
  constructor
  · intro hc
    unfold Hydro.GetRAO
    by_cases hg : h.Nf = 0 ∨ h.A.length < h.Nb * 6 ∨ h.B.length < h.Nb * 6
    · rw [if_pos hg]
      exact ⟨_, by simp [insufficientDataMessages], rfl⟩
    · rw [if_neg hg]
      have hb : ∃ ib, ib < h.Nb ∧ (rows (bodyC h ib) < 6 ∨ cols (bodyC h ib) < 6 ∨
          rows (bodyM h ib) < 6 ∨ cols (bodyM h ib) < 6) := by
        rcases hc with h1 | h1 | h1 | h1
        · exact absurd (Or.inl h1) hg
        · exact absurd (Or.inr (Or.inl (by omega))) hg
        · exact absurd (Or.inr (Or.inr (by omega))) hg
        · exact h1
      obtain ⟨ib, hib, hsmall⟩ := hb
      obtain ⟨e, he⟩ := foldlM_error (fun _ ib => GetRAOcheck h ib) (List.range h.Nb) ib
        (List.mem_range.2 hib) (by
          intro s
          show ∃ e, GetRAOcheck h ib = Except.error e
          unfold GetRAOcheck
          by_cases hC : rows (bodyC h ib) < 6 ∨ cols (bodyC h ib) < 6
          · rw [if_pos hC]
            exact ⟨_, rfl⟩
          · rw [if_neg hC]
            have hM : rows (bodyM h ib) < 6 ∨ cols (bodyM h ib) < 6 := by tauto
            rw [if_pos hM]
            exact ⟨_, rfl⟩) ()
      have hmem := foldlM_error_of (fun e => e ∈ insufficientDataMessages)
        (fun _ ib => GetRAOcheck h ib) (List.range h.Nb)
        (fun _ i e _ hie => GetRAOcheck_error h i e hie) () e he
      rw [he]
      exact ⟨e, hmem, rfl⟩
  · intro hc e he
    have hg : ¬ (h.Nf = 0 ∨ h.A.length < h.Nb * 6 ∨ h.B.length < h.Nb * 6) := by
      intro hg
      apply hc
      rcases hg with h1 | h1 | h1
      · exact Or.inl h1
      · exact Or.inr (Or.inl (by omega))
      · exact Or.inr (Or.inr (Or.inl (by omega)))
    have hchecks : (List.range h.Nb).foldlM (fun _ ib => GetRAOcheck h ib) () =
        Except.ok () := by
      apply foldlM_checks_ok
      intro ib hib
      have hib := List.mem_range.1 hib
      unfold GetRAOcheck
      have hC : ¬ (rows (bodyC h ib) < 6 ∨ cols (bodyC h ib) < 6) := by
        intro hC
        apply hc
        refine Or.inr (Or.inr (Or.inr ⟨ib, hib, ?_⟩))
        tauto
      have hM : ¬ (rows (bodyM h ib) < 6 ∨ cols (bodyM h ib) < 6) := by
        intro hM
        apply hc
        refine Or.inr (Or.inr (Or.inr ⟨ib, hib, ?_⟩))
        tauto
      rw [if_neg hC, if_neg hM]
    unfold Hydro.GetRAO at he
    rw [if_neg hg, hchecks] at he
    have h1 : e = "Problem solving RAO" := by
      refine foldlM_error_of (fun e => e = "Problem solving RAO") _ _ ?_ _ e he
      intro s ib e _ hs
      refine foldlM_error_of (fun e => e = "Problem solving RAO") _ _ ?_ _ e hs
      intro s ih e _ hs
      refine foldlM_error_of (fun e => e = "Problem solving RAO") _ _ ?_ _ e hs
      intro s ifr e _ hs
      exact GetRAOstep_error E critDamp _ ib ih s ifr e hs
    refine ⟨h1, ?_⟩
    rw [h1]
    decide

end

theorem C19_GetRAO_insufficient_data_witness :
    storeAB.Nb ≤ storeAB.msh.length ∧
    ∃ msg, msg ∈ insufficientDataMessages ∧
      storeAB.GetRAO plainRAOHelpers 0 = Except.error msg :=
  ⟨by decide, (C19_GetRAO_insufficient_data plainRAOHelpers storeAB 0).1
    (Or.inr (Or.inr (Or.inr ⟨0, by decide, Or.inl (by decide)⟩)))⟩

/-! ## `GetC` and the RAO -/

section

variable {K : Type} [Field K]

/-- With no heading the matrices `X` and `F` of `GetC` have no column and the
estimated stiffness is zero. -/
theorem GetCbody_no_heading (E : RAOHelpers K) (h : Hydro K) (ib : Nat) (hNh : h.Nh = 0) :
    GetCbody E h ib = 0 := by
  have hempty : (Finset.univ : Finset (Fin (h.Nh * h.Nf))) = ∅ :=
    Finset.univ_eq_empty_iff.2 ⟨fun c => absurd c.2 (by simp [hNh])⟩
  unfold GetCbody
  simp only
  have hz : ∀ (F X : Matrix (Fin 6) (Fin (h.Nh * h.Nf)) K), F * X.transpose = 0 := by
    intro F X
    ext i j
    simp [Matrix.mul_apply, hempty]
  rw [hz, zero_mul]

/-- When its two tests pass, `GetC` returns, whatever the RAO holds. -/
theorem GetC_ok (E : RAOHelpers K) (h : Hydro K)
    (hg : ¬ (h.Nf = 0 ∨ h.A.length < h.Nb * 6))
    (hM : ∀ ib, ib < h.Nb → ¬ (rows (bodyM h ib) < 6 ∨ cols (bodyM h ib) < 6)) :
    GetC E h = Except.ok ((List.range h.Nb).foldl (fun s ib =>
      { s with msh := s.msh.modify (fun b => { b with C := ofMat6 (GetCbody E s ib) }) ib })
      h) := by
  have hchecks : (List.range h.Nb).foldlM (fun _ ib => GetCcheck h ib) () =
      Except.ok () := by
    apply foldlM_checks_ok
    intro ib hib
    unfold GetCcheck
    rw [if_neg (hM ib (List.mem_range.1 hib))]
  unfold GetC
  rw [if_neg hg, hchecks]

end

/-- C20. The store `storeNoRAO` has no RAO (`dt.rao` is empty) and passes the two tests
of `GetC`; `GetC` does not throw on it: it returns the store with the stiffness of the
body set to the zero matrix. -/
theorem C20_GetC_without_RAO (E : RAOHelpers ℚ) :
    storeNoRAO.rao = [] ∧
    GetC E storeNoRAO =
      Except.ok { storeNoRAO with msh := [{ bodyM6 with C := ofMat6 0 }] } := by
  refine ⟨rfl, ?_⟩
  rw [GetC_ok E storeNoRAO (by decide) (by
    intro ib hib
    have h0 : ib = 0 := by
      have : ib < 1 := hib
      omega
    subst h0
    decide)]
  have hNb : storeNoRAO.Nb = 1 := rfl
  have hr : List.range 1 = [0] := rfl
  rw [hNb, hr, List.foldl_cons, List.foldl_nil, GetCbody_no_heading E storeNoRAO 0 rfl]
  rfl

/-! ## `GetQTFVal` -/

section

variable {K : Type} [Field K]

/-- Translating a force table by `delta` and then by the opposite vectors gives it
back, when its matrices are `Nf x 6` and hold numbers. -/
theorem TransF_roundtrip (Nb Nh Nf : Nat) (delta delta' : Nat → Fin 3 → K) (ex : Forces K)
    (hopp : ∀ ib, ib < Nb → delta' ib = fun i => -delta ib i)
    (hnum : ∀ r ∈ ex, ∀ m ∈ r, Dims2 m Nf 6 ∧ ∀ row ∈ m, ∀ v ∈ row, CVal.IsNum v = true) :
    TransF Nb Nh Nf delta' (TransF Nb Nh Nf delta ex) = ex := by
  apply table_roundtrip (TransF Nb Nh Nf delta) (TransF Nb Nh Nf delta') Nb Nh
    (fun a _ m => (List.range Nf).foldl (fun m ifr => TransFrow (delta a) m ifr) m)
    (fun a _ m => (List.range Nf).foldl (fun m ifr => TransFrow (delta' a) m ifr) m) ex
    (fun e a b => TransF_get2 Nb Nh Nf delta e a b)
    (fun e a b => TransF_get2 Nb Nh Nf delta' e a b)
    (fun e => TransF_shape Nb Nh Nf delta e) (fun e => TransF_shape Nb Nh Nf delta' e)
  intro a b c ha _ hc
  obtain ⟨r, hr, hcr⟩ := get2_mem hc
  rw [hopp a ha]
  exact TransF_cell_roundtrip (delta a) Nf c (hnum r hr c hcr).1 (hnum r hr c hcr).2

theorem TransMD_cell_roundtrip (d : Fin 3 → K) (Nf : Nat) (m : List (List (Option K)))
    (hd : Dims2 m 6 Nf) (hn : ∀ row ∈ m, ∀ v ∈ row, IsNum v = true) :
    (List.range Nf).foldl (fun m ifr => TransMDcol (fun i => -d i) m ifr)
      ((List.range Nf).foldl (fun m ifr => TransMDcol d m ifr) m) = m := by
  apply ext2_shape
  · rw [foldl_inv (fun (s : List (List (Option K))) => s.map List.length = m.map List.length)
      _ _ _ ?_ (fun s i hs => by dsimp only at hs ⊢; rw [TransMDcol_shape, hs])]
    exact foldl_inv (fun (s : List (List (Option K))) => s.map List.length = m.map List.length)
      _ _ _ rfl (fun s i hs => by dsimp only at hs ⊢; rw [TransMDcol_shape, hs])
  · intro i j
    exact momentLoop_roundtrip (fun (m : List (List (Option K))) (p : Nat × Nat) =>
        get2 m p.1 p.2)
      Val.add Val.smul none (fun m ifr => TransMDcol d m ifr)
      (fun m ifr => TransMDcol (fun i => -d i) m ifr) d (List.range Nf)
      (fun m s p => TransMDcol_get d m s p) (fun m s p => TransMDcol_get _ m s p)
      (List.nodup_range Nf) (fun v => IsNum v = true) Val_cancel m
      (by
        intro s hs c hc
        obtain ⟨v, hv⟩ := Option.isSome_iff_exists.1
          (hd.get2_isSome hc (List.mem_range.1 hs))
        obtain ⟨r, hr, hvr⟩ := get2_mem hv
        exact ⟨v, hv, hn r hr v hvr⟩)
      (i, j)

/-- Translating the mean drift by `delta` and then by the opposite vectors gives it
back, when its matrices are `6 x Nf` and hold numbers. -/
theorem TransMD_roundtrip (Nb nmh Nf : Nat) (delta delta' : Nat → Fin 3 → K) (md : MDTable K)
    (hopp : ∀ ib, ib < Nb → delta' ib = fun i => -delta ib i)
    (hnum : ∀ r ∈ md, ∀ m ∈ r, Dims2 m 6 Nf ∧ ∀ row ∈ m, ∀ v ∈ row, IsNum v = true) :
    TransMD Nb nmh Nf delta' (TransMD Nb nmh Nf delta md) = md := by
  apply table_roundtrip (TransMD Nb nmh Nf delta) (TransMD Nb nmh Nf delta') Nb nmh
    (fun a _ m => (List.range Nf).foldl (fun m ifr => TransMDcol (delta a) m ifr) m)
    (fun a _ m => (List.range Nf).foldl (fun m ifr => TransMDcol (delta' a) m ifr) m) md
    (fun e a b => TransMD_get2 Nb nmh Nf delta e a b)
    (fun e a b => TransMD_get2 Nb nmh Nf delta' e a b)
    (fun e => TransMD_shape Nb nmh Nf delta e) (fun e => TransMD_shape Nb nmh Nf delta' e)
  intro a b c ha _ hc
  obtain ⟨r, hr, hcr⟩ := get2_mem hc
  rw [hopp a ha]
  exact TransMD_cell_roundtrip (delta a) Nf c (hnum r hr c hcr).1 (hnum r hr c hcr).2

theorem TransQTFcell_get (d : Fin 3 → K) (m : List (CMatrix K)) (s : Nat × Nat)
    (p : Nat × (Nat × Nat)) :
    get3 (TransQTFcell d m s.1 s.2) p.1 p.2.1 p.2.2 =
      if p.2 = s then
        (get3 m p.1 p.2.1 p.2.2).map (fun _ => momentTerm CVal.add CVal.smul d
          (fun c => (get3 m c s.1 s.2).getD ⟨none, none⟩) p.1)
      else get3 m p.1 p.2.1 p.2.2 := by
  obtain ⟨c, a, b⟩ := p
  obtain ⟨s1, s2⟩ := s
  unfold TransQTFcell
  simp only [get3_set3]
  by_cases hr : (a, b) = (s1, s2)
  · cases hr
    simp only [true_and, and_true, if_true, momentTerm]
    by_cases c3 : c = 3
    · subst c3
      simp
    · by_cases c4 : c = 4
      · subst c4
        simp
      · by_cases c5 : c = 5
        · subst c5
          simp
        · have e3 : ¬ (3 = c) := fun h => c3 h.symm
          have e4 : ¬ (4 = c) := fun h => c4 h.symm
          have e5 : ¬ (5 = c) := fun h => c5 h.symm
          simp only [c3, c4, c5, e3, e4, e5, if_false, map_getD_self]
  · have hr' : ¬ (s1 = a ∧ s2 = b) := by
      rintro ⟨rfl, rfl⟩
      exact hr rfl
    have hr'' : ¬ (a = s1 ∧ b = s2) := by
      rintro ⟨rfl, rfl⟩
      exact hr rfl
    simp only [hr, hr', and_false, if_false, Prod.mk.injEq, hr'']

theorem TransQTFcell_shape (d : Fin 3 → K) (m : List (CMatrix K)) (i1 i2 : Nat) :
    (TransQTFcell d m i1 i2).map (fun r => r.map List.length) =
      m.map (fun r => r.map List.length) := by
  unfold TransQTFcell
  simp only [shape3_set3]

theorem TransQTF_cell_roundtrip (d : Fin 3 → K) (nqw : Nat) (m : List (CMatrix K))
    (hlen : m.length = 6)
    (hn : ∀ c ∈ m, Dims2 c nqw nqw ∧ ∀ row ∈ c, ∀ v ∈ row, CVal.IsNum v = true) :
    (List.range nqw).foldl (fun m ifr1 => (List.range nqw).foldl (fun m ifr2 =>
        TransQTFcell (fun i => -d i) m ifr1 ifr2) m)
      ((List.range nqw).foldl (fun m ifr1 => (List.range nqw).foldl (fun m ifr2 =>
        TransQTFcell d m ifr1 ifr2) m) m) = m := by
  rw [foldl_nested (fun m ifr1 ifr2 => TransQTFcell (fun i => -d i) m ifr1 ifr2)
    (fun _ => List.range nqw),
    foldl_nested (fun m ifr1 ifr2 => TransQTFcell d m ifr1 ifr2) (fun _ => List.range nqw)]
  apply ext3_shape
  · rw [foldl_inv (fun (s : List (CMatrix K)) =>
        s.map (fun r => r.map List.length) = m.map (fun r => r.map List.length))
      _ _ _ ?_ (fun s i hs => by dsimp only at hs ⊢; rw [TransQTFcell_shape, hs])]
    exact foldl_inv (fun (s : List (CMatrix K)) =>
        s.map (fun r => r.map List.length) = m.map (fun r => r.map List.length))
      _ _ _ rfl (fun s i hs => by dsimp only at hs ⊢; rw [TransQTFcell_shape, hs])
  · intro c a b
    exact momentLoop_roundtrip (fun (m : List (CMatrix K)) (p : Nat × (Nat × Nat)) =>
        get3 m p.1 p.2.1 p.2.2)
      CVal.add CVal.smul ⟨none, none⟩ (fun m s => TransQTFcell d m s.1 s.2)
      (fun m s => TransQTFcell (fun i => -d i) m s.1 s.2) d
      ((List.range nqw).flatMap (fun i => (List.range nqw).map (fun j => (i, j))))
      (fun m s p => TransQTFcell_get d m s p) (fun m s p => TransQTFcell_get _ m s p)
      (nodup_pairs _ _ (List.nodup_range nqw) (fun _ => List.nodup_range nqw))
      (fun v => CVal.IsNum v = true) CVal_cancel m
      (by
        intro s hs c hc
        obtain ⟨s1, s2⟩ := s
        obtain ⟨h1, h2⟩ := (mem_pairs _ _ _ _).1 hs
        have hc' : c < m.length := by omega
        have hmem : m[c] ∈ m := List.getElem_mem hc'
        obtain ⟨hdc, hnc⟩ := hn _ hmem
        obtain ⟨v, hv⟩ := Option.isSome_iff_exists.1
          (hdc.get2_isSome (List.mem_range.1 h1) (List.mem_range.1 h2))
        obtain ⟨r, hr, hvr⟩ := get2_mem hv
        refine ⟨v, ?_, hnc r hr v hvr⟩
        show get3 m c s1 s2 = some v
        have : get3 m c s1 s2 = get2 m[c] s1 s2 := by
          simp [get3, get2, List.getElem?_eq_getElem hc']
        rw [this, hv])
      (c, a, b)

/-- Translating a QTF table by `delta` and then by the opposite vectors gives it back,
when each of its cells holds six `nqw x nqw` matrices of numbers. -/
theorem TransQTF_roundtrip (Nb nqh nqw : Nat) (delta delta' : Nat → Fin 3 → K)
    (q : QTFTable K) (hopp : ∀ ib, ib < Nb → delta' ib = fun i => -delta ib i)
    (hnum : ∀ r ∈ q, ∀ m ∈ r, m.length = 6 ∧
      ∀ c ∈ m, Dims2 c nqw nqw ∧ ∀ row ∈ c, ∀ v ∈ row, CVal.IsNum v = true) :
    TransQTF Nb nqh nqw delta' (TransQTF Nb nqh nqw delta q) = q := by
  apply table_roundtrip (TransQTF Nb nqh nqw delta) (TransQTF Nb nqh nqw delta') Nb nqh
    (fun a _ m => (List.range nqw).foldl (fun m ifr1 =>
      (List.range nqw).foldl (fun m ifr2 => TransQTFcell (delta a) m ifr1 ifr2) m) m)
    (fun a _ m => (List.range nqw).foldl (fun m ifr1 =>
      (List.range nqw).foldl (fun m ifr2 => TransQTFcell (delta' a) m ifr1 ifr2) m) m) q
    (fun e a b => TransQTF_get2 Nb nqh nqw delta e a b)
    (fun e a b => TransQTF_get2 Nb nqh nqw delta' e a b)
    (fun e => TransQTF_shape Nb nqh nqw delta e) (fun e => TransQTF_shape Nb nqh nqw delta' e)
  intro a b c ha _ hc
  obtain ⟨r, hr, hcr⟩ := get2_mem hc
  rw [hopp a ha]
  exact TransQTF_cell_roundtrip (delta a) nqw c (hnum r hr c hcr).1 (hnum r hr c hcr).2

end

/-! ## The way back: added mass and damping -/

section

variable {K : Type} [Field K]

theorem SkewSymmetricMatrix_neg (d : Fin 3 → K) :
    SkewSymmetricMatrix (fun i => -d i) = -SkewSymmetricMatrix d := by
  ext i j
  fin_cases i <;> fin_cases j <;> simp [SkewSymmetricMatrix]

/-- The rigid-body transform for `-R` undoes the one for `R`. -/
theorem rigidBlock_back (Q11 Q12 Q21 Q22 R : Matrix (Fin 3) (Fin 3) K) (x y : Nat) :
    rigidBlock Q11 (Q12 + Q11 * R) (Q21 - R * Q11)
      (Q22 - R * Q12 + Q21 * R - R * Q11 * R) (-R) x y = block6 Q11 Q12 Q21 Q22 x y := by
  have e12 : Q12 + Q11 * R + Q11 * -R = Q12 := by
    rw [Matrix.mul_neg]; abel
  have e21 : Q21 - R * Q11 - -R * Q11 = Q21 := by
    rw [Matrix.neg_mul]; abel
  have e22 : Q22 - R * Q12 + Q21 * R - R * Q11 * R - -R * (Q12 + Q11 * R)
      + (Q21 - R * Q11) * -R - -R * Q11 * -R = Q22 := by
    simp only [Matrix.mul_neg, Matrix.neg_mul, Matrix.mul_add, Matrix.sub_mul, Matrix.mul_assoc]
    abel
  unfold rigidBlock block6
  rw [e12, e21, e22]

theorem shape_of_Dims3 {α : Type} {t : List (List (List α))} {n1 n2 n3 : Nat}
    (h : Dims3 t n1 n2 n3) :
    t.map (fun r => r.map List.length) = List.replicate n1 (List.replicate n2 n3) := by
  obtain ⟨⟨h1, h2⟩, h3⟩ := h
  apply List.ext_getElem
  · simp [h1]
  · intro i hi1 hi2
    simp only [List.getElem_map, List.getElem_replicate]
    have hi : i < t.length := by simpa using hi1
    have hr := List.getElem_mem hi
    apply List.ext_getElem
    · simp [h2 _ hr]
    · intro j hj1 hj2
      simp only [List.getElem_map, List.getElem_replicate]
      have hj : j < t[i].length := by simpa using hj1
      exact h3 _ hr _ (List.getElem_mem hj)

theorem shape_of_Dims2 {α : Type} {t : List (List α)} {n1 n2 : Nat} (h : Dims2 t n1 n2) :
    t.map List.length = List.replicate n1 n2 := by
  obtain ⟨h1, h2⟩ := h
  apply List.ext_getElem
  · simp [h1]
  · intro i hi1 hi2
    simp only [List.getElem_map, List.getElem_replicate]
    have hi : i < t.length := by simpa using hi1
    exact h2 _ (List.getElem_mem hi)

theorem get3_none_of_shape {α : Type} {t : List (List (List α))} {n1 n2 n3 : Nat}
    (h : t.map (fun r => r.map List.length) = List.replicate n1 (List.replicate n2 n3))
    (i j k : Nat) (hout : ¬ (i < n1 ∧ j < n2 ∧ k < n3)) : get3 t i j k = none := by
  have hlen : t.length = n1 := by simpa using congrArg List.length h
  unfold get3 get2
  by_cases hi : i < n1
  · have hi' : i < t.length := by omega
    rw [List.getElem?_eq_getElem hi']
    have hrow : t[i].map List.length = List.replicate n2 n3 := by
      have := congrArg (fun l => l[i]?) h
      simpa [List.getElem?_eq_getElem hi', List.getElem?_replicate, hi] using this
    have hlen2 : t[i].length = n2 := by simpa using congrArg List.length hrow
    by_cases hj : j < n2
    · have hj' : j < t[i].length := by omega
      simp only [Option.some_bind, List.getElem?_eq_getElem hj']
      have hcell : t[i][j].length = n3 := by
        have := congrArg (fun l => l[j]?) hrow
        simpa [List.getElem?_eq_getElem hj', List.getElem?_replicate, hj] using this
      have hk : ¬ k < n3 := fun hk => hout ⟨hi, hj, hk⟩
      exact List.getElem?_eq_none (by omega)
    · simp only [Option.some_bind]
      rw [List.getElem?_eq_none (by omega)]
      rfl
  · rw [List.getElem?_eq_none (by omega)]
    rfl

theorem get2_none_of_shape {α : Type} {t : List (List α)} {n1 n2 : Nat}
    (h : t.map List.length = List.replicate n1 n2)
    (i j : Nat) (hout : ¬ (i < n1 ∧ j < n2)) : get2 t i j = none := by
  have hlen : t.length = n1 := by simpa using congrArg List.length h
  unfold get2
  by_cases hi : i < n1
  · have hi' : i < t.length := by omega
    rw [List.getElem?_eq_getElem hi']
    have hrow : t[i].length = n2 := by
      have := congrArg (fun l => l[i]?) h
      simpa [List.getElem?_eq_getElem hi', List.getElem?_replicate, hi] using this
    have hj : ¬ j < n2 := fun hj => hout ⟨hi, hj⟩
    simp only [Option.some_bind]
    exact List.getElem?_eq_none (by omega)
  · rw [List.getElem?_eq_none (by omega)]
    rfl

theorem CopyTo_shape {K : Type} (F : Matrix (Fin 3) (Fin 3) K) (s : SeriesTable K) (i0 j0 k : Nat) :
    (CopyTo F s i0 j0 k).map (fun r => r.map List.length) =
      s.map (fun r => r.map List.length) := by
  unfold CopyTo
  apply foldl_inv (fun (t : SeriesTable K) =>
    t.map (fun r => r.map List.length) = s.map (fun r => r.map List.length)) _ _ _ rfl
  intro t i ht
  apply foldl_inv (fun (t : SeriesTable K) =>
    t.map (fun r => r.map List.length) = s.map (fun r => r.map List.length)) _ _ _ ht
  intro t j ht
  dsimp only at ht ⊢
  rw [shape3_set3, ht]

theorem TransABblock_shape (A s : SeriesTable K) (Rg : Matrix (Fin 3) (Fin 3) K)
    (i0 j0 k : Nat) :
    (TransABblock A s Rg i0 j0 k).map (fun r => r.map List.length) =
      s.map (fun r => r.map List.length) := by
  unfold TransABblock
  simp only [CopyTo_shape]

theorem TransAB_shape (Nb Nf : Nat) (force : Bool) (delta : Nat → Fin 3 → K)
    (A An : SeriesTable K) (hT : TransAB Nb Nf force delta A = Except.ok An) :
    An.map (fun r => r.map List.length) =
      List.replicate (6 * Nb) (List.replicate (6 * Nb) Nf) := by
  rw [TransAB_eq Nb Nf force delta A An hT]
  have h0 : (Initialize_AB Nb Nf : SeriesTable K).map (fun r => r.map List.length) =
      List.replicate (6 * Nb) (List.replicate (6 * Nb) Nf) := by
    simp [Initialize_AB]
  apply foldl_inv (fun (t : SeriesTable K) => t.map (fun r => r.map List.length) =
    List.replicate (6 * Nb) (List.replicate (6 * Nb) Nf)) _ _ _ h0
  intro t i ht
  apply foldl_inv (fun (t : SeriesTable K) => t.map (fun r => r.map List.length) =
    List.replicate (6 * Nb) (List.replicate (6 * Nb) Nf)) _ _ _ ht
  intro t j ht
  apply foldl_inv (fun (t : SeriesTable K) => t.map (fun r => r.map List.length) =
    List.replicate (6 * Nb) (List.replicate (6 * Nb) Nf)) _ _ _ ht
  intro t k ht
  dsimp only at ht ⊢
  rw [TransABblock_shape, ht]

/-- Every sample of a populated table is a number. -/
theorem NumAB_get {K : Type} {A : SeriesTable K} {Nb Nf : Nat} (h : NumAB A Nb Nf) {i j k : Nat}
    (hi : i < 6 * Nb) (hj : j < 6 * Nb) (hk : k < Nf) :
    ∃ v, get3 A i j k = some (some v) := by
  obtain ⟨_, hd, hn⟩ := h
  obtain ⟨v, hv⟩ := Option.isSome_iff_exists.1 (Dims3_get3 hd hi hj hk)
  have hmem : ∃ r ∈ A, ∃ c ∈ r, v ∈ c := by
    unfold get3 at hv
    obtain ⟨c, hc, hvc⟩ := Option.bind_eq_some.1 hv
    obtain ⟨r, hr, hcr⟩ := get2_mem hc
    exact ⟨r, hr, c, hcr, List.getElem?_mem hvc⟩
  obtain ⟨r, hr, c, hc, hvc⟩ := hmem
  have := hn r hr c hc v hvc
  cases v with
  | none => cases this
  | some x => exact ⟨x, hv⟩

/-- Every series of a table returned by `TransAB` holds numbers. -/
theorem TransAB_num (Nb Nf : Nat) (force : Bool) (delta : Nat → Fin 3 → K)
    (A An : SeriesTable K) (hT : TransAB Nb Nf force delta A = Except.ok An) {i j k : Nat}
    (hi : i < 6 * Nb) (hj : j < 6 * Nb) (hk : k < Nf) :
    ∃ v, get3 An i j k = some (some v) := by
  rw [TransAB_eq Nb Nf force delta A An hT]
  have h := TransAB_get Nb Nf delta A (i / 6) (j / 6) k (i % 6) (j % 6)
    (by omega) (by omega) hk (Nat.mod_lt _ (by omega)) (Nat.mod_lt _ (by omega))
  rw [Nat.div_add_mod' i 6, Nat.div_add_mod' j 6] at h
  exact ⟨_, h⟩

theorem TransABcheck_of_num {K : Type} (A : SeriesTable K) (Nb : Nat) (ib jb : Nat) (hib : ib < Nb)
    (hjb : jb < Nb)
    (h : ∀ i j, i < 6 * Nb → j < 6 * Nb → ∃ v, get3 A i j 0 = some (some v)) :
    TransABcheck A (ib * 6) (jb * 6) = true := by
  unfold TransABcheck
  rw [List.all_eq_true]
  intro x hx
  rw [List.all_eq_true]
  intro y hy
  have hx := List.mem_range.1 hx
  have hy := List.mem_range.1 hy
  obtain ⟨v, hv⟩ := h (ib * 6 + x) (jb * 6 + y) (by omega) (by omega)
  rw [hv]
  rfl

theorem TransAB_succeeds (Nb Nf : Nat) (force : Bool) (delta : Nat → Fin 3 → K)
    (A : SeriesTable K) (hnum : NumAB A Nb Nf) :
    ∃ An, TransAB Nb Nf force delta A = Except.ok An :=
  ⟨_, TransAB_ok Nb Nf force delta A (Or.inr (fun ib jb hib hjb =>
    TransABcheck_of_num A Nb ib jb hib hjb (fun _ _ hi hj => NumAB_get hnum hi hj hnum.1)))⟩

/-- Translating a populated table by `delta` and the result by the opposite vectors
gives the table back. -/
theorem TransAB_roundtrip (Nb Nf : Nat) (force force' : Bool) (delta delta' : Nat → Fin 3 → K)
    (A An : SeriesTable K) (hnum : NumAB A Nb Nf)
    (hopp : ∀ ib, ib < Nb → delta' ib = fun i => -delta ib i)
    (hT : TransAB Nb Nf force delta A = Except.ok An) :
    TransAB Nb Nf force' delta' An = Except.ok A := by
  have hok := TransAB_ok Nb Nf force' delta' An (Or.inr (fun ib jb hib hjb =>
    TransABcheck_of_num An Nb ib jb hib hjb (fun _ _ hi hj =>
      TransAB_num Nb Nf force delta A An hT hi hj hnum.1)))
  rw [hok]
  congr 1
  have hsh := TransAB_shape Nb Nf force' delta' An _ hok
  apply ext3_shape
  · rw [hsh, shape_of_Dims3 hnum.2.1]
  · intro i j k
    by_cases hin : i < 6 * Nb ∧ j < 6 * Nb ∧ k < Nf
    · obtain ⟨hi, hj, hk⟩ := hin
      have hib : i / 6 < Nb := by omega
      have hjb : j / 6 < Nb := by omega
      have hx : i % 6 < 6 := Nat.mod_lt _ (by omega)
      have hy : j % 6 < 6 := Nat.mod_lt _ (by omega)
      have hA : ∀ (a b : Nat) (x y : Fin 3), a + 3 ≤ 6 → b + 3 ≤ 6 →
          CopyFrom A (i / 6 * 6 + a) (j / 6 * 6 + b) k x y =
            some (Nvl0 (CopyFrom A (i / 6 * 6 + a) (j / 6 * 6 + b) k) x y) := by
        intro a b x y ha hb
        obtain ⟨v, hv⟩ := NumAB_get hnum (show i / 6 * 6 + a + x.val < 6 * Nb by omega)
          (show j / 6 * 6 + b + y.val < 6 * Nb by omega) hk
        simp only [Nvl0, CopyFrom, hv, Option.getD_some, Nvl]
      have hP := TransAB_partitions Nb Nf force delta A An hT (i / 6) (j / 6) k hib hjb hk
        (Nvl0 (CopyFrom A (i / 6 * 6) (j / 6 * 6) k))
        (Nvl0 (CopyFrom A (i / 6 * 6) (j / 6 * 6 + 3) k))
        (Nvl0 (CopyFrom A (i / 6 * 6 + 3) (j / 6 * 6) k))
        (Nvl0 (CopyFrom A (i / 6 * 6 + 3) (j / 6 * 6 + 3) k))
        (by funext x y; exact hA 0 0 x y (by omega) (by omega))
        (by funext x y; exact hA 0 3 x y (by omega) (by omega))
        (by funext x y; exact hA 3 0 x y (by omega) (by omega))
        (by funext x y; exact hA 3 3 x y (by omega) (by omega))
      obtain ⟨p11, p12, p21, p22⟩ := hP
      have hget := TransAB_get Nb Nf delta' An (i / 6) (j / 6) k (i % 6) (j % 6) hib hjb hk
        hx hy
      rw [Nat.div_add_mod' i 6, Nat.div_add_mod' j 6] at hget
      rw [hget]
      simp only [Nat.add_zero, p11, p12, p21, p22, Nvl0_some, hopp _ hib,
        SkewSymmetricMatrix_neg, rigidBlock_back]
      obtain ⟨v, hv⟩ := NumAB_get hnum hi hj hk
      rw [hv]
      congr 2
      have hv' : get3 A (i / 6 * 6 + i % 6) (j / 6 * 6 + j % 6) k = some (some v) := by
        rw [Nat.div_add_mod' i 6, Nat.div_add_mod' j 6]
        exact hv
      unfold block6
      split_ifs with h1 h2 h2
      · simp only [Nvl0, CopyFrom, Fin_ofNat_lt (show i % 6 < 2 + 1 from h1),
          Fin_ofNat_lt (show j % 6 < 2 + 1 from h2), hv', Option.getD_some, Nvl]
      · have e : j / 6 * 6 + 3 + (j % 6 - 3) = j / 6 * 6 + j % 6 := by omega
        simp only [Nvl0, CopyFrom, Fin_ofNat_lt (show i % 6 < 2 + 1 from h1),
          Fin_ofNat_lt (show j % 6 - 3 < 2 + 1 by omega), e, hv', Option.getD_some, Nvl]
      · have e : i / 6 * 6 + 3 + (i % 6 - 3) = i / 6 * 6 + i % 6 := by omega
        simp only [Nvl0, CopyFrom, Fin_ofNat_lt (show i % 6 - 3 < 2 + 1 by omega),
          Fin_ofNat_lt (show j % 6 < 2 + 1 from h2), e, hv', Option.getD_some, Nvl]
      · have e : i / 6 * 6 + 3 + (i % 6 - 3) = i / 6 * 6 + i % 6 := by omega
        have e' : j / 6 * 6 + 3 + (j % 6 - 3) = j / 6 * 6 + j % 6 := by omega
        simp only [Nvl0, CopyFrom, Fin_ofNat_lt (show i % 6 - 3 < 2 + 1 by omega),
          Fin_ofNat_lt (show j % 6 - 3 < 2 + 1 by omega), e, e', hv', Option.getD_some, Nvl]
    · rw [get3_none_of_shape hsh i j k hin,
        get3_none_of_shape (shape_of_Dims3 hnum.2.1) i j k hin]

end

section

variable {K : Type} [Field K]

theorem setBlock3_shape {K : Type} (F : Matrix (Fin 3) (Fin 3) K) (s : RMatrix K)
    (i0 j0 : Nat) : (setBlock3 F s i0 j0).map List.length = s.map List.length := by
  unfold setBlock3
  apply foldl_inv (fun (t : RMatrix K) => t.map List.length = s.map List.length) _ _ _ rfl
  intro t i ht
  apply foldl_inv (fun (t : RMatrix K) => t.map List.length = s.map List.length) _ _ _ ht
  intro t j ht
  dsimp only at ht ⊢
  rw [shape2_set2, ht]

theorem TransAblock_shape (A s : RMatrix K) (Rg : Matrix (Fin 3) (Fin 3) K) (i0 j0 : Nat) :
    (TransAblock A s Rg i0 j0).map List.length = s.map List.length := by
  unfold TransAblock
  simp only [setBlock3_shape]

theorem TransA_shape (Nb : Nat) (force : Bool) (delta : Nat → Fin 3 → K)
    (A An : RMatrix K) (hT : TransA Nb force delta A = Except.ok An) :
    An.map List.length = List.replicate (6 * Nb) (6 * Nb) := by
  rw [TransA_eq Nb force delta A An hT]
  have h0 : (List.replicate (6 * Nb) (List.replicate (6 * Nb) (some (0 : K)))).map
      List.length = List.replicate (6 * Nb) (6 * Nb) := by
    simp
  apply foldl_inv (fun (t : RMatrix K) => t.map List.length =
    List.replicate (6 * Nb) (6 * Nb)) _ _ _ h0
  intro t i ht
  apply foldl_inv (fun (t : RMatrix K) => t.map List.length =
    List.replicate (6 * Nb) (6 * Nb)) _ _ _ ht
  intro t j ht
  dsimp only at ht ⊢
  rw [TransAblock_shape, ht]

/-- Every entry of a populated matrix is a number. -/
theorem NumA_get {K : Type} {A : RMatrix K} {Nb : Nat} (h : NumA A Nb) {i j : Nat}
    (hi : i < 6 * Nb) (hj : j < 6 * Nb) : ∃ v, get2 A i j = some (some v) := by
  obtain ⟨hd, hn⟩ := h
  obtain ⟨v, hv⟩ := Option.isSome_iff_exists.1 (hd.get2_isSome hi hj)
  obtain ⟨r, hr, hvr⟩ := get2_mem hv
  have := hn r hr v hvr
  cases v with
  | none => cases this
  | some x => exact ⟨x, hv⟩

theorem TransA_num (Nb : Nat) (force : Bool) (delta : Nat → Fin 3 → K)
    (A An : RMatrix K) (hT : TransA Nb force delta A = Except.ok An) {i j : Nat}
    (hi : i < 6 * Nb) (hj : j < 6 * Nb) : ∃ v, get2 An i j = some (some v) := by
  rw [TransA_eq Nb force delta A An hT]
  have h := TransA_get Nb delta A (i / 6) (j / 6) (i % 6) (j % 6)
    (by omega) (by omega) (Nat.mod_lt _ (by omega)) (Nat.mod_lt _ (by omega))
  rw [Nat.div_add_mod' i 6, Nat.div_add_mod' j 6] at h
  exact ⟨_, h⟩

theorem TransAcheck_of_num {K : Type} (A : RMatrix K) (Nb : Nat) (ib jb : Nat) (hib : ib < Nb)
    (hjb : jb < Nb)
    (h : ∀ i j, i < 6 * Nb → j < 6 * Nb → ∃ v, get2 A i j = some (some v)) :
    TransAcheck A (ib * 6) (jb * 6) = true := by
  unfold TransAcheck
  rw [List.all_eq_true]
  intro x hx
  rw [List.all_eq_true]
  intro y hy
  have hx := List.mem_range.1 hx
  have hy := List.mem_range.1 hy
  obtain ⟨v, hv⟩ := h (ib * 6 + x) (jb * 6 + y) (by omega) (by omega)
  rw [hv]
  rfl

theorem TransA_succeeds (Nb : Nat) (force : Bool) (delta : Nat → Fin 3 → K)
    (A : RMatrix K) (hnum : NumA A Nb) :
    ∃ An, TransA Nb force delta A = Except.ok An :=
  ⟨_, TransA_ok Nb force delta A (Or.inr (fun ib jb hib hjb =>
    TransAcheck_of_num A Nb ib jb hib hjb (fun _ _ hi hj => NumA_get hnum hi hj)))⟩

/-- Translating a populated matrix by `delta` and the result by the opposite vectors
gives the matrix back. -/
theorem TransA_roundtrip (Nb : Nat) (force force' : Bool) (delta delta' : Nat → Fin 3 → K)
    (A An : RMatrix K) (hnum : NumA A Nb)
    (hopp : ∀ ib, ib < Nb → delta' ib = fun i => -delta ib i)
    (hT : TransA Nb force delta A = Except.ok An) :
    TransA Nb force' delta' An = Except.ok A := by
  have hok := TransA_ok Nb force' delta' An (Or.inr (fun ib jb hib hjb =>
    TransAcheck_of_num An Nb ib jb hib hjb (fun _ _ hi hj =>
      TransA_num Nb force delta A An hT hi hj)))
  rw [hok]
  congr 1
  have hsh := TransA_shape Nb force' delta' An _ hok
  apply ext2_shape
  · rw [hsh, shape_of_Dims2 hnum.1]
  · intro i j
    by_cases hin : i < 6 * Nb ∧ j < 6 * Nb
    · obtain ⟨hi, hj⟩ := hin
      have hib : i / 6 < Nb := by omega
      have hjb : j / 6 < Nb := by omega
      have hx : i % 6 < 6 := Nat.mod_lt _ (by omega)
      have hy : j % 6 < 6 := Nat.mod_lt _ (by omega)
      have hA : ∀ (a b : Nat) (x y : Fin 3), a + 3 ≤ 6 → b + 3 ≤ 6 →
          block3 A (i / 6 * 6 + a) (j / 6 * 6 + b) x y =
            some (Nvl0 (block3 A (i / 6 * 6 + a) (j / 6 * 6 + b)) x y) := by
        intro a b x y ha hb
        obtain ⟨v, hv⟩ := NumA_get hnum (show i / 6 * 6 + a + x.val < 6 * Nb by omega)
          (show j / 6 * 6 + b + y.val < 6 * Nb by omega)
        simp only [Nvl0, block3, hv, Option.getD_some, Nvl]
      have hP := TransA_partitions Nb force delta A An hT (i / 6) (j / 6) hib hjb
        (Nvl0 (block3 A (i / 6 * 6) (j / 6 * 6)))
        (Nvl0 (block3 A (i / 6 * 6) (j / 6 * 6 + 3)))
        (Nvl0 (block3 A (i / 6 * 6 + 3) (j / 6 * 6)))
        (Nvl0 (block3 A (i / 6 * 6 + 3) (j / 6 * 6 + 3)))
        ⟨by funext x y; exact hA 0 0 x y (by omega) (by omega),
          by funext x y; exact hA 0 3 x y (by omega) (by omega),
          by funext x y; exact hA 3 0 x y (by omega) (by omega),
          by funext x y; exact hA 3 3 x y (by omega) (by omega)⟩
      obtain ⟨p11, p12, p21, p22⟩ := hP
      have hget := TransA_get Nb delta' An (i / 6) (j / 6) (i % 6) (j % 6) hib hjb hx hy
      rw [Nat.div_add_mod' i 6, Nat.div_add_mod' j 6] at hget
      rw [hget]
      simp only [Nat.add_zero, p11, p12, p21, p22, Nvl0_some, hopp _ hib,
        SkewSymmetricMatrix_neg, rigidBlock_back]
      obtain ⟨v, hv⟩ := NumA_get hnum hi hj
      rw [hv]
      congr 2
      have hv' : get2 A (i / 6 * 6 + i % 6) (j / 6 * 6 + j % 6) = some (some v) := by
        rw [Nat.div_add_mod' i 6, Nat.div_add_mod' j 6]
        exact hv
      unfold block6
      split_ifs with h1 h2 h2
      · simp only [Nvl0, block3, Fin_ofNat_lt (show i % 6 < 2 + 1 from h1),
          Fin_ofNat_lt (show j % 6 < 2 + 1 from h2), hv', Option.getD_some, Nvl]
      · have e : j / 6 * 6 + 3 + (j % 6 - 3) = j / 6 * 6 + j % 6 := by omega
        simp only [Nvl0, block3, Fin_ofNat_lt (show i % 6 < 2 + 1 from h1),
          Fin_ofNat_lt (show j % 6 - 3 < 2 + 1 by omega), e, hv', Option.getD_some, Nvl]
      · have e : i / 6 * 6 + 3 + (i % 6 - 3) = i / 6 * 6 + i % 6 := by omega
        simp only [Nvl0, block3, Fin_ofNat_lt (show i % 6 - 3 < 2 + 1 by omega),
          Fin_ofNat_lt (show j % 6 < 2 + 1 from h2), e, hv', Option.getD_some, Nvl]
      · have e : i / 6 * 6 + 3 + (i % 6 - 3) = i / 6 * 6 + i % 6 := by omega
        have e' : j / 6 * 6 + 3 + (j % 6 - 3) = j / 6 * 6 + j % 6 := by omega
        simp only [Nvl0, block3, Fin_ofNat_lt (show i % 6 - 3 < 2 + 1 by omega),
          Fin_ofNat_lt (show j % 6 - 3 < 2 + 1 by omega), e, e', hv', Option.getD_some, Nvl]
    · rw [get2_none_of_shape hsh i j hin, get2_none_of_shape (shape_of_Dims2 hnum.1) i j hin]

end

/-! ## The way back: the store -/

section

variable {K : Type} [Field K] [DecidableEq K]

theorem GetTranslationTo_success (L : LoadedTests K) (X : Externals K) (h : Hydro K)
    (to' : RMatrix K) (force : Bool) (Status : String → Int → Bool)
    (hto : IsNumMat to' = true) (A Aw B BH : SeriesTable K) (A0 Ainf : RMatrix K)
    (hA : attempt (L.IsLoadedA h.A)
      (TransAB h.Nb h.Nf force (translationDelta to' h.msh) h.A) h.A = Except.ok A)
    (hAw : attempt (L.IsLoadedAinf_w h.Ainf_w)
      (TransAB h.Nb h.Nf force (translationDelta to' h.msh) h.Ainf_w) h.Ainf_w = Except.ok Aw)
    (hB : attempt (L.IsLoadedB h.B)
      (TransAB h.Nb h.Nf force (translationDelta to' h.msh) h.B) h.B = Except.ok B)
    (hBH : attempt (L.IsLoadedB_H h.B_H)
      (TransAB h.Nb h.Nf force (translationDelta to' h.msh) h.B_H) h.B_H = Except.ok BH)
    (hA0 : attempt (L.IsLoadedA0 h.A0)
      (TransA h.Nb force (translationDelta to' h.msh) h.A0) h.A0 = Except.ok A0)
    (hAinf : attempt (L.IsLoadedAinf h.Ainf)
      (TransA h.Nb force (translationDelta to' h.msh) h.Ainf) h.Ainf = Except.ok Ainf) :
    GetTranslationTo L X h to' force Status =
      ⟨translateRest L X to' (translationDelta to' h.msh)
        { h with A := A, Ainf_w := Aw, B := B, B_H := BH, A0 := A0, Ainf := Ainf }, none⟩ := by
  unfold GetTranslationTo
  simp only [hto, Bool.not_true, Bool.false_eq_true, if_false, hA, hAw, hB, hBH, hA0, hAinf]

theorem translateRest_counts (L : LoadedTests K) (X : Externals K) (to' : RMatrix K)
    (delta : Nat → Fin 3 → K) (h : Hydro K) :
    (translateRest L X to' delta h).Nb = h.Nb ∧ (translateRest L X to' delta h).Nf = h.Nf ∧
    (translateRest L X to' delta h).Nh = h.Nh ∧
    (translateRest L X to' delta h).mdhead = h.mdhead ∧
    (translateRest L X to' delta h).qw = h.qw ∧
    (translateRest L X to' delta h).Ainf_w = h.Ainf_w ∧
    (translateRest L X to' delta h).B_H = h.B_H :=
  ⟨rfl, rfl, rfl, rfl, rfl, rfl, rfl⟩

/-- After the translation the reference point of each body is the column of the target. -/
theorem translateRest_c0 (L : LoadedTests K) (X : Externals K) (to' : RMatrix K)
    (delta : Nat → Fin 3 → K) (h : Hydro K) (ib : Nat) (hib : ib < h.Nb)
    (hm : ib < h.msh.length) :
    c0Of (translateRest L X to' delta h).msh ib = colPoint to' ib := by
  have hmsh : (translateRest L X to' delta h).msh =
      (List.range h.Nb).foldl (fun msh ib =>
        msh.modify (fun b => { b with c0 := colPoint to' ib }) ib)
      ((List.range h.Nb).foldl (fun msh ib =>
        msh.modify (fun b =>
          { b with Aadd := [], C := [], Cmoor := [], Cadd := [], Dlin := [], Dquad := [] }) ib)
        (if L.IsLoadedM (h.msh.map Body.M) then
          (List.range h.Nb).foldl (fun msh ib =>
            msh.modify (fun b => { b with M := X.TranslateInertia66 b (colPoint to' ib) }) ib)
            h.msh
          else h.msh)) := rfl
  unfold c0Of
  rw [hmsh, foldl_modify_range, if_pos hib, foldl_modify_range, if_pos hib]
  have hb : ∃ b, (if L.IsLoadedM (h.msh.map Body.M) then
          (List.range h.Nb).foldl (fun msh ib =>
            msh.modify (fun b => { b with M := X.TranslateInertia66 b (colPoint to' ib) }) ib)
            h.msh
          else h.msh)[ib]? = some b := by
    split_ifs
    · rw [foldl_modify_range, if_pos hib, List.getElem?_eq_getElem hm]
      exact ⟨_, rfl⟩
    · rw [List.getElem?_eq_getElem hm]
      exact ⟨_, rfl⟩
  obtain ⟨b, hb⟩ := hb
  rw [hb]
  rfl

theorem get2_centres {K : Type} (h : Hydro K) (idf : Fin 3) (ib : Nat) (hib : ib < h.Nb) :
    get2 (centres h) idf.val ib = some ((c0Of h.msh ib).get idf) := by
  unfold get2 centres
  fin_cases idf <;> simp [List.finRange, List.getElem?_range hib, hib]

/-- The translation back to the original reference points is by the opposite vectors. -/
theorem translationDelta_back (L : LoadedTests K) (X : Externals K) (to' : RMatrix K)
    (delta : Nat → Fin 3 → K) (h h1 : Hydro K) (hNb : h1.Nb = h.Nb)
    (hmsh : h1.msh = h.msh) (hlen : h.Nb ≤ h.msh.length) (ib : Nat) (hib : ib < h.Nb) :
    translationDelta (centres h) (translateRest L X to' delta h1).msh ib =
      fun i => -translationDelta to' h.msh ib i := by
  funext idf
  unfold translationDelta
  rw [translateRest_c0 L X to' delta h1 ib (by omega) (by rw [hmsh]; omega),
    get2_centres h idf ib hib]
  have hc : (colPoint to' ib).get idf = (get2 to' idf.val ib).getD none := by
    fin_cases idf <;> rfl
  rw [hc, Option.getD_some]
  ring

end

section

variable {K : Type} [Field K]

theorem attemptAB_ok (loaded : Bool) (Nb Nf : Nat) (force : Bool) (delta : Nat → Fin 3 → K)
    (A : SeriesTable K) (hnum : loaded = true → NumAB A Nb Nf) :
    ∃ An, attempt loaded (TransAB Nb Nf force delta A) A = Except.ok An := by
  cases loaded with
  | false => exact ⟨A, rfl⟩
  | true => exact TransAB_succeeds Nb Nf force delta A (hnum rfl)

theorem attemptAB_back (loaded : Bool) (Nb Nf : Nat) (force force' : Bool)
    (delta delta' : Nat → Fin 3 → K) (A An : SeriesTable K)
    (hnum : loaded = true → NumAB A Nb Nf)
    (hopp : ∀ ib, ib < Nb → delta' ib = fun i => -delta ib i)
    (hT : attempt loaded (TransAB Nb Nf force delta A) A = Except.ok An) :
    attempt loaded (TransAB Nb Nf force' delta' An) An = Except.ok A := by
  cases loaded with
  | false =>
    cases hT
    rfl
  | true => exact TransAB_roundtrip Nb Nf force force' delta delta' A An (hnum rfl) hopp hT

theorem attemptA_ok (loaded : Bool) (Nb : Nat) (force : Bool) (delta : Nat → Fin 3 → K)
    (A : RMatrix K) (hnum : loaded = true → NumA A Nb) :
    ∃ An, attempt loaded (TransA Nb force delta A) A = Except.ok An := by
  cases loaded with
  | false => exact ⟨A, rfl⟩
  | true => exact TransA_succeeds Nb force delta A (hnum rfl)

theorem attemptA_back (loaded : Bool) (Nb : Nat) (force force' : Bool)
    (delta delta' : Nat → Fin 3 → K) (A An : RMatrix K)
    (hnum : loaded = true → NumA A Nb)
    (hopp : ∀ ib, ib < Nb → delta' ib = fun i => -delta ib i)
    (hT : attempt loaded (TransA Nb force delta A) A = Except.ok An) :
    attempt loaded (TransA Nb force' delta' An) An = Except.ok A := by
  cases loaded with
  | false =>
    cases hT
    rfl
  | true => exact TransA_roundtrip Nb force force' delta delta' A An (hnum rfl) hopp hT

end

/-! ## The way back: the translation to the original reference points -/

section

variable {K : Type} [Field K] [DecidableEq K]

theorem back_cond {α : Type} (t : α → Bool) (f g : α → α) (a : α)
    (hst : t (if t a then f a else a) = t a) (hg : t a = true → g (f a) = a) :
    (if t (if t a then f a else a) then g (if t a then f a else a)
      else (if t a then f a else a)) = a := by
  rw [hst]
  by_cases h : t a = true
  · rw [if_pos h, if_pos h, hg h]
  · rw [if_neg h, if_neg h]

theorem mem_removePositions {α : Type} (ids : List Nat) (l : List α) (x : α)
    (h : x ∈ removePositions ids l) : x ∈ l := by
  unfold removePositions at h
  obtain ⟨p, hp, rfl⟩ := List.mem_map.1 h
  have hp' := (List.mem_filter.1 hp).1
  obtain ⟨i, x⟩ := p
  exact List.getElem?_mem (List.mk_mem_enum_iff_getElem?.1 hp')

/-- With no crossed heading pair the loop that deletes them leaves its state as it is. -/
theorem deleteCrossedHeadings_id {K : Type} [DecidableEq K] (L : LoadedTests K) (Nb : Nat) (s : QTFHeads K)
    (hnc : ∀ q ∈ s.qhead, Val.ne q.re q.im = false) : deleteCrossedHeadings L Nb s = s := by
  unfold deleteCrossedHeadings
  apply foldl_fixed
  intro ih hih
  have hlt : ih < s.qhead.length := List.mem_range.1 (List.mem_reverse.1 hih)
  have hq := hnc _ (List.getElem_mem hlt)
  simp only [List.getElem?_eq_getElem hlt, Option.getD_some, hq, Bool.false_eq_true, if_false]

end

/-- Removing heading slices from the bodies of a QTF family that holds numbers only
leaves a family that holds numbers only. -/
theorem NumQTF_removePositions {K : Type} (nqw : Nat) (q q' : QTFTable K) (c : Nat → Prop)
    [DecidablePred c] (ids : List Nat)
    (hq : ∀ ib, q'[ib]? = if c ib then (q[ib]?).map (removePositions ids) else q[ib]?)
    (hn : NumQTF q nqw) : NumQTF q' nqw := by
  intro r hr m hm
  obtain ⟨ib, hib⟩ := List.getElem?_of_mem hr
  rw [hq ib] at hib
  split_ifs at hib
  · obtain ⟨r0, hr0, rfl⟩ := Option.map_eq_some'.1 hib
    exact hn r0 (List.getElem?_mem hr0) m (mem_removePositions _ _ _ hm)
  · exact hn r (List.getElem?_mem hib) m hm

/-- A QTF family `q0` that the deletion of the crossed headings has turned into `q1`,
when the loaded test answers after the translation `F` of `q1` as it does on `q0`: the
test answers on `q1` as on `q0`, and `q1` holds the slices of the same-heading pairs of
a loaded `q0`. -/
theorem slices_agree {K : Type} (t : QTFTable K → Bool) (Nb : Nat) (q0 q1 : QTFTable K)
    (F : QTFTable K → QTFTable K) (ids : List Nat)
    (hfalse : t q0 = false → q1 = q0)
    (htrue : t q1 = true → ∀ ib, q1[ib]? =
      if ib < Nb then (q0[ib]?).map (removePositions ids) else q0[ib]?)
    (hg : t (if t q1 then F q1 else q1) = t q0) :
    t q1 = t q0 ∧ ∀ ib, q1[ib]? =
      if t q0 = true ∧ ib < Nb then (q0[ib]?).map (removePositions ids) else q0[ib]? := by
  have e := loaded_agree t F q0 q1 hfalse hg
  refine ⟨e, fun ib => ?_⟩
  by_cases h0 : t q0 = true
  · rw [htrue (e.trans h0) ib]
    by_cases h2 : ib < Nb
    · rw [if_pos h2, if_pos ⟨h0, h2⟩]
    · rw [if_neg h2, if_neg (fun hc => h2 hc.2)]
  · rw [if_neg (fun hc => h0 hc.1), hfalse (by simpa using h0)]

section

variable {K : Type} [Field K] [DecidableEq K]

/-- C3 (amended). On a store `h` whose loaded `A`, `Ainf_w`, `B`, `B_H`, `A0` and `Ainf`
hold numbers only, with numeric reference points and a numeric target `to`, and with
loaded tests that answer after the first translation as before it:
`GetTranslationTo(to)` succeeds, `GetTranslationTo` back to the original reference
points succeeds on its result, and then `A`, `Ainf_w`, `B`, `B_H`, `A0` and `Ainf` are
exactly as before the first call. Each of the excitation, scattering and Froude-Krylov
forces and the mean drift is exactly as before when it is not loaded or holds numbers
only. `qhead` holds the same-heading pairs; each QTF family that is not loaded or holds
numbers only holds, body by body, its original slices of the same-heading pairs, and is
exactly as before when no heading pair is crossed. -/
theorem C3_translation_roundtrip (L : LoadedTests K) (X : Externals K) (h : Hydro K)
    (to' : RMatrix K) (force : Bool) (Status : String → Int → Bool)
    (hto : IsNumMat to' = true) (hc0 : IsNumMat (centres h) = true) (hpop : PopulatedAB L h)
    (hag : TranslationAgree L h (GetTranslationTo L X h to' force Status).store) :
    (GetTranslationTo L X h to' force Status).error = none ∧
    (GetTranslationTo L X (GetTranslationTo L X h to' force Status).store (centres h)
      force Status).error = none ∧
    (GetTranslationTo L X (GetTranslationTo L X h to' force Status).store (centres h)
      force Status).store.A = h.A ∧
    (GetTranslationTo L X (GetTranslationTo L X h to' force Status).store (centres h)
      force Status).store.Ainf_w = h.Ainf_w ∧
    (GetTranslationTo L X (GetTranslationTo L X h to' force Status).store (centres h)
      force Status).store.B = h.B ∧
    (GetTranslationTo L X (GetTranslationTo L X h to' force Status).store (centres h)
      force Status).store.B_H = h.B_H ∧
    (GetTranslationTo L X (GetTranslationTo L X h to' force Status).store (centres h)
      force Status).store.A0 = h.A0 ∧
    (GetTranslationTo L X (GetTranslationTo L X h to' force Status).store (centres h)
      force Status).store.Ainf = h.Ainf ∧
    ((L.IsLoadedFex h.ex = true → NumF h.ex h.Nf) → (GetTranslationTo L X (GetTranslationTo L X h to' force Status).store (centres h)
      force Status).store.ex = h.ex) ∧
    ((L.IsLoadedFsc h.sc = true → NumF h.sc h.Nf) → (GetTranslationTo L X (GetTranslationTo L X h to' force Status).store (centres h)
      force Status).store.sc = h.sc) ∧
    ((L.IsLoadedFfk h.fk = true → NumF h.fk h.Nf) → (GetTranslationTo L X (GetTranslationTo L X h to' force Status).store (centres h)
      force Status).store.fk = h.fk) ∧
    ((L.IsLoadedMD h.md 0 = true → NumMD h.md h.Nf) → (GetTranslationTo L X (GetTranslationTo L X h to' force Status).store (centres h)
      force Status).store.md = h.md) ∧
    (GetTranslationTo L X (GetTranslationTo L X h to' force Status).store (centres h)
      force Status).store.qhead = h.qhead.filter (fun q => !Val.ne q.re q.im) ∧
    ((L.IsLoadedQTF true h.qtfsum 0 = true → NumQTF h.qtfsum h.qw.length) →
      ∀ ib, (GetTranslationTo L X (GetTranslationTo L X h to' force Status).store (centres h)
        force Status).store.qtfsum[ib]? =
        if L.IsLoadedQTF true h.qtfsum 0 = true ∧ ib < h.Nb then
          (h.qtfsum[ib]?).map (removePositions (crossedHeadings h.qhead))
        else h.qtfsum[ib]?) ∧
    ((L.IsLoadedQTF false h.qtfdif 0 = true → NumQTF h.qtfdif h.qw.length) →
      ∀ ib, (GetTranslationTo L X (GetTranslationTo L X h to' force Status).store (centres h)
        force Status).store.qtfdif[ib]? =
        if L.IsLoadedQTF false h.qtfdif 0 = true ∧ ib < h.Nb then
          (h.qtfdif[ib]?).map (removePositions (crossedHeadings h.qhead))
        else h.qtfdif[ib]?) ∧
    ((∀ q ∈ h.qhead, Val.ne q.re q.im = false) →
      ((L.IsLoadedQTF true h.qtfsum 0 = true → NumQTF h.qtfsum h.qw.length) →
        (GetTranslationTo L X (GetTranslationTo L X h to' force Status).store (centres h)
        force Status).store.qtfsum = h.qtfsum) ∧
      ((L.IsLoadedQTF false h.qtfdif 0 = true → NumQTF h.qtfdif h.qw.length) →
        (GetTranslationTo L X (GetTranslationTo L X h to' force Status).store (centres h)
        force Status).store.qtfdif = h.qtfdif)) := by
  obtain ⟨hlen, nA, nAw, nB, nBH, nA0, nAinf⟩ := hpop
  obtain ⟨A1, hA1⟩ := attemptAB_ok (L.IsLoadedA h.A) h.Nb h.Nf force
    (translationDelta to' h.msh) h.A nA
  obtain ⟨Aw1, hAw1⟩ := attemptAB_ok (L.IsLoadedAinf_w h.Ainf_w) h.Nb h.Nf force
    (translationDelta to' h.msh) h.Ainf_w nAw
  obtain ⟨B1, hB1⟩ := attemptAB_ok (L.IsLoadedB h.B) h.Nb h.Nf force
    (translationDelta to' h.msh) h.B nB
  obtain ⟨BH1, hBH1⟩ := attemptAB_ok (L.IsLoadedB_H h.B_H) h.Nb h.Nf force
    (translationDelta to' h.msh) h.B_H nBH
  obtain ⟨A01, hA01⟩ := attemptA_ok (L.IsLoadedA0 h.A0) h.Nb force
    (translationDelta to' h.msh) h.A0 nA0
  obtain ⟨Ainf1, hAinf1⟩ := attemptA_ok (L.IsLoadedAinf h.Ainf) h.Nb force
    (translationDelta to' h.msh) h.Ainf nAinf
  have e1 := GetTranslationTo_success L X h to' force Status hto A1 Aw1 B1 BH1 A01 Ainf1
    hA1 hAw1 hB1 hBH1 hA01 hAinf1
  rw [e1] at hag ⊢
  obtain ⟨gA, gAw, gB, gBH, gA0, gAinf, gex, gsc, gfk, gmd, gqs, gqd⟩ := hag
  generalize hh' :
    ({ h with A := A1, Ainf_w := Aw1, B := B1, B_H := BH1, A0 := A01, Ainf := Ainf1 } :
      Hydro K) = h' at gA gAw gB gBH gA0 gAinf gex gsc gfk gmd gqs gqd ⊢
  have hNb : h'.Nb = h.Nb := by rw [← hh']
  have hmsh : h'.msh = h.msh := by rw [← hh']
  have hopp := translationDelta_back L X to' (translationDelta to' h.msh) h h' hNb hmsh hlen
  generalize hd1 : translationDelta to' h.msh = d1 at *
  generalize hh1 : translateRest L X to' d1 h' = h1 at *
  generalize hd2 : translationDelta (centres h) h1.msh = d2 at hopp
  have c1 : h1.Nb = h.Nb ∧ h1.Nf = h.Nf ∧ h1.Nh = h.Nh ∧ h1.mdhead = h.mdhead ∧
      h1.qw = h.qw := by
    rw [← hh1, ← hh']
    exact ⟨rfl, rfl, rfl, rfl, rfl⟩
  have fA : h1.A = A1 := by rw [← hh1, ← hh']; rfl
  have fAw : h1.Ainf_w = Aw1 := by rw [← hh1, ← hh']; rfl
  have fB : h1.B = B1 := by rw [← hh1, ← hh']; rfl
  have fBH : h1.B_H = BH1 := by rw [← hh1, ← hh']; rfl
  have fA0 : h1.A0 = A01 := by rw [← hh1, ← hh']; rfl
  have fAinf : h1.Ainf = Ainf1 := by rw [← hh1, ← hh']; rfl
  have fex : h1.ex = if L.IsLoadedFex h.ex then TransF h.Nb h.Nh h.Nf d1 h.ex else h.ex := by
    rw [← hh1, ← hh']; rfl
  have fsc : h1.sc = if L.IsLoadedFsc h.sc then TransF h.Nb h.Nh h.Nf d1 h.sc else h.sc := by
    rw [← hh1, ← hh']; rfl
  have ffk : h1.fk = if L.IsLoadedFfk h.fk then TransF h.Nb h.Nh h.Nf d1 h.fk else h.fk := by
    rw [← hh1, ← hh']; rfl
  have fmd : h1.md = if L.IsLoadedMD h.md 0 then
      TransMD h.Nb h.mdhead.length h.Nf d1 h.md else h.md := by
    rw [← hh1, ← hh']; rfl
  obtain ⟨q1, q2, q3⟩ := translateRest_qtf L X to' d1 h'
  rw [hh1] at q1 q2 q3
  have hq' : (⟨h'.qhead, h'.qtfsum, h'.qtfdif⟩ : QTFHeads K) =
      ⟨h.qhead, h.qtfsum, h.qtfdif⟩ := by rw [← hh']
  have hqw' : h'.qw = h.qw := by rw [← hh']
  simp only [hq', hNb, hqw'] at q1 q2 q3
  obtain ⟨s1h, s0s, s1s', s0d, s1d'⟩ :=
    deleteCrossedHeadings_eq L h.Nb ⟨h.qhead, h.qtfsum, h.qtfdif⟩
  have hid := deleteCrossedHeadings_id L h.Nb ⟨h.qhead, h.qtfsum, h.qtfdif⟩
  generalize deleteCrossedHeadings L h.Nb ⟨h.qhead, h.qtfsum, h.qtfdif⟩ = s1 at *
  dsimp only at s1h s0s s1s' s0d s1d'
  obtain ⟨l1s, s1s⟩ := slices_agree (fun q => L.IsLoadedQTF true q 0) h.Nb h.qtfsum
    s1.qtfsum (TransQTF h.Nb s1.qhead.length h.qw.length d1) (crossedHeadings h.qhead)
    s0s s1s' (by have e := gqs; rw [q2] at e; exact e)
  obtain ⟨l1d, s1d⟩ := slices_agree (fun q => L.IsLoadedQTF false q 0) h.Nb h.qtfdif
    s1.qtfdif (TransQTF h.Nb s1.qhead.length h.qw.length d1) (crossedHeadings h.qhead)
    s0d s1d' (by have e := gqd; rw [q3] at e; exact e)
  have n1s : NumQTF h.qtfsum h.qw.length → NumQTF s1.qtfsum h.qw.length :=
    NumQTF_removePositions h.qw.length h.qtfsum s1.qtfsum _ _ s1s
  have n1d : NumQTF h.qtfdif h.qw.length → NumQTF s1.qtfdif h.qw.length :=
    NumQTF_removePositions h.qw.length h.qtfdif s1.qtfdif _ _ s1d
  have hnc1 : ∀ q ∈ h1.qhead, Val.ne q.re q.im = false := by
    intro q hq
    rw [q1, s1h] at hq
    simpa using (List.mem_filter.1 hq).2
  have e2 := GetTranslationTo_success L X h1 (centres h) force Status hc0 h.A h.Ainf_w h.B
    h.B_H h.A0 h.Ainf
    (by rw [hd2, c1.1, c1.2.1, fA, ← fA, gA, fA]
        exact attemptAB_back _ h.Nb h.Nf force force d1 d2 h.A A1 nA hopp hA1)
    (by rw [hd2, c1.1, c1.2.1, fAw, ← fAw, gAw, fAw]
        exact attemptAB_back _ h.Nb h.Nf force force d1 d2 h.Ainf_w Aw1 nAw hopp hAw1)
    (by rw [hd2, c1.1, c1.2.1, fB, ← fB, gB, fB]
        exact attemptAB_back _ h.Nb h.Nf force force d1 d2 h.B B1 nB hopp hB1)
    (by rw [hd2, c1.1, c1.2.1, fBH, ← fBH, gBH, fBH]
        exact attemptAB_back _ h.Nb h.Nf force force d1 d2 h.B_H BH1 nBH hopp hBH1)
    (by rw [hd2, c1.1, fA0, ← fA0, gA0, fA0]
        exact attemptA_back _ h.Nb force force d1 d2 h.A0 A01 nA0 hopp hA01)
    (by rw [hd2, c1.1, fAinf, ← fAinf, gAinf, fAinf]
        exact attemptA_back _ h.Nb force force d1 d2 h.Ainf Ainf1 nAinf hopp hAinf1)
  rw [hd2] at e2
  dsimp only
  rw [e2]
  dsimp only
  generalize hh2 :
    ({ h1 with
      A := h.A, Ainf_w := h.Ainf_w, B := h.B, B_H := h.B_H, A0 := h.A0, Ainf := h.Ainf } :
      Hydro K) = h2
  have k : h2.Nb = h.Nb ∧ h2.Nf = h.Nf ∧ h2.Nh = h.Nh ∧ h2.mdhead = h.mdhead ∧
      h2.qw = h.qw ∧ h2.ex = h1.ex ∧ h2.sc = h1.sc ∧ h2.fk = h1.fk ∧ h2.md = h1.md ∧
      h2.qhead = h1.qhead ∧ h2.qtfsum = h1.qtfsum ∧ h2.qtfdif = h1.qtfdif ∧
      h2.A = h.A ∧ h2.Ainf_w = h.Ainf_w ∧ h2.B = h.B ∧ h2.B_H = h.B_H ∧ h2.A0 = h.A0 ∧
      h2.Ainf = h.Ainf := by
    rw [← hh2]
    exact ⟨c1.1, c1.2.1, c1.2.2.1, c1.2.2.2.1, c1.2.2.2.2, rfl, rfl, rfl, rfl, rfl, rfl, rfl,
      rfl, rfl, rfl, rfl, rfl, rfl⟩
  obtain ⟨kNb, kNf, kNh, kmh, kqw, kex, ksc, kfk, kmd, kqh, kqs, kqd, kA, kAw, kB, kBH, kA0,
    kAinf⟩ := k
  obtain ⟨r1, r2, r3⟩ := translateRest_qtf L X (centres h) d2 h2
  simp only [kqh, kqs, kqd, kNb, kqw,
    deleteCrossedHeadings_id L h.Nb ⟨h1.qhead, h1.qtfsum, h1.qtfdif⟩ hnc1] at r1 r2 r3
  have bs : (L.IsLoadedQTF true h.qtfsum 0 = true → NumQTF h.qtfsum h.qw.length) →
      (GetTranslationTo L X h1 (centres h) force Status).store.qtfsum = s1.qtfsum := by
    intro nqs
    rw [e2]
    dsimp only
    rw [hh2, r2, q2, q1]
    apply back_cond (fun q => L.IsLoadedQTF true q 0)
    · dsimp only
      rw [← q2, gqs, l1s]
    · intro hl
      exact TransQTF_roundtrip h.Nb s1.qhead.length h.qw.length d1 d2 s1.qtfsum hopp
        (n1s (nqs (by rw [← l1s]; exact hl)))
  have bd : (L.IsLoadedQTF false h.qtfdif 0 = true → NumQTF h.qtfdif h.qw.length) →
      (GetTranslationTo L X h1 (centres h) force Status).store.qtfdif = s1.qtfdif := by
    intro nqd
    rw [e2]
    dsimp only
    rw [hh2, r3, q3, q1]
    apply back_cond (fun q => L.IsLoadedQTF false q 0)
    · dsimp only
      rw [← q3, gqd, l1d]
    · intro hl
      exact TransQTF_roundtrip h.Nb s1.qhead.length h.qw.length d1 d2 s1.qtfdif hopp
        (n1d (nqd (by rw [← l1d]; exact hl)))
  rw [e2] at bs bd
  dsimp only at bs bd
  rw [hh2] at bs bd
  refine ⟨rfl, rfl, ?_, ?_, ?_, ?_, ?_, ?_, ?_, ?_, ?_, ?_, ?_, ?_, ?_, ?_⟩
  · exact kA
  · rw [(translateRest_counts L X (centres h) d2 h2).2.2.2.2.2.1]
    exact kAw
  · exact kB
  · rw [(translateRest_counts L X (centres h) d2 h2).2.2.2.2.2.2]
    exact kBH
  · exact kA0
  · exact kAinf
  · intro nex
    rw [translateRest_ex, kex, kNb, kNh, kNf, fex]
    apply back_cond (fun e => L.IsLoadedFex e)
    · dsimp only
      rw [← fex, gex]
    · intro hl
      exact TransF_roundtrip h.Nb h.Nh h.Nf d1 d2 h.ex hopp (nex hl)
  · intro nsc
    rw [translateRest_sc, ksc, kNb, kNh, kNf, fsc]
    apply back_cond (fun e => L.IsLoadedFsc e)
    · dsimp only
      rw [← fsc, gsc]
    · intro hl
      exact TransF_roundtrip h.Nb h.Nh h.Nf d1 d2 h.sc hopp (nsc hl)
  · intro nfk
    rw [translateRest_fk, kfk, kNb, kNh, kNf, ffk]
    apply back_cond (fun e => L.IsLoadedFfk e)
    · dsimp only
      rw [← ffk, gfk]
    · intro hl
      exact TransF_roundtrip h.Nb h.Nh h.Nf d1 d2 h.fk hopp (nfk hl)
  · intro nmd
    rw [translateRest_md, kmd, kNb, kmh, kNf, fmd]
    apply back_cond (fun e => L.IsLoadedMD e 0)
    · dsimp only
      rw [← fmd, gmd]
    · intro hl
      exact TransMD_roundtrip h.Nb h.mdhead.length h.Nf d1 d2 h.md hopp (nmd hl)
  · rw [r1, q1, s1h]
  · intro nqs ib
    rw [bs nqs, s1s]
  · intro nqd ib
    rw [bd nqd, s1d]
  · intro hnc
    refine ⟨fun nqs => ?_, fun nqd => ?_⟩
    · rw [bs nqs, hid hnc]
    · rw [bd nqd, hid hnc]

end

/-- Witness of C3: the populated one-body store, translated to `(1, 2, 3)` and back. -/
theorem C3_translation_roundtrip_witness :
    IsNumMat target123 = true ∧ IsNumMat (centres storeFull) = true ∧
    PopulatedAB firstEntryTests storeFull ∧
    TranslationAgree firstEntryTests storeFull
      (GetTranslationTo firstEntryTests keepExternals storeFull target123 false goOn).store ∧
    (GetTranslationTo firstEntryTests keepExternals
      (GetTranslationTo firstEntryTests keepExternals storeFull target123 false goOn).store
      (centres storeFull) false goOn).store.A = storeFull.A ∧
    (GetTranslationTo firstEntryTests keepExternals
      (GetTranslationTo firstEntryTests keepExternals storeFull target123 false goOn).store
      (centres storeFull) false goOn).store.ex = storeFull.ex ∧
    (GetTranslationTo firstEntryTests keepExternals
      (GetTranslationTo firstEntryTests keepExternals storeFull target123 false goOn).store
      (centres storeFull) false goOn).store.md = storeFull.md ∧
    (GetTranslationTo firstEntryTests keepExternals
      (GetTranslationTo firstEntryTests keepExternals storeFull target123 false goOn).store
      (centres storeFull) false goOn).store.qhead = [⟨some 0, some 0⟩, ⟨some 90, some 90⟩] ∧
    (GetTranslationTo firstEntryTests keepExternals
      (GetTranslationTo firstEntryTests keepExternals storeFull target123 false goOn).store
      (centres storeFull) false goOn).store.qtfsum[0]? = some [qtfCell 0, qtfCell 2] :=
  have h := C3_translation_roundtrip firstEntryTests keepExternals storeFull target123 false
    goOn (by decide) (by decide) (by decide) (by decide)
  ⟨by decide, by decide, by decide, by decide, h.2.2.1, h.2.2.2.2.2.2.2.2.1 (by decide),
    h.2.2.2.2.2.2.2.2.2.2.2.1 (by decide),
    h.2.2.2.2.2.2.2.2.2.2.2.2.1.trans (by decide),
    (h.2.2.2.2.2.2.2.2.2.2.2.2.2.1 (by decide) 0).trans (by decide)⟩

/-- C3 (counterexample). In `storeGaps` the added mass is fully populated, and the third
component of the excitation force, of the mean drift and of the first QTF slice is
missing: both translations succeed, and after the way back the moments about `x` and
`y` are missing too, in the force `(1, 2, missing, missing, missing, 6)`, in the mean
drift and in the QTF slice. -/
theorem C3_roundtrip_spreads_missing :
    PopulatedAB firstEntryTests storeGaps ∧
    IsNumMat target123 = true ∧ IsNumMat (centres storeGaps) = true ∧
    TranslationAgree firstEntryTests storeGaps
      (GetTranslationTo firstEntryTests keepExternals storeGaps target123 false goOn).store ∧
    (GetTranslationTo firstEntryTests keepExternals storeGaps target123 false goOn).error
      = none ∧
    (GetTranslationTo firstEntryTests keepExternals
      (GetTranslationTo firstEntryTests keepExternals storeGaps target123 false goOn).store
      (centres storeGaps) false goOn).error = none ∧
    storeGaps.ex = [[[[⟨some 1, some 0⟩, ⟨some 2, some 0⟩, ⟨none, none⟩, ⟨some 4, some 0⟩,
        ⟨some 5, some 0⟩, ⟨some 6, some 0⟩]]]] ∧
    (GetTranslationTo firstEntryTests keepExternals
      (GetTranslationTo firstEntryTests keepExternals storeGaps target123 false goOn).store
      (centres storeGaps) false goOn).store.ex =
      [[[[⟨some 1, some 0⟩, ⟨some 2, some 0⟩, ⟨none, none⟩, ⟨none, none⟩,
        ⟨none, none⟩, ⟨some 6, some 0⟩]]]] ∧
    storeGaps.md = [[[[some 0], [some 1], [none], [some 3], [some 4], [some 5]]]] ∧
    (GetTranslationTo firstEntryTests keepExternals
      (GetTranslationTo firstEntryTests keepExternals storeGaps target123 false goOn).store
      (centres storeGaps) false goOn).store.md =
      [[[[some 0], [some 1], [none], [none], [none], [some 5]]]] ∧
    get2 storeGaps.qtfsum 0 0 = some [[[⟨some 1, some 0⟩]], [[⟨some 2, some 0⟩]],
      [[⟨none, none⟩]], [[⟨some 4, some 0⟩]], [[⟨some 5, some 0⟩]], [[⟨some 6, some 0⟩]]] ∧
    get2 (GetTranslationTo firstEntryTests keepExternals
      (GetTranslationTo firstEntryTests keepExternals storeGaps target123 false goOn).store
      (centres storeGaps) false goOn).store.qtfsum 0 0 =
      some [[[⟨some 1, some 0⟩]], [[⟨some 2, some 0⟩]],
        [[⟨none, none⟩]], [[⟨none, none⟩]], [[⟨none, none⟩]], [[⟨some 6, some 0⟩]]] := by
  refine ⟨by decide, by decide, by decide, by decide, by decide!, by decide!, rfl, by decide!,
    rfl, by decide!, by decide, by decide!⟩

/-! ## NumSets -/

theorem NumSets_next (n num : Int) (hn : 1 ≤ n) (hnum : 0 ≤ num) :
    0 ≤ num / (n + 1) ∧ 0 ≤ num - num / (n + 1) ∧
    num / (n + 1) ≤ (num - num / (n + 1)) / n ∧
    (num - num / (n + 1)) / n ≤ num / (n + 1) + 1 ∧
    ((num - num / (n + 1)) / n = num / (n + 1) + 1 → n ∣ (num - num / (n + 1))) ∧
    ((n + 1) ∣ num → n ∣ (num - num / (n + 1)) ∧ (num - num / (n + 1)) / n = num / (n + 1)) := by
  have hn1 : (0 : Int) < n + 1 := by omega
  have hdm := Int.ediv_add_emod num (n + 1)
  have hr0 := Int.emod_nonneg num (show n + 1 ≠ 0 by omega)
  have hr1 := Int.emod_lt_of_pos num hn1
  have hq0 : 0 ≤ num / (n + 1) := Int.ediv_nonneg hnum (by omega)
  generalize num / (n + 1) = q at *
  generalize num % (n + 1) = r at *
  have hnum' : num - q = n * q + r := by linarith
  have hdiv : (num - q) / n = q + r / n := by
    rw [hnum', Int.add_comm, Int.add_mul_ediv_left _ _ (show n ≠ 0 by omega), Int.add_comm]
  have hrn : r / n = 0 ∨ (r / n = 1 ∧ r = n) := by
    by_cases h : r < n
    · exact Or.inl (Int.ediv_eq_zero_of_lt hr0 h)
    · have : r = n := by omega
      right
      subst this
      exact ⟨Int.ediv_self (by omega), rfl⟩
  refine ⟨hq0, by nlinarith, by rw [hdiv]; omega, by rw [hdiv]; omega, ?_, ?_⟩
  · intro h
    rw [hdiv] at h
    have h1 : r / n = 1 := by omega
    rcases hrn with h0 | ⟨_, h2⟩
    · omega
    · rw [hnum', h2]
      exact ⟨q + 1, by ring⟩
  · intro hd
    have hr : r = 0 := by
      obtain ⟨c, hc⟩ := hd
      have : (n + 1) * (c - q) = r := by rw [mul_sub, ← hc]; linarith
      have hcq : c - q = 0 := by
        by_contra hne
        rcases lt_or_gt_of_ne hne with hlt | hgt
        · have : (n + 1) * (c - q) ≤ (n + 1) * (-1) := by
            apply mul_le_mul_of_nonneg_left (by omega) (by omega)
          omega
        · have : (n + 1) * 1 ≤ (n + 1) * (c - q) := by
            apply mul_le_mul_of_nonneg_left (by omega) (by omega)
          omega
      rw [hcq, mul_zero] at this
      exact this.symm
    subst hr
    refine ⟨?_, ?_⟩
    · rw [hnum']
      exact ⟨q, by ring⟩
    · rw [hdiv]
      simp

/-- The shares that the loop of `NumSets` computes for `k + 1` sets. -/
theorem NumSetsLoop_eq (k : Nat) (pre : List Int) (num : Int) (hnum : 0 ≤ num) :
    ∃ l : List Int, l.length = k + 1 ∧ l.sum = num ∧ l.Sorted (· ≤ ·) ∧
      (∀ x ∈ l, num / ((k : Int) + 1) ≤ x ∧ x ≤ num / ((k : Int) + 1) + 1) ∧
      (((k : Int) + 1) ∣ num → ∀ x ∈ l, x = num / ((k : Int) + 1)) ∧
      ∀ post : List Int, post.length = k + 1 →
        NumSetsLoop (k + 1) (pre ++ post) pre.length num ((k : Int) + 1) = pre ++ l := by
  induction k generalizing pre num with
  | zero =>
    refine ⟨[num], rfl, by simp, by simp, by simp, by simp, ?_⟩
    intro post hpost
    obtain ⟨x, rfl⟩ := List.length_eq_one.1 hpost
    simp [NumSetsLoop, Int.tdiv_one]
  | succ k ih =>
    obtain ⟨h0, h1, h2, h3, h4, h5⟩ := NumSets_next ((k : Int) + 1) num (by omega) hnum
    obtain ⟨l, hl, hs, hsorted, hrange, hdvd, hloop⟩ :=
      ih (pre ++ [num / ((k : Int) + 1 + 1)]) (num - num / ((k : Int) + 1 + 1)) h1
    have hcast : ((k + 1 : Nat) : Int) + 1 = (k : Int) + 1 + 1 := by push_cast; ring
    rw [hcast]
    have hge : ∀ x ∈ l, num / ((k : Int) + 1 + 1) ≤ x ∧ x ≤ num / ((k : Int) + 1 + 1) + 1 := by
      intro x hx
      by_cases hq : (num - num / ((k : Int) + 1 + 1)) / ((k : Int) + 1) =
          num / ((k : Int) + 1 + 1) + 1
      · have := hdvd (h4 hq) x hx
        omega
      · have := hrange x hx
        omega
    refine ⟨num / ((k : Int) + 1 + 1) :: l, by simp [hl], by simp [hs], ?_, ?_, ?_, ?_⟩
    · exact List.sorted_cons.2 ⟨fun x hx => (hge x hx).1, hsorted⟩
    · intro x hx
      rcases List.mem_cons.1 hx with rfl | hx
      · omega
      · exact hge x hx
    · intro hd x hx
      rcases List.mem_cons.1 hx with rfl | hx
      · rfl
      · rw [hdvd (h5 hd).1 x hx, (h5 hd).2]
    · intro post hpost
      obtain ⟨p, post', rfl⟩ := List.exists_cons_of_length_eq_add_one hpost
      have hpos : (k : Int) + 1 + 1 > 0 := by omega
      rw [NumSetsLoop, if_pos hpos]
      have hset : (pre ++ p :: post').set pre.length (Int.tdiv num ((k : Int) + 1 + 1)) =
          (pre ++ [num / ((k : Int) + 1 + 1)]) ++ post' := by
        rw [Int.tdiv_eq_ediv hnum (by omega)]
        simp [List.set_append]
      have hlen : pre.length + 1 = (pre ++ [num / ((k : Int) + 1 + 1)]).length := by simp
      have hsub : (k : Int) + 1 + 1 - 1 = (k : Int) + 1 := by ring
      simp only []
      rw [hset, hlen, hsub, Int.tdiv_eq_ediv hnum (by omega), hloop post' (by simpa using hpost)]
      simp

/-- C29. For `num ≥ 0` and `numsets > 0`, `NumSets(num, numsets)` is a list of exactly
`numsets` integers, all non-negative, whose sum is `num`, that is non-decreasing, and
in which any two elements differ by at most 1. -/
theorem C29_NumSets (num numsets : Int) (hnum : 0 ≤ num) (hsets : 0 < numsets) :
    ((NumSets num numsets).length : Int) = numsets ∧
    (∀ x ∈ NumSets num numsets, 0 ≤ x) ∧
    (NumSets num numsets).sum = num ∧
    (NumSets num numsets).Sorted (· ≤ ·) ∧
    ∀ x ∈ NumSets num numsets, ∀ y ∈ NumSets num numsets, x ≤ y + 1 := by
  obtain ⟨k, rfl⟩ : ∃ k : Nat, numsets = (k : Int) + 1 := ⟨(numsets - 1).toNat, by omega⟩
  obtain ⟨l, hl, hs, hsorted, hrange, _, hloop⟩ := NumSetsLoop_eq k [] num hnum
  have hk : ((k : Int) + 1).toNat = k + 1 := by omega
  have he : NumSets num ((k : Int) + 1) = l := by
    unfold NumSets
    rw [hk]
    simpa using hloop (List.replicate (k + 1) 0) (by simp)
  rw [he]
  have hq : 0 ≤ num / ((k : Int) + 1) := Int.ediv_nonneg hnum (by omega)
  refine ⟨by rw [hl]; push_cast; ring, ?_, hs, hsorted, ?_⟩
  · intro x hx
    have := hrange x hx
    omega
  · intro x hx y hy
    have := hrange x hx
    have := hrange y hy
    omega

theorem C29_NumSets_witness :
    (0 : Int) ≤ 7 ∧ (0 : Int) < 3 ∧ NumSets 7 3 = [2, 2, 3] ∧
    (NumSets 7 3).sum = 7 :=
  ⟨by decide, by decide, by decide, (C29_NumSets 7 3 (by decide) (by decide)).2.2.1⟩

/-! ## The joined fields of a Wamit line -/

/-- The tokens of `Split` are not empty, hold no separator, and together hold the
characters of the line that are not separators, in order. -/
theorem SplitScan_spec (sep : Char → Bool) (line cur : List Char)
    (hcur : ∀ c ∈ cur, sep c = false) :
    (∀ t ∈ SplitScan sep line cur, t ≠ [] ∧ ∀ c ∈ t, sep c = false) ∧
    (SplitScan sep line cur).flatten = cur ++ line.filter (fun c => !sep c) := by
  induction line generalizing cur with
  | nil =>
    unfold SplitScan
    cases cur with
    | nil => simp
    | cons a l => simpa using hcur
  | cons c rest ih =>
    unfold SplitScan
    by_cases hc : sep c = true
    · obtain ⟨h1, h2⟩ := ih [] (by simp)
      cases cur with
      | nil => simpa [hc] using ⟨h1, h2⟩
      | cons a l =>
        simp only [hc, if_true, List.isEmpty_cons, Bool.false_eq_true, if_false]
        refine ⟨?_, ?_⟩
        · intro t ht
          rcases List.mem_cons.1 ht with rfl | ht
          · exact ⟨by simp, hcur⟩
          · exact h1 t ht
        · simp [h2, hc]
    · have hc' : sep c = false := by simpa using hc
      obtain ⟨h1, h2⟩ := ih (cur ++ [c]) (by
        intro x hx
        rcases List.mem_append.1 hx with hx | hx
        · exact hcur x hx
        · rw [List.mem_singleton.1 hx]; exact hc')
      simp only [hc', Bool.false_eq_true, if_false]
      exact ⟨h1, by simp [h2, hc']⟩

theorem JoinedFields_prefix (s : List Char) (fields : List (List Char)) (n : Nat)
    (hn : n ≤ s.length) :
    ∃ (fs : List (List Char)) (ns : List Char),
      (List.range n).foldl (JoinedFieldsStep s) (fields, []) = (fields ++ fs, ns) ∧
      fs.flatten ++ ns = s.take n ∧
      (∀ f ∈ fs, f ≠ []) ∧ (0 < n → ns ≠ []) ∧
      (0 < n → ns.getLast? = s[n - 1]?) ∧
      (∀ f ∈ fs ++ [ns], ∀ i, f[i]? = some '-' → i = 0 ∨ f[i - 1]? = some 'E') := by
  induction n with
  | zero => exact ⟨[], [], by simp, by simp, by simp, by simp, by simp, by simp⟩
  | succ n ih =>
    obtain ⟨fs, ns, hfold, hcat, hne, hns, hlast, hminus⟩ := ih (by omega)
    have hlt : n < s.length := by omega
    have hget : s.getD n ' ' = s[n] := by simp [List.getD, List.getElem?_eq_getElem hlt]
    have htake : s.take (n + 1) = s.take n ++ [s[n]] := by
      rw [List.take_succ, List.getElem?_eq_getElem hlt]
      rfl
    have happ : ∀ (hok : s[n] = '-' → n = 0 ∨ s[n - 1]? = some 'E'),
        ∀ f ∈ fs ++ [ns ++ [s[n]]], ∀ i, f[i]? = some '-' → i = 0 ∨ f[i - 1]? = some 'E' := by
      intro hok f hf i hi
      rcases List.mem_append.1 hf with hf | hf
      · exact hminus f (List.mem_append.2 (Or.inl hf)) i hi
      · rw [List.mem_singleton.1 hf] at hi ⊢
        by_cases hi1 : i < ns.length
        · rw [List.getElem?_append_left hi1] at hi
          rcases hminus ns (by simp) i hi with h0 | h1
          · exact Or.inl h0
          · right
            rw [List.getElem?_append_left (by omega)]
            exact h1
        · by_cases hi2 : i = ns.length
          · subst hi2
            rw [List.getElem?_append_right (le_refl _)] at hi
            simp only [Nat.sub_self, List.getElem?_cons_zero, Option.some.injEq] at hi
            by_cases hn0 : n = 0
            · subst hn0
              left
              have : (fs.flatten ++ ns).length = 0 := by rw [hcat]; simp
              simp only [List.length_append] at this
              omega
            · rcases hok hi with h0 | hE
              · exact absurd h0 hn0
              · right
                have hnsne := hns (by omega)
                have hl := hlast (by omega)
                rw [List.getElem?_append_left (by
                  have := List.length_pos.2 hnsne
                  omega)]
                rw [← hE, ← hl, List.getLast?_eq_getElem?]
          · rw [List.getElem?_eq_none (by simp; omega)] at hi
            cases hi
    rw [List.range_succ, List.foldl_append, hfold, List.foldl_cons, List.foldl_nil]
    unfold JoinedFieldsStep
    simp only [hget]
    by_cases hc : s[n] = '-'
    · rw [if_pos hc]
      by_cases h0 : n = 0
      · rw [if_pos h0]
        refine ⟨fs, ns ++ [s[n]], rfl, by rw [htake, ← hcat, List.append_assoc], hne,
          fun _ => by simp, fun _ => by simp [List.getElem?_eq_getElem hlt],
          happ (fun _ => Or.inl h0)⟩
      · rw [if_neg h0]
        have hn1 : n - 1 < s.length := by omega
        have hprev : s.getD (n - 1) ' ' = s[n - 1] := by
          simp [List.getD, List.getElem?_eq_getElem hn1]
        by_cases hE : s.getD (n - 1) ' ' = 'E'
        · rw [if_pos hE]
          refine ⟨fs, ns ++ [s[n]], rfl, by rw [htake, ← hcat, List.append_assoc], hne,
            fun _ => by simp, fun _ => by simp [List.getElem?_eq_getElem hlt],
            happ (fun _ => Or.inr ?_)⟩
          rw [List.getElem?_eq_getElem (show n - 1 < s.length by omega), ← hprev, hE]
        · rw [if_neg hE]
          refine ⟨fs ++ [ns], [s[n]], by simp, by rw [htake, ← hcat]; simp, ?_,
            fun _ => by simp, fun _ => by simp [List.getElem?_eq_getElem hlt], ?_⟩
          · intro f hf
            rcases List.mem_append.1 hf with hf | hf
            · exact hne f hf
            · rw [List.mem_singleton.1 hf]
              exact hns (by omega)
          · intro f hf i hi
            rcases List.mem_append.1 hf with hf | hf
            · exact hminus f (by simpa using hf) i hi
            · rw [List.mem_singleton.1 hf] at hi
              left
              by_contra hi0
              rw [List.getElem?_eq_none (by simp; omega)] at hi
              cases hi
    · rw [if_neg hc]
      refine ⟨fs, ns ++ [s[n]], rfl, by rw [htake, ← hcat, List.append_assoc], hne,
        fun _ => by simp, fun _ => by simp [List.getElem?_eq_getElem hlt],
        happ (fun h => absurd h hc)⟩

theorem JoinedFieldsStep_shift (s : List Char) (fields a : List (List Char)) (b : List Char)
    (i : Nat) :
    JoinedFieldsStep s (fields ++ a, b) i =
      (fields ++ (JoinedFieldsStep s (a, b) i).1, (JoinedFieldsStep s (a, b) i).2) := by
  unfold JoinedFieldsStep
  dsimp only
  split_ifs <;> simp

theorem JoinedFields_shift (s : List Char) (fields : List (List Char)) (n : Nat) :
    (List.range n).foldl (JoinedFieldsStep s) (fields, []) =
      (fields ++ ((List.range n).foldl (JoinedFieldsStep s) ([], [])).1,
        ((List.range n).foldl (JoinedFieldsStep s) ([], [])).2) := by
  induction n with
  | zero => simp
  | succ n ih =>
    rw [List.range_succ, List.foldl_append, List.foldl_append, ih]
    simp only [List.foldl_cons, List.foldl_nil]
    exact JoinedFieldsStep_shift s fields _ _ n

/-- The fields that one token adds: they are put after the fields already there, none
is empty, together they spell the token, and a minus sign stands only first in a field
or right after an `E`. -/
theorem JoinedFieldsToken_spec (fields : List (List Char)) (s : List Char) (hs : s ≠ []) :
    JoinedFieldsToken fields s = fields ++ JoinedFieldsToken [] s ∧
    (JoinedFieldsToken [] s).flatten = s ∧
    (∀ f ∈ JoinedFieldsToken [] s, f ≠ []) ∧
    (∀ f ∈ JoinedFieldsToken [] s, ∀ i, f[i]? = some '-' → i = 0 ∨ f[i - 1]? = some 'E') := by
  obtain ⟨fs, ns, hfold, hcat, hne, hns, _, hminus⟩ :=
    JoinedFields_prefix s [] s.length (le_refl _)
  have hpos : 0 < s.length := List.length_pos.2 hs
  have hshift := JoinedFields_shift s fields s.length
  rw [hfold] at hshift
  have h0 : JoinedFieldsToken [] s = fs ++ [ns] := by
    unfold JoinedFieldsToken
    rw [hfold]
    simp
  refine ⟨?_, ?_, ?_, ?_⟩
  · rw [h0]
    unfold JoinedFieldsToken
    rw [hshift]
    simp
  · rw [h0]
    simpa using hcat
  · rw [h0]
    intro f hf
    rcases List.mem_append.1 hf with hf | hf
    · exact hne f hf
    · rw [List.mem_singleton.1 hf]
      exact hns hpos
  · rw [h0]
    exact hminus

theorem foldl_JoinedFieldsToken (ts : List (List Char)) (fields : List (List Char))
    (hts : ∀ t ∈ ts, t ≠ []) :
    ts.foldl JoinedFieldsToken fields = fields ++ ts.flatMap (JoinedFieldsToken []) := by
  induction ts generalizing fields with
  | nil => simp
  | cons t ts ih =>
    rw [List.foldl_cons, ih _ (fun x hx => hts x (List.mem_cons_of_mem _ hx)),
      (JoinedFieldsToken_spec fields t (hts t (List.mem_cons_self _ _))).1]
    simp

/-- Where the loop over the characters of a token splits: every field closed so far
but the first one begins with a minus sign, so does the field being built once a field
has been closed, and no field closed ends with an `E`. -/
theorem JoinedFields_splits (s : List Char) (n : Nat) (hn : n ≤ s.length) :
    (∀ f ∈ ((List.range n).foldl (JoinedFieldsStep s) ([], [])).1.drop 1, f[0]? = some '-') ∧
    (((List.range n).foldl (JoinedFieldsStep s) ([], [])).1 ≠ [] →
      ((List.range n).foldl (JoinedFieldsStep s) ([], [])).2[0]? = some '-') ∧
    (∀ f ∈ ((List.range n).foldl (JoinedFieldsStep s) ([], [])).1,
      f.getLast? ≠ some 'E') := by
  induction n with
  | zero => simp
  | succ n ih =>
    obtain ⟨hA, hB, hC⟩ := ih (by omega)
    obtain ⟨fs, ns, hfold, hcat, hne, hns, hlast, -⟩ := JoinedFields_prefix s [] n (by omega)
    simp only [List.nil_append] at hfold
    rw [hfold] at hA hB hC
    dsimp only at hA hB hC
    have hlt : n < s.length := by omega
    have hget : s.getD n ' ' = s[n] := by simp [List.getD, List.getElem?_eq_getElem hlt]
    have hfs0 : n = 0 → fs = [] := by
      intro h0
      subst h0
      cases fs with
      | nil => rfl
      | cons f fs =>
        have hf := hne f (List.mem_cons_self _ _)
        have : (f :: fs).flatten ++ ns = [] := by simpa using hcat
        simp only [List.flatten_cons, List.append_eq_nil] at this
        exact absurd this.1.1 hf
    have hkeep : (∀ f ∈ (fs, ns ++ [s[n]]).1.drop 1, f[0]? = some '-') ∧
        ((fs, ns ++ [s[n]]).1 ≠ [] → (fs, ns ++ [s[n]]).2[0]? = some '-') ∧
        (∀ f ∈ (fs, ns ++ [s[n]]).1, f.getLast? ≠ some 'E') := by
      refine ⟨hA, ?_, hC⟩
      intro hfs
      have hn0 : 0 < n := by
        by_contra hc
        exact hfs (hfs0 (by omega))
      have hnsne := hns hn0
      dsimp only
      rw [List.getElem?_append_left (List.length_pos.2 hnsne)]
      exact hB hfs
    rw [List.range_succ, List.foldl_append, hfold, List.foldl_cons, List.foldl_nil]
    unfold JoinedFieldsStep
    simp only [hget]
    by_cases hc : s[n] = '-'
    · rw [if_pos hc]
      by_cases h0 : n = 0
      · rw [if_pos h0]
        exact hkeep
      · rw [if_neg h0]
        have hn1 : n - 1 < s.length := by omega
        have hprev : s.getD (n - 1) ' ' = s[n - 1] := by
          simp [List.getD, List.getElem?_eq_getElem hn1]
        by_cases hE : s.getD (n - 1) ' ' = 'E'
        · rw [if_pos hE]
          exact hkeep
        · rw [if_neg hE]
          dsimp only
          refine ⟨?_, fun _ => by simp [hc], ?_⟩
          · intro f hf
            cases fs with
            | nil => simp at hf
            | cons g gs =>
              simp only [List.cons_append, List.drop_succ_cons, List.drop_zero] at hf
              rcases List.mem_append.1 hf with hf | hf
              · exact hA f (by simpa using hf)
              · rw [List.mem_singleton.1 hf]
                exact hB (by simp)
          · intro f hf
            rcases List.mem_append.1 hf with hf | hf
            · exact hC f hf
            · rw [List.mem_singleton.1 hf, hlast (by omega),
                List.getElem?_eq_getElem hn1, ← hprev]
              intro hcon
              exact hE (Option.some.inj hcon)
    · rw [if_neg hc]
      exact hkeep

/-- Where a token is split: every field after the first one begins with a minus sign,
and no field that is followed by another one ends with an `E`. -/
theorem JoinedFieldsToken_splits (s : List Char) :
    (∀ f ∈ (JoinedFieldsToken [] s).drop 1, f[0]? = some '-') ∧
    (∀ f ∈ (JoinedFieldsToken [] s).dropLast, f.getLast? ≠ some 'E') := by
  obtain ⟨hA, hB, hC⟩ := JoinedFields_splits s s.length (le_refl _)
  unfold JoinedFieldsToken
  generalize (List.range s.length).foldl (JoinedFieldsStep s) ([], []) = st at hA hB hC
  obtain ⟨fs, ns⟩ := st
  dsimp only at hA hB hC ⊢
  constructor
  · intro f hf
    cases fs with
    | nil => simp at hf
    | cons g gs =>
      simp only [List.cons_append, List.drop_succ_cons, List.drop_zero] at hf
      rcases List.mem_append.1 hf with hf | hf
      · exact hA f (by simpa using hf)
      · rw [List.mem_singleton.1 hf]
        exact hB (by simp)
  · intro f hf
    rw [List.dropLast_concat] at hf
    exact hC f hf

/-- C30. For every line: the tokens that `LoadWamitJoinedFields` reads are the
non-empty runs between separators and hold all the characters of the line that are not
separators; the fields it leaves are those of its tokens, in order; the fields of a
token spell that token; no field is empty; in a field a minus sign stands only at
index 0 or right after an `E`; and a token is split only at minus signs: each of its
fields after the first one begins with a minus sign, and no field that is followed by
another one ends with an `E`. -/
theorem C30_LoadWamitJoinedFields (line : List Char) :
    (Split IsTabSpace line).flatten = line.filter (fun c => !IsTabSpace c) ∧
    LoadWamitJoinedFields line = (Split IsTabSpace line).flatMap (JoinedFieldsToken []) ∧
    (∀ t ∈ Split IsTabSpace line, (JoinedFieldsToken [] t).flatten = t) ∧
    (LoadWamitJoinedFields line).flatten = line.filter (fun c => !IsTabSpace c) ∧
    (∀ f ∈ LoadWamitJoinedFields line, f ≠ []) ∧
    (∀ f ∈ LoadWamitJoinedFields line, ∀ i, f[i]? = some '-' →
      i = 0 ∨ f[i - 1]? = some 'E') ∧
    (∀ t ∈ Split IsTabSpace line,
      (∀ f ∈ (JoinedFieldsToken [] t).drop 1, f[0]? = some '-') ∧
      (∀ f ∈ (JoinedFieldsToken [] t).dropLast, f.getLast? ≠ some 'E')) := by
  obtain ⟨htok, hflat⟩ := SplitScan_spec IsTabSpace line [] (by simp)
  have hflat' : (Split IsTabSpace line).flatten = line.filter (fun c => !IsTabSpace c) := by
    simpa [Split] using hflat
  have htok' : ∀ t ∈ Split IsTabSpace line, t ≠ [] := fun t ht => (htok t ht).1
  have hfields : LoadWamitJoinedFields line =
      (Split IsTabSpace line).flatMap (JoinedFieldsToken []) := by
    unfold LoadWamitJoinedFields
    simpa using foldl_JoinedFieldsToken _ [] htok'
  refine ⟨hflat', hfields, fun t ht => (JoinedFieldsToken_spec [] t (htok' t ht)).2.1, ?_, ?_, ?_,
    fun t _ => JoinedFieldsToken_splits t⟩
  · rw [hfields, ← hflat']
    generalize Split IsTabSpace line = ts at htok'
    induction ts with
    | nil => rfl
    | cons t ts ih =>
      simp only [List.flatMap_cons, List.flatten_append, List.flatten_cons]
      rw [(JoinedFieldsToken_spec [] t (htok' t (List.mem_cons_self _ _))).2.1,
        ih (fun x hx => htok' x (List.mem_cons_of_mem _ hx))]
  · intro f hf
    rw [hfields] at hf
    obtain ⟨t, ht, hft⟩ := List.mem_flatMap.1 hf
    exact (JoinedFieldsToken_spec [] t (htok' t ht)).2.2.1 f hft
  · intro f hf
    rw [hfields] at hf
    obtain ⟨t, ht, hft⟩ := List.mem_flatMap.1 hf
    exact (JoinedFieldsToken_spec [] t (htok' t ht)).2.2.2 f hft

theorem C30_LoadWamitJoinedFields_witness :
    LoadWamitJoinedFields "1.5E-3-2.0 ! -7".toList =
      ["1.5E-3".toList, "-2.0".toList, "-7".toList] ∧
    (LoadWamitJoinedFields "1.5E-3-2.0 ! -7".toList).flatten =
      "1.5E-3-2.0 ! -7".toList.filter (fun c => !IsTabSpace c) :=
  ⟨by decide, (C30_LoadWamitJoinedFields "1.5E-3-2.0 ! -7".toList).2.2.2.1⟩

/-! ## The cutoff time of the radiation kernel -/

section

variable {K : Type} [Field K] [DecidableEq K]

/-- With fewer than two samples `GetK_IRF_MaxT` returns `-1`. -/
theorem GetK_IRF_MaxT_short (pi : K) (w : List K) (hw : w.length < 2) :
    GetK_IRF_MaxT pi w = some (-1) := by
  unfold GetK_IRF_MaxT
  rw [if_pos hw]

/-- With two samples or more, all equal, the loop of `GetK_IRF_MaxT` counts no spacing
and the function divides by zero: the result is not a number, and not `-1`. -/
theorem GetK_IRF_MaxT_all_equal (pi : K) (w : List K) (v : K) (hw : 2 ≤ w.length)
    (heq : ∀ x ∈ w, x = v) : GetK_IRF_MaxT pi w = none := by
  have hloop : GetK_IRF_MaxT_loop w = (0, 0) := by
    unfold GetK_IRF_MaxT_loop
    apply foldl_fixed
    intro iw hiw
    have h1 := List.mem_range'_1.1 hiw
    have ha : w.getD iw 0 = v := by
      rw [List.getD_eq_getElem _ _ (by omega)]
      exact heq _ (List.getElem_mem _)
    have hb : w.getD (iw - 1) 0 = v := by
      rw [List.getD_eq_getElem _ _ (by omega)]
      exact heq _ (List.getElem_mem _)
    simp only [ha, hb, ne_eq, not_true_eq_false, if_false]
  unfold GetK_IRF_MaxT
  rw [if_neg (by omega), hloop]
  simp [fdiv]

end

/-- C21. The frequency axis `(1, 1)` has a single distinct value; `GetK_IRF_MaxT`
counts `num = 0` non-zero spacings and divides `delta = 0` by it: the result is not a
number, and not the `-1` that an axis of fewer than two samples gives. -/
theorem C21_GetK_IRF_MaxT_divides_by_zero :
    GetK_IRF_MaxT_loop [(1 : ℚ), 1] = (0, 0) ∧ GetK_IRF_MaxT (3 : ℚ) [1, 1] = none ∧
    GetK_IRF_MaxT (3 : ℚ) [1, 1] ≠ some (-1) ∧
    GetK_IRF_MaxT (3 : ℚ) [1] = some (-1) ∧ GetK_IRF_MaxT (3 : ℚ) [] = some (-1) := by
  refine ⟨by decide, ?_, ?_, by decide, by decide⟩
  · exact GetK_IRF_MaxT_all_equal 3 [1, 1] 1 (by decide) (by simp)
  · rw [GetK_IRF_MaxT_all_equal 3 [1, 1] 1 (by decide) (by simp)]
    simp

/-! ## MultiplyDOF -/

section

variable {K : Type} [Field K]

/-- C23, amended. After `MultiplyDOF` with a non-empty list the radiation kernel `Kirf`
is empty; the RAO is not cleared: it is multiplied like the forces when `f` is set and
the RAO is loaded, and left as it is otherwise. -/
theorem C23_MultiplyDOF_clears_Kirf_only (L : LoadedTests K) (h : Hydro K) (factor : K)
    (_idDOF : List Nat) (a b diag f ismd qtf C : Bool) (hne : _idDOF ≠ []) :
    (MultiplyDOF L h factor _idDOF a b diag f ismd qtf C).Kirf = [] ∧
    (MultiplyDOF L h factor _idDOF a b diag f ismd qtf C).rao =
      (if f && L.IsLoadedRAO h.rao then MultiplyF factor h.Nb h.Nh h.Nf _idDOF h.rao
        else h.rao) ∧
    (f = false → (MultiplyDOF L h factor _idDOF a b diag f ismd qtf C).rao = h.rao) := by
  have hlen : ¬ _idDOF.length = 0 := fun h0 => hne (List.length_eq_zero.1 h0)
  unfold MultiplyDOF
  rw [if_neg hlen]
  refine ⟨rfl, rfl, ?_⟩
  intro hf
  subst hf
  rfl

end

theorem C23_MultiplyDOF_clears_Kirf_only_witness :
    ([0] : List Nat) ≠ [] ∧
    (MultiplyDOF firstEntryTests storeRAO 2 [0] true true false true true true true).Kirf = [] :=
  ⟨by decide,
    (C23_MultiplyDOF_clears_Kirf_only firstEntryTests storeRAO 2 [0] true true false true true
      true true (by decide)).1⟩

/-- C23, counterexample. On a store with a loaded RAO `(1, 2, 3, 4, 5, 6)`,
`MultiplyDOF(2, [0], ...)` with every flag set but `diag` leaves the RAO
`(2, 2, 3, 4, 5, 6)` in the store, not an empty one; with `f` unset it leaves the RAO
as it was. -/
theorem C23_MultiplyDOF_keeps_RAO :
    (MultiplyDOF firstEntryTests storeRAO 2 [0] true true false true true true true).rao =
      [[[[⟨some 2, some 0⟩, ⟨some 2, some 0⟩, ⟨some 3, some 0⟩, ⟨some 4, some 0⟩,
        ⟨some 5, some 0⟩, ⟨some 6, some 0⟩]]]] ∧
    (MultiplyDOF firstEntryTests storeRAO 2 [0] true true false true true true true).rao ≠ [] ∧
    (MultiplyDOF firstEntryTests storeRAO 2 [0] true true false false true true true).rao =
      storeRAO.rao := by
  refine ⟨by decide!, by decide!, by decide⟩

/-- C28. On a store with two bodies whose mean drift holds six series per body and
heading, `MultiplyDOF(factor, [0], ..., ismd = true, ...)` runs `MultiplyMD` over the
list `idDOF = (0, 6)`, so that it goes through `md[0][0][6]` and `md[1][0][6]`, DOF
indices outside `[0, 6)` that the arrays do not hold. -/
theorem C28_MultiplyMD_out_of_range :
    expandDOF storeMD2.Nb [0] = [0, 6] ∧
    (MultiplyDOF firstEntryTests storeMD2 2 [0] false false false false true false false).md =
      MultiplyMD 2 storeMD2.Nb storeMD2.mdhead.length storeMD2.Nf (expandDOF storeMD2.Nb [0])
        storeMD2.md ∧
    MultiplyMDaccesses storeMD2.Nb storeMD2.mdhead.length storeMD2.Nf
        (expandDOF storeMD2.Nb [0]) = [(0, 0, 0, 0), (0, 0, 6, 0), (1, 0, 0, 0), (1, 0, 6, 0)] ∧
    (get2 storeMD2.md 0 0).map List.length = some 6 ∧
    (get2 storeMD2.md 1 0).map List.length = some 6 := by
  refine ⟨by decide, rfl, by decide, by decide, by decide⟩

theorem expandDOF_one (l : List Nat) : expandDOF 1 l = l := by
  unfold expandDOF
  induction l with
  | nil => rfl
  | cons d l ih =>
    rw [List.flatMap_cons, ih]
    simp [List.range_succ]

/-- With two bodies or more the list `idDOF` holds, for each listed degree of freedom
`d`, the index `d + 6`, which is not in `[0, 6)`. -/
theorem expandDOF_second_body (Nb : Nat) (l : List Nat) (d : Nat) (hNb : 2 ≤ Nb) (hd : d ∈ l) :
    d + 6 ∈ expandDOF Nb l := by
  unfold expandDOF
  rw [List.mem_flatMap]
  exact ⟨d, hd, List.mem_map.2 ⟨1, List.mem_range.2 (by omega), by omega⟩⟩

/-! ## The Haskind damping -/

section

variable {K : Type} [LinearOrderedField K]

/-- The five tests at the head of `GetB_H` are all that can make it fail. -/
theorem GetB_H_error_iff (L : LoadedTests K) (E : HaskindHelpers K) (h : Hydro K)
    (depth : Option K) (dimen : Bool) (num : Int) :
    (∃ e, GetB_H L E h depth dimen num = Except.error e) ↔
      (L.IsLoadedFex h.ex = false ∨ h.Nf = 0 ∨ (h.Nh : Int) < num ∨ num ≤ 0 ∨
        depth = none) := by
  unfold GetB_H
  constructor
  · rintro ⟨e, he⟩
    by_contra hcon
    simp only [not_or] at hcon
    obtain ⟨h1, h2, h3, h4, h5⟩ := hcon
    have h1' : L.IsLoadedFex h.ex = true := by simpa using h1
    have h5' : depth.isNone = false := by
      cases depth with
      | none => exact absurd rfl h5
      | some x => rfl
    simp only [h1', Bool.not_true, Bool.false_eq_true, if_false, h2, gt_iff_lt, h3, h4,
      h5'] at he
    cases he
  · intro hc
    by_cases h1 : L.IsLoadedFex h.ex = true
    · by_cases h2 : h.Nf = 0
      · simp only [h1, Bool.not_true, Bool.false_eq_true, if_false, h2, if_true]
        exact ⟨_, rfl⟩
      · by_cases h3 : (h.Nh : Int) < num
        · simp only [h1, Bool.not_true, Bool.false_eq_true, if_false, h2, gt_iff_lt, h3,
            if_true]
          exact ⟨_, rfl⟩
        · by_cases h4 : num ≤ 0
          · simp only [h1, Bool.not_true, Bool.false_eq_true, if_false, h2, gt_iff_lt, h3, h4,
              if_true]
            exact ⟨_, rfl⟩
          · have h5 : depth = none := by
              rcases hc with hc | hc | hc | hc | hc
              · rw [h1] at hc; cases hc
              · exact absurd hc h2
              · exact absurd hc h3
              · exact absurd hc h4
              · exact hc
            subst h5
            simp only [h1, Bool.not_true, Bool.false_eq_true, if_false, h2, gt_iff_lt, h3, h4,
              Option.isNone_none, if_true]
            exact ⟨_, rfl⟩
    · have h1' : L.IsLoadedFex h.ex = false := by simpa using h1
      simp only [h1', Bool.not_false, if_true]
      exact ⟨_, rfl⟩

/-- C22, amended. `GetB_H(num)` fails exactly when the excitation force is not loaded,
or there is no frequency, or `num` is above the number of headings, or `num ≤ 0`, or
the depth is unknown; whether `num` divides 360 plays no part: in every other case the
call returns a result. -/
theorem C22_GetB_H_fails_iff (L : LoadedTests K) (E : HaskindHelpers K) (h : Hydro K)
    (depth : Option K) (dimen : Bool) (num : Int) :
    ((∃ e, GetB_H L E h depth dimen num = Except.error e) ↔
      (L.IsLoadedFex h.ex = false ∨ h.Nf = 0 ∨ (h.Nh : Int) < num ∨ num ≤ 0 ∨
        depth = none)) ∧
    (¬ (L.IsLoadedFex h.ex = false ∨ h.Nf = 0 ∨ (h.Nh : Int) < num ∨ num ≤ 0 ∨
        depth = none) → ∃ r, GetB_H L E h depth dimen num = Except.ok r) := by
  refine ⟨GetB_H_error_iff L E h depth dimen num, fun hn => ?_⟩
  cases hr : GetB_H L E h depth dimen num with
  | error e => exact absurd ((GetB_H_error_iff L E h depth dimen num).1 ⟨e, hr⟩) hn
  | ok r => exact ⟨r, rfl⟩

end

/-- Witness of C22: with an unknown depth the call fails; with seven headings, a known
depth and `num = 5` it returns. -/
theorem C22_GetB_H_fails_iff_witness :
    (∃ e, GetB_H firstEntryTests unitHaskindHelpers storeHaskind none true 6 =
      Except.error e) ∧
    (∃ r, GetB_H firstEntryTests unitHaskindHelpers storeHaskind (some 10) true 5 =
      Except.ok r) :=
  ⟨(C22_GetB_H_fails_iff firstEntryTests unitHaskindHelpers storeHaskind none true 6).1.2
    (Or.inr (Or.inr (Or.inr (Or.inr rfl)))),
   (C22_GetB_H_fails_iff firstEntryTests unitHaskindHelpers storeHaskind (some 10) true 5).2
    (by decide)⟩

/-- C22, counterexample. On a store with the excitation force loaded for seven
headings, one frequency and a known depth, `GetB_H(7)` does not fail, although 7 does
not divide 360: the step between headings is the truncated quotient `360/7 = 51`, and
the call returns with six headings kept. -/
theorem C22_GetB_H_seven_headings :
    ¬ (7 : Int) ∣ 360 ∧ Int.tdiv 360 7 = 51 ∧
    (¬ ∃ e, GetB_H firstEntryTests unitHaskindHelpers storeHaskind (some 10) true 7 =
      Except.error e) ∧
    (GetB_H firstEntryTests unitHaskindHelpers storeHaskind (some 10) true 7).toOption.map
      Prod.snd = some 6 := by
  refine ⟨by decide, by decide, ?_, by decide!⟩
  rw [GetB_H_error_iff]
  decide

/-! ## The ridge system of `GetC` -/

section

variable {K : Type} [LinearOrderedField K]

/-- The stiffness that `GetC` assigns is the solution of the ridge system of its
matrices `X` and `F`. -/
theorem GetCbody_eq (E : RAOHelpers K) (h : Hydro K) (ib : Nat) :
    GetCbody E h ib = GetCsolve (GetC_F E h ib) (GetC_X E h ib) := by
  unfold GetCbody GetCsolve GetC_F GetC_X
  simp only []

/-- The matrix `X Xᵀ + lambda I` with `lambda > 0` has a determinant that is not
zero. -/
theorem ridge_det_ne_zero {n : Nat} (X : Matrix (Fin 6) (Fin n) K) (lambda : K)
    (hl : 0 < lambda) :
    (X * X.transpose + lambda • (1 : Matrix (Fin 6) (Fin 6) K)).det ≠ 0 := by
  intro hdet
  obtain ⟨v, hv, hGv⟩ := Matrix.exists_mulVec_eq_zero_iff.2 hdet
  have h0 : Matrix.dotProduct v
      ((X * X.transpose + lambda • (1 : Matrix (Fin 6) (Fin 6) K)).mulVec v) = 0 := by
    rw [hGv, Matrix.dotProduct_zero]
  rw [Matrix.add_mulVec, Matrix.dotProduct_add, Matrix.smul_mulVec_assoc, Matrix.one_mulVec,
    Matrix.dotProduct_smul, ← Matrix.mulVec_mulVec, Matrix.dotProduct_mulVec,
    Matrix.mulVec_transpose, smul_eq_mul] at h0
  have hsq : ∀ {m : Nat} (u : Fin m → K), 0 ≤ Matrix.dotProduct u u := by
    intro m u
    unfold Matrix.dotProduct
    exact Finset.sum_nonneg (fun i _ => mul_self_nonneg (u i))
  have h1 := hsq (Matrix.vecMul v X)
  have h2 := hsq v
  have h3 : Matrix.dotProduct v v = 0 := by
    by_contra hne
    have hpos : 0 < Matrix.dotProduct v v := lt_of_le_of_ne h2 (Ne.symm hne)
    have := mul_pos hl hpos
    linarith
  exact hv (Matrix.dotProduct_self_eq_zero.1 h3)

/-- C27. For every `6 x n` matrix `X` (any `n`, also `n = 0` and `X = 0`) and every `F`,
the matrix `G = X Xᵀ + 0.1 I` of the ridge system of `GetC` has a determinant that is not
zero and an inverse, and the stiffness `C = F Xᵀ G⁻¹` that `GetC` computes satisfies
`C G = F Xᵀ`; the stiffness that `GetC` writes to a body is this `C` for the matrices
`X` and `F` of the body. -/
theorem C27_GetC_ridge_well_defined {n : Nat} (F X : Matrix (Fin 6) (Fin n) K)
    (E : RAOHelpers K) (h : Hydro K) (ib : Nat) :
    (X * X.transpose + (1 / 10 : K) • (1 : Matrix (Fin 6) (Fin 6) K)).det ≠ 0 ∧
    (∃ W, (X * X.transpose + (1 / 10 : K) • (1 : Matrix (Fin 6) (Fin 6) K)) * W = 1 ∧
      W * (X * X.transpose + (1 / 10 : K) • (1 : Matrix (Fin 6) (Fin 6) K)) = 1) ∧
    GetCsolve F X * (X * X.transpose + (1 / 10 : K) • (1 : Matrix (Fin 6) (Fin 6) K)) =
      F * X.transpose ∧
    GetCbody E h ib * (GetC_X E h ib * (GetC_X E h ib).transpose +
        (1 / 10 : K) • (1 : Matrix (Fin 6) (Fin 6) K)) =
      GetC_F E h ib * (GetC_X E h ib).transpose := by
  have key : ∀ {m : Nat} (F X : Matrix (Fin 6) (Fin m) K),
      GetCsolve F X * (X * X.transpose + (1 / 10 : K) • (1 : Matrix (Fin 6) (Fin 6) K)) =
        F * X.transpose := by
    intro m F X
    have hd := ridge_det_ne_zero X (1 / 10 : K) (by norm_num)
    unfold GetCsolve
    simp only
    rw [Matrix.mul_assoc, Matrix.smul_mul, Matrix.adjugate_mul, smul_smul,
      inv_mul_cancel₀ hd, one_smul, Matrix.mul_one]
  have hd := ridge_det_ne_zero X (1 / 10 : K) (by norm_num)
  refine ⟨hd, ⟨(X * X.transpose + (1 / 10 : K) • (1 : Matrix (Fin 6) (Fin 6) K)).det⁻¹ •
    (X * X.transpose + (1 / 10 : K) • (1 : Matrix (Fin 6) (Fin 6) K)).adjugate, ?_, ?_⟩,
    key F X, ?_⟩
  · rw [Matrix.mul_smul, Matrix.mul_adjugate, smul_smul, inv_mul_cancel₀ hd, one_smul]
  · rw [Matrix.smul_mul, Matrix.adjugate_mul, smul_smul, inv_mul_cancel₀ hd, one_smul]
  · rw [GetCbody_eq]
    exact key _ _

end

/-! ## The symmetry of the added mass after a translation -/

/-- C25. On two bodies with the symmetric added mass `A[i][j] = 1`, the translation of
the first body by `(1, 0, 0)` with the second one left in place succeeds and leaves
`A[0][10] = 2` and `A[10][0] = 1`: the block `(ib, jb)` is transformed with the
translation of the body `ib` on both sides, so the blocks `(0, 1)` and `(1, 0)` are no
longer the transpose of each other. -/
theorem C25_translation_breaks_symmetry :
    (∀ i j, get3 storeSym2.A i j 0 = get3 storeSym2.A j i 0) ∧
    (GetTranslationTo firstEntryTests keepExternals storeSym2 targetFirstBody false goOn).error =
      none ∧
    get3 (GetTranslationTo firstEntryTests keepExternals storeSym2 targetFirstBody false
      goOn).store.A 0 10 0 = some (some 2) ∧
    get3 (GetTranslationTo firstEntryTests keepExternals storeSym2 targetFirstBody false
      goOn).store.A 10 0 0 = some (some 1) := by
  refine ⟨?_, by decide!, by decide!, by decide!⟩
  intro i j
  have hA : storeSym2.A = List.replicate 12 (List.replicate 12 (List.replicate 1 (some 1))) :=
    rfl
  rw [hA, get3_replicate, get3_replicate]
  by_cases hi : i < 12 <;> by_cases hj : j < 12 <;> simp [hi, hj]

/-! ## SpreadNegative -/

/-- A loop whose steps keep a property and one of whose steps establishes it ends with
the property. -/
theorem foldl_establish {σ ι : Type} (good : σ → Prop) (step : σ → ι → σ) (l : List ι)
    (i0 : ι) (hi : i0 ∈ l) (pres : ∀ s i, good s → good (step s i))
    (est : ∀ s, good (step s i0)) (s : σ) : good (l.foldl step s) := by
  induction l generalizing s with
  | nil => cases hi
  | cons i l ih =>
    rw [List.foldl_cons]
    by_cases h : i = i0
    · subst h
      exact foldl_inv good step l _ (est s) pres
    · rcases List.mem_cons.1 hi with h0 | hmem
      · exact absurd h0.symm h
      · exact ih hmem _

section

variable {K : Type} [LinearOrderedField K]

theorem Tensor5.set_apply {K : Type} (A : Tensor5 K) (i1 i2 i3 i4 i5 : Nat) (v : K) (a b c d e : Nat) :
    A.set i1 i2 i3 i4 i5 v a b c d e =
      if a = i1 ∧ b = i2 ∧ c = i3 ∧ d = i4 ∧ e = i5 then v else A a b c d e := rfl

theorem SpreadToPanels_keeps (ib idp idf ifr : Nat) (l : List Nat) (A : Tensor5 K)
    (a b c d e : Nat) (hne : ¬ (a = ib ∧ b = idp ∧ c = idf ∧ d = idf ∧ e = ifr))
    (h0 : 0 ≤ A a b c d e) : 0 ≤ SpreadToPanels ib idp idf ifr l A a b c d e := by
  induction l generalizing A with
  | nil => exact h0
  | cons i l ih =>
    unfold SpreadToPanels
    split_ifs with h1 h2
    · unfold Tensor5.set
      rw [if_neg hne]
      split_ifs
      · exact h2
      · exact h0
    · apply ih
      unfold Tensor5.set
      split_ifs
      · exact le_refl _
      · exact h0
    · exact ih A h0

theorem resetPanels_get (ib idf ifr npan : Nat) (A : Tensor5 K) (a b c d e : Nat) :
    (List.range npan).foldl (fun A i => A.set ib i idf idf ifr 0) A a b c d e =
      if a = ib ∧ b < npan ∧ c = idf ∧ d = idf ∧ e = ifr then 0 else A a b c d e := by
  induction npan with
  | zero => simp
  | succ n ih =>
    rw [List.range_succ, List.foldl_append, List.foldl_cons, List.foldl_nil,
      Tensor5.set_apply, ih]
    by_cases h1 : a = ib ∧ b = n ∧ c = idf ∧ d = idf ∧ e = ifr
    · rw [if_pos h1, if_pos ⟨h1.1, by omega, h1.2.2⟩]
    · rw [if_neg h1]
      by_cases h2 : a = ib ∧ b < n ∧ c = idf ∧ d = idf ∧ e = ifr
      · rw [if_pos h2, if_pos ⟨h2.1, by omega, h2.2.2⟩]
      · rw [if_neg h2, if_neg]
        rintro ⟨p1, p2, p3⟩
        by_cases hb : b = n
        · exact h1 ⟨p1, hb, p3⟩
        · exact h2 ⟨p1, by omega, p3⟩

/-- A step of `SpreadNegative` leaves no entry negative that was not. -/
theorem SpreadPanelStep_keeps (npan : Nat) (panIDs : List Nat)
    (text : Nat → Nat → Nat → String) (ib idp ifr : Nat) (st : Tensor5 K × List String)
    (idf a b c d e : Nat) (h0 : 0 ≤ st.1 a b c d e) :
    0 ≤ (SpreadPanelStep npan panIDs text ib idp ifr st idf).1 a b c d e := by
  unfold SpreadPanelStep
  by_cases h1 : st.1 ib idp idf idf ifr < 0
  · have hne : ¬ (a = ib ∧ b = idp ∧ c = idf ∧ d = idf ∧ e = ifr) := by
      rintro ⟨rfl, rfl, rfl, rfl, rfl⟩
      exact absurd h0 (not_le.2 h1)
    have hk := SpreadToPanels_keeps ib idp idf ifr panIDs st.1 a b c d e hne h0
    rw [if_pos h1]
    dsimp only
    by_cases h2 : SpreadToPanels ib idp idf ifr panIDs st.1 ib idp idf idf ifr < 0
    · rw [if_pos h2]
      dsimp only
      rw [resetPanels_get]
      split_ifs
      · exact le_refl _
      · exact hk
    · rw [if_neg h2]
      exact hk
  · rw [if_neg h1]
    exact h0

/-- A step of `SpreadNegative` leaves the diagonal entry of its panel not negative. -/
theorem SpreadPanelStep_establishes (npan : Nat) (panIDs : List Nat)
    (text : Nat → Nat → Nat → String) (ib idp ifr : Nat) (st : Tensor5 K × List String)
    (idf : Nat) (hp : idp < npan) :
    0 ≤ (SpreadPanelStep npan panIDs text ib idp ifr st idf).1 ib idp idf idf ifr := by
  unfold SpreadPanelStep
  by_cases h1 : st.1 ib idp idf idf ifr < 0
  · rw [if_pos h1]
    dsimp only
    by_cases h2 : SpreadToPanels ib idp idf ifr panIDs st.1 ib idp idf idf ifr < 0
    · rw [if_pos h2]
      dsimp only
      rw [resetPanels_get, if_pos ⟨rfl, hp, rfl, rfl, rfl⟩]
    · rw [if_neg h2]
      exact not_lt.1 h2
  · rw [if_neg h1]
    exact not_lt.1 h1

/-- The loop over the panels and bodies of `SpreadNegative` when nothing is thrown. -/
theorem SpreadPanel_ok (Nf numT : Nat) (npan : Nat → Nat) (closest : Nat → Nat → List Nat)
    (text : Nat → Nat → Nat → String) (Status : Option (String → Int → Bool))
    (hS : ∀ g, Status = some g → ∀ s n, g s n = true) (ib : Nat) (st : SpreadState K)
    (idp : Nat) :
    SpreadPanel Nf numT npan closest text Status ib st idp =
      Except.ok ⟨((List.range Nf).foldl (fun s ifr =>
          (List.range 6).foldl (SpreadPanelStep (npan ib) (closest ib idp) text ib idp ifr) s)
          (st.Apan, st.errors)).1,
        ((List.range Nf).foldl (fun s ifr =>
          (List.range 6).foldl (SpreadPanelStep (npan ib) (closest ib idp) text ib idp ifr) s)
          (st.Apan, st.errors)).2, st.num + 1⟩ := by
  unfold SpreadPanel
  cases Status with
  | none => simp
  | some g => simp [hS g rfl]

end
section

variable {K : Type} [LinearOrderedField K]

/-- C26. When the progress callback is empty or never declines, `SpreadNegative` runs
to completion, and in the per-panel added mass it leaves every diagonal entry
`Apan(ib, ip, d, d, ifr)` of a body `ib < Nb`, a panel `ip` of the body, a degree of
freedom `d < 6` and a frequency `ifr < Nf` is `≥ 0`. -/
theorem C26_SpreadNegative_diagonal_nonneg (Nb Nf : Nat) (npan : Nat → Nat)
    (closest : Nat → Nat → List Nat) (text : Nat → Nat → Nat → String)
    (Status : Option (String → Int → Bool)) (Apan : Tensor5 K)
    (hS : ∀ g, Status = some g → ∀ s n, g s n = true) :
    ∃ r, SpreadNegative Nb Nf npan closest text Status Apan = Except.ok r ∧
      ∀ ib ip d ifr, ib < Nb → ip < npan ib → d < 6 → ifr < Nf → 0 ≤ r.1 ib ip d d ifr := by
  have hinner : ∀ (ib : Nat) (st : SpreadState K),
      (List.range (npan ib)).foldlM
        (SpreadPanel Nf ((List.range Nb).map npan).sum npan closest text Status ib) st =
      Except.ok ((List.range (npan ib)).foldl (fun (st : SpreadState K) idp =>
        (⟨((List.range Nf).foldl (fun s ifr =>
          (List.range 6).foldl (SpreadPanelStep (npan ib) (closest ib idp) text ib idp ifr) s)
          (st.Apan, st.errors)).1,
        ((List.range Nf).foldl (fun s ifr =>
          (List.range 6).foldl (SpreadPanelStep (npan ib) (closest ib idp) text ib idp ifr) s)
          (st.Apan, st.errors)).2, st.num + 1⟩ : SpreadState K)) st) := by
    intro ib st
    exact foldlM_ok _ _ _ _ (fun s idp _ =>
      SpreadPanel_ok Nf _ npan closest text Status hS ib s idp)
  have houter := foldlM_ok (fun (st : SpreadState K) ib =>
      (List.range (npan ib)).foldlM
        (SpreadPanel Nf ((List.range Nb).map npan).sum npan closest text Status ib) st)
    (fun (st : SpreadState K) ib => (List.range (npan ib)).foldl
      (fun (st : SpreadState K) idp =>
        (⟨((List.range Nf).foldl (fun s ifr =>
          (List.range 6).foldl (SpreadPanelStep (npan ib) (closest ib idp) text ib idp ifr) s)
          (st.Apan, st.errors)).1,
        ((List.range Nf).foldl (fun s ifr =>
          (List.range 6).foldl (SpreadPanelStep (npan ib) (closest ib idp) text ib idp ifr) s)
          (st.Apan, st.errors)).2, st.num + 1⟩ : SpreadState K)) st)
    (List.range Nb) (⟨Apan, [], 0⟩ : SpreadState K) (fun s ib _ => hinner ib s)
  unfold SpreadNegative
  simp only [houter]
  refine ⟨_, rfl, ?_⟩
  intro ib ip d ifr hib hip hd hifr
  dsimp only
  have keepsIdf : ∀ (ib' idp' ifr' : Nat) (s : Tensor5 K × List String),
      0 ≤ s.1 ib ip d d ifr →
      0 ≤ ((List.range 6).foldl
        (SpreadPanelStep (npan ib') (closest ib' idp') text ib' idp' ifr') s).1 ib ip d d ifr :=
    fun ib' idp' ifr' s hs =>
      foldl_inv (fun (s : Tensor5 K × List String) => 0 ≤ s.1 ib ip d d ifr) _ _ _ hs
        (fun s idf h => SpreadPanelStep_keeps _ _ _ _ _ _ s idf _ _ _ _ _ h)
  have keepsIfr : ∀ (ib' idp' : Nat) (s : Tensor5 K × List String),
      0 ≤ s.1 ib ip d d ifr →
      0 ≤ ((List.range Nf).foldl (fun s ifr' => (List.range 6).foldl
        (SpreadPanelStep (npan ib') (closest ib' idp') text ib' idp' ifr') s) s).1
          ib ip d d ifr :=
    fun ib' idp' s hs =>
      foldl_inv (fun (s : Tensor5 K × List String) => 0 ≤ s.1 ib ip d d ifr) _ _ _ hs
        (fun s ifr' h => keepsIdf ib' idp' ifr' s h)
  apply foldl_establish (fun (st : SpreadState K) => 0 ≤ st.Apan ib ip d d ifr) _ _ ib
    (List.mem_range.2 hib)
  · intro st ib' hst
    exact foldl_inv (fun (st : SpreadState K) => 0 ≤ st.Apan ib ip d d ifr) _ _ _ hst
      (fun st idp' h => keepsIfr ib' idp' (st.Apan, st.errors) h)
  · intro st
    apply foldl_establish (fun (st : SpreadState K) => 0 ≤ st.Apan ib ip d d ifr) _ _ ip
      (List.mem_range.2 hip)
    · exact fun st idp' h => keepsIfr ib idp' (st.Apan, st.errors) h
    · intro st
      dsimp only
      apply foldl_establish (fun (s : Tensor5 K × List String) => 0 ≤ s.1 ib ip d d ifr) _ _
        ifr (List.mem_range.2 hifr)
      · exact fun s ifr' h => keepsIdf ib ip ifr' s h
      · intro s
        apply foldl_establish (fun (s : Tensor5 K × List String) => 0 ≤ s.1 ib ip d d ifr) _ _
          d (List.mem_range.2 hd)
        · exact fun s idf h => SpreadPanelStep_keeps _ _ _ _ _ _ s idf _ _ _ _ _ h
        · exact fun s => SpreadPanelStep_establishes _ _ _ _ _ _ s d hip

end
/-- Witness of C26: one body with two panels, the masses `-1` and `3`, and a callback
that never declines. -/
theorem C26_SpreadNegative_diagonal_nonneg_witness :
    (∀ g, some statusGoOn = some g → ∀ s n, g s n = true) ∧
    ∃ r, SpreadNegative 1 1 (fun _ => 2) closestOther spreadText (some statusGoOn)
        apanNegative = Except.ok r ∧
      ∀ ib ip d ifr, ib < 1 → ip < (fun _ => 2) ib → d < 6 → ifr < 1 →
        0 ≤ r.1 ib ip d d ifr :=
  ⟨fun g h s n => by cases h; rfl,
   C26_SpreadNegative_diagonal_nonneg 1 1 (fun _ => 2) closestOther spreadText
     (some statusGoOn) apanNegative (fun g h s n => by cases h; rfl)⟩

/-- On the two panels with the masses `-1` and `3` the mass of the first one is taken
from the second one: `0` and `2` are left, and no message. -/
theorem SpreadNegative_two_panels :
    (SpreadNegative 1 1 (fun _ => 2) closestOther spreadText (some statusGoOn)
        apanNegative).toOption.map (fun r => (r.1 0 0 0 0 0, r.1 0 1 0 0 0, r.2)) =
      some (0, 2, "") := by
  decide!

/-! ## Translations compose -/

section

variable {γ : Type}

/-- Two passes over a table compose into a third one when they do cell by cell. -/
theorem table_compose (T1 T2 T12 : List (List γ) → List (List γ)) (n1 n2 : Nat)
    (F1 F2 F12 : Nat → Nat → γ → γ) (e : List (List γ))
    (hT1 : ∀ e a b, get2 (T1 e) a b =
      if a < n1 ∧ b < n2 then (get2 e a b).map (F1 a b) else get2 e a b)
    (hT2 : ∀ e a b, get2 (T2 e) a b =
      if a < n1 ∧ b < n2 then (get2 e a b).map (F2 a b) else get2 e a b)
    (hT12 : ∀ e a b, get2 (T12 e) a b =
      if a < n1 ∧ b < n2 then (get2 e a b).map (F12 a b) else get2 e a b)
    (hsh1 : ∀ e, (T1 e).map List.length = e.map List.length)
    (hsh2 : ∀ e, (T2 e).map List.length = e.map List.length)
    (hsh12 : ∀ e, (T12 e).map List.length = e.map List.length)
    (hF : ∀ a b c, a < n1 → b < n2 → F2 a b (F1 a b c) = F12 a b c) :
    T2 (T1 e) = T12 e := by
  apply ext2_shape
  · rw [hsh2, hsh1, hsh12]
  · intro a b
    rw [hT2, hT1, hT12]
    by_cases h : a < n1 ∧ b < n2
    · simp only [if_pos h]
      cases hc : get2 e a b with
      | none => rfl
      | some c =>
        simp only [Option.map_some']
        rw [hF a b c h.1 h.2]
    · simp only [if_neg h]

end

section

variable {γ S V K : Type} [Field K] [DecidableEq S]

theorem momentTerm_3 (add : V → V → V) (smul : K → V → V) (d : Fin 3 → K) (f : Nat → V) :
    momentTerm add smul d f 3 = add (f 3) (add (smul (-(d 1)) (f 2)) (smul (d 2) (f 1))) := rfl

theorem momentTerm_4 (add : V → V → V) (smul : K → V → V) (d : Fin 3 → K) (f : Nat → V) :
    momentTerm add smul d f 4 = add (f 4) (add (smul (-(d 2)) (f 0)) (smul (d 0) (f 2))) := rfl

theorem momentTerm_5 (add : V → V → V) (smul : K → V → V) (d : Fin 3 → K) (f : Nat → V) :
    momentTerm add smul d f 5 = add (f 5) (add (smul (-(d 0)) (f 1)) (smul (d 1) (f 0))) := rfl

theorem momentTerm_other (add : V → V → V) (smul : K → V → V) (d : Fin 3 → K) (f : Nat → V)
    (c : Nat) (h3 : c ≠ 3) (h4 : c ≠ 4) (h5 : c ≠ 5) : momentTerm add smul d f c = f c := by
  unfold momentTerm
  rw [if_neg h3, if_neg h4, if_neg h5]

/-- The moment loop for `d1` followed by the one for `d2` is the one for `d1 + d2`. -/
theorem momentLoop_compose (get : γ → Nat × S → Option V) (add : V → V → V)
    (smul : K → V → V) (dflt : V) (step1 step2 step12 : γ → S → γ) (d1 d2 d12 : Fin 3 → K)
    (l : List S)
    (hstep1 : ∀ m s p, get (step1 m s) p =
      if p.2 = s then
        (get m p).map (fun _ => momentTerm add smul d1 (fun c => (get m (c, s)).getD dflt) p.1)
      else get m p)
    (hstep2 : ∀ m s p, get (step2 m s) p =
      if p.2 = s then
        (get m p).map (fun _ => momentTerm add smul d2 (fun c => (get m (c, s)).getD dflt) p.1)
      else get m p)
    (hstep12 : ∀ m s p, get (step12 m s) p =
      if p.2 = s then
        (get m p).map (fun _ => momentTerm add smul d12 (fun c => (get m (c, s)).getD dflt) p.1)
      else get m p)
    (hnd : l.Nodup)
    (halg : ∀ v a b k1 k2 k3 k4,
      add (add v (add (smul (-k1) a) (smul k2 b))) (add (smul (-k3) a) (smul k4 b)) =
        add v (add (smul (-(k1 + k3)) a) (smul (k2 + k4) b)))
    (hd : ∀ i, d12 i = d1 i + d2 i) (m : γ) (p : Nat × S) :
    get (l.foldl step2 (l.foldl step1 m)) p = get (l.foldl step12 m) p := by
  rw [momentLoop_get get add smul dflt step2 d2 l hstep2 hnd,
    momentLoop_get get add smul dflt step12 d12 l hstep12 hnd]
  by_cases h : p.2 ∈ l
  · rw [if_pos h, if_pos h, momentLoop_get get add smul dflt step1 d1 l hstep1 hnd, if_pos h]
    obtain ⟨c, s⟩ := p
    dsimp only at h ⊢
    cases hv : get m (c, s) with
    | none => rfl
    | some v =>
      simp only [Option.map_some', Option.some.injEq]
      have hlow : ∀ c', c' ≠ 3 → c' ≠ 4 → c' ≠ 5 →
          (get (l.foldl step1 m) (c', s)).getD dflt = (get m (c', s)).getD dflt := by
        intro c' h3 h4 h5
        rw [momentLoop_get get add smul dflt step1 d1 l hstep1 hnd, if_pos h]
        dsimp only
        rw [momentTerm_other add smul d1 _ c' h3 h4 h5]
        cases get m (c', s) <;> rfl
      have hhigh : (get (l.foldl step1 m) (c, s)).getD dflt =
          momentTerm add smul d1 (fun c => (get m (c, s)).getD dflt) c := by
        rw [momentLoop_get get add smul dflt step1 d1 l hstep1 hnd, if_pos h, hv]
        rfl
      by_cases c3 : c = 3
      · subst c3
        rw [momentTerm_3, momentTerm_3, hhigh, momentTerm_3, hlow 2 (by omega) (by omega)
          (by omega), hlow 1 (by omega) (by omega) (by omega), hd, hd]
        exact halg _ _ _ _ _ _ _
      · by_cases c4 : c = 4
        · subst c4
          rw [momentTerm_4, momentTerm_4, hhigh, momentTerm_4, hlow 2 (by omega) (by omega)
            (by omega), hlow 0 (by omega) (by omega) (by omega), hd, hd]
          exact halg _ _ _ _ _ _ _
        · by_cases c5 : c = 5
          · subst c5
            rw [momentTerm_5, momentTerm_5, hhigh, momentTerm_5, hlow 1 (by omega) (by omega)
              (by omega), hlow 0 (by omega) (by omega) (by omega), hd, hd]
            exact halg _ _ _ _ _ _ _
          · rw [momentTerm_other add smul d2 _ c c3 c4 c5,
              momentTerm_other add smul d12 _ c c3 c4 c5, hlow c c3 c4 c5]
  · rw [if_neg h, if_neg h, momentLoop_get get add smul dflt step1 d1 l hstep1 hnd, if_neg h]

end
section

variable {K : Type} [Field K]

theorem Val_merge (v a b : Option K) (k1 k2 k3 k4 : K) :
    Val.add (Val.add v (Val.add (Val.smul (-k1) a) (Val.smul k2 b)))
      (Val.add (Val.smul (-k3) a) (Val.smul k4 b)) =
    Val.add v (Val.add (Val.smul (-(k1 + k3)) a) (Val.smul (k2 + k4) b)) := by
  cases v <;> cases a <;> cases b <;>
    simp only [Val.add, Val.smul, Option.map_some', Option.map_none', Option.some.injEq]
  ring

theorem CVal_merge (v a b : CVal K) (k1 k2 k3 k4 : K) :
    CVal.add (CVal.add v (CVal.add (CVal.smul (-k1) a) (CVal.smul k2 b)))
      (CVal.add (CVal.smul (-k3) a) (CVal.smul k4 b)) =
    CVal.add v (CVal.add (CVal.smul (-(k1 + k3)) a) (CVal.smul (k2 + k4) b)) := by
  obtain ⟨vr, vi⟩ := v
  obtain ⟨ar, ai⟩ := a
  obtain ⟨br, bi⟩ := b
  simp only [CVal.add, CVal.smul, CVal.mk.injEq]
  exact ⟨Val_merge _ _ _ _ _ _ _, Val_merge _ _ _ _ _ _ _⟩

theorem TransF_cell_compose (d1 d2 d12 : Fin 3 → K) (hd : ∀ i, d12 i = d1 i + d2 i) (Nf : Nat)
    (m : CMatrix K) :
    (List.range Nf).foldl (fun m ifr => TransFrow d2 m ifr)
      ((List.range Nf).foldl (fun m ifr => TransFrow d1 m ifr) m) =
    (List.range Nf).foldl (fun m ifr => TransFrow d12 m ifr) m := by
  have hshape : ∀ (d : Fin 3 → K) (m0 : CMatrix K),
      ((List.range Nf).foldl (fun m ifr => TransFrow d m ifr) m0).map List.length =
        m0.map List.length := fun d m0 =>
    foldl_inv (fun (s : CMatrix K) => s.map List.length = m0.map List.length) _ _ _ rfl
      (fun s i hs => by dsimp only at hs ⊢; rw [TransFrow_shape, hs])
  apply ext2_shape
  · rw [hshape, hshape, hshape]
  · intro i j
    exact momentLoop_compose (fun (m : CMatrix K) (p : Nat × Nat) => get2 m p.2 p.1)
      CVal.add CVal.smul ⟨none, none⟩ (fun m ifr => TransFrow d1 m ifr)
      (fun m ifr => TransFrow d2 m ifr) (fun m ifr => TransFrow d12 m ifr) d1 d2 d12
      (List.range Nf)
      (fun m s p => TransFrow_get d1 m s p) (fun m s p => TransFrow_get d2 m s p)
      (fun m s p => TransFrow_get d12 m s p)
      (List.nodup_range Nf) CVal_merge hd m (j, i)

/-- Translating a force table by `d1` and then by `d2` is translating it by the sums
`d1 + d2`. -/
theorem TransF_compose (Nb Nh Nf : Nat) (d1 d2 d12 : Nat → Fin 3 → K) (ex : Forces K)
    (hsum : ∀ ib, ib < Nb → ∀ i, d12 ib i = d1 ib i + d2 ib i) :
    TransF Nb Nh Nf d2 (TransF Nb Nh Nf d1 ex) = TransF Nb Nh Nf d12 ex := by
  apply table_compose (TransF Nb Nh Nf d1) (TransF Nb Nh Nf d2) (TransF Nb Nh Nf d12) Nb Nh
    (fun a _ m => (List.range Nf).foldl (fun m ifr => TransFrow (d1 a) m ifr) m)
    (fun a _ m => (List.range Nf).foldl (fun m ifr => TransFrow (d2 a) m ifr) m)
    (fun a _ m => (List.range Nf).foldl (fun m ifr => TransFrow (d12 a) m ifr) m) ex
    (fun e a b => TransF_get2 Nb Nh Nf d1 e a b)
    (fun e a b => TransF_get2 Nb Nh Nf d2 e a b)
    (fun e a b => TransF_get2 Nb Nh Nf d12 e a b)
    (fun e => TransF_shape Nb Nh Nf d1 e) (fun e => TransF_shape Nb Nh Nf d2 e)
    (fun e => TransF_shape Nb Nh Nf d12 e)
  intro a b c ha _
  exact TransF_cell_compose (d1 a) (d2 a) (d12 a) (hsum a ha) Nf c

/-- A translation by zero vectors leaves a populated force table as it is. -/
theorem TransF_zero (Nb Nh Nf : Nat) (d : Nat → Fin 3 → K) (ex : Forces K)
    (hz : ∀ ib, ib < Nb → ∀ i, d ib i = 0) (hnum : NumF ex Nf) :
    TransF Nb Nh Nf d ex = ex := by
  have h1 := TransF_roundtrip Nb Nh Nf d d ex
    (fun ib hib => by funext i; rw [hz ib hib i, neg_zero]) hnum
  have h2 := TransF_compose Nb Nh Nf d d d ex
    (fun ib hib i => by rw [hz ib hib i, add_zero])
  rw [← h2, h1]

theorem SkewSymmetricMatrix_add (a b : Fin 3 → K) :
    SkewSymmetricMatrix (fun i => a i + b i) =
      SkewSymmetricMatrix a + SkewSymmetricMatrix b := by
  ext i j
  fin_cases i <;> fin_cases j <;> simp [SkewSymmetricMatrix] <;> ring

/-- The rigid-body transform for `R` followed by the one for `S` is the one for
`R + S`. -/
theorem rigidBlock_compose (Q11 Q12 Q21 Q22 R S : Matrix (Fin 3) (Fin 3) K) (x y : Nat) :
    rigidBlock Q11 (Q12 + Q11 * R) (Q21 - R * Q11)
      (Q22 - R * Q12 + Q21 * R - R * Q11 * R) S x y =
    rigidBlock Q11 Q12 Q21 Q22 (R + S) x y := by
  have e12 : Q12 + Q11 * R + Q11 * S = Q12 + Q11 * (R + S) := by
    rw [Matrix.mul_add]; abel
  have e21 : Q21 - R * Q11 - S * Q11 = Q21 - (R + S) * Q11 := by
    rw [Matrix.add_mul]; abel
  have e22 : Q22 - R * Q12 + Q21 * R - R * Q11 * R - S * (Q12 + Q11 * R)
      + (Q21 - R * Q11) * S - S * Q11 * S =
      Q22 - (R + S) * Q12 + Q21 * (R + S) - (R + S) * Q11 * (R + S) := by
    simp only [Matrix.mul_add, Matrix.add_mul, Matrix.sub_mul, Matrix.mul_assoc]
    abel
  unfold rigidBlock
  rw [e12, e21, e22]

/-- Translating a populated table by `d1` and the result by `d2` is translating the
table by the sums `d1 + d2`. -/
theorem TransAB_compose (Nb Nf : Nat) (force force' force'' : Bool)
    (d1 d2 d12 : Nat → Fin 3 → K) (A An : SeriesTable K) (hnum : NumAB A Nb Nf)
    (hsum : ∀ ib, ib < Nb → d12 ib = fun i => d1 ib i + d2 ib i)
    (hT : TransAB Nb Nf force d1 A = Except.ok An) :
    TransAB Nb Nf force' d2 An = TransAB Nb Nf force'' d12 A := by
  have hok := TransAB_ok Nb Nf force' d2 An (Or.inr (fun ib jb hib hjb =>
    TransABcheck_of_num An Nb ib jb hib hjb (fun _ _ hi hj =>
      TransAB_num Nb Nf force d1 A An hT hi hj hnum.1)))
  have hok' := TransAB_ok Nb Nf force'' d12 A (Or.inr (fun ib jb hib hjb =>
    TransABcheck_of_num A Nb ib jb hib hjb (fun _ _ hi hj => NumAB_get hnum hi hj hnum.1)))
  have hsh := TransAB_shape Nb Nf force' d2 An _ hok
  have hsh' := TransAB_shape Nb Nf force'' d12 A _ hok'
  rw [hok, hok']
  refine congrArg Except.ok ?_
  apply ext3_shape
  · rw [hsh, hsh']
  · intro i j k
    by_cases hin : i < 6 * Nb ∧ j < 6 * Nb ∧ k < Nf
    · obtain ⟨hi, hj, hk⟩ := hin
      have hib : i / 6 < Nb := by omega
      have hjb : j / 6 < Nb := by omega
      have hx : i % 6 < 6 := Nat.mod_lt _ (by omega)
      have hy : j % 6 < 6 := Nat.mod_lt _ (by omega)
      have hA : ∀ (a b : Nat) (x y : Fin 3), a + 3 ≤ 6 → b + 3 ≤ 6 →
          CopyFrom A (i / 6 * 6 + a) (j / 6 * 6 + b) k x y =
            some (Nvl0 (CopyFrom A (i / 6 * 6 + a) (j / 6 * 6 + b) k) x y) := by
        intro a b x y ha hb
        obtain ⟨v, hv⟩ := NumAB_get hnum (show i / 6 * 6 + a + x.val < 6 * Nb by omega)
          (show j / 6 * 6 + b + y.val < 6 * Nb by omega) hk
        simp only [Nvl0, CopyFrom, hv, Option.getD_some, Nvl]
      have hP := TransAB_partitions Nb Nf force d1 A An hT (i / 6) (j / 6) k hib hjb hk
        (Nvl0 (CopyFrom A (i / 6 * 6) (j / 6 * 6) k))
        (Nvl0 (CopyFrom A (i / 6 * 6) (j / 6 * 6 + 3) k))
        (Nvl0 (CopyFrom A (i / 6 * 6 + 3) (j / 6 * 6) k))
        (Nvl0 (CopyFrom A (i / 6 * 6 + 3) (j / 6 * 6 + 3) k))
        (by funext x y; exact hA 0 0 x y (by omega) (by omega))
        (by funext x y; exact hA 0 3 x y (by omega) (by omega))
        (by funext x y; exact hA 3 0 x y (by omega) (by omega))
        (by funext x y; exact hA 3 3 x y (by omega) (by omega))
      obtain ⟨p11, p12, p21, p22⟩ := hP
      have hget := TransAB_get Nb Nf d2 An (i / 6) (j / 6) k (i % 6) (j % 6) hib hjb hk hx hy
      have hget' := TransAB_get Nb Nf d12 A (i / 6) (j / 6) k (i % 6) (j % 6) hib hjb hk
        hx hy
      rw [Nat.div_add_mod' i 6, Nat.div_add_mod' j 6] at hget hget'
      rw [hget, hget']
      simp only [Nat.add_zero, p11, p12, p21, p22, Nvl0_some, hsum _ hib,
        SkewSymmetricMatrix_add, rigidBlock_compose]
    · rw [get3_none_of_shape hsh i j k hin, get3_none_of_shape hsh' i j k hin]

/-- A translation by zero vectors leaves a populated table as it is. -/
theorem TransAB_zero (Nb Nf : Nat) (force : Bool) (d : Nat → Fin 3 → K) (A : SeriesTable K)
    (hnum : NumAB A Nb Nf) (hz : ∀ ib, ib < Nb → ∀ i, d ib i = 0) :
    TransAB Nb Nf force d A = Except.ok A := by
  obtain ⟨An, hT⟩ := TransAB_succeeds Nb Nf force d A hnum
  have h1 := TransAB_roundtrip Nb Nf force force d d A An hnum
    (fun ib hib => by funext i; rw [hz ib hib i, neg_zero]) hT
  have h2 := TransAB_compose Nb Nf force force force d d d A An hnum
    (fun ib hib => by funext i; rw [hz ib hib i, add_zero]) hT
  rw [h1, hT] at h2
  rw [hT, ← h2]

/-- Translating a populated matrix by `d1` and the result by `d2` is translating the
matrix by the sums `d1 + d2`. -/
theorem TransA_compose (Nb : Nat) (force force' force'' : Bool)
    (d1 d2 d12 : Nat → Fin 3 → K) (A An : RMatrix K) (hnum : NumA A Nb)
    (hsum : ∀ ib, ib < Nb → d12 ib = fun i => d1 ib i + d2 ib i)
    (hT : TransA Nb force d1 A = Except.ok An) :
    TransA Nb force' d2 An = TransA Nb force'' d12 A := by
  have hok := TransA_ok Nb force' d2 An (Or.inr (fun ib jb hib hjb =>
    TransAcheck_of_num An Nb ib jb hib hjb (fun _ _ hi hj =>
      TransA_num Nb force d1 A An hT hi hj)))
  have hok' := TransA_ok Nb force'' d12 A (Or.inr (fun ib jb hib hjb =>
    TransAcheck_of_num A Nb ib jb hib hjb (fun _ _ hi hj => NumA_get hnum hi hj)))
  have hsh := TransA_shape Nb force' d2 An _ hok
  have hsh' := TransA_shape Nb force'' d12 A _ hok'
  rw [hok, hok']
  refine congrArg Except.ok ?_
  apply ext2_shape
  · rw [hsh, hsh']
  · intro i j
    by_cases hin : i < 6 * Nb ∧ j < 6 * Nb
    · obtain ⟨hi, hj⟩ := hin
      have hib : i / 6 < Nb := by omega
      have hjb : j / 6 < Nb := by omega
      have hx : i % 6 < 6 := Nat.mod_lt _ (by omega)
      have hy : j % 6 < 6 := Nat.mod_lt _ (by omega)
      have hA : ∀ (a b : Nat) (x y : Fin 3), a + 3 ≤ 6 → b + 3 ≤ 6 →
          block3 A (i / 6 * 6 + a) (j / 6 * 6 + b) x y =
            some (Nvl0 (block3 A (i / 6 * 6 + a) (j / 6 * 6 + b)) x y) := by
        intro a b x y ha hb
        obtain ⟨v, hv⟩ := NumA_get hnum (show i / 6 * 6 + a + x.val < 6 * Nb by omega)
          (show j / 6 * 6 + b + y.val < 6 * Nb by omega)
        simp only [Nvl0, block3, hv, Option.getD_some, Nvl]
      have hP := TransA_partitions Nb force d1 A An hT (i / 6) (j / 6) hib hjb
        (Nvl0 (block3 A (i / 6 * 6) (j / 6 * 6)))
        (Nvl0 (block3 A (i / 6 * 6) (j / 6 * 6 + 3)))
        (Nvl0 (block3 A (i / 6 * 6 + 3) (j / 6 * 6)))
        (Nvl0 (block3 A (i / 6 * 6 + 3) (j / 6 * 6 + 3)))
        ⟨by funext x y; exact hA 0 0 x y (by omega) (by omega),
          by funext x y; exact hA 0 3 x y (by omega) (by omega),
          by funext x y; exact hA 3 0 x y (by omega) (by omega),
          by funext x y; exact hA 3 3 x y (by omega) (by omega)⟩
      obtain ⟨p11, p12, p21, p22⟩ := hP
      have hget := TransA_get Nb d2 An (i / 6) (j / 6) (i % 6) (j % 6) hib hjb hx hy
      have hget' := TransA_get Nb d12 A (i / 6) (j / 6) (i % 6) (j % 6) hib hjb hx hy
      rw [Nat.div_add_mod' i 6, Nat.div_add_mod' j 6] at hget hget'
      rw [hget, hget']
      simp only [Nat.add_zero, p11, p12, p21, p22, Nvl0_some, hsum _ hib,
        SkewSymmetricMatrix_add, rigidBlock_compose]
    · rw [get2_none_of_shape hsh i j hin, get2_none_of_shape hsh' i j hin]

/-- A translation by zero vectors leaves a populated matrix as it is. -/
theorem TransA_zero (Nb : Nat) (force : Bool) (d : Nat → Fin 3 → K) (A : RMatrix K)
    (hnum : NumA A Nb) (hz : ∀ ib, ib < Nb → ∀ i, d ib i = 0) :
    TransA Nb force d A = Except.ok A := by
  obtain ⟨An, hT⟩ := TransA_succeeds Nb force d A hnum
  have h1 := TransA_roundtrip Nb force force d d A An hnum
    (fun ib hib => by funext i; rw [hz ib hib i, neg_zero]) hT
  have h2 := TransA_compose Nb force force force d d d A An hnum
    (fun ib hib => by funext i; rw [hz ib hib i, add_zero]) hT
  rw [h1, hT] at h2
  rw [hT, ← h2]

end
section

variable {K : Type} [Field K]

theorem attemptAB_compose (loaded : Bool) (Nb Nf : Nat) (force force' force'' : Bool)
    (d1 d2 d12 : Nat → Fin 3 → K) (A An : SeriesTable K)
    (hnum : loaded = true → NumAB A Nb Nf)
    (hsum : ∀ ib, ib < Nb → d12 ib = fun i => d1 ib i + d2 ib i)
    (hT : attempt loaded (TransAB Nb Nf force d1 A) A = Except.ok An) :
    attempt loaded (TransAB Nb Nf force' d2 An) An =
      attempt loaded (TransAB Nb Nf force'' d12 A) A := by
  cases loaded with
  | false =>
    have e : An = A := by
      simp only [attempt, Bool.false_eq_true, if_false, Except.ok.injEq] at hT
      exact hT.symm
    subst e
    simp only [attempt, Bool.false_eq_true, if_false]
  | true => exact TransAB_compose Nb Nf force force' force'' d1 d2 d12 A An (hnum rfl) hsum hT

theorem attemptA_compose (loaded : Bool) (Nb : Nat) (force force' force'' : Bool)
    (d1 d2 d12 : Nat → Fin 3 → K) (A An : RMatrix K)
    (hnum : loaded = true → NumA A Nb)
    (hsum : ∀ ib, ib < Nb → d12 ib = fun i => d1 ib i + d2 ib i)
    (hT : attempt loaded (TransA Nb force d1 A) A = Except.ok An) :
    attempt loaded (TransA Nb force' d2 An) An =
      attempt loaded (TransA Nb force'' d12 A) A := by
  cases loaded with
  | false =>
    have e : An = A := by
      simp only [attempt, Bool.false_eq_true, if_false, Except.ok.injEq] at hT
      exact hT.symm
    subst e
    simp only [attempt, Bool.false_eq_true, if_false]
  | true => exact TransA_compose Nb force force' force'' d1 d2 d12 A An (hnum rfl) hsum hT

theorem attemptAB_zero (loaded : Bool) (Nb Nf : Nat) (force : Bool) (d : Nat → Fin 3 → K)
    (A : SeriesTable K) (hnum : loaded = true → NumAB A Nb Nf)
    (hz : ∀ ib, ib < Nb → ∀ i, d ib i = 0) :
    attempt loaded (TransAB Nb Nf force d A) A = Except.ok A := by
  cases loaded with
  | false => simp only [attempt, Bool.false_eq_true, if_false]
  | true => exact TransAB_zero Nb Nf force d A (hnum rfl) hz

theorem attemptA_zero (loaded : Bool) (Nb : Nat) (force : Bool) (d : Nat → Fin 3 → K)
    (A : RMatrix K) (hnum : loaded = true → NumA A Nb)
    (hz : ∀ ib, ib < Nb → ∀ i, d ib i = 0) :
    attempt loaded (TransA Nb force d A) A = Except.ok A := by
  cases loaded with
  | false => simp only [attempt, Bool.false_eq_true, if_false]
  | true => exact TransA_zero Nb force d A (hnum rfl) hz

/-- The translation to `to2` from the original reference points is the sum of the one
to `to1` and of the one from `to1` to `to2`. -/
theorem translationDelta_sum (to1 to2 : RMatrix K) (msh msh1 : List (Body K)) (ib : Nat)
    (hc : c0Of msh1 ib = colPoint to1 ib) :
    translationDelta to2 msh ib =
      fun i => translationDelta to1 msh ib i + translationDelta to2 msh1 ib i := by
  funext idf
  unfold translationDelta
  have hg : (colPoint to1 ib).get idf = (get2 to1 idf.val ib).getD none := by
    fin_cases idf <;> rfl
  rw [hc, hg]
  ring

/-- The translation to the current reference points is by zero vectors. -/
theorem translationDelta_centres (h : Hydro K) (ib : Nat) (hib : ib < h.Nb) (i : Fin 3) :
    translationDelta (centres h) h.msh ib i = 0 := by
  unfold translationDelta
  rw [get2_centres h i ib hib, Option.getD_some, sub_self]

end
section

variable {K : Type} [Field K] [DecidableEq K]

/-- What a call of `GetTranslationTo` whose six transforms succeed leaves in the store. -/
theorem GetTranslationTo_fields (L : LoadedTests K) (X : Externals K) (h : Hydro K)
    (to' : RMatrix K) (force : Bool) (Status : String → Int → Bool)
    (hto : IsNumMat to' = true) (A Aw B BH : SeriesTable K) (A0 Ainf : RMatrix K)
    (hA : attempt (L.IsLoadedA h.A)
      (TransAB h.Nb h.Nf force (translationDelta to' h.msh) h.A) h.A = Except.ok A)
    (hAw : attempt (L.IsLoadedAinf_w h.Ainf_w)
      (TransAB h.Nb h.Nf force (translationDelta to' h.msh) h.Ainf_w) h.Ainf_w = Except.ok Aw)
    (hB : attempt (L.IsLoadedB h.B)
      (TransAB h.Nb h.Nf force (translationDelta to' h.msh) h.B) h.B = Except.ok B)
    (hBH : attempt (L.IsLoadedB_H h.B_H)
      (TransAB h.Nb h.Nf force (translationDelta to' h.msh) h.B_H) h.B_H = Except.ok BH)
    (hA0 : attempt (L.IsLoadedA0 h.A0)
      (TransA h.Nb force (translationDelta to' h.msh) h.A0) h.A0 = Except.ok A0)
    (hAinf : attempt (L.IsLoadedAinf h.Ainf)
      (TransA h.Nb force (translationDelta to' h.msh) h.Ainf) h.Ainf = Except.ok Ainf) :
    (GetTranslationTo L X h to' force Status).error = none ∧
    (GetTranslationTo L X h to' force Status).store.A = A ∧
    (GetTranslationTo L X h to' force Status).store.Ainf_w = Aw ∧
    (GetTranslationTo L X h to' force Status).store.B = B ∧
    (GetTranslationTo L X h to' force Status).store.B_H = BH ∧
    (GetTranslationTo L X h to' force Status).store.A0 = A0 ∧
    (GetTranslationTo L X h to' force Status).store.Ainf = Ainf ∧
    (GetTranslationTo L X h to' force Status).store.ex =
      (if L.IsLoadedFex h.ex then
        TransF h.Nb h.Nh h.Nf (translationDelta to' h.msh) h.ex else h.ex) ∧
    (GetTranslationTo L X h to' force Status).store.sc =
      (if L.IsLoadedFsc h.sc then
        TransF h.Nb h.Nh h.Nf (translationDelta to' h.msh) h.sc else h.sc) ∧
    (GetTranslationTo L X h to' force Status).store.fk =
      (if L.IsLoadedFfk h.fk then
        TransF h.Nb h.Nh h.Nf (translationDelta to' h.msh) h.fk else h.fk) ∧
    (GetTranslationTo L X h to' force Status).store.Nb = h.Nb ∧
    (GetTranslationTo L X h to' force Status).store.Nf = h.Nf ∧
    (GetTranslationTo L X h to' force Status).store.Nh = h.Nh ∧
    ∀ ib, ib < h.Nb → ib < h.msh.length →
      c0Of (GetTranslationTo L X h to' force Status).store.msh ib = colPoint to' ib := by
  rw [GetTranslationTo_success L X h to' force Status hto A Aw B BH A0 Ainf hA hAw hB hBH hA0
    hAinf]
  refine ⟨rfl, rfl, rfl, rfl, rfl, rfl, rfl, rfl, rfl, rfl, rfl, rfl, rfl, ?_⟩
  intro ib hib hm
  exact translateRest_c0 L X to' _ _ ib hib hm

theorem compose_cond {α : Type} (t : α → Bool) (f1 f2 f12 : α → α) (a a1 : α)
    (h1 : a1 = if t a then f1 a else a) (ht : t a1 = t a)
    (hc : t a = true → f2 (f1 a) = f12 a) :
    (if t a1 then f2 a1 else a1) = if t a then f12 a else a := by
  rw [ht]
  cases hta : t a with
  | false =>
    rw [hta] at h1
    simpa using h1
  | true =>
    rw [hta] at h1
    simp only [if_true] at h1 ⊢
    rw [h1, hc hta]

theorem zero_cond {α : Type} (t : α → Bool) (f : α → α) (a : α)
    (hc : t a = true → f a = a) : (if t a then f a else a) = a := by
  cases hta : t a with
  | false => simp
  | true => simpa using hc hta

/-- C24 (amended). For a store whose loaded `A`, `Ainf_w`, `B`, `B_H`, `A0` and `Ainf` hold
numbers only, and two numeric targets `t1` and `t2`, when the loaded tests answer after
the first translation as before it: `GetTranslationTo(t1)`, `GetTranslationTo(t2)` on
its result and `GetTranslationTo(t2)` on the original store all succeed, and the two
ways leave the same `A`, `B`, `Ainf`, `A0` and the same excitation, scattering and
Froude-Krylov forces, missing samples included. When the current reference points are
numbers, `GetTranslationTo` to them succeeds and leaves `A`, `B`, `Ainf`, `A0` as they are;
it leaves a force table as it is when the table is not loaded or holds numbers only. -/
theorem C24_translations_compose (L : LoadedTests K) (X : Externals K) (h : Hydro K)
    (t1 t2 : RMatrix K) (f1 f2 f3 f0 : Bool) (Status : String → Int → Bool)
    (ht1 : IsNumMat t1 = true) (ht2 : IsNumMat t2 = true) (hpop : PopulatedAB L h)
    (hag : TranslationAgreeAF L h (GetTranslationTo L X h t1 f1 Status).store) :
    ((GetTranslationTo L X h t1 f1 Status).error = none ∧
     (GetTranslationTo L X (GetTranslationTo L X h t1 f1 Status).store t2 f2 Status).error
       = none ∧
     (GetTranslationTo L X h t2 f3 Status).error = none ∧
     (GetTranslationTo L X (GetTranslationTo L X h t1 f1 Status).store t2 f2 Status).store.A
       = (GetTranslationTo L X h t2 f3 Status).store.A ∧
     (GetTranslationTo L X (GetTranslationTo L X h t1 f1 Status).store t2 f2 Status).store.B
       = (GetTranslationTo L X h t2 f3 Status).store.B ∧
     (GetTranslationTo L X (GetTranslationTo L X h t1 f1 Status).store t2 f2 Status).store.Ainf
       = (GetTranslationTo L X h t2 f3 Status).store.Ainf ∧
     (GetTranslationTo L X (GetTranslationTo L X h t1 f1 Status).store t2 f2 Status).store.A0
       = (GetTranslationTo L X h t2 f3 Status).store.A0 ∧
     (GetTranslationTo L X (GetTranslationTo L X h t1 f1 Status).store t2 f2 Status).store.ex
       = (GetTranslationTo L X h t2 f3 Status).store.ex ∧
     (GetTranslationTo L X (GetTranslationTo L X h t1 f1 Status).store t2 f2 Status).store.sc
       = (GetTranslationTo L X h t2 f3 Status).store.sc ∧
     (GetTranslationTo L X (GetTranslationTo L X h t1 f1 Status).store t2 f2 Status).store.fk
       = (GetTranslationTo L X h t2 f3 Status).store.fk) ∧
    (IsNumMat (centres h) = true →
     (GetTranslationTo L X h (centres h) f0 Status).error = none ∧
     (GetTranslationTo L X h (centres h) f0 Status).store.A = h.A ∧
     (GetTranslationTo L X h (centres h) f0 Status).store.B = h.B ∧
     (GetTranslationTo L X h (centres h) f0 Status).store.Ainf = h.Ainf ∧
     (GetTranslationTo L X h (centres h) f0 Status).store.A0 = h.A0 ∧
     ((L.IsLoadedFex h.ex = true → NumF h.ex h.Nf) →
       (GetTranslationTo L X h (centres h) f0 Status).store.ex = h.ex) ∧
     ((L.IsLoadedFsc h.sc = true → NumF h.sc h.Nf) →
       (GetTranslationTo L X h (centres h) f0 Status).store.sc = h.sc) ∧
     ((L.IsLoadedFfk h.fk = true → NumF h.fk h.Nf) →
       (GetTranslationTo L X h (centres h) f0 Status).store.fk = h.fk)) := by
  obtain ⟨hlen, nA, nAw, nB, nBH, nA0, nAinf⟩ := hpop
  -- the first call
  obtain ⟨A1, hA1⟩ := attemptAB_ok (L.IsLoadedA h.A) h.Nb h.Nf f1
    (translationDelta t1 h.msh) h.A nA
  obtain ⟨Aw1, hAw1⟩ := attemptAB_ok (L.IsLoadedAinf_w h.Ainf_w) h.Nb h.Nf f1
    (translationDelta t1 h.msh) h.Ainf_w nAw
  obtain ⟨B1, hB1⟩ := attemptAB_ok (L.IsLoadedB h.B) h.Nb h.Nf f1
    (translationDelta t1 h.msh) h.B nB
  obtain ⟨BH1, hBH1⟩ := attemptAB_ok (L.IsLoadedB_H h.B_H) h.Nb h.Nf f1
    (translationDelta t1 h.msh) h.B_H nBH
  obtain ⟨A01, hA01⟩ := attemptA_ok (L.IsLoadedA0 h.A0) h.Nb f1
    (translationDelta t1 h.msh) h.A0 nA0
  obtain ⟨Ainf1, hAinf1⟩ := attemptA_ok (L.IsLoadedAinf h.Ainf) h.Nb f1
    (translationDelta t1 h.msh) h.Ainf nAinf
  have F1 := GetTranslationTo_fields L X h t1 f1 Status ht1 A1 Aw1 B1 BH1 A01 Ainf1
    hA1 hAw1 hB1 hBH1 hA01 hAinf1
  -- the direct call
  obtain ⟨A3, hA3⟩ := attemptAB_ok (L.IsLoadedA h.A) h.Nb h.Nf f3
    (translationDelta t2 h.msh) h.A nA
  obtain ⟨Aw3, hAw3⟩ := attemptAB_ok (L.IsLoadedAinf_w h.Ainf_w) h.Nb h.Nf f3
    (translationDelta t2 h.msh) h.Ainf_w nAw
  obtain ⟨B3, hB3⟩ := attemptAB_ok (L.IsLoadedB h.B) h.Nb h.Nf f3
    (translationDelta t2 h.msh) h.B nB
  obtain ⟨BH3, hBH3⟩ := attemptAB_ok (L.IsLoadedB_H h.B_H) h.Nb h.Nf f3
    (translationDelta t2 h.msh) h.B_H nBH
  obtain ⟨A03, hA03⟩ := attemptA_ok (L.IsLoadedA0 h.A0) h.Nb f3
    (translationDelta t2 h.msh) h.A0 nA0
  obtain ⟨Ainf3, hAinf3⟩ := attemptA_ok (L.IsLoadedAinf h.Ainf) h.Nb f3
    (translationDelta t2 h.msh) h.Ainf nAinf
  have F3 := GetTranslationTo_fields L X h t2 f3 Status ht2 A3 Aw3 B3 BH3 A03 Ainf3
    hA3 hAw3 hB3 hBH3 hA03 hAinf3
  obtain ⟨d1, dA, -, dB, -, dA0, dAinf, dex, dsc, dfk, -, -, -, -⟩ := F3
  -- the second call
  have hz := fun ib hib i => translationDelta_centres h ib hib i
  generalize (GetTranslationTo L X h t1 f1 Status).store = s1 at hag F1 ⊢
  obtain ⟨e1, fA, fAw, fB, fBH, fA0, fAinf, fex, fsc, ffk, cNb, cNf, cNh, cc0⟩ := F1
  obtain ⟨gA, gAw, gB, gBH, gA0, gAinf, gex, gsc, gfk⟩ := hag
  have hsum : ∀ ib, ib < h.Nb → translationDelta t2 h.msh ib =
      fun i => translationDelta t1 h.msh ib i + translationDelta t2 s1.msh ib i :=
    fun ib hib => translationDelta_sum t1 t2 h.msh s1.msh ib (cc0 ib hib (by omega))
  have F2 := GetTranslationTo_fields L X s1 t2 f2 Status ht2 A3 Aw3 B3 BH3 A03 Ainf3
    (by rw [cNb, cNf, gA, fA, ← hA3]
        exact attemptAB_compose _ h.Nb h.Nf f1 f2 f3 _ _ _ h.A A1 nA hsum hA1)
    (by rw [cNb, cNf, gAw, fAw, ← hAw3]
        exact attemptAB_compose _ h.Nb h.Nf f1 f2 f3 _ _ _ h.Ainf_w Aw1 nAw hsum hAw1)
    (by rw [cNb, cNf, gB, fB, ← hB3]
        exact attemptAB_compose _ h.Nb h.Nf f1 f2 f3 _ _ _ h.B B1 nB hsum hB1)
    (by rw [cNb, cNf, gBH, fBH, ← hBH3]
        exact attemptAB_compose _ h.Nb h.Nf f1 f2 f3 _ _ _ h.B_H BH1 nBH hsum hBH1)
    (by rw [cNb, gA0, fA0, ← hA03]
        exact attemptA_compose _ h.Nb f1 f2 f3 _ _ _ h.A0 A01 nA0 hsum hA01)
    (by rw [cNb, gAinf, fAinf, ← hAinf3]
        exact attemptA_compose _ h.Nb f1 f2 f3 _ _ _ h.Ainf Ainf1 nAinf hsum hAinf1)
  obtain ⟨e2, sA, -, sB, -, sA0, sAinf, sex, ssc, sfk, -, -, -, -⟩ := F2
  have hs := fun ib hib i => congrFun (hsum ib hib) i
  refine ⟨⟨e1, e2, d1, ?_, ?_, ?_, ?_, ?_, ?_, ?_⟩, ?_⟩
  · rw [sA, dA]
  · rw [sB, dB]
  · rw [sAinf, dAinf]
  · rw [sA0, dA0]
  · rw [sex, dex, cNb, cNh, cNf]
    exact compose_cond (fun e => L.IsLoadedFex e) _ _ _ h.ex s1.ex fex gex
      (fun _ => TransF_compose h.Nb h.Nh h.Nf _ _ _ h.ex hs)
  · rw [ssc, dsc, cNb, cNh, cNf]
    exact compose_cond (fun e => L.IsLoadedFsc e) _ _ _ h.sc s1.sc fsc gsc
      (fun _ => TransF_compose h.Nb h.Nh h.Nf _ _ _ h.sc hs)
  · rw [sfk, dfk, cNb, cNh, cNf]
    exact compose_cond (fun e => L.IsLoadedFfk e) _ _ _ h.fk s1.fk ffk gfk
      (fun _ => TransF_compose h.Nb h.Nh h.Nf _ _ _ h.fk hs)
  · -- the call to the current reference points
    intro hc0
    have F0 := GetTranslationTo_fields L X h (centres h) f0 Status hc0 h.A h.Ainf_w h.B h.B_H
      h.A0 h.Ainf
      (attemptAB_zero _ h.Nb h.Nf f0 _ h.A nA hz)
      (attemptAB_zero _ h.Nb h.Nf f0 _ h.Ainf_w nAw hz)
      (attemptAB_zero _ h.Nb h.Nf f0 _ h.B nB hz)
      (attemptAB_zero _ h.Nb h.Nf f0 _ h.B_H nBH hz)
      (attemptA_zero _ h.Nb f0 _ h.A0 nA0 hz)
      (attemptA_zero _ h.Nb f0 _ h.Ainf nAinf hz)
    obtain ⟨z1, zA, -, zB, -, zA0, zAinf, zex, zsc, zfk, -, -, -, -⟩ := F0
    refine ⟨z1, zA, zB, zAinf, zA0, ?_, ?_, ?_⟩
    · intro nex
      rw [zex]
      exact zero_cond (fun e => L.IsLoadedFex e) _ h.ex
        (fun hl => TransF_zero h.Nb h.Nh h.Nf _ h.ex hz (nex hl))
    · intro nsc
      rw [zsc]
      exact zero_cond (fun e => L.IsLoadedFsc e) _ h.sc
        (fun hl => TransF_zero h.Nb h.Nh h.Nf _ h.sc hz (nsc hl))
    · intro nfk
      rw [zfk]
      exact zero_cond (fun e => L.IsLoadedFfk e) _ h.fk
        (fun hl => TransF_zero h.Nb h.Nh h.Nf _ h.fk hz (nfk hl))

end

/-- Witness of C24: the one-body store with a missing force component, translated to
`(1, 2, 3)` and then to `(4, -1, 2)`, and to `(4, -1, 2)` at once: the added mass and the
excitation force, whose third component is missing, come out the same; the translation
to the current reference points leaves the added mass as it is. -/
theorem C24_translations_compose_witness :
    IsNumMat target123 = true ∧ IsNumMat target412 = true ∧
    PopulatedAB firstEntryTests storeGap ∧
    TranslationAgreeAF firstEntryTests storeGap
      (GetTranslationTo firstEntryTests keepExternals storeGap target123 false goOn).store ∧
    firstEntryTests.IsLoadedA storeGap.A = true ∧
    firstEntryTests.IsLoadedFex storeGap.ex = true ∧
    IsNumMat (centres storeGap) = true ∧
    (GetTranslationTo firstEntryTests keepExternals
      (GetTranslationTo firstEntryTests keepExternals storeGap target123 false goOn).store
      target412 false goOn).store.A =
      (GetTranslationTo firstEntryTests keepExternals storeGap target412 false goOn).store.A ∧
    (GetTranslationTo firstEntryTests keepExternals
      (GetTranslationTo firstEntryTests keepExternals storeGap target123 false goOn).store
      target412 false goOn).store.ex =
      (GetTranslationTo firstEntryTests keepExternals storeGap target412 false goOn).store.ex ∧
    (GetTranslationTo firstEntryTests keepExternals storeGap (centres storeGap) false
      goOn).store.A = storeGap.A :=
  have h := C24_translations_compose firstEntryTests keepExternals storeGap target123
    target412 false false false false goOn (by decide) (by decide) (by decide) (by decide)
  ⟨by decide, by decide, by decide, by decide, by decide, by decide, by decide,
    h.1.2.2.2.1, h.1.2.2.2.2.2.2.2.1, (h.2 (by decide)).2.1⟩

/-- C24 (counterexample). In `storeGap` the added mass is fully populated and the third
component of the excitation force is missing, `(1, 2, missing, 4, 5, 6)`: the translation
to the current reference points, by zero vectors, succeeds and leaves
`(1, 2, missing, missing, missing, 6)`, since the moments about `x` and `y` take up zero
times the missing component. -/
theorem C24_zero_translation_spreads_missing :
    PopulatedAB firstEntryTests storeGap ∧
    IsNumMat (centres storeGap) = true ∧
    (∀ ib, ib < storeGap.Nb → ∀ i, translationDelta (centres storeGap) storeGap.msh ib i = 0) ∧
    firstEntryTests.IsLoadedFex storeGap.ex = true ∧
    storeGap.ex = [[[[⟨some 1, some 0⟩, ⟨some 2, some 0⟩, ⟨none, none⟩, ⟨some 4, some 0⟩,
        ⟨some 5, some 0⟩, ⟨some 6, some 0⟩]]]] ∧
    (GetTranslationTo firstEntryTests keepExternals storeGap (centres storeGap) false
      goOn).error = none ∧
    (GetTranslationTo firstEntryTests keepExternals storeGap (centres storeGap) false
      goOn).store.ex =
      [[[[⟨some 1, some 0⟩, ⟨some 2, some 0⟩, ⟨none, none⟩, ⟨none, none⟩,
        ⟨none, none⟩, ⟨some 6, some 0⟩]]]] ∧
    (GetTranslationTo firstEntryTests keepExternals storeGap (centres storeGap) false
      goOn).store.ex ≠ storeGap.ex := by
  refine ⟨by decide, by decide, ?_, by decide, rfl, by decide!, by decide!, by decide!⟩
  intro ib hib i
  exact translationDelta_centres storeGap ib hib i

/-- The excitation force `(1, 2, 3, 4, 5, 6)` of the one-body store after the two
translations: the moments have gained `F x (4, -1, 2)`. -/
theorem GetTranslationTo_twice_ex :
    (GetTranslationTo firstEntryTests keepExternals
      (GetTranslationTo firstEntryTests keepExternals storeFull target123 false goOn).store
      target412 false goOn).store.ex =
      [[[[⟨some 1, some 0⟩, ⟨some 2, some 0⟩, ⟨some 3, some 0⟩, ⟨some 11, some 0⟩,
        ⟨some 15, some 0⟩, ⟨some (-3), some 0⟩]]]] := by
  decide!

end BEMRosetta
